import Mathlib

/-!
# 3dsMaxUtils: reference manager, reference handles, undo restore objects and dynamic
parameter-block descriptors

A shallow embedding of `src/ReferenceManager/*.h`, `src/DataRestoreObj/DataRestoreObj.h`,
`src/DataRestoreObj/DataRestoreObj.cpp`, `src/DynamicParamBlocks/DynPBCustAttrClassDesc.cpp`
and `src/DynamicParamBlocks/DynPBUndo.cpp`.

Conventions of the embedding.

* A C++ pointer is a natural number, `0` is `NULL`.
* `size_t` values are natural numbers, `int` values are integers; the conversion of an
  `int` to `size_t` is `sizeT` (a negative value wraps to `2 ^ 64 + i`).  Table lengths and
  indices are taken to be representable as `int`, so a cast such as `(int) m_refs.length()`
  is the value itself.
* `GetReferenceIndexForArray`, `IncrementArrayCount` and `RegisterReference` are given twice:
  under the names of the source in exact arithmetic (a sum of sizes is not reduced), and as
  `Machine.GetReferenceIndexForArray`, `Machine.IncrementArrayCount` and
  `Machine.RegisterReference` with the `size_t` wrap and the cast `int(...)` of the source.
  The two agree whenever the index is at most `INT_MAX` (`Machine_RegisterReference_eq`).
* Global singletons (`PointerList`, `TabMap`) and object state (`ReferenceManager`, `Tab`)
  are passed explicitly and returned.
* A function that can dereference a null or unconstructed pointer returns `Option`,
  `none` standing for the fault.
* The 16-bit types `UINT16` and `short` are natural numbers and integers with the explicit
  conversions `toU16` and `toS16`.
* A loop whose number of turns is bounded by the length of a stream takes that bound as
  fuel.
-/

namespace MaxUtils

/-! ## Definitions -/

/-! ### Held-pointer registry (`DataRestoreObj.cpp`) -/

/-- The list singleton `PointerList : std::list<void*>`. -/
abbrev PointerList := List Nat

/-- Linear scan of `IsPointerHeld` (DataRestoreObj.cpp:32-41). -/
def IsPointerHeld : PointerList → Nat → Bool
  | [], _ => false
  | x :: rest, ptr => if x = ptr then true else IsPointerHeld rest ptr

/-- Function `SetPointerHeld` (DataRestoreObj.cpp:43-61): returns early when the pointer is
already held or null, otherwise `push_back`. -/
def SetPointerHeld (theList : PointerList) (ptr : Nat) : PointerList :=
  if IsPointerHeld theList ptr || ptr == 0 then theList else theList ++ [ptr]

/-- Member `std::list::remove(value)`: erases every element equal to `value`. -/
def listRemove {α : Type} [DecidableEq α] : List α → α → List α
  | [], _ => []
  | x :: rest, v => if x = v then listRemove rest v else x :: listRemove rest v

/-- Function `EndPointerHold` (DataRestoreObj.cpp:63-74); the `DbgAssert` is compiled out of
release builds. -/
def EndPointerHold (theList : PointerList) (ptr : Nat) : PointerList :=
  listRemove theList ptr

/-- The map singleton `TabMap : std::map<void*, std::list<int>>`, as the sequence of its
entries in iteration order. -/
abbrev TabMap := List (Nat × List Int)

/-- The representation invariant of `std::map`: keys strictly increasing (hence unique). -/
def TabMapOrdered (m : TabMap) : Prop := (m.map Prod.fst).Pairwise (fun a b => a < b)

instance (m : TabMap) : Decidable (TabMapOrdered m) := by
  unfold TabMapOrdered; infer_instance

/-- Member `std::map::find`: the mapped list of the entry with key `ptr`, if any. -/
def mapFind : TabMap → Nat → Option (List Int)
  | [], _ => none
  | (k, l) :: rest, ptr => if k = ptr then some l else mapFind rest ptr

/-- Member `std::map::insert` of a key that is absent: the entry is placed in key order; an
entry whose key is present is left as it is. -/
def mapInsert : TabMap → Nat → List Int → TabMap
  | [], ptr, l => [(ptr, l)]
  | (k, l0) :: rest, ptr, l =>
    if ptr < k then (ptr, l) :: (k, l0) :: rest
    else if k = ptr then (k, l0) :: rest
    else (k, l0) :: mapInsert rest ptr l

/-- Assignment through an iterator obtained from `find`: replaces the mapped list of the
entry with key `ptr`. -/
def mapAssign : TabMap → Nat → List Int → TabMap
  | [], _, _ => []
  | (k, l0) :: rest, ptr, l =>
    if k = ptr then (k, l) :: rest else (k, l0) :: mapAssign rest ptr l

/-- Member `std::map::erase(iterator)` for the iterator returned by `find(ptr)`. -/
def mapErase : TabMap → Nat → TabMap
  | [], _ => []
  | (k, l0) :: rest, ptr => if k = ptr then rest else (k, l0) :: mapErase rest ptr

/-- The inner loop of `IsTabPointerHeld` over the held indices. -/
def indexHeld : List Int → Int → Bool
  | [], _ => false
  | x :: rest, index => if x = index then true else indexHeld rest index

/-- Function `IsTabPointerHeld` (DataRestoreObj.cpp:95-112). -/
def IsTabPointerHeld (theMap : TabMap) (ptr : Nat) (index : Int) : Bool :=
  match mapFind theMap ptr with
  | some heldIndices => indexHeld heldIndices index
  | none => false

/-- Function `SetTabPointerHeld` (DataRestoreObj.cpp:114-143); the `DbgAssert` that the index
is not yet held is compiled out of release builds. -/
def SetTabPointerHeld (theMap : TabMap) (ptr : Nat) (index : Int) : TabMap :=
  if ptr = 0 then theMap
  else
    match mapFind theMap ptr with
    | some heldIndices => mapAssign theMap ptr (heldIndices ++ [index])
    | none => mapInsert theMap ptr [index]

/-- Function `EndTabPointerHold` (DataRestoreObj.cpp:145-162).  The iterator returned by
`find` is dereferenced without a test, so an absent key is a fault (`none`). -/
def EndTabPointerHold (theMap : TabMap) (ptr : Nat) (index : Int) : Option TabMap :=
  match mapFind theMap ptr with
  | none => none
  | some heldIndices =>
    if heldIndices.length = 1 then some (mapErase theMap ptr)
    else some (mapAssign theMap ptr (listRemove heldIndices index))

/-! ### Reference slots (`IReferenceManager.h`) -/

/-- The constant `INT_MAX`. -/
def INT_MAX : Nat := 2147483647

/-- Conversion of an `int` to `size_t` (64-bit target): a non-negative value is kept, a
negative value `i` becomes `2 ^ 64 + i`. -/
def sizeT (i : Int) : Nat := if i < 0 then (18446744073709551616 + i).toNat else i.toNat

/-- Flag `RefInfo::kIsWeak = 1 << 0`. -/
def kIsWeak : Nat := 1

/-- Flag `RefInfo::kIsPersisted = 1 << 1`. -/
def kIsPersisted : Nat := 2

/-- The heap struct `IReferenceManager::RefInfo` (IReferenceManager.h:53-91).  `addr` is the
address of the struct: it is the identity of the slot and what a `RefInfo*` holds. -/
structure RefInfo where
  addr : Nat
  m_flags : Nat
  m_target : Nat
  m_callback : Nat
deriving DecidableEq, Repr

/-- Member `RefInfo::SetFlag`. -/
def RefInfo.SetFlag (r : RefInfo) (flag : Nat) : RefInfo :=
  { r with m_flags := r.m_flags ||| flag }

/-- Member `RefInfo::ClearFlag`: `m_flags & ~flag` on a 32-bit `DWORD`. -/
def RefInfo.ClearFlag (r : RefInfo) (flag : Nat) : RefInfo :=
  { r with m_flags := r.m_flags &&& (4294967295 ^^^ flag) }

/-- Member `RefInfo::TestFlag`. -/
def RefInfo.TestFlag (r : RefInfo) (flag : Nat) : Bool := (r.m_flags &&& flag) != 0

/-- Member `RefInfo::SetIsPersisted`. -/
def RefInfo.SetIsPersisted (r : RefInfo) (v : Bool) : RefInfo :=
  if v then r.SetFlag kIsPersisted else r.ClearFlag kIsPersisted

/-- Member `RefInfo::SetIsWeak`. -/
def RefInfo.SetIsWeak (r : RefInfo) (v : Bool) : RefInfo :=
  if v then r.SetFlag kIsWeak else r.ClearFlag kIsWeak

/-- The value of a `RefInfo*` table entry: `0` for `NULL`, the struct's address otherwise. -/
def ptrOf : Option RefInfo → Nat
  | none => 0
  | some r => r.addr

/-- The host result type `RefResult`. -/
inductive RefResult where
  | REF_FAIL
  | REF_SUCCEED
deriving DecidableEq, Repr

/-! ### Reference manager (`ReferenceManager.h`) -/

/-- State of `ReferenceManager` (ReferenceManager.h:46-53).  An entry of `m_refs` is `none` for
a `NULL` pointer and `some r` for a pointer to the heap struct `r`.  `heapNext` is the address
the next `new RefInfo()` returns; addresses are never reused. -/
structure ReferenceManager where
  m_refs : List (Option RefInfo)
  m_arraySizes : List Nat
  m_baseDynIdx : Nat
  heapNext : Nat
deriving DecidableEq, Repr

/-- Constructor `ReferenceManager()` (ReferenceManager.h:99-105): no references, no arrays, the
dynamic base at `INT_MAX`. -/
def ReferenceManager.new : ReferenceManager :=
  { m_refs := [], m_arraySizes := [], m_baseDynIdx := INT_MAX, heapNext := 1 }

/-- Member `NumRefs` (ReferenceManager.h:141-145), with `kBaseIndex = 0`. -/
def NumRefs (m : ReferenceManager) : Int := (m.m_refs.length : Int)

/-- Element read `m_refs[i]` of the pointer table (`NULL` for a position it does not have). -/
def tableAt (l : List (Option RefInfo)) (i : Nat) : Option RefInfo :=
  match l[i]? with
  | some e => e
  | none => none

/-- Member `GetInfo` (ReferenceManager.h:334-338), with `kBaseIndex = 0`: the table is read
only when `refId` is below its length. -/
def GetInfo (m : ReferenceManager) (refId : Nat) : Option RefInfo :=
  if refId < m.m_refs.length then tableAt m.m_refs refId else none

/-- Member `GetReference` (ReferenceManager.h:148-162). -/
def GetReference (m : ReferenceManager) (i : Int) : Nat :=
  match GetInfo m (sizeT i) with
  | some pInfo => pInfo.m_target
  | none => 0

/-- Member `IsValidReferenceIndex` (ReferenceManager.h:293-302), with `kBaseIndex = 0`; the
test `n >= 0` on a `size_t` always holds. -/
def IsValidReferenceIndex (m : ReferenceManager) (n : Nat) : Bool :=
  (GetInfo m n).isSome

/-- The loop `for (int i = 0; i < NumRefs(); ++i) if (test(i)) return i; return -1;` shared by
both overloads of `GetReferenceIndex`; `fuel` is the number of indices left to visit. -/
def scanFrom (test : Nat → Bool) : Nat → Nat → Int
  | 0, _ => -1
  | fuel + 1, i => if test i then (i : Int) else scanFrom test fuel (i + 1)

/-- Member `GetReferenceIndex(ReferenceTarget*)` (ReferenceManager.h:304-310). -/
def GetReferenceIndex (m : ReferenceManager) (ref : Nat) : Int :=
  scanFrom (fun i => GetReference m (i : Int) == ref) m.m_refs.length 0

/-- Member `GetReferenceIndex(RefInfo*)` (ReferenceManager.h:312-318): pointer comparison of
the table entries with `ref`. -/
def GetReferenceIndexOfInfo (m : ReferenceManager) (ref : Nat) : Int :=
  scanFrom (fun i => ptrOf (GetInfo m i) == ref) m.m_refs.length 0

/-- Member `IsRealDependency` (ReferenceManager.h:165-173).  For an index below `kBaseIndex`
the call goes to the host base class, whose default answer is `TRUE`. -/
def IsRealDependency (m : ReferenceManager) (rtarg : Nat) : Bool :=
  let n := GetReferenceIndex m rtarg
  if n < 0 then true
  else
    match GetInfo m (sizeT n) with
    | some pInfo => !pInfo.TestFlag kIsWeak
    | none => false

/-- Member `SetReference` (ReferenceManager.h:256-266): an index below `kBaseIndex = 0` goes
to the host base class, which holds no reference; otherwise the target is stored in the slot's
struct when the slot exists.  The `DbgAssert` is compiled out of release builds. -/
def SetReference (m : ReferenceManager) (i : Int) (rtarg : Nat) : ReferenceManager :=
  if i < 0 then m
  else
    match GetInfo m (sizeT i) with
    | some pInfo =>
      { m with m_refs := m.m_refs.set (sizeT i) (some { pInfo with m_target := rtarg }) }
    | none => m

/-- Host call `ReferenceMaker::ReplaceReference(i, newtarg)`: the host drops the dependency on
the old target and stores the new one through the virtual `SetReference`.  The host is taken
to accept the reference (no circular dependency). -/
def ReplaceReference (m : ReferenceManager) (i : Int) (newtarg : Nat) : ReferenceManager :=
  SetReference m i newtarg

/-- Host call `ReferenceMaker::DeleteReference(i)`: the host drops the dependency and stores
`NULL` through the virtual `SetReference`. -/
def DeleteReference (m : ReferenceManager) (i : Int) : ReferenceManager :=
  SetReference m i 0

/-- Member `SetRef` (ReferenceManager.h:277-288). -/
def SetRef (m : ReferenceManager) (n : Nat) (pTarget : Nat) : ReferenceManager :=
  let m1 := ReplaceReference m (n : Int) pTarget
  if pTarget = 0 then SetReference m1 (n : Int) pTarget else m1

/-- Member `MaxSDK::Array::insertAt(index, value)`. -/
def insertAt {α : Type} (l : List α) (index : Nat) (v : α) : List α :=
  l.take index ++ v :: l.drop index

/-- Member `MaxSDK::Array::removeAt(index)`. -/
def removeAt {α : Type} (l : List α) (index : Nat) : List α :=
  l.take index ++ l.drop (index + 1)

/-- Member `MaxSDK::Array::find(value)` on the pointer table: index of the first entry equal
to the pointer, the length when there is none. -/
def findPtr : List (Option RefInfo) → Nat → Nat
  | [], _ => 0
  | e :: rest, p => if ptrOf e = p then 0 else findPtr rest p + 1

/-- Member `MaxSDK::Array::remove(value)` on the pointer table: removes the first entry equal
to the pointer. -/
def removePtr (l : List (Option RefInfo)) (p : Nat) : List (Option RefInfo) :=
  removeAt l (findPtr l p)

/-- The loop `while (n >= NumRefs()) m_refs.append(NULL)` of `InsertReference`: the table is
padded with `NULL` up to length `n + 1`. -/
def padNull (l : List (Option RefInfo)) (n : Nat) : List (Option RefInfo) :=
  l ++ List.replicate (n + 1 - l.length) none

/-- The struct built by `InsertReference` (ReferenceManager.h:528-531): `new RefInfo()` at
address `addr` (flags `0`, target and callback `NULL`), then `SetIsWeak`, `SetIsPersisted` and
the callback. -/
def newRefInfo (addr : Nat) (callback : Nat) (isWeak : Bool) (isPersisted : Bool) : RefInfo :=
  { ((({ addr := addr, m_flags := 0, m_target := 0, m_callback := 0 } : RefInfo).SetIsWeak
      isWeak).SetIsPersisted isPersisted) with m_callback := callback }

/-- Member `InsertReference` (ReferenceManager.h:509-540).  Returns the new `RefInfo*` and the
new state. -/
def InsertReference (m : ReferenceManager) (n : Int) (callback : Nat)
    (isWeak : Bool) (isPersisted : Bool) : Nat × ReferenceManager :=
  let n1 : Int := if n < 0 then NumRefs m else n
  let k := n1.toNat
  let refs1 := padNull m.m_refs k
  let refs2 :=
    match GetInfo { m with m_refs := refs1 } k with
    | some _ => insertAt refs1 k none
    | none => refs1
  let newInfo : RefInfo := newRefInfo m.heapNext callback isWeak isPersisted
  (newInfo.addr, { m with m_refs := refs2.set k (some newInfo), heapNext := m.heapNext + 1 })

/-- Member `RegisterReference(size_t n, callback, ref, isWeak, isPersisted)`
(ReferenceManager.h:353-365); the `DbgAssert` is compiled out of release builds.  The cast
`int(n)` of the source is the value itself here (`Machine.RegisterReferenceStatic` has it). -/
def RegisterReferenceStatic (m : ReferenceManager) (n : Nat) (callback : Nat) (ref : Nat)
    (isWeak : Bool) (isPersisted : Bool) : RefResult × ReferenceManager :=
  let m1 := (InsertReference m (n : Int) callback isWeak isPersisted).2
  (RefResult.REF_SUCCEED, ReplaceReference m1 (n : Int) ref)

/-- Member `GetReferenceIndexForArray` (ReferenceManager.h:680-701) in exact arithmetic: the
sum base + sizes + offset is not reduced.  The source adds in `size_t` and returns
`int(total + offset)`; that is `Machine.GetReferenceIndexForArray`, which gives the same value
whenever the sum is at most `INT_MAX` (`Machine_GetReferenceIndexForArray_eq`). -/
def GetReferenceIndexForArray (m : ReferenceManager) (arrayIdx : Nat) (offset : Nat) : Int :=
  if arrayIdx ≥ m.m_arraySizes.length then -1
  else ((m.m_baseDynIdx + (m.m_arraySizes.take arrayIdx).sum + offset : Nat) : Int)

/-- Member `IncrementArrayCount` (ReferenceManager.h:703-711) in exact arithmetic.  The `++`
of the source on a `size_t` wraps `2 ^ 64 - 1` to `0`; that is `Machine.IncrementArrayCount`,
which gives the same table for every other entry (`Machine_IncrementArrayCount_eq`). -/
def IncrementArrayCount (m : ReferenceManager) (arrayIdx : Nat) : ReferenceManager :=
  if arrayIdx < m.m_arraySizes.length then
    { m with m_arraySizes := m.m_arraySizes.set arrayIdx (m.m_arraySizes.getD arrayIdx 0 + 1) }
  else m

/-- Unsigned decrement of a `size_t`: `0` wraps to `2 ^ 64 - 1`. -/
def decSizeT (x : Nat) : Nat := if x = 0 then 18446744073709551615 else x - 1

/-- Member `DecrementArrayCount` (ReferenceManager.h:713-721). -/
def DecrementArrayCount (m : ReferenceManager) (arrayIdx : Nat) : ReferenceManager :=
  if arrayIdx < m.m_arraySizes.length then
    { m with m_arraySizes := m.m_arraySizes.set arrayIdx (decSizeT (m.m_arraySizes.getD arrayIdx 0)) }
  else m

/-- Member `RegisterReference(arrayIdx, index, callback, ref, isWeak, isPersisted)`
(ReferenceManager.h:542-595) in exact arithmetic.  Returns the `RefInfo*` of the new slot and
the new state.  The casts `int(m_arraySizes[arrayIdx] - 1)` and `int(n)` of the source are the
values themselves here; `Machine.RegisterReference` has them, and is the same function
whenever the index is at most `INT_MAX` (`Machine_RegisterReference_eq`). -/
def RegisterReference (m : ReferenceManager) (arrayIdx : Nat) (index : Int) (callback : Nat)
    (ref : Nat) (isWeak : Bool) (isPersisted : Bool) : Nat × ReferenceManager :=
  if arrayIdx < m.m_baseDynIdx then
    let m1 := (RegisterReferenceStatic m arrayIdx callback ref isWeak isPersisted).2
    (ptrOf (GetInfo m1 arrayIdx), m1)
  else
    let a := arrayIdx - m.m_baseDynIdx
    let m1 :=
      if a ≥ m.m_arraySizes.length then
        { m with m_arraySizes :=
            m.m_arraySizes ++ List.replicate (a + 1 - m.m_arraySizes.length) 1 }
      else IncrementArrayCount m a
    let index1 : Int := if index < 0 then ((m1.m_arraySizes.getD a 0 : Nat) : Int) - 1 else index
    let n : Nat := sizeT (GetReferenceIndexForArray m1 a (sizeT index1))
    let r := InsertReference m1 (n : Int) callback isWeak isPersisted
    if r.1 = 0 then r
    else if ref ≠ 0 then (r.1, ReplaceReference r.2 (n : Int) ref)
    else r

/-- Conversion of a `size_t` to `int`, the cast `int(...)` of the source on a 64-bit target:
the low 32 bits as a two's-complement value. -/
def toInt32 (x : Nat) : Int :=
  if x % 4294967296 < 2147483648 then ((x % 4294967296 : Nat) : Int)
  else ((x % 4294967296 : Nat) : Int) - 4294967296

/-- Member `GetReferenceIndexForArray` (ReferenceManager.h:680-701) with the arithmetic of the
source: `total` is a `size_t`, so the sum is taken modulo `2 ^ 64`, and the result is
`int(total + offset)`. -/
def Machine.GetReferenceIndexForArray (m : ReferenceManager) (arrayIdx : Nat) (offset : Nat) :
    Int :=
  if arrayIdx ≥ m.m_arraySizes.length then -1
  else
    toInt32 ((m.m_baseDynIdx + (m.m_arraySizes.take arrayIdx).sum + offset)
      % 18446744073709551616)

/-- Member `IncrementArrayCount` (ReferenceManager.h:703-711) with the arithmetic of the
source: `m_arraySizes[arrayIdx]++` on a `size_t` wraps `2 ^ 64 - 1` to `0`. -/
def Machine.IncrementArrayCount (m : ReferenceManager) (arrayIdx : Nat) : ReferenceManager :=
  if arrayIdx < m.m_arraySizes.length then
    { m with m_arraySizes :=
        (m.m_arraySizes.set arrayIdx
          ((m.m_arraySizes.getD arrayIdx 0 + 1) % 18446744073709551616)) }
  else m

/-- Member `RegisterReference(size_t n, callback, ref, isWeak, isPersisted)`
(ReferenceManager.h:353-365) with the casts `int(n)` of the source. -/
def Machine.RegisterReferenceStatic (m : ReferenceManager) (n : Nat) (callback : Nat)
    (ref : Nat) (isWeak : Bool) (isPersisted : Bool) : RefResult × ReferenceManager :=
  let m1 := (InsertReference m (toInt32 n) callback isWeak isPersisted).2
  (RefResult.REF_SUCCEED, ReplaceReference m1 (toInt32 n) ref)

/-- Member `RegisterReference(arrayIdx, index, callback, ref, isWeak, isPersisted)`
(ReferenceManager.h:542-595) with the arithmetic of the source: the size entry is incremented
as a `size_t`, a negative `index` becomes `int(m_arraySizes[arrayIdx] - 1)`, the `int` that
`GetReferenceIndexForArray` returns is stored in the `size_t n`, and `InsertReference` and
`ReplaceReference` receive `int(n)`.  `index` is the value of an `int`. -/
def Machine.RegisterReference (m : ReferenceManager) (arrayIdx : Nat) (index : Int)
    (callback : Nat) (ref : Nat) (isWeak : Bool) (isPersisted : Bool) :
    Nat × ReferenceManager :=
  if arrayIdx < m.m_baseDynIdx then
    let m1 := (Machine.RegisterReferenceStatic m arrayIdx callback ref isWeak isPersisted).2
    (ptrOf (GetInfo m1 arrayIdx), m1)
  else
    let a := arrayIdx - m.m_baseDynIdx
    let m1 :=
      if a ≥ m.m_arraySizes.length then
        { m with m_arraySizes :=
            m.m_arraySizes ++ List.replicate (a + 1 - m.m_arraySizes.length) 1 }
      else Machine.IncrementArrayCount m a
    let index1 : Int :=
      if index < 0 then toInt32 (decSizeT (m1.m_arraySizes.getD a 0)) else index
    let n : Nat := sizeT (Machine.GetReferenceIndexForArray m1 a (sizeT index1))
    let r := InsertReference m1 (toInt32 n) callback isWeak isPersisted
    if r.1 = 0 then r
    else if ref ≠ 0 then (r.1, ReplaceReference r.2 (toInt32 n) ref)
    else r

/-- The size table after `Machine.RegisterReference` on the group at position `a` of the
table: a missing entry is created, together with entries of size 1 for the positions before
it, and an existing entry is incremented as a `size_t`. -/
def Machine.sizesAfterRegister (m : ReferenceManager) (a : Nat) : List Nat :=
  if a ≥ m.m_arraySizes.length then
    m.m_arraySizes ++ List.replicate (a + 1 - m.m_arraySizes.length) 1
  else m.m_arraySizes.set a ((m.m_arraySizes.getD a 0 + 1) % 18446744073709551616)

/-- Member `ReleaseReference(RefInfo*)` (ReferenceManager.h:469-507).  `pInfo->m_target` is
read through the table entry found by the pointer scan; when that entry is `NULL` the read is
a null dereference (`none`). -/
def ReleaseReferenceInfo (m : ReferenceManager) (pInfo : Nat) :
    Option (RefResult × ReferenceManager) :=
  let n := GetReferenceIndexOfInfo m pInfo
  if n < 0 then some (RefResult.REF_FAIL, m)
  else
    match GetInfo m (sizeT n) with
    | none => none
    | some info =>
      let m1 := if info.m_target ≠ 0 then DeleteReference m n else m
      let bResizeArray : Bool := decide (sizeT n ≥ m1.m_baseDynIdx)
      let refs :=
        if bResizeArray then removePtr m1.m_refs pInfo
        else m1.m_refs.set (findPtr m1.m_refs pInfo) none
      some (RefResult.REF_SUCCEED, { m1 with m_refs := refs })

/-- Member `ReleaseReference(RefInfo*, size_t arrayIdx)` (ReferenceManager.h:598-645); the
`_DEBUG` blocks are compiled out of release builds. -/
def ReleaseReference (m : ReferenceManager) (pInfo : Nat) (arrayIdx : Nat) :
    Option (RefResult × ReferenceManager) :=
  match ReleaseReferenceInfo m pInfo with
  | none => none
  | some (res, m1) =>
    if res ≠ RefResult.REF_SUCCEED then some (res, m1)
    else if arrayIdx < m1.m_baseDynIdx then some (RefResult.REF_SUCCEED, m1)
    else some (RefResult.REF_SUCCEED, DecrementArrayCount m1 (arrayIdx - m1.m_baseDynIdx))

/-- Arithmetic on `size_t`: the value of an integer expression reduced modulo `2 ^ 64`. -/
def wrap64 (x : Int) : Nat := (x % 18446744073709551616).toNat

/-- Member `MaxSDK::Array::setLengthUsed(n, NULL)`: the used length becomes `n`, new entries
are `NULL`. -/
def setLengthUsed (l : List (Option RefInfo)) (n : Nat) : List (Option RefInfo) :=
  l.take n ++ List.replicate (n - l.length) none

/-- The first block of `RegisterReferenceArray` (ReferenceManager.h:371-396): the table is
extended when `arrayIdx` lies beyond it. -/
def RegisterReferenceArrayExtend (m : ReferenceManager) (arrayIdx : Nat) :
    List (Option RefInfo) :=
  if arrayIdx ≥ m.m_refs.length then
    if arrayIdx > m.m_baseDynIdx then
      if m.m_arraySizes.length < arrayIdx then
        let nNewRefs :=
          wrap64 (1 + (arrayIdx : Int) - ((m.m_baseDynIdx : Int) + (m.m_arraySizes.length : Int)))
        if nNewRefs < INT_MAX then setLengthUsed m.m_refs (m.m_refs.length + nNewRefs)
        else m.m_refs
      else m.m_refs
    else if m.m_arraySizes.length = 0 then setLengthUsed m.m_refs (arrayIdx + 1)
    else m.m_refs
  else m.m_refs

/-- The second block of `RegisterReferenceArray` (ReferenceManager.h:402-437): the size table
and the dynamic base.  `none` when the `size_t` count of entries to prepend wraps around (the
`new size_t[numToConvert]` cannot be satisfied). -/
def RegisterReferenceArraySizes (m : ReferenceManager) (refsLength : Nat) (arrayIdx : Nat) :
    Option (List Nat × Nat) :=
  if arrayIdx < m.m_baseDynIdx then
    let maxIdx := min m.m_baseDynIdx refsLength
    if maxIdx < arrayIdx then none
    else some (List.replicate (maxIdx - arrayIdx) 1 ++ m.m_arraySizes, arrayIdx)
  else
    let numArrays := 1 + arrayIdx - m.m_baseDynIdx
    if numArrays > m.m_arraySizes.length then
      some (m.m_arraySizes ++ List.replicate (numArrays - m.m_arraySizes.length) 1,
            m.m_baseDynIdx)
    else some (m.m_arraySizes, m.m_baseDynIdx)

/-- Member `RegisterReferenceArray` (ReferenceManager.h:367-466); the `_DEBUG` block is
compiled out of release builds.  `m_refs.removeAt` and `m_arraySizes[arrayIdx] = 0` outside
their containers are faults (`none`). -/
def RegisterReferenceArray (m : ReferenceManager) (arrayIdx : Nat) :
    Option (Bool × ReferenceManager) :=
  let refs1 := RegisterReferenceArrayExtend m arrayIdx
  match RegisterReferenceArraySizes m refs1.length arrayIdx with
  | none => none
  | some (sizes1, base1) =>
    let m1 : ReferenceManager :=
      { m with m_refs := refs1, m_arraySizes := sizes1, m_baseDynIdx := base1 }
    let a := arrayIdx - base1
    let nRefIdxForArray := GetReferenceIndexForArray m1 a 0
    if sizeT nRefIdxForArray < refs1.length ∧ a < sizes1.length then
      some (true, { m1 with m_refs := removeAt refs1 (sizeT nRefIdxForArray),
                            m_arraySizes := sizes1.set a 0 })
    else none

/-- The host message `REFMSG_TARGET_DELETED` is the only one `NotifyRefChanged` acts on; a
message is modelled by whether it is that one. -/
abbrev RefMessage := Bool

/-- Member `NotifyRefChanged` (ReferenceManager.h:214-251).  The client callback of the slot
is invoked first; it is a notification and leaves the manager as it is.  For a deleted
non-null target the slot found by `GetReferenceIndex` is nulled. -/
def NotifyRefChanged (m : ReferenceManager) (hTarget : Nat) (isTargetDeleted : RefMessage) :
    RefResult × ReferenceManager :=
  if isTargetDeleted then
    if hTarget ≠ 0 then
      let n := GetReferenceIndex m hTarget
      (RefResult.REF_SUCCEED, SetReference m n 0)
    else (RefResult.REF_SUCCEED, m)
  else (RefResult.REF_SUCCEED, m)

/-- A call of the registration interface (`IReferenceManager.h`). -/
inductive MgrCall where
  | register (arrayIdx : Nat) (index : Int) (callback ref : Nat) (isWeak isPersisted : Bool)
  | registerArray (arrayIdx : Nat)
  | release (pInfo : Nat) (arrayIdx : Nat)
deriving DecidableEq, Repr

/-- One call on a manager; `none` when the call faults. -/
def runCall (m : ReferenceManager) : MgrCall → Option ReferenceManager
  | MgrCall.register arrayIdx index callback ref isWeak isPersisted =>
    some (RegisterReference m arrayIdx index callback ref isWeak isPersisted).2
  | MgrCall.registerArray arrayIdx =>
    match RegisterReferenceArray m arrayIdx with
    | none => none
    | some (_, m1) => some m1
  | MgrCall.release pInfo arrayIdx =>
    match ReleaseReference m pInfo arrayIdx with
    | none => none
    | some (_, m1) => some m1

/-- A sequence of calls, in order. -/
def runCalls : ReferenceManager → List MgrCall → Option ReferenceManager
  | m, [] => some m
  | m, c :: cs =>
    match runCall m c with
    | none => none
    | some m1 => runCalls m1 cs

/-- Registration of static slots at the consecutive ids `id, id + 1, ...`, one per entry
`(callback, target, isWeak, isPersisted)` of the list. -/
def registerStatics : ReferenceManager → Nat → List (Nat × Nat × Bool × Bool) → ReferenceManager
  | m, _, [] => m
  | m, id, (cb, ref, w, ps) :: rest =>
    registerStatics (RegisterReference m id 0 cb ref w ps).2 (id + 1) rest

/-- A call on the elements of one array group: a registration at an index of the group
(negative for append) or the release of the element at position `pos` of the list of slots
registered so far and not yet released. -/
inductive GroupCall where
  | add (index : Int) (callback ref : Nat) (isWeak isPersisted : Bool)
  | release (pos : Nat)
deriving DecidableEq, Repr

/-- One call on group `BASE_ID`; the state is the manager and the list of live slots of the
group.  A release at a position the list does not have does nothing. -/
def runGroupCall (BASE_ID : Nat) :
    ReferenceManager × List Nat → GroupCall → Option (ReferenceManager × List Nat)
  | (m, live), GroupCall.add index cb ref w ps =>
    some ((RegisterReference m BASE_ID index cb ref w ps).2,
          live ++ [(RegisterReference m BASE_ID index cb ref w ps).1])
  | (m, live), GroupCall.release pos =>
    match live[pos]? with
    | none => some (m, live)
    | some pInfo =>
      match ReleaseReference m pInfo BASE_ID with
      | none => none
      | some (_, m1) => some (m1, live.eraseIdx pos)

/-- A sequence of calls on group `BASE_ID`, in order. -/
def runGroupCalls (BASE_ID : Nat) :
    ReferenceManager × List Nat → List GroupCall → Option (ReferenceManager × List Nat)
  | st, [] => some st
  | st, c :: cs =>
    match runGroupCall BASE_ID st c with
    | none => none
    | some st1 => runGroupCalls BASE_ID st1 cs

/-- The loop of `BaseClone` over the source's reference indices `i .. i + fuel - 1`:
`to->ReplaceReference(i, ...)` with the clone of the target when `from->IsRealDependency`
answers true for it, with the target itself otherwise. -/
def BaseCloneLoop (src : ReferenceManager) (CloneRef : Nat → Nat) :
    Nat → Nat → ReferenceManager → ReferenceManager
  | 0, _, dst => dst
  | fuel + 1, i, dst =>
    let fromTarget := GetReference src (i : Int)
    let dst1 :=
      if IsRealDependency src fromTarget then ReplaceReference dst (i : Int) (CloneRef fromTarget)
      else ReplaceReference dst (i : Int) fromTarget
    BaseCloneLoop src CloneRef fuel (i + 1) dst1

/-- Member `BaseClone(from, to, remap)` (ReferenceManager.h:193-210).  `fromPtr` and `toPtr`
are the addresses of the two objects, `src` and `dst` their states, `CloneRef` the host's
`RemapDir::CloneRef`.  The closing call of `Base_T::BaseClone` touches no managed reference
(`kBaseIndex = 0`). -/
def BaseClone (fromPtr toPtr : Nat) (src dst : ReferenceManager) (CloneRef : Nat → Nat) :
    ReferenceManager :=
  if fromPtr = 0 ∨ toPtr = 0 ∨ fromPtr = toPtr then dst
  else BaseCloneLoop src CloneRef src.m_refs.length 0 dst

/-! ### Reference handles (`RefPtr.h`) -/

/-- Read of the heap struct at address `p`: the live structs are those the table points to. -/
def derefInfo : List (Option RefInfo) → Nat → Option RefInfo
  | [], _ => none
  | none :: rest, p => derefInfo rest p
  | some r :: rest, p => if r.addr = p then some r else derefInfo rest p

/-- Constructor `RefPtr(mgr, callback, index, pTarget)` (RefPtr.h:85-92) of a handle with
template argument `BASE_ID`: returns `m_ref` and the new manager state. -/
def RefPtr.construct (mgr : ReferenceManager) (BASE_ID : Nat) (callback : Nat) (index : Int)
    (pTarget : Nat) : Nat × ReferenceManager :=
  RegisterReference mgr BASE_ID index callback pTarget false true

/-- Destructor `~RefPtr` (RefPtr.h:95-101): releases the slot and nulls `m_ref`. -/
def RefPtr.destroy (mgr : ReferenceManager) (BASE_ID : Nat) (m_ref : Nat) :
    Option (Nat × ReferenceManager) :=
  match ReleaseReference mgr m_ref BASE_ID with
  | none => none
  | some (_, mgr1) => some (0, mgr1)

/-- The cast `dynamic_cast<REF_TYPE_T*>(rhs)`: `rhs` when it is non-null and of the element
type (`isType`), `NULL` otherwise. -/
def dynamicCast (isType : Nat → Bool) (rhs : Nat) : Nat :=
  if rhs ≠ 0 ∧ isType rhs = true then rhs else 0

/-- Operator `RefPtr::operator=(ReferenceTarget* rhs)` (RefPtr.h:120-134); the `DbgAssert`s
are compiled out of release builds.  Returns the typed pointer and the new manager state. -/
def RefPtr.assign (mgr : ReferenceManager) (isType : Nat → Bool) (m_ref : Nat) (rhs : Nat) :
    Nat × ReferenceManager :=
  let pType := dynamicCast isType rhs
  let n := GetReferenceIndexOfInfo mgr m_ref
  if n ≥ 0 then (pType, SetRef mgr (sizeT n) pType) else (pType, mgr)

/-- Conversion `operator REF_TYPE_T*()` (RefPtr.h:170-175): `m_ref->m_target`; `none` when
`m_ref` does not point to a live struct. -/
def RefPtr.target (mgr : ReferenceManager) (m_ref : Nat) : Option Nat :=
  match derefInfo mgr.m_refs m_ref with
  | some r => some r.m_target
  | none => none

/-! ### Host container `Tab` and `RefArray` (`RefPtr.h`) -/

/-- The host container `Tab<RefPtr<..>>`: `data` is the allocated storage, one cell per
element, and `count` the number of elements in use.  A cell is `none` while no handle has
been constructed in it and `some p` for a handle whose `m_ref` is `p`. -/
structure Tab where
  data : List (Option Nat)
  count : Nat
deriving DecidableEq, Repr

/-- Storage reallocated to `n` cells: the common prefix is kept, new cells are raw memory. -/
def resizeCells (data : List (Option Nat)) (n : Nat) : List (Option Nat) :=
  data.take n ++ List.replicate (n - data.length) none

/-- Host member `Tab::Count`. -/
def Tab.Count (t : Tab) : Int := (t.count : Int)

/-- Host member `Tab::SetCount(n)`: storage and element count both become `n`. -/
def Tab.SetCount (t : Tab) (n : Int) : Tab :=
  { data := resizeCells t.data n.toNat, count := n.toNat }

/-- Host member `Tab::Resize(n)`: the allocation becomes `n` cells, the element count is
kept (or cut to `n`). -/
def Tab.Resize (t : Tab) (n : Int) : Tab :=
  { data := resizeCells t.data n.toNat, count := min t.count n.toNat }

/-- The cell at `Addr(i)`; raw for an address outside the allocation. -/
def cellAt (data : List (Option Nat)) (i : Nat) : Option Nat :=
  match data[i]? with
  | some c => c
  | none => none

/-- Sequential store of cells starting at `Addr(dst)`. -/
def writeCells : List (Option Nat) → Nat → List (Option Nat) → List (Option Nat)
  | data, _, [] => data
  | data, dst, c :: cs => writeCells (data.set dst c) (dst + 1) cs

/-- Library call `memmove(Addr(dst), Addr(src), k * sizeof(RefPtr))`: the `k` cells starting
at `src` are read first and then stored starting at `dst`. -/
def memmove (data : List (Option Nat)) (dst src k : Nat) : List (Option Nat) :=
  writeCells data dst ((List.range k).map (fun j => cellAt data (src + j)))

/-- State of `RefArray<REF_TYPE_T, BASE_ID>` (RefPtr.h:257-260): the inherited `Tab` and the
callback; the manager is passed alongside. -/
structure RefArray where
  tab : Tab
  m_callback : Nat
deriving DecidableEq, Repr

/-- The loop of `Append` and `Insert` that constructs one handle per target in the cells
`arrayOldSize + i` by placement `new`, registering it at index `arrayOldSize + i` of the group;
the callback `new NotifyCallback(m_callback)` is a copy of the array's callback. -/
def RefArray.constructLoop (BASE_ID : Nat) (arrayOldSize : Nat) :
    Nat → List Nat → ReferenceManager → RefArray → ReferenceManager × RefArray
  | _, [], mgr, arr => (mgr, arr)
  | i, t :: ts, mgr, arr =>
    let r := RefPtr.construct mgr BASE_ID arr.m_callback ((arrayOldSize + i : Nat) : Int) t
    RefArray.constructLoop BASE_ID arrayOldSize (i + 1) ts r.2
      { arr with tab := { arr.tab with data := arr.tab.data.set (arrayOldSize + i) (some r.1) } }

/-- Member `RefArray::Append(n, pTarget)` (RefPtr.h:294-306), the `n` targets given as a
list. -/
def RefArray.Append (BASE_ID : Nat) (mgr : ReferenceManager) (arr : RefArray)
    (pTarget : List Nat) : ReferenceManager × RefArray :=
  let arrayOldSize := arr.tab.count
  let arr1 := { arr with tab := arr.tab.SetCount (arr.tab.Count + (pTarget.length : Int)) }
  RefArray.constructLoop BASE_ID arrayOldSize 0 pTarget mgr arr1

/-- Member `RefArray::Insert(index, count, pTarget)` (RefPtr.h:310-322), the `count` targets
given as a list. -/
def RefArray.Insert (BASE_ID : Nat) (mgr : ReferenceManager) (arr : RefArray) (index : Nat)
    (pTarget : List Nat) : ReferenceManager × RefArray :=
  let count := pTarget.length
  let arrayOldSize := arr.tab.count
  let tab1 := arr.tab.Resize (arr.tab.Count + (count : Int))
  let tab2 := { tab1 with data := memmove tab1.data index (index + count) count }
  let r := RefArray.constructLoop BASE_ID arrayOldSize 0 pTarget mgr { arr with tab := tab2 }
  (r.1, { r.2 with tab := r.2.tab.SetCount ((arrayOldSize : Int) + (count : Int)) })

/-- The loop `for (i = maxIdx - 1; i >= start; --i) (*this)[i].~RefPtr()` of `Delete`, with
`k = i + 1 - start` handles left to destroy.  Running the destructor on a cell that holds no
constructed handle is a fault. -/
def RefArray.destroyLoop (BASE_ID : Nat) (start : Nat) :
    Nat → ReferenceManager → RefArray → Option (ReferenceManager × RefArray)
  | 0, mgr, arr => some (mgr, arr)
  | k + 1, mgr, arr =>
    match cellAt arr.tab.data (start + k) with
    | none => none
    | some m_ref =>
      match RefPtr.destroy mgr BASE_ID m_ref with
      | none => none
      | some (m_ref1, mgr1) =>
        RefArray.destroyLoop BASE_ID start k mgr1
          { arr with tab := { arr.tab with data := arr.tab.data.set (start + k) (some m_ref1) } }

/-- Member `RefArray::Delete(start, num)` (RefPtr.h:349-373).  Returns the returned count and
the new states. -/
def RefArray.Delete (BASE_ID : Nat) (mgr : ReferenceManager) (arr : RefArray)
    (start : Int) (num : Int) : Option (Int × ReferenceManager × RefArray) :=
  let start1 : Int := if start < 0 then 0 else start
  let oldCount : Int := arr.tab.Count
  let numToDelete : Int := min (oldCount - start1) num
  if numToDelete ≤ 0 then some (oldCount, mgr, arr)
  else
    let maxIdx : Int := start1 + numToDelete
    match RefArray.destroyLoop BASE_ID start1.toNat numToDelete.toNat mgr arr with
    | none => none
    | some (mgr1, arr1) =>
      let newCount : Int := oldCount - numToDelete
      let tab2 : Tab :=
        if maxIdx < oldCount then
          { arr1.tab with
            data := memmove arr1.tab.data start1.toNat maxIdx.toNat numToDelete.toNat }
        else arr1.tab
      some (newCount, mgr1, { arr1 with tab := tab2.SetCount newCount })

/-- The loop `while (Count() < n) Append(1, &pNull)` of `SetCount`. -/
def RefArray.growLoop (BASE_ID : Nat) (n : Int) :
    Nat → ReferenceManager → RefArray → ReferenceManager × RefArray
  | 0, mgr, arr => (mgr, arr)
  | fuel + 1, mgr, arr =>
    if arr.tab.Count < n then
      let r := RefArray.Append BASE_ID mgr arr [0]
      RefArray.growLoop BASE_ID n fuel r.1 r.2
    else (mgr, arr)

/-- Member `RefArray::SetCount(n)` (RefPtr.h:326-339).  Every pass of the grow loop raises
`Count()` by one, so `n - Count()` passes exhaust it. -/
def RefArray.SetCount (BASE_ID : Nat) (mgr : ReferenceManager) (arr : RefArray) (n : Int) :
    Option (ReferenceManager × RefArray) :=
  let r := RefArray.growLoop BASE_ID n (n - arr.tab.Count).toNat mgr arr
  if n < r.2.tab.Count then
    match RefArray.Delete BASE_ID r.1 r.2 n (r.2.tab.Count - n) with
    | none => none
    | some (_, mgr1, arr1) => some (mgr1, arr1)
  else some r

/-- The handles of the array in use: the `m_ref` of the first `count` cells. -/
def RefArray.elems (arr : RefArray) : List (Option Nat) := arr.tab.data.take arr.tab.count

/-- The size table after `RegisterReference` on the group at position `a` of the table
(ReferenceManager.h:563-574): a missing entry is created, together with entries of size 1 for
the positions before it, and an existing entry is incremented. -/
def sizesAfterRegister (m : ReferenceManager) (a : Nat) : List Nat :=
  if a ≥ m.m_arraySizes.length then
    m.m_arraySizes ++ List.replicate (a + 1 - m.m_arraySizes.length) 1
  else m.m_arraySizes.set a (m.m_arraySizes.getD a 0 + 1)

/-! ### Consistency of a manager with an array of handles -/

/-- Table index of the first slot of the group at position `g` of the size table: the dynamic
base plus the sizes of the preceding groups. -/
def groupStart (m : ReferenceManager) (g : Nat) : Nat :=
  m.m_baseDynIdx + (m.m_arraySizes.take g).sum

/-- Heap discipline of `new RefInfo()`: the structs the table points to have pairwise distinct,
non-null addresses, all below the next address the allocator hands out. -/
def HeapDistinct (m : ReferenceManager) : Prop :=
  (∀ i, i < m.m_refs.length → ∀ j, j < m.m_refs.length →
      (tableAt m.m_refs i).isSome = true → (tableAt m.m_refs j).isSome = true →
      ptrOf (tableAt m.m_refs i) = ptrOf (tableAt m.m_refs j) → i = j)
    ∧ (∀ i, i < m.m_refs.length → (tableAt m.m_refs i).isSome = true →
        0 < ptrOf (tableAt m.m_refs i) ∧ ptrOf (tableAt m.m_refs i) < m.heapNext)
    ∧ 0 < m.heapNext

instance (m : ReferenceManager) : Decidable (HeapDistinct m) := by
  unfold HeapDistinct; infer_instance

/-- The first `k` cells of `data` are the handles of group `BASE_ID` and the size table is
accurate for that group: the group has an entry in the size table, the entry is `k`, and for
every `i < k` cell `i` points to the live slot at table index
`base + (sum of the preceding sizes) + i`. -/
def Placed (BASE_ID : Nat) (m : ReferenceManager) (data : List (Option Nat)) (k : Nat) : Prop :=
  m.m_baseDynIdx ≤ BASE_ID
    ∧ BASE_ID - m.m_baseDynIdx < m.m_arraySizes.length
    ∧ m.m_arraySizes.getD (BASE_ID - m.m_baseDynIdx) 0 = k
    ∧ (∀ i, i < k →
        (GetInfo m (groupStart m (BASE_ID - m.m_baseDynIdx) + i)).isSome = true
          ∧ cellAt data i
              = some (ptrOf (GetInfo m (groupStart m (BASE_ID - m.m_baseDynIdx) + i))))
    ∧ HeapDistinct m

instance (BASE_ID : Nat) (m : ReferenceManager) (data : List (Option Nat)) (k : Nat) :
    Decidable (Placed BASE_ID m data k) := by
  unfold Placed; infer_instance

/-- A `RefArray` with template argument `BASE_ID` attached to a manager whose size table is
accurate for it: all `Count()` elements are placed. -/
def RefArray.Attached (BASE_ID : Nat) (m : ReferenceManager) (arr : RefArray) : Prop :=
  Placed BASE_ID m arr.tab.data arr.tab.count

instance (BASE_ID : Nat) (m : ReferenceManager) (arr : RefArray) :
    Decidable (RefArray.Attached BASE_ID m arr) := by
  unfold RefArray.Attached; infer_instance

/-! ### Restore objects (`DataRestoreObj.h`) -/

/-- The process state the restore objects act on.  `mem` is the value stored at the address
of each scalar (the template argument `T` is `int`), `tabs` the host array `Tab<T>` at each
address (an element is a cell, `none` while it was never written), `held` and `tabMap` the two
registry singletons, `calls` and `tabCalls` the calls of
`IDataRestoreOwner::OnRestoreDataChanged` made so far, as pairs of owner and argument, for the
owners of scalars and of array elements. -/
structure HoldWorld where
  mem : Nat → Int
  tabs : Nat → Tab
  held : PointerList
  tabMap : TabMap
  calls : List (Nat × Int)
  tabCalls : List (Nat × Option Nat)

/-- Assignment through a pointer: the function that differs from `f` at `a` only. -/
def store {β : Type} (f : Nat → β) (a : Nat) (v : β) : Nat → β :=
  fun x => if x = a then v else f x

/-- The fields of `DataRestoreObj<T>` (DataRestoreObj.h:58-61). -/
structure DataRestoreObj where
  mpOwner : Nat
  mpValue : Nat
  mRedo : Int
  mUndo : Int
deriving DecidableEq, Repr

/-- Constructor `DataRestoreObj(T& val, pOwner)` (DataRestoreObj.h:66-74): both values are
captured from `val` and the address is marked held; the `DbgAssert` is compiled out. -/
def DataRestoreObj.construct (w : HoldWorld) (val : Nat) (pOwner : Nat) :
    HoldWorld × DataRestoreObj :=
  ({ w with held := SetPointerHeld w.held val },
   { mpOwner := pOwner, mpValue := val, mRedo := w.mem val, mUndo := w.mem val })

/-- Destructor `~DataRestoreObj() {}` (DataRestoreObj.h:76): the body is empty. -/
def DataRestoreObj.destroy (w : HoldWorld) (_o : DataRestoreObj) : HoldWorld := w

/-- The guarded callback `if (mpOwner != NULL) mpOwner->OnRestoreDataChanged(val)` of a
scalar restore object. -/
def notifyOwner (w : HoldWorld) (mpOwner : Nat) (val : Int) : HoldWorld :=
  if mpOwner ≠ 0 then { w with calls := w.calls ++ [(mpOwner, val)] } else w

/-- The guarded callback `if (mpOwner != NULL) mpOwner->OnRestoreDataChanged(val)` of an
array-element restore object. -/
def notifyTabOwner (w : HoldWorld) (mpOwner : Nat) (val : Option Nat) : HoldWorld :=
  if mpOwner ≠ 0 then { w with tabCalls := w.tabCalls ++ [(mpOwner, val)] } else w

/-- Member `DataRestoreObj::Restore(isUndo)` (DataRestoreObj.h:79-84). -/
def DataRestoreObj.Restore (w : HoldWorld) (o : DataRestoreObj) (_isUndo : Int) : HoldWorld :=
  notifyOwner { w with mem := store w.mem o.mpValue o.mUndo } o.mpOwner o.mUndo

/-- Member `DataRestoreObj::Redo` (DataRestoreObj.h:87-92). -/
def DataRestoreObj.Redo (w : HoldWorld) (o : DataRestoreObj) : HoldWorld :=
  notifyOwner { w with mem := store w.mem o.mpValue o.mRedo } o.mpOwner o.mRedo

/-- Member `DataRestoreObj::EndHold` (DataRestoreObj.h:96-100). -/
def DataRestoreObj.EndHold (w : HoldWorld) (o : DataRestoreObj) : HoldWorld × DataRestoreObj :=
  ({ w with held := EndPointerHold w.held o.mpValue }, { o with mRedo := w.mem o.mpValue })

/-- Host member `Tab::operator[]`: the position of element `i`; an index outside
`[0, Count())` is outside the array, which is a fault (`none`). -/
def Tab.elemIndex (t : Tab) (i : Int) : Option Nat :=
  if 0 ≤ i ∧ i < t.Count then some i.toNat else none

/-- The fields of `TabDataRestoreObj<T>` (DataRestoreObj.h:114-120); `mUndo` and `mRedo` are
`none` while nothing was assigned to them. -/
structure TabDataRestoreObj where
  mpOwner : Nat
  mpTab : Nat
  mDataIndex : Int
  mUndoSize : Int
  mRedoSize : Int
  mUndo : Option Nat
  mRedo : Option Nat
deriving DecidableEq, Repr

/-- Constructor `TabDataRestoreObj(Tab<T>& tab, index, pOwner)` (DataRestoreObj.h:124-137). -/
def TabDataRestoreObj.construct (w : HoldWorld) (tab : Nat) (index : Int) (pOwner : Nat) :
    Option (HoldWorld × TabDataRestoreObj) :=
  let t := w.tabs tab
  let w1 := { w with tabMap := SetTabPointerHeld w.tabMap tab index }
  if index < t.Count then
    match t.elemIndex index with
    | none => none
    | some k =>
      some (w1, { mpOwner := pOwner, mpTab := tab, mDataIndex := index, mUndoSize := t.Count,
                  mRedoSize := t.Count, mUndo := cellAt t.data k, mRedo := cellAt t.data k })
  else
    some (w1, { mpOwner := pOwner, mpTab := tab, mDataIndex := index, mUndoSize := t.Count,
                mRedoSize := t.Count, mUndo := none, mRedo := none })

/-- Destructor `~TabDataRestoreObj() { }` (DataRestoreObj.h:139): the body is empty. -/
def TabDataRestoreObj.destroy (w : HoldWorld) (_o : TabDataRestoreObj) : HoldWorld := w

/-- The common body of `Restore` and `Redo` of `TabDataRestoreObj`: `SetCount(size)`, the
guarded store `(*mpTab)[mDataIndex] = val`, then the owner callback. -/
def TabDataRestoreObj.writeBack (w : HoldWorld) (o : TabDataRestoreObj) (size : Int)
    (val : Option Nat) : Option HoldWorld :=
  let t1 := (w.tabs o.mpTab).SetCount size
  let stored : Option Tab :=
    if o.mDataIndex < size then
      match t1.elemIndex o.mDataIndex with
      | none => none
      | some k => some { t1 with data := t1.data.set k val }
    else some t1
  match stored with
  | none => none
  | some t2 => some (notifyTabOwner { w with tabs := store w.tabs o.mpTab t2 } o.mpOwner val)

/-- Member `TabDataRestoreObj::Restore(isUndo)` (DataRestoreObj.h:141-149). -/
def TabDataRestoreObj.Restore (w : HoldWorld) (o : TabDataRestoreObj) (_isUndo : Int) :
    Option HoldWorld :=
  TabDataRestoreObj.writeBack w o o.mUndoSize o.mUndo

/-- Member `TabDataRestoreObj::Redo` (DataRestoreObj.h:152-159). -/
def TabDataRestoreObj.Redo (w : HoldWorld) (o : TabDataRestoreObj) : Option HoldWorld :=
  TabDataRestoreObj.writeBack w o o.mRedoSize o.mRedo

/-- Member `TabDataRestoreObj::EndHold` (DataRestoreObj.h:163-170). -/
def TabDataRestoreObj.EndHold (w : HoldWorld) (o : TabDataRestoreObj) :
    Option (HoldWorld × TabDataRestoreObj) :=
  let t := w.tabs o.mpTab
  let o1 := { o with mRedoSize := t.Count }
  let o2 : Option TabDataRestoreObj :=
    if o1.mDataIndex < o1.mRedoSize then
      match t.elemIndex o1.mDataIndex with
      | none => none
      | some k => some { o1 with mRedo := cellAt t.data k }
    else some o1
  match o2 with
  | none => none
  | some o3 =>
    match EndTabPointerHold w.tabMap o.mpTab o.mDataIndex with
    | none => none
    | some m => some ({ w with tabMap := m }, o3)

/-- The hold in progress: the process state and the restore objects that were put on
`theHold` and whose `EndHold` has not run yet, in the order they were put. -/
structure HoldState where
  w : HoldWorld
  pendingData : List DataRestoreObj
  pendingTab : List TabDataRestoreObj

/-- Function `HoldData(data, pOwner)` (DataRestoreObj.h:189-203); `holding` is the result of
`theHold.Holding()`. -/
def HoldData (s : HoldState) (holding : Bool) (data : Nat) (pOwner : Nat) : HoldState :=
  if holding then
    if !IsPointerHeld s.w.held data then
      let r := DataRestoreObj.construct s.w data pOwner
      { s with w := r.1, pendingData := s.pendingData ++ [r.2] }
    else s
  else s

/-- Function `HoldTabData(data, index, pOwner)` (DataRestoreObj.h:205-219). -/
def HoldTabData (s : HoldState) (holding : Bool) (data : Nat) (index : Int) (pOwner : Nat) :
    Option HoldState :=
  if holding then
    if !IsTabPointerHeld s.w.tabMap data index then
      match TabDataRestoreObj.construct s.w data index pOwner with
      | none => none
      | some r => some { s with w := r.1, pendingTab := s.pendingTab ++ [r.2] }
    else some s
  else some s

/-- What happens during a hold: the two factory calls, the host running `EndHold` of the
`k`-th pending scalar or array-element object, and the client writing a scalar or replacing
the contents of an array. -/
inductive HoldCall where
  | holdData (holding : Bool) (data : Nat) (pOwner : Nat)
  | holdTabData (holding : Bool) (data : Nat) (index : Int) (pOwner : Nat)
  | endHoldData (k : Nat)
  | endHoldTab (k : Nat)
  | write (a : Nat) (v : Int)
  | setTab (a : Nat) (t : Tab)

/-- One event of a hold.  `none` is returned when the event cannot occur (a reference to
address `0`, `EndHold` of an object that is not pending) or when the code faults. -/
def runHoldCall (s : HoldState) : HoldCall → Option HoldState
  | .holdData holding data pOwner =>
    if data = 0 then none else some (HoldData s holding data pOwner)
  | .holdTabData holding data index pOwner =>
    if data = 0 then none else HoldTabData s holding data index pOwner
  | .endHoldData k =>
    match s.pendingData[k]? with
    | none => none
    | some o =>
      some { s with w := (DataRestoreObj.EndHold s.w o).1,
                    pendingData := s.pendingData.eraseIdx k }
  | .endHoldTab k =>
    match s.pendingTab[k]? with
    | none => none
    | some o =>
      match TabDataRestoreObj.EndHold s.w o with
      | none => none
      | some r => some { s with w := r.1, pendingTab := s.pendingTab.eraseIdx k }
  | .write a v => some { s with w := { s.w with mem := store s.w.mem a v } }
  | .setTab a t => some { s with w := { s.w with tabs := store s.w.tabs a t } }

/-- A sequence of events of a hold, `none` as soon as one of them returns `none`. -/
def runHoldCalls : HoldState → List HoldCall → Option HoldState
  | s, [] => some s
  | s, c :: cs =>
    match runHoldCall s c with
    | none => none
    | some s1 => runHoldCalls s1 cs

/-- The state before any hold: both registries empty and no pending restore object. -/
def HoldState.init (mem : Nat → Int) (tabs : Nat → Tab) : HoldState :=
  { w := { mem := mem, tabs := tabs, held := [], tabMap := [], calls := [], tabCalls := [] },
    pendingData := [], pendingTab := [] }

/-- What happens to an ended scalar restore object and its value on the undo queue. -/
inductive RestoreCall where
  | restore (isUndo : Int)
  | redo
  | write (a : Nat) (v : Int)

/-- One call of `RestoreCall` on the object `o`. -/
def runRestoreCall (o : DataRestoreObj) (w : HoldWorld) : RestoreCall → HoldWorld
  | .restore isUndo => DataRestoreObj.Restore w o isUndo
  | .redo => DataRestoreObj.Redo w o
  | .write a v => { w with mem := store w.mem a v }

/-- A sequence of calls on the object `o`, left to right. -/
def runRestoreCalls (o : DataRestoreObj) : HoldWorld → List RestoreCall → HoldWorld
  | w, [] => w
  | w, c :: cs => runRestoreCalls o (runRestoreCall o w c) cs

/-- Calls on the held-pointer list made for other restore objects between two events of one
object: `(true, b)` is `SetPointerHeld(b)`, `(false, b)` is `EndPointerHold(b)`. -/
def runPointerCalls : PointerList → List (Bool × Nat) → PointerList
  | l, [] => l
  | l, (true, b) :: cs => runPointerCalls (SetPointerHeld l b) cs
  | l, (false, b) :: cs => runPointerCalls (EndPointerHold l b) cs

/-- A process state with empty registries, every scalar `0` and every array empty. -/
def HoldWorld.blank : HoldWorld :=
  { mem := fun _ => 0, tabs := fun _ => { data := [], count := 0 }, held := [], tabMap := [],
    calls := [], tabCalls := [] }

/-- A process state with empty registries in which the array at address `1` has the three
elements `10, 20, 30`. -/
def HoldWorld.sample : HoldWorld :=
  { HoldWorld.blank with
    tabs := store HoldWorld.blank.tabs 1 { data := [some 10, some 20, some 30], count := 3 } }

/-- The consistency of a hold in progress: no address twice in the held-pointer list, the map
of held indices ordered by key with no index twice in a list, no two pending scalar objects
on one address, no two pending array-element objects on one (array, index) pair, and the
address or pair of every pending object held. -/
def HoldState.Consistent (s : HoldState) : Prop :=
  s.w.held.Nodup
    ∧ TabMapOrdered s.w.tabMap
    ∧ (∀ p l, mapFind s.w.tabMap p = some l → l.Nodup)
    ∧ (s.pendingData.map (fun o => o.mpValue)).Nodup
    ∧ (s.pendingTab.map (fun o => (o.mpTab, o.mDataIndex))).Nodup
    ∧ (∀ o ∈ s.pendingData, IsPointerHeld s.w.held o.mpValue = true)
    ∧ (∀ o ∈ s.pendingTab, IsTabPointerHeld s.w.tabMap o.mpTab o.mDataIndex = true)

/-! ### Dynamic parameter-block descriptors (`DynPBCustAttrClassDesc.cpp`) -/

/-- Conversion of an integer to `UINT16`. -/
def toU16 (i : Int) : Nat := (i % 65536).toNat

/-- Conversion of an integer to `short` (the host types `BlockID` and `ParamID`). -/
def toS16 (i : Int) : Int := if i % 65536 < 32768 then i % 65536 else i % 65536 - 65536

/-- The fields of the host struct `ParamDef` that the code reads or writes: the parameter id,
the parameter type and the name string (UI metadata). -/
structure ParamDef where
  ID : Int
  type : Int
  int_name : String
deriving DecidableEq, Repr

/-- The host class `ParamBlockDesc2`, as far as the code uses it.  `addr` is the address of
the object, `cd` the class descriptor passed to the constructor, `int_name` the name given
to it (UI metadata). -/
structure ParamBlockDesc2 where
  addr : Nat
  ID : Int
  cd : Nat
  int_name : String
  paramdefs : List ParamDef
deriving DecidableEq, Repr

/-- The state of `DynPBCustAttrClassDesc` with its surroundings.  `self` is the address of
the class descriptor, `m_freeBlockId` (a `UINT16`) and `m_dObsoleteDescs` are its members,
`pbDescs` is the list of descriptors inherited from `ClassDesc2` (the active list).  `heap`
holds the descriptors that are allocated, `heapNext` is the address the next allocation
returns, `deleted` lists the addresses passed to `delete`, and `scene` is what
`Animatable::EnumerateAllAnimatables` visits, in order: `some a` is a parameter block whose
descriptor is at address `a`, `none` any other animatable. -/
structure DynPBCustAttrClassDesc where
  self : Nat
  m_freeBlockId : Nat
  m_dObsoleteDescs : List Nat
  pbDescs : List Nat
  heap : List ParamBlockDesc2
  heapNext : Nat
  deleted : List Nat
  scene : List (Option Nat)
deriving DecidableEq, Repr

/-- Dereference of a descriptor pointer: the allocated descriptor at address `a`. -/
def findDesc (heap : List ParamBlockDesc2) (a : Nat) : Option ParamBlockDesc2 :=
  heap.find? (fun d => d.addr = a)

/-- Store through a descriptor pointer: the descriptor at address `a` becomes `f` of it. -/
def updateDesc (heap : List ParamBlockDesc2) (a : Nat)
    (f : ParamBlockDesc2 → ParamBlockDesc2) : List ParamBlockDesc2 :=
  heap.map (fun d => if d.addr = a then f d else d)

/-- Member `GetFreeParamBlockId` (DynPBCustAttrClassDesc.h:45): `return m_freeBlockId++` on a
`UINT16`. -/
def GetFreeParamBlockId (c : DynPBCustAttrClassDesc) : Nat × DynPBCustAttrClassDesc :=
  (c.m_freeBlockId, { c with m_freeBlockId := (c.m_freeBlockId + 1) % 65536 })

/-- Member `FreeBlockIDEnum::proc` (DynPBCustAttrClassDesc.cpp:224-248).  The comparison
`pDesc->ID == m_id` is made on the `int` values of a `short` and a `UINT16`; the free id is
stored into the `short` field.  A block whose descriptor is not allocated is passed over. -/
def FreeBlockIDEnum.proc (m_id : Nat) (c : DynPBCustAttrClassDesc) (theAnim : Option Nat) :
    Bool × DynPBCustAttrClassDesc :=
  match theAnim with
  | none => (true, c)
  | some a =>
    match findDesc c.heap a with
    | none => (true, c)
    | some pDesc =>
      if pDesc.cd = c.self then
        if pDesc.ID = (m_id : Int) then
          let r := GetFreeParamBlockId c
          (false, { r.2 with heap := updateDesc r.2.heap a (fun d => { d with ID := toS16 r.1 }) })
        else (true, c)
      else (true, c)

/-- Host function `Animatable::EnumerateAllAnimatables`: `proc` is called on the animatables
in order until it returns `false`. -/
def EnumerateAllAnimatables
    (proc : DynPBCustAttrClassDesc → Option Nat → Bool × DynPBCustAttrClassDesc) :
    List (Option Nat) → DynPBCustAttrClassDesc → DynPBCustAttrClassDesc
  | [], c => c
  | a :: rest, c =>
    let r := proc c a
    if r.1 then EnumerateAllAnimatables proc rest r.2 else r.2

/-- Member `SetTakenId(UINT16 id)` (DynPBCustAttrClassDesc.cpp:251-273); `id + 1` is computed
in `int` and stored into the `UINT16` member. -/
def SetTakenId (c : DynPBCustAttrClassDesc) (id : Nat) : DynPBCustAttrClassDesc :=
  if c.m_freeBlockId ≤ id then { c with m_freeBlockId := (id + 1) % 65536 }
  else EnumerateAllAnimatables (FreeBlockIDEnum.proc id) c.scene c

/-- Host member `ClassDesc2::AddParamBlockDesc`: the pointer is appended to the list. -/
def AddParamBlockDesc (c : DynPBCustAttrClassDesc) (pbd : Nat) : DynPBCustAttrClassDesc :=
  { c with pbDescs := c.pbDescs ++ [pbd] }

/-- Host member `ClassDesc2::ClearParamBlockDescs`: the list is emptied. -/
def ClearParamBlockDescs (c : DynPBCustAttrClassDesc) : DynPBCustAttrClassDesc :=
  { c with pbDescs := [] }

/-- Member `CreatePBDesc(BlockID blockID)` (DynPBCustAttrClassDesc.cpp:281-303).  The host
constructor `ParamBlockDesc2(blockID, "DynamicPB", 0, this, flags, p_end)` makes a descriptor
without parameters and adds it to the list of its class descriptor.  The result is the new
pointer and the new state. -/
def CreatePBDesc (c : DynPBCustAttrClassDesc) (blockID : Int) : Nat × DynPBCustAttrClassDesc :=
  let r : Int × DynPBCustAttrClassDesc :=
    if blockID = -1 then ((toS16 (GetFreeParamBlockId c).1), (GetFreeParamBlockId c).2)
    else (blockID, SetTakenId c (toU16 blockID))
  let c1 := r.2
  let d : ParamBlockDesc2 :=
    { addr := c1.heapNext, ID := r.1, cd := c1.self, int_name := "DynamicPB", paramdefs := [] }
  (c1.heapNext,
   AddParamBlockDesc { c1 with heap := c1.heap ++ [d], heapNext := c1.heapNext + 1 } d.addr)

/-- The first loop of `ReleasePBDesc`: the pointers of the list other than `pbDesc`, in
order (`allPblockDescs`). -/
def collectOthers (pbDesc : Nat) : List Nat → List Nat
  | [] => []
  | pd :: rest => if pd ≠ pbDesc then pd :: collectOthers pbDesc rest
                  else collectOthers pbDesc rest

/-- The second loop of `ReleasePBDesc`: `AddParamBlockDesc` of each collected pointer. -/
def addAll : List Nat → DynPBCustAttrClassDesc → DynPBCustAttrClassDesc
  | [], c => c
  | pd :: rest, c => addAll rest (AddParamBlockDesc c pd)

/-- Member `ReleasePBDesc(pbDesc, doDelete)` (DynPBCustAttrClassDesc.cpp:305-352).  With
`doDelete` the descriptor is read (`pbDesc->Count()`) and deleted: that is a fault (`none`)
when no descriptor is allocated at `pbDesc`. -/
def ReleasePBDesc (c : DynPBCustAttrClassDesc) (pbDesc : Nat) (doDelete : Bool) :
    Option DynPBCustAttrClassDesc :=
  if pbDesc = 0 then some c
  else
    let allPblockDescs := collectOthers pbDesc c.pbDescs
    let c1 := addAll allPblockDescs (ClearParamBlockDescs c)
    if doDelete then
      match findDesc c1.heap pbDesc with
      | none => none
      | some _ =>
        some { c1 with heap := c1.heap.filter (fun d => d.addr ≠ pbDesc),
                       deleted := c1.deleted ++ [pbDesc] }
    else some c1

/-- Member `SetObsoletePBDesc` (DynPBCustAttrClassDesc.cpp:354-362). -/
def SetObsoletePBDesc (c : DynPBCustAttrClassDesc) (pbDesc : Nat) :
    Option DynPBCustAttrClassDesc :=
  ReleasePBDesc { c with m_dObsoleteDescs := c.m_dObsoleteDescs ++ [pbDesc] } pbDesc false

/-- The loop of `ReleaseObsoletePBDesc` over the queued pointers. -/
def releaseEach : List Nat → DynPBCustAttrClassDesc → Option DynPBCustAttrClassDesc
  | [], c => some c
  | pd :: rest, c =>
    match ReleasePBDesc c pd true with
    | none => none
    | some c1 => releaseEach rest c1

/-- Member `ReleaseObsoletePBDesc` (DynPBCustAttrClassDesc.cpp:364-373). -/
def ReleaseObsoletePBDesc (c : DynPBCustAttrClassDesc) : Option DynPBCustAttrClassDesc :=
  match releaseEach c.m_dObsoleteDescs c with
  | none => none
  | some c1 => some { c1 with m_dObsoleteDescs := [] }

/-- A class descriptor at address `self` before any use: the counter is `0`, both lists are
empty, nothing is allocated and the scene is empty. -/
def DynPBCustAttrClassDesc.new (self : Nat) : DynPBCustAttrClassDesc :=
  { self := self, m_freeBlockId := 0, m_dObsoleteDescs := [], pbDescs := [], heap := [],
    heapNext := 1, deleted := [], scene := [] }

/-- The client puts a parameter block with the descriptor at `a` into the scene. -/
def addBlock (c : DynPBCustAttrClassDesc) (a : Nat) : DynPBCustAttrClassDesc :=
  { c with scene := c.scene ++ [some a] }

/-- The ids of the allocated descriptors of this class, in allocation order. -/
def liveIds (c : DynPBCustAttrClassDesc) : List Int :=
  (c.heap.filter (fun d => d.cd = c.self)).map (fun d => d.ID)

/-! ### Serialization of the descriptors (`DynPBCustAttrClassDesc.cpp`) -/

/-- The host enumeration `IOResult`, as far as the code meets it. -/
inductive IOResult where
  | IO_OK
  | IO_END
  | IO_ERROR
deriving DecidableEq, Repr

/-- Chunk tag `PB_DESC_CHUNK`, the macro `1 << 1`. -/
def PB_DESC_CHUNK : Nat := 2

/-- Chunk tag `PB_DESC_HDR_CHUNK`, the macro `1 << 2`. -/
def PB_DESC_HDR_CHUNK : Nat := 4

/-- Chunk tag `PB_DESC_PARAM_CHUNK`, the macro `1 << 3`. -/
def PB_DESC_PARAM_CHUNK : Nat := 8

/-- What a chunk stream is made of: the opening of a chunk with a tag, one written value,
the end of a chunk. -/
inductive Token where
  | beginChunk (id : Nat)
  | data (v : Int)
  | endChunk
deriving DecidableEq, Repr

/-- The host stream `ISave`: `out` is what was written so far, `writes` the results that the
coming calls of `Write` return, one per call (`IO_OK` once the list is used up). -/
structure ISave where
  writes : List IOResult
  out : List Token
deriving DecidableEq, Repr

/-- Host member `ISave::BeginChunk`. -/
def ISave.BeginChunk (s : ISave) (id : Nat) : ISave :=
  { s with out := s.out ++ [Token.beginChunk id] }

/-- Host member `ISave::EndChunk`. -/
def ISave.EndChunk (s : ISave) : ISave :=
  { s with out := s.out ++ [Token.endChunk] }

/-- Host member `ISave::Write` of one value: the value reaches the stream when the call
returns `IO_OK`. -/
def ISave.Write (s : ISave) (v : Int) : IOResult × ISave :=
  match s.writes with
  | [] => (IOResult.IO_OK, { s with out := s.out ++ [Token.data v] })
  | r :: rest =>
    if r = IOResult.IO_OK then (r, { writes := rest, out := s.out ++ [Token.data v] })
    else (r, { writes := rest, out := s.out })

/-- Host member `ParamBlockDesc2::GetParamDef(id)`: the first parameter definition whose id
is `id`. -/
def GetParamDef (paramdefs : List ParamDef) (id : Int) : Option ParamDef :=
  paramdefs.find? (fun p => p.ID = id)

/-- The loop over the parameters in `Save` (DynPBCustAttrClassDesc.cpp:104-122): `js` are the
definitions at the indices still to visit, `all` the definitions of the descriptor. -/
def saveParams (all : List ParamDef) : List ParamDef → ISave → IOResult × ISave
  | [], s => (IOResult.IO_OK, s)
  | pj :: js, s =>
    let paramId := pj.ID
    let pdef := (GetParamDef all paramId).getD pj
    let s1 := s.BeginChunk PB_DESC_PARAM_CHUNK
    let w1 := s1.Write pdef.type
    if w1.1 ≠ IOResult.IO_OK then w1
    else
      let w2 := w1.2.Write pdef.ID
      if w2.1 ≠ IOResult.IO_OK then w2
      else saveParams all js w2.2.EndChunk

/-- The loop over the descriptors in `Save` (DynPBCustAttrClassDesc.cpp:80-125).  An entry of
the list that is null is passed over by `continue`; so is, in this embedding, an entry at
which no descriptor is allocated. -/
def saveDescs (heap : List ParamBlockDesc2) : List Nat → ISave → IOResult × ISave
  | [], s => (IOResult.IO_OK, s)
  | a :: rest, s =>
    match findDesc heap a with
    | none => saveDescs heap rest s
    | some pDesc =>
      let s1 := (s.BeginChunk PB_DESC_CHUNK).BeginChunk PB_DESC_HDR_CHUNK
      let w1 := s1.Write pDesc.ID
      if w1.1 ≠ IOResult.IO_OK then w1
      else
        let r := saveParams pDesc.paramdefs pDesc.paramdefs w1.2.EndChunk
        if r.1 ≠ IOResult.IO_OK then r
        else saveDescs heap rest r.2.EndChunk

/-- Member `Save(ISave*)` (DynPBCustAttrClassDesc.cpp:67-128). -/
def Save (c : DynPBCustAttrClassDesc) (isave : ISave) : IOResult × ISave :=
  saveDescs c.heap c.pbDescs isave

/-- The host stream `ILoad`: `toks` is the part of the stream not read yet, `ids` the tags
of the chunks that are open, the innermost first. -/
structure ILoad where
  toks : List Token
  ids : List Nat
deriving DecidableEq, Repr

/-- Host member `ILoad::OpenChunk`: `IO_OK` when a chunk begins at the reading position,
`IO_END` otherwise. -/
def ILoad.OpenChunk (l : ILoad) : IOResult × ILoad :=
  match l.toks with
  | Token.beginChunk id :: rest => (IOResult.IO_OK, { toks := rest, ids := id :: l.ids })
  | _ => (IOResult.IO_END, l)

/-- Host member `ILoad::CurChunkID`. -/
def ILoad.CurChunkID (l : ILoad) : Nat := l.ids.headD 0

/-- Host member `ILoad::Read` of one value: `IO_ERROR` when no value is at the reading
position. -/
def ILoad.Read (l : ILoad) : IOResult × Int × ILoad :=
  match l.toks with
  | Token.data v :: rest => (IOResult.IO_OK, v, { l with toks := rest })
  | _ => (IOResult.IO_ERROR, 0, l)

/-- The stream after the end of the chunk that is open, `depth` counting the chunks that
begin on the way. -/
def skipChunk : Nat → List Token → List Token
  | _, [] => []
  | depth, Token.endChunk :: rest =>
    match depth with
    | 0 => rest
    | d + 1 => skipChunk d rest
  | depth, Token.beginChunk _ :: rest => skipChunk (depth + 1) rest
  | depth, Token.data _ :: rest => skipChunk depth rest

/-- Host member `ILoad::CloseChunk`: the reading position moves behind the innermost open
chunk. -/
def ILoad.CloseChunk (l : ILoad) : ILoad :=
  { toks := skipChunk 0 l.toks, ids := l.ids.tail }

/-- Modelled from the spec: the helper `AddMaxParameter(pDesc, type, name)`, which no source
file contains.  The spec says parameters are re-added by type and receive an auto-assigned
id, and the caller treats `-1` as the rejection of the type.  `autoId` is that assignment:
the id given to a new parameter of a type in a descriptor with the given definitions, `-1`
for a rejected type.  A new definition is appended unless the type is rejected. -/
def AddMaxParameter (autoId : List ParamDef → Int → Int) (c : DynPBCustAttrClassDesc)
    (pDesc : Nat) (type : Int) (name : String) : Int × DynPBCustAttrClassDesc :=
  match findDesc c.heap pDesc with
  | none => (-1, c)
  | some d =>
    let tmpid := autoId d.paramdefs type
    if tmpid = -1 then (-1, c)
    else (tmpid, { c with heap := updateDesc c.heap pDesc (fun d =>
            { d with paramdefs := d.paramdefs ++ [{ ID := tmpid, type := type, int_name := name }] }) })

/-- The store `pDesc->GetParamDef(tmpid).ID = pid`: the first definition whose id is `tmpid`
receives the id `pid`. -/
def setParamID : List ParamDef → Int → Int → List ParamDef
  | [], _, _ => []
  | p :: rest, tmpid, pid =>
    if p.ID = tmpid then { p with ID := pid } :: rest else p :: setParamID rest tmpid pid

/-- The loop of `LoadParamBlockDesc2` (DynPBCustAttrClassDesc.cpp:137-193) with the local
`pDesc` as argument, and the test after it.  Every turn of the loop reads at least one token,
so `fuel` above the length of the stream is never used up. -/
def loadDescLoop (autoId : List ParamDef → Int → Int) :
    Nat → DynPBCustAttrClassDesc → ILoad → Nat → IOResult × DynPBCustAttrClassDesc × ILoad
  | 0, c, il, _ => (IOResult.IO_ERROR, c, il)
  | fuel + 1, c, il, pDesc =>
    let o := il.OpenChunk
    if o.1 = IOResult.IO_OK then
      let il1 := o.2
      if il1.CurChunkID = PB_DESC_HDR_CHUNK then
        if pDesc ≠ 0 then (IOResult.IO_ERROR, c, il1)
        else
          let rd := il1.Read
          if rd.1 ≠ IOResult.IO_OK then (rd.1, c, rd.2.2)
          else
            let cr := CreatePBDesc c rd.2.1
            loadDescLoop autoId fuel cr.2 rd.2.2.CloseChunk cr.1
      else if il1.CurChunkID = PB_DESC_PARAM_CHUNK then
        if pDesc = 0 then (IOResult.IO_ERROR, c, il1)
        else
          let rt := il1.Read
          if rt.1 ≠ IOResult.IO_OK then (rt.1, c, rt.2.2)
          else
            let rp := rt.2.2.Read
            if rp.1 ≠ IOResult.IO_OK then (rp.1, c, rp.2.2)
            else
              let am := AddMaxParameter autoId c pDesc rt.2.1 "TODO"
              if am.1 = -1 then (IOResult.IO_ERROR, am.2, rp.2.2.CloseChunk)
              else
                let c2 :=
                  if am.1 ≠ rp.2.1 then
                    { am.2 with heap := updateDesc am.2.heap pDesc (fun d =>
                        { d with paramdefs := setParamID d.paramdefs am.1 rp.2.1 }) }
                  else am.2
                loadDescLoop autoId fuel c2 rp.2.2.CloseChunk pDesc
      else loadDescLoop autoId fuel c il1.CloseChunk pDesc
    else if pDesc = 0 then (IOResult.IO_ERROR, c, o.2) else (IOResult.IO_OK, c, o.2)

/-- Member `LoadParamBlockDesc2(ILoad*)` (DynPBCustAttrClassDesc.cpp:131-200). -/
def LoadParamBlockDesc2 (autoId : List ParamDef → Int → Int) (c : DynPBCustAttrClassDesc)
    (il : ILoad) : IOResult × DynPBCustAttrClassDesc × ILoad :=
  loadDescLoop autoId (il.toks.length + 1) c il 0

/-- One turn of the loop of `Load` (DynPBCustAttrClassDesc.cpp:50-61) after `OpenChunk`
returned `IO_OK` with the stream `il1`: the `switch`, then `CloseChunk`. -/
def loadTurn (autoId : List ParamDef → Int → Int) (c : DynPBCustAttrClassDesc) (il1 : ILoad) :
    IOResult × DynPBCustAttrClassDesc × ILoad :=
  let r : IOResult × DynPBCustAttrClassDesc × ILoad :=
    if il1.CurChunkID = PB_DESC_CHUNK then LoadParamBlockDesc2 autoId c il1
    else (IOResult.IO_OK, c, il1)
  (r.1, r.2.1, r.2.2.CloseChunk)

/-- The loop of `Load` (DynPBCustAttrClassDesc.cpp:50-63).  Every turn reads at least one
token, so `fuel` above the length of the stream is never used up. -/
def loadLoop (autoId : List ParamDef → Int → Int) :
    Nat → DynPBCustAttrClassDesc → ILoad → IOResult × DynPBCustAttrClassDesc × ILoad
  | 0, c, il => (IOResult.IO_ERROR, c, il)
  | fuel + 1, c, il =>
    let o := il.OpenChunk
    if o.1 = IOResult.IO_OK then
      let t := loadTurn autoId c o.2
      if t.1 ≠ IOResult.IO_OK then t
      else loadLoop autoId fuel t.2.1 t.2.2
    else (IOResult.IO_OK, c, o.2)

/-- Member `Load(ILoad*)` (DynPBCustAttrClassDesc.cpp:47-64). -/
def Load (autoId : List ParamDef → Int → Int) (c : DynPBCustAttrClassDesc) (il : ILoad) :
    IOResult × DynPBCustAttrClassDesc × ILoad :=
  loadLoop autoId (il.toks.length + 1) c il

/-- What `Save` persists of a descriptor: its id and, per parameter, type and id. -/
def descKey (d : ParamBlockDesc2) : Int × List (Int × Int) :=
  (d.ID, d.paramdefs.map (fun p => (p.type, p.ID)))

/-- The descriptors of the active list that are allocated, in list order. -/
def activeDescs (c : DynPBCustAttrClassDesc) : List ParamBlockDesc2 :=
  c.pbDescs.filterMap (findDesc c.heap)

/-- An id assignment for the examples: one more than the sum of the absolute values of the
ids in use, whatever the type. -/
def sampleAutoId (paramdefs : List ParamDef) (_type : Int) : Int :=
  (((paramdefs.map (fun p => p.ID.natAbs)).sum + 1 : Nat) : Int)

/-- An id assignment for the examples that numbers the parameters by position: the id of a
new parameter is the number of parameters the descriptor has. -/
def positionAutoId (paramdefs : List ParamDef) (_type : Int) : Int :=
  (paramdefs.length : Int)

/-- A class descriptor for the examples with one live descriptor, whose two parameters have
the ids `1` and `0`, in this order. -/
def DynPBCustAttrClassDesc.descending : DynPBCustAttrClassDesc :=
  { DynPBCustAttrClassDesc.new 100 with
    m_freeBlockId := 8, pbDescs := [1], heapNext := 2,
    heap :=
      [{ addr := 1, ID := 7, cd := 100, int_name := "DynamicPB",
         paramdefs := [{ ID := 1, type := 1, int_name := "x" },
                       { ID := 0, type := 2, int_name := "y" }] }] }

/-- A class descriptor for the examples with one live descriptor, whose two parameters, of
the types `1` and `2`, both have the id `3`. -/
def DynPBCustAttrClassDesc.repeated : DynPBCustAttrClassDesc :=
  { DynPBCustAttrClassDesc.new 100 with
    m_freeBlockId := 8, pbDescs := [1], heapNext := 2,
    heap :=
      [{ addr := 1, ID := 7, cd := 100, int_name := "DynamicPB",
         paramdefs := [{ ID := 3, type := 1, int_name := "x" },
                       { ID := 3, type := 2, int_name := "y" }] }] }

/-- A call on the class descriptor: `CreatePBDesc(blockID)`, `SetTakenId(id)`, or the client
putting a parameter block with the descriptor at `a` into the scene. -/
inductive DescCall where
  | create (blockID : Int)
  | setTaken (id : Nat)
  | block (a : Nat)
deriving DecidableEq, Repr

/-- One call of `DescCall`. -/
def runDescCall (c : DynPBCustAttrClassDesc) : DescCall → DynPBCustAttrClassDesc
  | .create blockID => (CreatePBDesc c blockID).2
  | .setTaken id => SetTakenId c id
  | .block a => addBlock c a

/-- A sequence of calls, left to right. -/
def runDescCalls : DynPBCustAttrClassDesc → List DescCall → DynPBCustAttrClassDesc
  | c, [] => c
  | c, x :: xs => runDescCalls (runDescCall c x) xs

/-- The tokens `Save` writes for one parameter. -/
def paramToks (p : ParamDef) : List Token :=
  [Token.beginChunk PB_DESC_PARAM_CHUNK, Token.data p.type, Token.data p.ID, Token.endChunk]

/-- The tokens `Save` writes for one descriptor whose parameter ids are pairwise distinct. -/
def descToks (d : ParamBlockDesc2) : List Token :=
  [Token.beginChunk PB_DESC_CHUNK, Token.beginChunk PB_DESC_HDR_CHUNK, Token.data d.ID,
   Token.endChunk] ++ (d.paramdefs.map paramToks).flatten ++ [Token.endChunk]

/-- A class descriptor with two live descriptors for the examples: the one at address `1`
has the id `7` and two parameters whose ids are not in increasing order, the one at address
`2` has the id `4` and no parameter. -/
def DynPBCustAttrClassDesc.sample : DynPBCustAttrClassDesc :=
  { DynPBCustAttrClassDesc.new 100 with
    m_freeBlockId := 8, pbDescs := [1, 2], heapNext := 3,
    heap :=
      [{ addr := 1, ID := 7, cd := 100, int_name := "DynamicPB",
         paramdefs := [{ ID := 3, type := 1, int_name := "x" },
                       { ID := 0, type := 2, int_name := "y" }] },
       { addr := 2, ID := 4, cd := 100, int_name := "DynamicPB", paramdefs := [] }] }

/-- The parameter definition that loading the saved definition `p` leaves: the saved type
and id, and the name the code passes. -/
def loadedParam (p : ParamDef) : ParamDef :=
  { ID := p.ID, type := p.type, int_name := "TODO" }

/-- The descriptor `d` with the loaded forms of the saved definitions `ps` appended. -/
def appendParams (d : ParamBlockDesc2) (ps : List ParamDef) : ParamBlockDesc2 :=
  { d with paramdefs := d.paramdefs ++ ps.map loadedParam }

/-- The descriptor that loading the saved descriptor `d` makes at the address `addr` for the
class descriptor at `self`: the saved id and, per saved parameter, type and id. -/
def loadedDesc (self addr : Nat) (d : ParamBlockDesc2) : ParamBlockDesc2 :=
  appendParams
    { addr := addr, ID := d.ID, cd := self, int_name := "DynamicPB", paramdefs := [] }
    d.paramdefs

/-- The state after the chunk of the saved descriptor `d` was loaded into a class descriptor
without live descriptors. -/
def loadOne (c : DynPBCustAttrClassDesc) (d : ParamBlockDesc2) : DynPBCustAttrClassDesc :=
  { c with
    m_freeBlockId :=
      if c.m_freeBlockId ≤ toU16 d.ID then (toU16 d.ID + 1) % 65536 else c.m_freeBlockId,
    pbDescs := c.pbDescs ++ [c.heapNext],
    heap := c.heap ++ [loadedDesc c.self c.heapNext d],
    heapNext := c.heapNext + 1 }

/-- No live descriptor of this class: the active list is empty, the next allocation is not
null, every allocated descriptor belongs to another class and lies below the next allocation,
and the descriptor of every parameter block of the scene lies below the next allocation. -/
def noLiveDescs (c : DynPBCustAttrClassDesc) : Bool :=
  c.pbDescs.isEmpty
    && decide (c.heapNext ≠ 0)
    && c.heap.all (fun d => decide (d.addr < c.heapNext) && decide (d.cd ≠ c.self))
    && c.scene.all (fun x => match x with
        | some a => decide (a < c.heapNext)
        | none => true)

/-! ### Descriptor-swap undo record (`DynPBUndo.cpp`) -/

/-- The fields of `DynPBUndo`.  `m_pDynPBClassDesc` is `0` when the `dynamic_cast` of the
constructor fails, and the address of the class descriptor otherwise. -/
structure DynPBUndo where
  m_pFabricClient : Nat
  m_pbOldDesc : Nat
  m_pDynPBClassDesc : Nat
  m_pbNewDesc : Nat
  m_isHeld : Bool
deriving DecidableEq, Repr

/-- Constructor `DynPBUndo(pbdesc, pDynPB)` (DynPBUndo.cpp:11-29).  `pbdesc->cd` is read, a
fault (`none`) when no descriptor is allocated at `pbdesc`; the `dynamic_cast` succeeds when
that class descriptor is this one. -/
def DynPBUndo.construct (c : DynPBCustAttrClassDesc) (pbdesc : Nat) (pDynPB : Nat) :
    Option (DynPBCustAttrClassDesc × DynPBUndo) :=
  match findDesc c.heap pbdesc with
  | none => none
  | some d =>
    let u : DynPBUndo :=
      { m_pFabricClient := pDynPB, m_pbOldDesc := pbdesc,
        m_pDynPBClassDesc := if d.cd = c.self then c.self else 0,
        m_pbNewDesc := 0, m_isHeld := true }
    if u.m_pDynPBClassDesc ≠ 0 then
      match ReleasePBDesc c u.m_pbOldDesc false with
      | none => none
      | some c1 => some (c1, u)
    else some (c, u)

/-- Destructor `~DynPBUndo` (DynPBUndo.cpp:31-53). -/
def DynPBUndo.destroy (c : DynPBCustAttrClassDesc) (u : DynPBUndo) :
    Option DynPBCustAttrClassDesc :=
  if u.m_pDynPBClassDesc = 0 then some c
  else if u.m_isHeld then ReleasePBDesc c u.m_pbOldDesc true
  else SetObsoletePBDesc c u.m_pbNewDesc

/-- Member `DynPBUndo::Restore(isUndo)` (DynPBUndo.cpp:55-76); the `DbgAssert` is compiled
out of release builds. -/
def DynPBUndo.Restore (c : DynPBCustAttrClassDesc) (u : DynPBUndo) (isUndo : Int) :
    Option (DynPBCustAttrClassDesc × DynPBUndo) :=
  if u.m_pDynPBClassDesc = 0 then some (c, u)
  else
    let u1 := { u with m_isHeld := false }
    let c1 := AddParamBlockDesc c u1.m_pbOldDesc
    if isUndo ≠ 0 ∧ u1.m_pbNewDesc ≠ 0 then
      match ReleasePBDesc c1 u1.m_pbNewDesc false with
      | none => none
      | some c2 => some (c2, u1)
    else some (c1, u1)

/-- Member `DynPBUndo::Redo` (DynPBUndo.cpp:78-90).  There is no test of the class
descriptor pointer here: the call through a null pointer is a fault (`none`). -/
def DynPBUndo.Redo (c : DynPBCustAttrClassDesc) (u : DynPBUndo) :
    Option (DynPBCustAttrClassDesc × DynPBUndo) :=
  let u1 := { u with m_isHeld := true }
  if u1.m_pDynPBClassDesc = 0 then none
  else
    match ReleasePBDesc c u1.m_pbOldDesc false with
    | none => none
    | some c1 => some (AddParamBlockDesc c1 u1.m_pbNewDesc, u1)

/-- Member `DynPBUndo::EndHold` (DynPBUndo.cpp:92-101).  `newPB` is what
`m_pFabricClient->GetParamBlock(0)` returns: `none` for `NULL`, `some a` for a block whose
descriptor is at `a`.  The `DbgAssert` is compiled out of release builds. -/
def DynPBUndo.EndHold (u : DynPBUndo) (newPB : Option Nat) : DynPBUndo :=
  match newPB with
  | some a => { u with m_pbNewDesc := a }
  | none => u

/-- A record for the examples: it holds the descriptor at address `1` of the class descriptor
at address `100` and has not captured a new descriptor. -/
def DynPBUndo.sample : DynPBUndo :=
  { m_pFabricClient := 50, m_pbOldDesc := 1, m_pDynPBClassDesc := 100, m_pbNewDesc := 0,
    m_isHeld := true }

/-! ### A descriptor chunk as a list of sub-chunks -/

/-- The number of open chunks after the tokens, starting with `depth` open chunks; `none`
when a chunk ends that was not open. -/
def nesting : Nat → List Token → Option Nat
  | depth, [] => some depth
  | depth, Token.beginChunk _ :: rest => nesting (depth + 1) rest
  | depth, Token.data _ :: rest => nesting depth rest
  | depth, Token.endChunk :: rest =>
    match depth with
    | 0 => none
    | d + 1 => nesting d rest

/-- A sub-chunk of a descriptor chunk whose reads succeed: a header sub-chunk begins with the
id, a parameter sub-chunk with the type and the id; `extra` is what follows in the sub-chunk.
Any other sub-chunk has its tag and its content. -/
inductive SubChunk where
  | header (id : Int) (extra : List Token)
  | param (type : Int) (pid : Int) (extra : List Token)
  | other (tag : Nat) (body : List Token)
deriving DecidableEq, Repr

/-- The tokens of a sub-chunk. -/
def SubChunk.toks : SubChunk → List Token
  | .header id extra =>
    Token.beginChunk PB_DESC_HDR_CHUNK :: Token.data id :: (extra ++ [Token.endChunk])
  | .param type pid extra =>
    Token.beginChunk PB_DESC_PARAM_CHUNK :: Token.data type :: Token.data pid
      :: (extra ++ [Token.endChunk])
  | .other tag body => Token.beginChunk tag :: (body ++ [Token.endChunk])

/-- The content of the sub-chunk ends every chunk it begins and no other, and a sub-chunk
given as `other` has neither the header tag nor the parameter tag. -/
def SubChunk.wellFormed : SubChunk → Bool
  | .header _ extra => decide (nesting 0 extra = some 0)
  | .param _ _ extra => decide (nesting 0 extra = some 0)
  | .other tag body =>
    decide (tag ≠ PB_DESC_HDR_CHUNK) && decide (tag ≠ PB_DESC_PARAM_CHUNK)
      && decide (nesting 0 body = some 0)

/-- The tokens of a descriptor chunk after its opening: the sub-chunks, then the end of the
chunk. -/
def chunkToks (subs : List SubChunk) : List Token :=
  (subs.map SubChunk.toks).flatten ++ [Token.endChunk]

/-- The sub-chunk is a header sub-chunk. -/
def SubChunk.isHeader : SubChunk → Bool
  | .header _ _ => true
  | _ => false

/-- The sub-chunk is a parameter sub-chunk. -/
def SubChunk.isParam : SubChunk → Bool
  | .param _ _ _ => true
  | _ => false

/-- The sub-chunk is a parameter sub-chunk whose type is rejected. -/
def SubChunk.isRejected (rejects : Int → Bool) : SubChunk → Bool
  | .param type _ _ => rejects type
  | _ => false

/-- The chunk contains a second header sub-chunk. -/
def secondHeader (subs : List SubChunk) : Bool :=
  decide (2 ≤ (subs.filter SubChunk.isHeader).length)

/-- The chunk contains a parameter sub-chunk before the first header sub-chunk, or without
one. -/
def paramBeforeHeader (subs : List SubChunk) : Bool :=
  (subs.takeWhile (fun s => !s.isHeader)).any SubChunk.isParam

/-- The chunk contains a parameter sub-chunk whose type is rejected. -/
def rejectedParam (rejects : Int → Bool) (subs : List SubChunk) : Bool :=
  subs.any (SubChunk.isRejected rejects)

/-- The chunk contains no header sub-chunk. -/
def noHeader (subs : List SubChunk) : Bool :=
  !subs.any SubChunk.isHeader

/-- One of the four conditions holds. -/
def chunkRejected (rejects : Int → Bool) (subs : List SubChunk) : Bool :=
  secondHeader subs || paramBeforeHeader subs || rejectedParam rejects subs || noHeader subs

/-- The id of the first header sub-chunk. -/
def headerId : List SubChunk → Option Int
  | [] => none
  | .header id _ :: _ => some id
  | _ :: rest => headerId rest

/-- The types of the parameter sub-chunks, in stream order. -/
def paramTypes : List SubChunk → List Int
  | [] => []
  | .param type _ _ :: rest => type :: paramTypes rest
  | _ :: rest => paramTypes rest

/-- The loop of `LoadParamBlockDesc2` (DynPBCustAttrClassDesc.cpp:137-199) on the sub-chunks
of a chunk whose reads succeed, without the stream: the result and the state. -/
def loadSubs (autoId : List ParamDef → Int → Int) :
    DynPBCustAttrClassDesc → Nat → List SubChunk → IOResult × DynPBCustAttrClassDesc
  | c, pDesc, [] => (if pDesc = 0 then IOResult.IO_ERROR else IOResult.IO_OK, c)
  | c, pDesc, .header id _ :: rest =>
    if pDesc ≠ 0 then (IOResult.IO_ERROR, c)
    else loadSubs autoId (CreatePBDesc c id).2 (CreatePBDesc c id).1 rest
  | c, pDesc, .param type pid _ :: rest =>
    if pDesc = 0 then (IOResult.IO_ERROR, c)
    else
      let am := AddMaxParameter autoId c pDesc type "TODO"
      if am.1 = -1 then (IOResult.IO_ERROR, am.2)
      else
        let c2 :=
          if am.1 ≠ pid then
            { am.2 with heap := updateDesc am.2.heap pDesc (fun d =>
                { d with paramdefs := setParamID d.paramdefs am.1 pid }) }
          else am.2
        loadSubs autoId c2 pDesc rest
  | c, pDesc, .other _ _ :: rest => loadSubs autoId c pDesc rest

/-- The descriptor `d` after a parameter sub-chunk with the type `type`, accepted, and the id
`pid`: the definition `AddMaxParameter` appends, then the store of `pid`. -/
def paramStep (autoId : List ParamDef → Int → Int) (d : ParamBlockDesc2) (type pid : Int) :
    ParamBlockDesc2 :=
  let tmpid := autoId d.paramdefs type
  let d1 : ParamBlockDesc2 :=
    { d with paramdefs := d.paramdefs ++ [{ ID := tmpid, type := type, int_name := "TODO" }] }
  if tmpid ≠ pid then { d1 with paramdefs := setParamID d1.paramdefs tmpid pid } else d1

/-- An id assignment for the examples that rejects the type `99`. -/
def pickyAutoId (paramdefs : List ParamDef) (type : Int) : Int :=
  if type = 99 then -1 else sampleAutoId paramdefs type

/-- A chunk for the examples: a sub-chunk with another tag, the header with the id `6`, a
parameter of type `1` with the id `3` followed by a nested chunk, and a parameter of type
`2` with the id `0`. -/
def sampleSubs : List SubChunk :=
  [SubChunk.other 16 [Token.data 5],
   SubChunk.header 6 [],
   SubChunk.param 1 3 [Token.beginChunk 32, Token.data 1, Token.endChunk],
   SubChunk.param 2 0 []]

/-- The stream right after the opening of a descriptor chunk with the sub-chunks `subs`:
`rest` follows the chunk, `ids` are the tags of the open chunks. -/
def chunkStream (subs : List SubChunk) (rest : List Token) (ids : List Nat) : ILoad :=
  { toks := chunkToks subs ++ rest, ids := ids }

/-! ## Theorems -/

/-! ### Held-pointer registry -/

theorem IsPointerHeld_iff_mem (l : PointerList) (p : Nat) :
    IsPointerHeld l p = true ↔ p ∈ l := by
  induction l with
  | nil => simp [IsPointerHeld]
  | cons x rest ih =>
    by_cases h : x = p
    · simp [IsPointerHeld, h]
    · have h2 : ¬ p = x := fun e => h e.symm
      simp [IsPointerHeld, h, h2, ih]

theorem mem_listRemove {α : Type} [DecidableEq α] (l : List α) (v x : α) :
    x ∈ listRemove l v ↔ x ∈ l ∧ x ≠ v := by
  induction l with
  | nil => simp [listRemove]
  | cons y rest ih =>
    by_cases h : y = v
    · subst h
      simp only [listRemove, if_true, ih, List.mem_cons]
      constructor
      · rintro ⟨h1, h2⟩; exact ⟨Or.inr h1, h2⟩
      · rintro ⟨h1 | h1, h2⟩
        · exact absurd h1 h2
        · exact ⟨h1, h2⟩
    · simp only [listRemove, if_neg h, ih, List.mem_cons]
      constructor
      · rintro (h1 | ⟨h1, h2⟩)
        · subst h1; exact ⟨Or.inl rfl, h⟩
        · exact ⟨Or.inr h1, h2⟩
      · rintro ⟨h1 | h1, h2⟩
        · exact Or.inl h1
        · exact Or.inr ⟨h1, h2⟩

theorem IsPointerHeld_listRemove_self (l : PointerList) (p : Nat) :
    IsPointerHeld (listRemove l p) p = false := by
  cases h : IsPointerHeld (listRemove l p) p with
  | false => rfl
  | true =>
    have := (mem_listRemove l p p).1 ((IsPointerHeld_iff_mem _ _).1 h)
    exact absurd rfl this.2

/-- C17: in every registry state and for every address `a`, `SetPointerHeld(a)` followed at
once by `EndPointerHold(a)` leaves `IsPointerHeld(a)` false. -/
theorem SetPointerHeld_then_EndPointerHold_not_held (theList : PointerList) (a : Nat) :
    IsPointerHeld (EndPointerHold (SetPointerHeld theList a) a) a = false := by
  unfold EndPointerHold
  exact IsPointerHeld_listRemove_self _ _

theorem IsPointerHeld_append_self (l : PointerList) (p : Nat) :
    IsPointerHeld (l ++ [p]) p = true := by
  rw [IsPointerHeld_iff_mem]; simp

/-- C18: calling `SetPointerHeld(a)` twice in a row yields exactly the registry produced by a
single call, and `SetPointerHeld(NULL)` leaves the registry unchanged. -/
theorem SetPointerHeld_twice_eq_once (theList : PointerList) (a : Nat) :
    SetPointerHeld (SetPointerHeld theList a) a = SetPointerHeld theList a
      ∧ SetPointerHeld theList 0 = theList := by
  constructor
  · by_cases h : (IsPointerHeld theList a || a == 0) = true
    · have e : SetPointerHeld theList a = theList := by
        unfold SetPointerHeld; rw [if_pos h]
      rw [e, e]
    · have e : SetPointerHeld theList a = theList ++ [a] := by
        unfold SetPointerHeld; rw [if_neg h]
      rw [e]
      unfold SetPointerHeld
      rw [IsPointerHeld_append_self]
      simp
  · unfold SetPointerHeld; simp

/-! ### Held (array, index) registry -/

theorem indexHeld_iff_mem (l : List Int) (i : Int) : indexHeld l i = true ↔ i ∈ l := by
  induction l with
  | nil => simp [indexHeld]
  | cons x rest ih =>
    by_cases h : x = i
    · simp [indexHeld, h]
    · have h2 : ¬ i = x := fun e => h e.symm
      simp [indexHeld, h, h2, ih]

theorem mapFind_mapAssign_self (m : TabMap) (p : Nat) (l0 l : List Int)
    (h : mapFind m p = some l0) : mapFind (mapAssign m p l) p = some l := by
  induction m with
  | nil => simp [mapFind] at h
  | cons e rest ih =>
    obtain ⟨k, lk⟩ := e
    by_cases hk : k = p
    · simp [mapAssign, mapFind, hk]
    · simp only [mapFind, if_neg hk] at h
      simp [mapAssign, mapFind, hk, ih h]

theorem mapFind_mapAssign_other (m : TabMap) (p q : Nat) (l : List Int) (hq : q ≠ p) :
    mapFind (mapAssign m p l) q = mapFind m q := by
  induction m with
  | nil => simp [mapAssign]
  | cons e rest ih =>
    obtain ⟨k, lk⟩ := e
    by_cases hk : k = p
    · have hkq : ¬ k = q := fun e => hq (e.symm.trans hk)
      simp only [mapAssign, if_pos hk, mapFind, if_neg hkq]
    · by_cases hkq : k = q
      · simp only [mapAssign, if_neg hk, mapFind, if_pos hkq]
      · simp only [mapAssign, if_neg hk, mapFind, if_neg hkq, ih]

theorem mapFind_none_of_lt (m : TabMap) (p : Nat)
    (h : ∀ k ∈ m.map Prod.fst, p < k) : mapFind m p = none := by
  induction m with
  | nil => rfl
  | cons e rest ih =>
    obtain ⟨k, lk⟩ := e
    have hk : p < k := h k (by simp)
    have hne : ¬ k = p := by omega
    simp only [mapFind, if_neg hne]
    exact ih (fun k2 hk2 => h k2 (by simp at hk2 ⊢; exact Or.inr hk2))

theorem mapFind_mapErase_self (m : TabMap) (p : Nat) (hord : TabMapOrdered m) :
    mapFind (mapErase m p) p = none := by
  induction m with
  | nil => rfl
  | cons e rest ih =>
    obtain ⟨k, lk⟩ := e
    have hcons : (∀ k2 ∈ rest.map Prod.fst, k < k2) ∧ TabMapOrdered rest := by
      unfold TabMapOrdered at hord ⊢
      simpa [List.pairwise_cons] using hord
    by_cases hk : k = p
    · simp only [mapErase, if_pos hk]
      exact mapFind_none_of_lt rest p (fun k2 hk2 => hk ▸ hcons.1 k2 hk2)
    · simp only [mapErase, if_neg hk, mapFind]
      exact ih hcons.2

theorem mapFind_mapErase_other (m : TabMap) (p q : Nat) (hq : q ≠ p) :
    mapFind (mapErase m p) q = mapFind m q := by
  induction m with
  | nil => rfl
  | cons e rest ih =>
    obtain ⟨k, lk⟩ := e
    by_cases hk : k = p
    · have hkq : ¬ k = q := fun e => hq (e.symm.trans hk)
      simp only [mapErase, if_pos hk, mapFind, if_neg hkq]
    · by_cases hkq : k = q
      · simp only [mapErase, if_neg hk, mapFind, if_pos hkq]
      · simp only [mapErase, if_neg hk, mapFind, if_neg hkq, ih]

theorem mapAssign_keys (m : TabMap) (p : Nat) (l : List Int) :
    (mapAssign m p l).map Prod.fst = m.map Prod.fst := by
  induction m with
  | nil => rfl
  | cons e rest ih =>
    obtain ⟨k, lk⟩ := e
    by_cases hk : k = p
    · simp [mapAssign, hk]
    · simp [mapAssign, hk, ih]

theorem IsTabPointerHeld_iff (m : TabMap) (p : Nat) (i : Int) :
    IsTabPointerHeld m p i = true ↔ ∃ l, mapFind m p = some l ∧ i ∈ l := by
  unfold IsTabPointerHeld
  cases h : mapFind m p with
  | none => simp
  | some l => simp [indexHeld_iff_mem]

/-- C19, as stated, fails: with the pair `(1, 5)` already held, `SetTabPointerHeld(1, 5)`
appends a second `5` to the index list of address `1`, so the map is not left unchanged. -/
theorem SetTabPointerHeld_held_changes_map :
    TabMapOrdered [(1, [5])] ∧ IsTabPointerHeld [(1, [5])] 1 5 = true
      ∧ SetTabPointerHeld [(1, [5])] 1 5 = [(1, [5, 5])]
      ∧ SetTabPointerHeld [(1, [5])] 1 5 ≠ [(1, [5])] := by
  refine ⟨by decide, by decide, by decide, by decide⟩

/-- C19 (amended): for every map, `SetTabPointerHeld(NULL, i)` leaves the map unchanged;
`SetTabPointerHeld(p, i)` on a pair that is already held leaves the key set and the held
status of every pair unchanged, and for a non-null `p` appends one more copy of `i` to the
index list of `p`. -/
theorem SetTabPointerHeld_null_and_held (theMap : TabMap) (p : Nat) (i : Int) :
    SetTabPointerHeld theMap 0 i = theMap
      ∧ (IsTabPointerHeld theMap p i = true →
          (SetTabPointerHeld theMap p i).map Prod.fst = theMap.map Prod.fst
            ∧ (∀ q j, IsTabPointerHeld (SetTabPointerHeld theMap p i) q j
                = IsTabPointerHeld theMap q j)
            ∧ (p ≠ 0 → ∃ l, mapFind theMap p = some l
                ∧ mapFind (SetTabPointerHeld theMap p i) p = some (l ++ [i]))) := by
  have hnull : SetTabPointerHeld theMap 0 i = theMap := by simp [SetTabPointerHeld]
  refine ⟨hnull, fun hheld => ?_⟩
  obtain ⟨l, hl, hil⟩ := (IsTabPointerHeld_iff theMap p i).1 hheld
  by_cases hp : p = 0
  · subst hp
    rw [hnull]
    exact ⟨rfl, fun _ _ => rfl, fun h => absurd rfl h⟩
  · have hset : SetTabPointerHeld theMap p i = mapAssign theMap p (l ++ [i]) := by
      simp [SetTabPointerHeld, hp, hl]
    refine ⟨?_, ?_, ?_⟩
    · rw [hset, mapAssign_keys]
    · intro q j
      rw [hset]
      by_cases hq : q = p
      · subst hq
        unfold IsTabPointerHeld
        rw [mapFind_mapAssign_self theMap q l _ hl, hl]
        rw [Bool.eq_iff_iff, indexHeld_iff_mem, indexHeld_iff_mem]
        simp only [List.mem_append, List.mem_singleton]
        constructor
        · rintro (h | h)
          · exact h
          · rw [h]; exact hil
        · intro h; exact Or.inl h
      · unfold IsTabPointerHeld
        rw [mapFind_mapAssign_other theMap p q _ hq]
    · intro _
      exact ⟨l, hl, by rw [hset]; exact mapFind_mapAssign_self theMap p l _ hl⟩

/-- Witness for `SetTabPointerHeld_null_and_held`: the null pointer on the empty map, and the
pair `(1, 5)` on the map that holds it. -/
theorem SetTabPointerHeld_null_and_held_witness :
    SetTabPointerHeld [] 0 5 = []
      ∧ IsTabPointerHeld [(1, [5])] 1 5 = true
      ∧ (∀ q j, IsTabPointerHeld (SetTabPointerHeld [(1, [5])] 1 5) q j
            = IsTabPointerHeld [(1, [5])] q j) :=
  ⟨(SetTabPointerHeld_null_and_held [] 1 5).1, by decide,
    ((SetTabPointerHeld_null_and_held [(1, [5])] 1 5).2 (by decide)).2.1⟩

theorem indexHeld_listRemove_other (l : List Int) (i j : Int) (h : j ≠ i) :
    indexHeld (listRemove l i) j = indexHeld l j := by
  rw [Bool.eq_iff_iff, indexHeld_iff_mem, indexHeld_iff_mem, mem_listRemove]
  exact ⟨fun h1 => h1.1, fun h1 => ⟨h1, h⟩⟩

theorem exists_ne_of_nodup_length (l : List Int) (i : Int) (hn : l.Nodup) (hi : i ∈ l)
    (hlen : l.length ≠ 1) : ∃ j, j ∈ l ∧ j ≠ i := by
  match l, hn, hi, hlen with
  | [a], _, _, hlen => exact absurd rfl hlen
  | a :: b :: rest, hn, _, _ =>
    have hab : a ≠ b := by
      intro e
      rw [List.nodup_cons] at hn
      exact hn.1 (by simp [e])
    by_cases ha : a = i
    · exact ⟨b, by simp, fun e => hab (ha.trans e.symm)⟩
    · exact ⟨a, by simp, ha⟩

/-- C20: in a registry state whose index lists are free of duplicates and in which `(p, i)` is
held, `EndTabPointerHold(p, i)` returns, leaves `(p, i)` not held, leaves the held status of
every other pair as it was, erases the entry of `p` when `i` was its only held index, and never
leaves `p` mapped to an empty list (nor creates an empty list for any other address). -/
theorem EndTabPointerHold_releases_pair (theMap : TabMap) (p : Nat) (i : Int)
    (hord : TabMapOrdered theMap)
    (hnodup : ∀ q l, mapFind theMap q = some l → l.Nodup)
    (hheld : IsTabPointerHeld theMap p i = true) :
    ∃ after, EndTabPointerHold theMap p i = some after
      ∧ IsTabPointerHeld after p i = false
      ∧ (∀ q j, ¬ (q = p ∧ j = i) → IsTabPointerHeld after q j = IsTabPointerHeld theMap q j)
      ∧ ((∀ j, IsTabPointerHeld theMap p j = true → j = i) → mapFind after p = none)
      ∧ mapFind after p ≠ some []
      ∧ ((∀ q, mapFind theMap q ≠ some []) → ∀ q, mapFind after q ≠ some []) := by
  obtain ⟨l, hl, hil⟩ := (IsTabPointerHeld_iff theMap p i).1 hheld
  have hln : l.Nodup := hnodup p l hl
  by_cases hlen : l.length = 1
  · have hend : EndTabPointerHold theMap p i = some (mapErase theMap p) := by
      simp [EndTabPointerHold, hl, hlen]
    have hself : mapFind (mapErase theMap p) p = none := mapFind_mapErase_self theMap p hord
    have hli : l = [i] := by
      match l, hlen, hil with
      | [a], _, hil => simp at hil; rw [hil]
    refine ⟨_, hend, ?_, ?_, ?_, ?_, ?_⟩
    · simp [IsTabPointerHeld, hself]
    · intro q j hqj
      by_cases hq : q = p
      · subst hq
        have hj : j ≠ i := fun e => hqj ⟨rfl, e⟩
        have hj2 : ¬ i = j := fun e => hj e.symm
        simp [IsTabPointerHeld, hself, hl, hli, indexHeld, hj2]
      · unfold IsTabPointerHeld
        rw [mapFind_mapErase_other theMap p q hq]
    · intro _; exact hself
    · rw [hself]; simp
    · intro hne q
      by_cases hq : q = p
      · subst hq; rw [hself]; simp
      · rw [mapFind_mapErase_other theMap p q hq]; exact hne q
  · have hend : EndTabPointerHold theMap p i = some (mapAssign theMap p (listRemove l i)) := by
      simp [EndTabPointerHold, hl, hlen]
    have hself : mapFind (mapAssign theMap p (listRemove l i)) p = some (listRemove l i) :=
      mapFind_mapAssign_self theMap p l _ hl
    obtain ⟨j0, hj0, hj0i⟩ := exists_ne_of_nodup_length l i hln hil hlen
    have hj0r : j0 ∈ listRemove l i := (mem_listRemove l i j0).2 ⟨hj0, hj0i⟩
    have hnonempty : listRemove l i ≠ [] := by
      intro e; rw [e] at hj0r; simp at hj0r
    refine ⟨_, hend, ?_, ?_, ?_, ?_, ?_⟩
    · unfold IsTabPointerHeld
      rw [hself]
      show indexHeld (listRemove l i) i = false
      cases h : indexHeld (listRemove l i) i with
      | false => rfl
      | true =>
        have := (mem_listRemove l i i).1 ((indexHeld_iff_mem _ _).1 h)
        exact absurd rfl this.2
    · intro q j hqj
      by_cases hq : q = p
      · subst hq
        have hj : j ≠ i := fun e => hqj ⟨rfl, e⟩
        unfold IsTabPointerHeld
        rw [hself, hl]
        exact indexHeld_listRemove_other l i j hj
      · unfold IsTabPointerHeld
        rw [mapFind_mapAssign_other theMap p q _ hq]
    · intro honly
      have : j0 = i := honly j0 ((IsTabPointerHeld_iff theMap p j0).2 ⟨l, hl, hj0⟩)
      exact absurd this hj0i
    · rw [hself]
      intro e
      exact hnonempty (Option.some.inj e)
    · intro hne q
      by_cases hq : q = p
      · subst hq
        rw [hself]
        intro e
        exact hnonempty (Option.some.inj e)
      · rw [mapFind_mapAssign_other theMap p q _ hq]; exact hne q

/-- Witness for `EndTabPointerHold_releases_pair`: address `1` holds indices `5` and `7`,
address `2` holds index `5`; the hold on `(1, 5)` is ended. -/
theorem EndTabPointerHold_releases_pair_witness :
    ∃ after, EndTabPointerHold [(1, [5, 7]), (2, [5])] 1 5 = some after
      ∧ IsTabPointerHeld after 1 5 = false
      ∧ (∀ q j, ¬ (q = 1 ∧ j = 5) →
          IsTabPointerHeld after q j = IsTabPointerHeld [(1, [5, 7]), (2, [5])] q j)
      ∧ ((∀ j, IsTabPointerHeld [(1, [5, 7]), (2, [5])] 1 j = true → j = 5) →
          mapFind after 1 = none)
      ∧ mapFind after 1 ≠ some []
      ∧ ((∀ q, mapFind [(1, [5, 7]), (2, [5])] q ≠ some []) → ∀ q, mapFind after q ≠ some []) :=
  EndTabPointerHold_releases_pair [(1, [5, 7]), (2, [5])] 1 5 (by decide)
    (by
      intro q l h
      by_cases h1 : q = 1
      · subst h1; simp [mapFind] at h; subst h; decide
      · by_cases h2 : q = 2
        · subst h2; simp [mapFind] at h; subst h; decide
        · have h1b : ¬ 1 = q := fun e => h1 e.symm
          have h2b : ¬ 2 = q := fun e => h2 e.symm
          simp [mapFind, h1b, h2b] at h)
    (by decide)

/-! ### Reference manager: lookups -/

theorem sizeT_natCast (n : Nat) : sizeT (n : Int) = n := by
  unfold sizeT
  have h : ¬ ((n : Int) < 0) := by omega
  rw [if_neg h]
  exact Int.toNat_ofNat n

theorem tableAt_of_le (l : List (Option RefInfo)) (i : Nat) (h : l.length ≤ i) :
    tableAt l i = none := by
  unfold tableAt
  rw [List.getElem?_eq_none h]

theorem GetInfo_eq (m : ReferenceManager) (i : Nat) : GetInfo m i = tableAt m.m_refs i := by
  unfold GetInfo
  by_cases h : i < m.m_refs.length
  · rw [if_pos h]
  · rw [if_neg h, tableAt_of_le _ _ (by omega)]

theorem tableAt_set (l : List (Option RefInfo)) (k i : Nat) (v : Option RefInfo) :
    tableAt (l.set k v) i = if k = i ∧ k < l.length then v else tableAt l i := by
  unfold tableAt
  rw [List.getElem?_set]
  by_cases h1 : k = i
  · subst h1
    by_cases h2 : k < l.length
    · simp only [if_true, if_pos h2, true_and]
    · simp only [if_true, if_neg h2, true_and]
      rw [List.getElem?_eq_none (by omega)]
  · have : ¬ (k = i ∧ k < l.length) := fun h => h1 h.1
    rw [if_neg h1, if_neg this]

theorem tableAt_length_lt (l : List (Option RefInfo)) (i : Nat) (r : RefInfo)
    (h : tableAt l i = some r) : i < l.length := by
  by_contra hc
  rw [tableAt_of_le l i (by omega)] at h
  exact Option.noConfusion h

theorem tableAt_eq_some (l : List (Option RefInfo)) (i : Nat) (r : RefInfo) :
    tableAt l i = some r ↔ l[i]? = some (some r) := by
  unfold tableAt
  cases h : l[i]? with
  | none => simp
  | some e => simp

theorem scanFrom_eq_of_first (test : Nat → Bool) (fuel i0 k : Nat) (h1 : i0 ≤ k)
    (h2 : k < i0 + fuel) (hk : test k = true) (hlt : ∀ j, i0 ≤ j → j < k → test j = false) :
    scanFrom test fuel i0 = (k : Int) := by
  induction fuel generalizing i0 with
  | zero => omega
  | succ f ih =>
    unfold scanFrom
    by_cases hi : i0 = k
    · subst hi; rw [if_pos hk]
    · have hne : test i0 = false := hlt i0 (le_refl _) (by omega)
      rw [hne]
      simp only [Bool.false_eq_true, if_false]
      exact ih (i0 + 1) (by omega) (by omega) (fun j hj1 hj2 => hlt j (by omega) hj2)

theorem scanFrom_eq_neg_one (test : Nat → Bool) (fuel i0 : Nat)
    (h : ∀ j, i0 ≤ j → j < i0 + fuel → test j = false) : scanFrom test fuel i0 = -1 := by
  induction fuel generalizing i0 with
  | zero => rfl
  | succ f ih =>
    unfold scanFrom
    rw [h i0 (le_refl _) (by omega)]
    simp only [Bool.false_eq_true, if_false]
    exact ih (i0 + 1) (fun j hj1 hj2 => h j (by omega) (by omega))


/-- C12: for every manager state and every index `i >= NumRefs()`, `GetInfo(i)` is the null
result whatever the table holds, `IsValidReferenceIndex(i)` is false and (for `i` passed as an
`int`) `GetReference(i)` is `NULL`. -/
theorem GetInfo_out_of_range (m : ReferenceManager) (i : Nat) (h : NumRefs m ≤ (i : Int)) :
    GetInfo m i = none
      ∧ (∀ refs : List (Option RefInfo), refs.length = m.m_refs.length →
            GetInfo { m with m_refs := refs } i = none)
      ∧ GetReference m (i : Int) = 0
      ∧ IsValidReferenceIndex m i = false := by
  have hlen : ¬ i < m.m_refs.length := by
    unfold NumRefs at h; omega
  have h1 : GetInfo m i = none := by
    unfold GetInfo; rw [if_neg hlen]
  refine ⟨h1, ?_, ?_, ?_⟩
  · intro refs hrefs
    unfold GetInfo
    have : ¬ i < refs.length := by rw [hrefs]; exact hlen
    simp only [this, if_false]
  · unfold GetReference
    rw [sizeT_natCast, h1]
  · unfold IsValidReferenceIndex
    rw [h1]; rfl

/-- Witness for `GetInfo_out_of_range`: index `1` of a table with one slot. -/
theorem GetInfo_out_of_range_witness :
    GetInfo { m_refs := [some { addr := 1, m_flags := 2, m_target := 5, m_callback := 0 }],
              m_arraySizes := [], m_baseDynIdx := INT_MAX, heapNext := 2 } 1 = none :=
  (GetInfo_out_of_range
    { m_refs := [some { addr := 1, m_flags := 2, m_target := 5, m_callback := 0 }],
      m_arraySizes := [], m_baseDynIdx := INT_MAX, heapNext := 2 } 1 (by decide)).1

/-! ### Cloning -/

/-- C11 (code defect): a source whose slot 0 is weak and whose slot 1 is strong, both holding
target `7`.  `IsRealDependency` looks the target up by value and finds the weak slot first, so
`BaseClone` copies `7` into reference 1 of the destination instead of the clone `107`. -/
theorem BaseClone_strong_slot_after_weak_is_copied :
    (GetInfo { m_refs := [some { addr := 1, m_flags := 1, m_target := 7, m_callback := 0 },
                          some { addr := 2, m_flags := 2, m_target := 7, m_callback := 0 }],
               m_arraySizes := [], m_baseDynIdx := INT_MAX, heapNext := 3 } 1).map
        (fun r => r.TestFlag kIsWeak) = some false
      ∧ GetReference
          (BaseClone 10 20
            { m_refs := [some { addr := 1, m_flags := 1, m_target := 7, m_callback := 0 },
                         some { addr := 2, m_flags := 2, m_target := 7, m_callback := 0 }],
              m_arraySizes := [], m_baseDynIdx := INT_MAX, heapNext := 3 }
            { m_refs := [some { addr := 1, m_flags := 1, m_target := 0, m_callback := 0 },
                         some { addr := 2, m_flags := 2, m_target := 0, m_callback := 0 }],
              m_arraySizes := [], m_baseDynIdx := INT_MAX, heapNext := 3 }
            (fun t => t + 100)) 1 = 7 := by
  constructor
  · rfl
  · rfl

/-! ### Handle assignment -/

theorem derefInfo_first (l : List (Option RefInfo)) (p : Nat) (r : RefInfo) (hp : p ≠ 0)
    (h : derefInfo l p = some r) :
    ∃ n, tableAt l n = some r ∧ r.addr = p ∧ ∀ j, j < n → ptrOf (tableAt l j) ≠ p := by
  induction l with
  | nil => simp [derefInfo] at h
  | cons e rest ih =>
    cases e with
    | none =>
      simp only [derefInfo] at h
      obtain ⟨n, h1, h2, h3⟩ := ih h
      refine ⟨n + 1, ?_, h2, ?_⟩
      · simpa [tableAt] using h1
      · intro j hj
        cases j with
        | zero => simpa [tableAt, ptrOf] using fun e => hp e.symm
        | succ j => simpa [tableAt] using h3 j (by omega)
    | some r0 =>
      by_cases h0 : r0.addr = p
      · simp only [derefInfo, if_pos h0] at h
        have hr : r0 = r := Option.some.inj h
        subst hr
        exact ⟨0, by simp [tableAt], h0, fun j hj => by omega⟩
      · simp only [derefInfo, if_neg h0] at h
        obtain ⟨n, h1, h2, h3⟩ := ih h
        refine ⟨n + 1, ?_, h2, ?_⟩
        · simpa [tableAt] using h1
        · intro j hj
          cases j with
          | zero => simpa [tableAt, ptrOf] using h0
          | succ j => simpa [tableAt] using h3 j (by omega)

theorem derefInfo_set_first (l : List (Option RefInfo)) (p n : Nat) (r : RefInfo)
    (hn : n < l.length) (hr : r.addr = p) (hfirst : ∀ j, j < n → ptrOf (tableAt l j) ≠ p) :
    derefInfo (l.set n (some r)) p = some r := by
  induction l generalizing n with
  | nil => simp at hn
  | cons e rest ih =>
    cases n with
    | zero => simp [List.set, derefInfo, hr]
    | succ n =>
      have h0 : ptrOf e ≠ p := by simpa [tableAt] using hfirst 0 (by omega)
      have hrest : derefInfo (rest.set n (some r)) p = some r :=
        ih n (by simpa using hn) (fun j hj => by simpa [tableAt] using hfirst (j + 1) (by omega))
      cases e with
      | none => simpa [List.set, derefInfo] using hrest
      | some r0 =>
        have : ¬ r0.addr = p := by simpa [ptrOf] using h0
        simpa [List.set, derefInfo, this] using hrest

theorem GetReferenceIndexOfInfo_first (m : ReferenceManager) (p n : Nat)
    (hn : n < m.m_refs.length) (hp : ptrOf (tableAt m.m_refs n) = p)
    (hfirst : ∀ j, j < n → ptrOf (tableAt m.m_refs j) ≠ p) :
    GetReferenceIndexOfInfo m p = (n : Int) := by
  unfold GetReferenceIndexOfInfo
  apply scanFrom_eq_of_first _ _ 0 n (by omega) (by omega)
  · simp [GetInfo_eq, hp]
  · intro j _ hj
    simpa [GetInfo_eq] using hfirst j hj

theorem SetReference_refs (m : ReferenceManager) (n : Nat) (t : Nat) (r : RefInfo)
    (h : tableAt m.m_refs n = some r) :
    SetReference m (n : Int) t
      = { m with m_refs := m.m_refs.set n (some { r with m_target := t }) } := by
  unfold SetReference
  rw [if_neg (by omega), sizeT_natCast, GetInfo_eq, h]

/-- C13, as stated, fails: a handle referencing target `5` is assigned the non-null value `7`,
which is not of the element type; afterwards the slot references `NULL`, not `5`. -/
theorem RefPtr_assign_mismatch_drops_target :
    RefPtr.target
        { m_refs := [some { addr := 1, m_flags := 2, m_target := 5, m_callback := 0 }],
          m_arraySizes := [], m_baseDynIdx := INT_MAX, heapNext := 2 } 1 = some 5
      ∧ dynamicCast (fun t => t == 5) 7 = 0
      ∧ RefPtr.target
          (RefPtr.assign
            { m_refs := [some { addr := 1, m_flags := 2, m_target := 5, m_callback := 0 }],
              m_arraySizes := [], m_baseDynIdx := INT_MAX, heapNext := 2 }
            (fun t => t == 5) 1 7).2 1 = some 0 := by
  refine ⟨rfl, rfl, rfl⟩

/-- C13 (amended): for a handle referencing a target `t` and an `rhs` that is not of the
handle's element type (in particular a non-null one), `operator=(rhs)` does not install `rhs`;
it returns `NULL` and clears the reference: afterwards the handle's slot references `NULL`,
the table has the same length and every entry that is not the handle's slot is unchanged. -/
theorem RefPtr_assign_mismatch_sets_null (mgr : ReferenceManager) (isType : Nat → Bool)
    (m_ref rhs t : Nat) (href : m_ref ≠ 0) (htarget : RefPtr.target mgr m_ref = some t)
    (hmis : isType rhs = false) :
    (RefPtr.assign mgr isType m_ref rhs).1 = 0
      ∧ RefPtr.target (RefPtr.assign mgr isType m_ref rhs).2 m_ref = some 0
      ∧ (RefPtr.assign mgr isType m_ref rhs).2.m_refs.length = mgr.m_refs.length
      ∧ ∀ i, ptrOf (GetInfo mgr i) ≠ m_ref →
          GetInfo (RefPtr.assign mgr isType m_ref rhs).2 i = GetInfo mgr i := by
  have hcast : dynamicCast isType rhs = 0 := by simp [dynamicCast, hmis]
  obtain ⟨r, hr⟩ : ∃ r, derefInfo mgr.m_refs m_ref = some r := by
    unfold RefPtr.target at htarget
    cases h : derefInfo mgr.m_refs m_ref with
    | none => rw [h] at htarget; exact Option.noConfusion htarget
    | some r => exact ⟨r, rfl⟩
  obtain ⟨n, hn1, hn2, hn3⟩ := derefInfo_first mgr.m_refs m_ref r href hr
  have hnlen : n < mgr.m_refs.length := tableAt_length_lt _ _ _ hn1
  have hidx : GetReferenceIndexOfInfo mgr m_ref = (n : Int) :=
    GetReferenceIndexOfInfo_first mgr m_ref n hnlen (by rw [hn1]; exact hn2) hn3
  have hassign : RefPtr.assign mgr isType m_ref rhs
      = (0, { mgr with m_refs := mgr.m_refs.set n (some { r with m_target := 0 }) }) := by
    unfold RefPtr.assign
    simp only [hcast, hidx]
    have hge : ((n : Int) ≥ 0) := by omega
    rw [if_pos hge, sizeT_natCast]
    unfold SetRef ReplaceReference
    simp only [if_true]
    rw [SetReference_refs mgr n 0 r hn1]
    rw [SetReference_refs _ n 0 { r with m_target := 0 }
      (by simp [tableAt_set, hnlen])]
    simp
  rw [hassign]
  refine ⟨rfl, ?_, ?_, ?_⟩
  · unfold RefPtr.target
    simp only
    rw [derefInfo_set_first mgr.m_refs m_ref n { r with m_target := 0 } hnlen hn2 hn3]
  · simp
  · intro i hi
    rw [GetInfo_eq, GetInfo_eq]
    simp only
    rw [tableAt_set]
    by_cases hni : n = i
    · subst hni
      rw [GetInfo_eq, hn1] at hi
      exact absurd hn2 hi
    · have : ¬ (n = i ∧ n < mgr.m_refs.length) := fun h => hni h.1
      rw [if_neg this]

/-- Witness for `RefPtr_assign_mismatch_sets_null`: the handle at address `1` references
target `5` and is assigned `7`, which is not of the element type. -/
theorem RefPtr_assign_mismatch_sets_null_witness :
    (RefPtr.assign
        { m_refs := [some { addr := 1, m_flags := 2, m_target := 5, m_callback := 0 }],
          m_arraySizes := [], m_baseDynIdx := INT_MAX, heapNext := 2 }
        (fun t => t == 5) 1 7).1 = 0 :=
  (RefPtr_assign_mismatch_sets_null
    { m_refs := [some { addr := 1, m_flags := 2, m_target := 5, m_callback := 0 }],
      m_arraySizes := [], m_baseDynIdx := INT_MAX, heapNext := 2 }
    (fun t => t == 5) 1 7 5 (by decide) rfl rfl).1

/-! ### `RefArray::Delete` and `RefArray::Insert` at concrete inputs -/

/-- C15 (code defect): `Delete(0, 1)` on an array of five handles `1..5`.  Handle `1` is
released and the count returned is `4`, but `memmove` moves only `numToDelete = 1` cell:
the array is left as `2, 2, 3, 4` (handle `2` twice, handle `5` dropped) while the manager
still holds the slots `2, 3, 4, 5`. -/
theorem RefArray_Delete_front_moves_one_cell :
    (RefArray.Delete 0
        { m_refs := [some { addr := 1, m_flags := 2, m_target := 11, m_callback := 0 },
                     some { addr := 2, m_flags := 2, m_target := 12, m_callback := 0 },
                     some { addr := 3, m_flags := 2, m_target := 13, m_callback := 0 },
                     some { addr := 4, m_flags := 2, m_target := 14, m_callback := 0 },
                     some { addr := 5, m_flags := 2, m_target := 15, m_callback := 0 }],
          m_arraySizes := [5], m_baseDynIdx := 0, heapNext := 6 }
        { tab := { data := [some 1, some 2, some 3, some 4, some 5], count := 5 },
          m_callback := 0 } 0 1).map
      (fun r => (r.1, r.2.2.elems, r.2.1.m_refs.map ptrOf, r.2.1.m_arraySizes))
      = some (4, [some 2, some 2, some 3, some 4], [2, 3, 4, 5], [4]) := by
  rfl

/-- C16 (code defect): `Insert(0, 1, [99])` on an array of three handles `1, 2, 3`.  The
`memmove` copies cell 1 over cell 0 and the new handle (address `4`, target `99`) is
constructed at the end: the array is left as `2, 2, 3, 4` instead of `4, 1, 2, 3`. -/
theorem RefArray_Insert_front_appends_and_overwrites :
    ((RefArray.Insert 0
        { m_refs := [some { addr := 1, m_flags := 2, m_target := 11, m_callback := 0 },
                     some { addr := 2, m_flags := 2, m_target := 12, m_callback := 0 },
                     some { addr := 3, m_flags := 2, m_target := 13, m_callback := 0 }],
          m_arraySizes := [3], m_baseDynIdx := 0, heapNext := 4 }
        { tab := { data := [some 1, some 2, some 3], count := 3 }, m_callback := 0 }
        0 [99]).2.elems = [some 2, some 2, some 3, some 4])
      ∧ RefPtr.target
          (RefArray.Insert 0
            { m_refs := [some { addr := 1, m_flags := 2, m_target := 11, m_callback := 0 },
                         some { addr := 2, m_flags := 2, m_target := 12, m_callback := 0 },
                         some { addr := 3, m_flags := 2, m_target := 13, m_callback := 0 }],
              m_arraySizes := [3], m_baseDynIdx := 0, heapNext := 4 }
            { tab := { data := [some 1, some 2, some 3], count := 3 }, m_callback := 0 }
            0 [99]).1 4 = some 99 := by
  constructor
  · rfl
  · rfl

/-! ### Table operations -/

theorem tableAt_padNull (l : List (Option RefInfo)) (n i : Nat) :
    tableAt (padNull l n) i = tableAt l i := by
  unfold tableAt padNull
  rw [List.getElem?_append]
  by_cases h : i < l.length
  · rw [if_pos h]
  · rw [if_neg h, List.getElem?_replicate, List.getElem?_eq_none (by omega)]
    by_cases h2 : i - l.length < n + 1 - l.length
    · rw [if_pos h2]
    · rw [if_neg h2]

theorem length_padNull (l : List (Option RefInfo)) (n : Nat) :
    (padNull l n).length = max l.length (n + 1) := by
  unfold padNull
  rw [List.length_append, List.length_replicate]
  omega

theorem getElem?_insertAt {α : Type} (l : List α) (k : Nat) (v : α) (i : Nat)
    (hk : k ≤ l.length) :
    (insertAt l k v)[i]? = if i < k then l[i]? else if i = k then some v else l[i - 1]? := by
  unfold insertAt
  have hlen : (l.take k).length = k := by rw [List.length_take]; omega
  rw [List.getElem?_append, hlen]
  by_cases h1 : i < k
  · rw [if_pos h1, if_pos h1, List.getElem?_take, if_pos h1]
  · rw [if_neg h1, if_neg h1]
    by_cases h2 : i = k
    · subst h2
      rw [if_pos rfl, Nat.sub_self, List.getElem?_cons_zero]
    · rw [if_neg h2]
      obtain ⟨d, hd⟩ : ∃ d, i - k = d + 1 := ⟨i - k - 1, by omega⟩
      rw [hd, List.getElem?_cons_succ, List.getElem?_drop]
      congr 1
      omega

theorem length_insertAt {α : Type} (l : List α) (k : Nat) (v : α) (hk : k ≤ l.length) :
    (insertAt l k v).length = l.length + 1 := by
  unfold insertAt
  rw [List.length_append, List.length_cons, List.length_take, List.length_drop]
  omega

theorem getElem?_removeAt {α : Type} (l : List α) (k i : Nat) :
    (removeAt l k)[i]? = if i < k then l[i]? else l[i + 1]? := by
  unfold removeAt
  rw [List.getElem?_append, List.length_take]
  by_cases h1 : i < k
  · rw [if_pos h1]
    by_cases h2 : i < l.length
    · rw [if_pos (by omega), List.getElem?_take, if_pos h1]
    · rw [if_neg (by omega), List.getElem?_drop, List.getElem?_eq_none (by omega),
        List.getElem?_eq_none (by omega)]
  · rw [if_neg h1]
    by_cases h2 : k ≤ l.length
    · rw [if_neg (by omega), List.getElem?_drop]
      congr 1
      omega
    · rw [List.getElem?_eq_none (by omega : l.length ≤ i + 1)]
      by_cases h3 : i < l.length
      · rw [if_pos (by omega), List.getElem?_take, if_neg h1]
      · rw [if_neg (by omega), List.getElem?_drop, List.getElem?_eq_none (by omega)]

theorem length_removeAt {α : Type} (l : List α) (k : Nat) (hk : k < l.length) :
    (removeAt l k).length = l.length - 1 := by
  unfold removeAt
  rw [List.length_append, List.length_take, List.length_drop]
  omega

theorem tableAt_insertAt (l : List (Option RefInfo)) (k : Nat) (v : Option RefInfo) (i : Nat)
    (hk : k ≤ l.length) :
    tableAt (insertAt l k v) i
      = if i < k then tableAt l i else if i = k then v else tableAt l (i - 1) := by
  unfold tableAt
  rw [getElem?_insertAt l k v i hk]
  by_cases h1 : i < k
  · rw [if_pos h1, if_pos h1]
  · rw [if_neg h1, if_neg h1]
    by_cases h2 : i = k
    · rw [if_pos h2, if_pos h2]
    · rw [if_neg h2, if_neg h2]

theorem tableAt_removeAt (l : List (Option RefInfo)) (k i : Nat) :
    tableAt (removeAt l k) i = if i < k then tableAt l i else tableAt l (i + 1) := by
  unfold tableAt
  rw [getElem?_removeAt]
  by_cases h1 : i < k
  · rw [if_pos h1, if_pos h1]
  · rw [if_neg h1, if_neg h1]

theorem removeAt_set {α : Type} (l : List α) (k : Nat) (v : α) :
    removeAt (l.set k v) k = removeAt l k := by
  apply List.ext_getElem?
  intro i
  rw [getElem?_removeAt, getElem?_removeAt]
  by_cases h1 : i < k
  · rw [if_pos h1, if_pos h1, List.getElem?_set_ne (by omega)]
  · rw [if_neg h1, if_neg h1, List.getElem?_set_ne (by omega)]

theorem take_set_self {α : Type} (l : List α) (k : Nat) (v : α) :
    (l.set k v).take k = l.take k := by
  apply List.ext_getElem?
  intro i
  rw [List.getElem?_take, List.getElem?_take]
  by_cases h1 : i < k
  · rw [if_pos h1, if_pos h1, List.getElem?_set_ne (by omega)]
  · rw [if_neg h1, if_neg h1]

theorem getD_set_self (l : List Nat) (k : Nat) (v : Nat) (hk : k < l.length) :
    (l.set k v).getD k 0 = v := by
  rw [List.getD_eq_getElem?_getD, List.getElem?_set, if_pos rfl, if_pos hk]
  rfl

theorem findPtr_first (l : List (Option RefInfo)) (p n : Nat) (hn : n < l.length)
    (hp : ptrOf (tableAt l n) = p) (hfirst : ∀ j, j < n → ptrOf (tableAt l j) ≠ p) :
    findPtr l p = n := by
  induction l generalizing n with
  | nil => simp at hn
  | cons e rest ih =>
    cases n with
    | zero =>
      have : ptrOf e = p := by simpa [tableAt] using hp
      simp [findPtr, this]
    | succ n =>
      have h0 : ptrOf e ≠ p := by simpa [tableAt] using hfirst 0 (by omega)
      have hrest : findPtr rest p = n :=
        ih n (by simpa using hn) (by simpa [tableAt] using hp)
          (fun j hj => by simpa [tableAt] using hfirst (j + 1) (by omega))
      simp [findPtr, h0, hrest]

/-! ### Heap discipline and slot insertion -/

theorem tableAt_isSome_iff (l : List (Option RefInfo)) (i : Nat) :
    (tableAt l i).isSome = true ↔ ∃ r, tableAt l i = some r := by
  cases h : tableAt l i with
  | none => simp
  | some r => simp

theorem HeapDistinct_iff (m : ReferenceManager) :
    HeapDistinct m ↔
      (∀ i j r1 r2, tableAt m.m_refs i = some r1 → tableAt m.m_refs j = some r2 →
          r1.addr = r2.addr → i = j)
        ∧ (∀ i r, tableAt m.m_refs i = some r → 0 < r.addr ∧ r.addr < m.heapNext)
        ∧ 0 < m.heapNext := by
  unfold HeapDistinct
  constructor
  · rintro ⟨h1, h2, h3⟩
    refine ⟨?_, ?_, h3⟩
    · intro i j r1 r2 hi hj he
      exact h1 i (tableAt_length_lt _ _ _ hi) j (tableAt_length_lt _ _ _ hj)
        (by rw [hi]; rfl) (by rw [hj]; rfl) (by rw [hi, hj]; exact he)
    · intro i r hi
      have := h2 i (tableAt_length_lt _ _ _ hi) (by rw [hi]; rfl)
      rw [hi] at this
      exact this
  · rintro ⟨h1, h2, h3⟩
    refine ⟨?_, ?_, h3⟩
    · intro i _ j _ hi hj he
      obtain ⟨r1, hr1⟩ := (tableAt_isSome_iff _ _).1 hi
      obtain ⟨r2, hr2⟩ := (tableAt_isSome_iff _ _).1 hj
      rw [hr1, hr2] at he
      exact h1 i j r1 r2 hr1 hr2 he
    · intro i _ hi
      obtain ⟨r1, hr1⟩ := (tableAt_isSome_iff _ _).1 hi
      rw [hr1]
      exact h2 i r1 hr1

theorem HeapDistinct_first (m : ReferenceManager) (h : HeapDistinct m) (n : Nat) (r : RefInfo)
    (hn : tableAt m.m_refs n = some r) : ∀ j, j < n → ptrOf (tableAt m.m_refs j) ≠ r.addr := by
  rw [HeapDistinct_iff] at h
  intro j hj he
  cases hj2 : tableAt m.m_refs j with
  | none =>
    rw [hj2] at he
    have := (h.2.1 n r hn).1
    simp only [ptrOf] at he
    omega
  | some r2 =>
    rw [hj2] at he
    have := h.1 j n r2 r hj2 hn he
    omega

theorem newRefInfo_fields (a cb : Nat) (w ps : Bool) :
    (newRefInfo a cb w ps).addr = a ∧ (newRefInfo a cb w ps).m_target = 0
      ∧ (newRefInfo a cb w ps).m_callback = cb := by
  cases w <;> cases ps <;> exact ⟨rfl, rfl, rfl⟩

theorem InsertReference_eq (m : ReferenceManager) (n : Nat) (cb : Nat) (w ps : Bool) :
    InsertReference m (n : Int) cb w ps
      = (m.heapNext,
         { m with
           m_refs :=
             (if (tableAt m.m_refs n).isSome = true then insertAt (padNull m.m_refs n) n none
              else padNull m.m_refs n).set n (some (newRefInfo m.heapNext cb w ps)),
           heapNext := m.heapNext + 1 }) := by
  have hn : ¬ ((n : Int) < 0) := by omega
  have hg : GetInfo { m with m_refs := padNull m.m_refs n } n = tableAt m.m_refs n := by
    rw [GetInfo_eq]; exact tableAt_padNull _ _ _
  unfold InsertReference
  simp only [if_neg hn, Int.toNat_ofNat, hg, (newRefInfo_fields _ _ _ _).1]
  cases h : tableAt m.m_refs n with
  | none => simp
  | some r0 => simp

/-- The effect of `InsertReference(n, ...)` for `n >= 0`: a fresh struct with a null target is
stored at index `n`; the entries below `n` stay; the entries from `n` on move up by one when
entry `n` was occupied and stay otherwise. -/
theorem InsertReference_effect (m : ReferenceManager) (n : Nat) (cb : Nat) (w ps : Bool) :
    (InsertReference m (n : Int) cb w ps).1 = m.heapNext
      ∧ (InsertReference m (n : Int) cb w ps).2.m_arraySizes = m.m_arraySizes
      ∧ (InsertReference m (n : Int) cb w ps).2.m_baseDynIdx = m.m_baseDynIdx
      ∧ (InsertReference m (n : Int) cb w ps).2.heapNext = m.heapNext + 1
      ∧ tableAt (InsertReference m (n : Int) cb w ps).2.m_refs n
          = some (newRefInfo m.heapNext cb w ps)
      ∧ (∀ i, i < n →
            tableAt (InsertReference m (n : Int) cb w ps).2.m_refs i = tableAt m.m_refs i)
      ∧ (∀ i, n < i →
            tableAt (InsertReference m (n : Int) cb w ps).2.m_refs i
              = if (tableAt m.m_refs n).isSome = true then tableAt m.m_refs (i - 1)
                else tableAt m.m_refs i) := by
  have hlen1 : n < (padNull m.m_refs n).length := by rw [length_padNull]; omega
  rw [InsertReference_eq]
  refine ⟨rfl, rfl, rfl, rfl, ?_, ?_, ?_⟩
  · show tableAt (List.set _ n _) n = _
    rw [tableAt_set]
    by_cases hs : (tableAt m.m_refs n).isSome = true
    · rw [if_pos hs, if_pos ⟨rfl, by rw [length_insertAt _ _ _ (by omega)]; omega⟩]
    · rw [if_neg hs, if_pos ⟨rfl, hlen1⟩]
  · intro i hi
    show tableAt (List.set _ n _) i = _
    rw [tableAt_set, if_neg (fun h => by omega)]
    by_cases hs : (tableAt m.m_refs n).isSome = true
    · rw [if_pos hs, tableAt_insertAt _ _ _ _ (by omega), if_pos hi, tableAt_padNull]
    · rw [if_neg hs, tableAt_padNull]
  · intro i hi
    show tableAt (List.set _ n _) i = _
    rw [tableAt_set, if_neg (fun h => by omega)]
    by_cases hs : (tableAt m.m_refs n).isSome = true
    · rw [if_pos hs, if_pos hs, tableAt_insertAt _ _ _ _ (by omega), if_neg (by omega),
        if_neg (by omega), tableAt_padNull]
    · rw [if_neg hs, if_neg hs, tableAt_padNull]

theorem InsertReference_HeapDistinct (m : ReferenceManager) (n : Nat) (cb : Nat) (w ps : Bool)
    (h : HeapDistinct m) : HeapDistinct (InsertReference m (n : Int) cb w ps).2 := by
  obtain ⟨_, _, _, hnext, hinfo, hlow, hhigh⟩ := InsertReference_effect m n cb w ps
  have haddr : (newRefInfo m.heapNext cb w ps).addr = m.heapNext := (newRefInfo_fields _ _ _ _).1
  rw [HeapDistinct_iff] at h ⊢
  -- every entry other than the new one is an entry of the old table, at index `i - d` for
  -- `i > n` and at index `i` for `i < n`, with `d = 1` or `d = 0` throughout
  have hold : ∃ d, d ≤ 1 ∧ ∀ i r, i ≠ n →
      tableAt (InsertReference m (n : Int) cb w ps).2.m_refs i = some r →
      (i < n ∧ tableAt m.m_refs i = some r) ∨ (n < i ∧ tableAt m.m_refs (i - d) = some r) := by
    by_cases hs : (tableAt m.m_refs n).isSome = true
    · refine ⟨1, le_refl _, ?_⟩
      intro i r hi hr
      by_cases hlt : i < n
      · rw [hlow i hlt] at hr; exact Or.inl ⟨hlt, hr⟩
      · rw [hhigh i (by omega), if_pos hs] at hr; exact Or.inr ⟨by omega, hr⟩
    · refine ⟨0, by omega, ?_⟩
      intro i r hi hr
      by_cases hlt : i < n
      · rw [hlow i hlt] at hr; exact Or.inl ⟨hlt, hr⟩
      · rw [hhigh i (by omega), if_neg hs] at hr; exact Or.inr ⟨by omega, hr⟩
  obtain ⟨d, hd, hold⟩ := hold
  have hbound : ∀ i r, i ≠ n →
      tableAt (InsertReference m (n : Int) cb w ps).2.m_refs i = some r →
      0 < r.addr ∧ r.addr < m.heapNext := by
    intro i r hi hr
    rcases hold i r hi hr with ⟨_, h1⟩ | ⟨_, h1⟩
    · exact h.2.1 _ r h1
    · exact h.2.1 _ r h1
  refine ⟨?_, ?_, by omega⟩
  · intro i j r1 r2 hi hj he
    by_cases hin : i = n
    · by_cases hjn : j = n
      · omega
      · have hb := (hbound j r2 hjn hj).2
        rw [hin, hinfo] at hi
        have h1 : r1.addr = m.heapNext := by rw [← Option.some.inj hi]; exact haddr
        omega
    · by_cases hjn : j = n
      · have hb := (hbound i r1 hin hi).2
        rw [hjn, hinfo] at hj
        have h2 : r2.addr = m.heapNext := by rw [← Option.some.inj hj]; exact haddr
        omega
      · rcases hold i r1 hin hi with ⟨hi1, hi2⟩ | ⟨hi1, hi2⟩ <;>
          rcases hold j r2 hjn hj with ⟨hj1, hj2⟩ | ⟨hj1, hj2⟩ <;>
          have hij := h.1 _ _ r1 r2 hi2 hj2 he <;> omega
  · intro i r hi
    by_cases hin : i = n
    · rw [hin, hinfo] at hi
      have h1 : r.addr = m.heapNext := by rw [← Option.some.inj hi]; exact haddr
      omega
    · have := hbound i r hin hi
      omega

/-! ### Registration and release of a slot of an array group -/

theorem HeapDistinct_congr (m m2 : ReferenceManager) (h1 : m2.m_refs = m.m_refs)
    (h2 : m2.heapNext = m.heapNext) (h : HeapDistinct m) : HeapDistinct m2 := by
  unfold HeapDistinct at h ⊢
  rw [h1, h2]
  exact h

/-- Registration with a null target at offset `k` of a group that has an entry in the size
table: the entry is incremented and `InsertReference` runs at index
`base + (sum of the preceding sizes) + k`. -/
theorem RegisterReference_group_null (m : ReferenceManager) (B k cb : Nat) (w ps : Bool)
    (hB : m.m_baseDynIdx ≤ B) (hg : B - m.m_baseDynIdx < m.m_arraySizes.length) :
    RegisterReference m B (k : Int) cb 0 w ps
      = InsertReference
          { m with
            m_arraySizes :=
              (m.m_arraySizes.set (B - m.m_baseDynIdx)
                (m.m_arraySizes.getD (B - m.m_baseDynIdx) 0 + 1)) }
          ((groupStart m (B - m.m_baseDynIdx) + k : Nat) : Int) cb w ps := by
  have h1 : ¬ B < m.m_baseDynIdx := by omega
  have h2 : ¬ (B - m.m_baseDynIdx ≥ m.m_arraySizes.length) := by omega
  have h3 : ¬ ((k : Int) < 0) := by omega
  unfold RegisterReference
  simp only [if_neg h1, if_neg h2, if_neg h3]
  unfold IncrementArrayCount
  simp only [if_pos hg]
  unfold GetReferenceIndexForArray
  simp only [List.length_set, if_neg h2, sizeT_natCast, take_set_self]
  unfold groupStart
  simp

theorem HeapDistinct_removeAt (m : ReferenceManager) (n : Nat) (h : HeapDistinct m) :
    HeapDistinct { m with m_refs := removeAt m.m_refs n } := by
  rw [HeapDistinct_iff] at h ⊢
  refine ⟨?_, ?_, h.2.2⟩
  · intro i j r1 r2 hi hj he
    simp only [tableAt_removeAt] at hi hj
    by_cases h1 : i < n <;> by_cases h2 : j < n
    · rw [if_pos h1] at hi; rw [if_pos h2] at hj
      exact h.1 i j r1 r2 hi hj he
    · rw [if_pos h1] at hi; rw [if_neg h2] at hj
      have := h.1 i (j + 1) r1 r2 hi hj he
      omega
    · rw [if_neg h1] at hi; rw [if_pos h2] at hj
      have := h.1 (i + 1) j r1 r2 hi hj he
      omega
    · rw [if_neg h1] at hi; rw [if_neg h2] at hj
      have := h.1 (i + 1) (j + 1) r1 r2 hi hj he
      omega
  · intro i r hi
    simp only [tableAt_removeAt] at hi
    by_cases h1 : i < n
    · rw [if_pos h1] at hi; exact h.2.1 i r hi
    · rw [if_neg h1] at hi; exact h.2.1 (i + 1) r hi

/-- Release of a live slot at a table index at or above the dynamic base: the call succeeds
and the entry is erased from the table. -/
theorem ReleaseReferenceInfo_dynamic (m : ReferenceManager) (n : Nat) (r : RefInfo)
    (hH : HeapDistinct m) (hn : tableAt m.m_refs n = some r) (hbase : m.m_baseDynIdx ≤ n) :
    ReleaseReferenceInfo m r.addr
      = some (RefResult.REF_SUCCEED, { m with m_refs := removeAt m.m_refs n }) := by
  have hlen : n < m.m_refs.length := tableAt_length_lt _ _ _ hn
  have hfirst := HeapDistinct_first m hH n r hn
  have hidx : GetReferenceIndexOfInfo m r.addr = (n : Int) :=
    GetReferenceIndexOfInfo_first m r.addr n hlen (by rw [hn]; rfl) hfirst
  have hneg : ¬ ((n : Int) < 0) := by omega
  unfold ReleaseReferenceInfo
  simp only [hidx, if_neg hneg, sizeT_natCast, GetInfo_eq, hn]
  by_cases ht : r.m_target ≠ 0
  · simp only [if_pos ht]
    unfold DeleteReference
    rw [SetReference_refs m n 0 r hn]
    have hdec : decide (n ≥ m.m_baseDynIdx) = true := by simpa using hbase
    simp only [hdec, if_true]
    have hfind : findPtr (m.m_refs.set n (some { r with m_target := 0 })) r.addr = n := by
      apply findPtr_first
      · rw [List.length_set]; exact hlen
      · rw [tableAt_set, if_pos ⟨rfl, hlen⟩]; rfl
      · intro j hj
        rw [tableAt_set, if_neg (fun h => by omega)]
        exact hfirst j hj
    unfold removePtr
    rw [hfind, removeAt_set]
  · simp only [if_neg ht]
    have hdec : decide (n ≥ m.m_baseDynIdx) = true := by simpa using hbase
    simp only [hdec, if_true]
    unfold removePtr
    rw [findPtr_first m.m_refs r.addr n hlen (by rw [hn]; rfl) hfirst]

theorem cellAt_set (data : List (Option Nat)) (k i : Nat) (v : Option Nat) :
    cellAt (data.set k v) i = if k = i ∧ k < data.length then v else cellAt data i := by
  unfold cellAt
  rw [List.getElem?_set]
  by_cases h1 : k = i
  · subst h1
    by_cases h2 : k < data.length
    · simp only [if_true, if_pos h2, true_and]
    · simp only [if_true, if_neg h2, true_and]
      rw [List.getElem?_eq_none (by omega)]
  · have : ¬ (k = i ∧ k < data.length) := fun h => h1 h.1
    rw [if_neg h1, if_neg this]

theorem cellAt_resizeCells (data : List (Option Nat)) (n i : Nat) :
    cellAt (resizeCells data n) i = if i < n then cellAt data i else none := by
  unfold cellAt resizeCells
  rw [List.getElem?_append, List.length_take]
  by_cases h1 : i < n
  · rw [if_pos h1]
    by_cases h2 : i < data.length
    · rw [if_pos (by omega), List.getElem?_take, if_pos h1]
    · rw [if_neg (by omega), List.getElem?_replicate, List.getElem?_eq_none (by omega)]
      by_cases h3 : i - min n data.length < n - data.length
      · rw [if_pos h3]
      · rw [if_neg h3]
  · rw [if_neg h1]
    by_cases h2 : i < min n data.length
    · omega
    · rw [if_neg h2, List.getElem?_replicate]
      by_cases h3 : i - min n data.length < n - data.length
      · omega
      · rw [if_neg h3]

theorem length_resizeCells (data : List (Option Nat)) (n : Nat) :
    (resizeCells data n).length = n := by
  unfold resizeCells
  rw [List.length_append, List.length_take, List.length_replicate]
  omega

/-! ### Growing and shrinking an attached array -/

theorem groupStart_congr (m m2 : ReferenceManager) (g : Nat)
    (h1 : m2.m_baseDynIdx = m.m_baseDynIdx)
    (h2 : m2.m_arraySizes.take g = m.m_arraySizes.take g) :
    groupStart m2 g = groupStart m g := by
  unfold groupStart
  rw [h1, h2]

/-- One more handle at the end of a placed group: registration at offset `k` with a null
target keeps the first `k` handles placed, places the new one at offset `k` and leaves the
table below it untouched. -/
theorem Placed_register_last (B : Nat) (m : ReferenceManager) (data data2 : List (Option Nat))
    (k cb : Nat) (hP : Placed B m data k)
    (hcells : ∀ i, i < k → cellAt data2 i = cellAt data i)
    (hnew : cellAt data2 k = some (RegisterReference m B (k : Int) cb 0 false true).1) :
    Placed B (RegisterReference m B (k : Int) cb 0 false true).2 data2 (k + 1)
      ∧ (RegisterReference m B (k : Int) cb 0 false true).2.m_baseDynIdx = m.m_baseDynIdx
      ∧ groupStart (RegisterReference m B (k : Int) cb 0 false true).2 (B - m.m_baseDynIdx)
          = groupStart m (B - m.m_baseDynIdx)
      ∧ (∀ i, i < groupStart m (B - m.m_baseDynIdx) + k →
          tableAt (RegisterReference m B (k : Int) cb 0 false true).2.m_refs i
            = tableAt m.m_refs i)
      ∧ (∃ info,
          tableAt (RegisterReference m B (k : Int) cb 0 false true).2.m_refs
              (groupStart m (B - m.m_baseDynIdx) + k) = some info
            ∧ info.m_target = 0) := by
  obtain ⟨hB, hg, hsize, hcell, hH⟩ := hP
  rw [RegisterReference_group_null m B k cb false true hB hg] at hnew ⊢
  generalize hm1 : ({ m with
      m_arraySizes :=
        (m.m_arraySizes.set (B - m.m_baseDynIdx)
          (m.m_arraySizes.getD (B - m.m_baseDynIdx) 0 + 1)) } : ReferenceManager) = m1
    at hnew ⊢
  have hm1refs : m1.m_refs = m.m_refs := by rw [← hm1]
  have hm1base : m1.m_baseDynIdx = m.m_baseDynIdx := by rw [← hm1]
  have hm1next : m1.heapNext = m.heapNext := by rw [← hm1]
  have hm1sizes : m1.m_arraySizes
      = m.m_arraySizes.set (B - m.m_baseDynIdx) (k + 1) := by rw [← hm1, hsize]
  have hH1 : HeapDistinct m1 := HeapDistinct_congr m m1 hm1refs hm1next hH
  obtain ⟨hfst, hsz, hbase, _, hinfo, hlow, _⟩ :=
    InsertReference_effect m1 (groupStart m (B - m.m_baseDynIdx) + k) cb false true
  have hH2 := InsertReference_HeapDistinct m1 (groupStart m (B - m.m_baseDynIdx) + k) cb
    false true hH1
  generalize hr : InsertReference m1 ((groupStart m (B - m.m_baseDynIdx) + k : Nat) : Int) cb
    false true = r at hnew hfst hsz hbase hinfo hlow hH2 ⊢
  have hbase2 : r.2.m_baseDynIdx = m.m_baseDynIdx := by rw [hbase, hm1base]
  have hsizes2 : r.2.m_arraySizes = m.m_arraySizes.set (B - m.m_baseDynIdx) (k + 1) := by
    rw [hsz, hm1sizes]
  have hstart : groupStart r.2 (B - m.m_baseDynIdx) = groupStart m (B - m.m_baseDynIdx) :=
    groupStart_congr m r.2 _ hbase2 (by rw [hsizes2, take_set_self])
  have hlow2 : ∀ i, i < groupStart m (B - m.m_baseDynIdx) + k →
      tableAt r.2.m_refs i = tableAt m.m_refs i := by
    intro i hi; rw [hlow i hi, hm1refs]
  refine ⟨⟨?_, ?_, ?_, ?_, hH2⟩, hbase2, hstart, hlow2, ?_⟩
  · rw [hbase2]; exact hB
  · rw [hbase2, hsizes2, List.length_set]; exact hg
  · rw [hbase2, hsizes2]; exact getD_set_self _ _ _ hg
  · intro i hi
    rw [hbase2, hstart, GetInfo_eq]
    by_cases hik : i < k
    · rw [hlow2 _ (by omega), hcells i hik]
      have := hcell i hik
      rw [GetInfo_eq] at this
      exact this
    · have hik2 : i = k := by omega
      subst hik2
      rw [hinfo, hnew, hfst]
      exact ⟨rfl, by rw [ptrOf, (newRefInfo_fields _ _ _ _).1, hm1next]⟩
  · exact ⟨_, hinfo, (newRefInfo_fields _ _ _ _).2.1⟩

/-- The last handle of a placed group is destroyed: the destructor returns, the remaining
handles stay placed and the table below the released slot is untouched. -/
theorem Placed_release_last (B : Nat) (m : ReferenceManager) (data : List (Option Nat))
    (k : Nat) (hP : Placed B m data (k + 1)) :
    ∃ p m2, cellAt data k = some p ∧ RefPtr.destroy m B p = some (0, m2)
      ∧ (∀ data2 : List (Option Nat), (∀ i, i < k → cellAt data2 i = cellAt data i) →
          Placed B m2 data2 k)
      ∧ m2.m_baseDynIdx = m.m_baseDynIdx
      ∧ groupStart m2 (B - m.m_baseDynIdx) = groupStart m (B - m.m_baseDynIdx)
      ∧ (∀ i, i < groupStart m (B - m.m_baseDynIdx) + k →
          tableAt m2.m_refs i = tableAt m.m_refs i) := by
  obtain ⟨hB, hg, hsize, hcell, hH⟩ := hP
  obtain ⟨hsome, hck⟩ := hcell k (by omega)
  rw [GetInfo_eq] at hsome hck
  obtain ⟨r, hr⟩ := (tableAt_isSome_iff _ _).1 hsome
  rw [hr] at hck
  have hbase : m.m_baseDynIdx ≤ groupStart m (B - m.m_baseDynIdx) + k := by
    unfold groupStart; omega
  have hrel := ReleaseReferenceInfo_dynamic m _ r hH hr hbase
  have hnlt : ¬ B < m.m_baseDynIdx := by omega
  have hdestroy : RefPtr.destroy m B r.addr
      = some (0, { m with
                   m_refs := removeAt m.m_refs (groupStart m (B - m.m_baseDynIdx) + k),
                   m_arraySizes := (m.m_arraySizes.set (B - m.m_baseDynIdx) k) }) := by
    unfold RefPtr.destroy ReleaseReference
    rw [hrel]
    simp only [ne_eq, not_true_eq_false, if_false, if_neg hnlt]
    unfold DecrementArrayCount
    simp only [if_pos hg, hsize, decSizeT]
    simp
  refine ⟨r.addr, _, hck, hdestroy, ?_, rfl, ?_, ?_⟩
  · intro data2 hcells
    refine ⟨hB, ?_, ?_, ?_, ?_⟩
    · show _ < (List.set _ _ _).length
      rw [List.length_set]; exact hg
    · exact getD_set_self _ _ _ hg
    · intro i hi
      have hs : groupStart
          ({ m with
             m_refs := removeAt m.m_refs (groupStart m (B - m.m_baseDynIdx) + k),
             m_arraySizes := (m.m_arraySizes.set (B - m.m_baseDynIdx) k) } : ReferenceManager)
          (B - m.m_baseDynIdx) = groupStart m (B - m.m_baseDynIdx) :=
        groupStart_congr m _ _ rfl (take_set_self _ _ _)
      simp only [GetInfo_eq]
      rw [hs, tableAt_removeAt, if_pos (by omega), hcells i hi]
      have := hcell i (by omega)
      rw [GetInfo_eq] at this
      exact this
    · exact HeapDistinct_congr { m with m_refs := removeAt m.m_refs _ } _ rfl rfl
        (HeapDistinct_removeAt m _ hH)
  · exact groupStart_congr m _ _ rfl (take_set_self _ _ _)
  · intro i hi
    show tableAt (removeAt _ _) i = _
    rw [tableAt_removeAt, if_pos hi]

theorem RefArray_Append_null (B : Nat) (m : ReferenceManager) (arr : RefArray) :
    RefArray.Append B m arr [0]
      = ((RegisterReference m B (arr.tab.count : Int) arr.m_callback 0 false true).2,
         { arr with
           tab :=
             { data := (resizeCells arr.tab.data (arr.tab.count + 1)).set arr.tab.count
                 (some (RegisterReference m B (arr.tab.count : Int) arr.m_callback 0 false
                   true).1),
               count := arr.tab.count + 1 } }) := by
  have h1 : ((arr.tab.count : Int) + 1).toNat = arr.tab.count + 1 := by omega
  unfold RefArray.Append
  simp only [RefArray.constructLoop, RefPtr.construct, Tab.SetCount, Tab.Count,
    List.length_singleton, Nat.cast_one, h1, Nat.add_zero]

/-- The grow loop of `SetCount` on an attached array: it ends with `fuel` more handles, all
placed, the new ones with null targets, and the old ones and the table below the group's end
as before. -/
theorem growLoop_spec (B : Nat) (n : Int) (fuel : Nat) (m : ReferenceManager) (arr : RefArray)
    (hP : Placed B m arr.tab.data arr.tab.count)
    (hfuel : fuel = (n - (arr.tab.count : Int)).toNat) :
    (RefArray.growLoop B n fuel m arr).2.tab.count = arr.tab.count + fuel
      ∧ Placed B (RefArray.growLoop B n fuel m arr).1
          (RefArray.growLoop B n fuel m arr).2.tab.data
          (RefArray.growLoop B n fuel m arr).2.tab.count
      ∧ (RefArray.growLoop B n fuel m arr).1.m_baseDynIdx = m.m_baseDynIdx
      ∧ groupStart (RefArray.growLoop B n fuel m arr).1 (B - m.m_baseDynIdx)
          = groupStart m (B - m.m_baseDynIdx)
      ∧ (∀ i, i < groupStart m (B - m.m_baseDynIdx) + arr.tab.count →
          tableAt (RefArray.growLoop B n fuel m arr).1.m_refs i = tableAt m.m_refs i)
      ∧ (∀ i, i < arr.tab.count →
          cellAt (RefArray.growLoop B n fuel m arr).2.tab.data i = cellAt arr.tab.data i)
      ∧ (∀ i, arr.tab.count ≤ i → i < arr.tab.count + fuel →
          ∃ info, tableAt (RefArray.growLoop B n fuel m arr).1.m_refs
                (groupStart m (B - m.m_baseDynIdx) + i) = some info
            ∧ info.m_target = 0) := by
  induction fuel generalizing m arr with
  | zero =>
    exact ⟨rfl, hP, rfl, rfl, fun _ _ => rfl, fun _ _ => rfl, fun i h1 h2 => by omega⟩
  | succ f ih =>
    have hlt : arr.tab.Count < n := by unfold Tab.Count; omega
    unfold RefArray.growLoop
    simp only [if_pos hlt]
    rw [RefArray_Append_null]
    generalize hreg : RegisterReference m B (arr.tab.count : Int) arr.m_callback 0 false true
      = reg
    have hlen : arr.tab.count < (resizeCells arr.tab.data (arr.tab.count + 1)).length := by
      rw [length_resizeCells]; omega
    have hstep := Placed_register_last B m arr.tab.data
      ((resizeCells arr.tab.data (arr.tab.count + 1)).set arr.tab.count (some reg.1))
      arr.tab.count arr.m_callback hP
      (by
        intro i hi
        rw [cellAt_set, if_neg (fun h => by omega), cellAt_resizeCells, if_pos (by omega)])
      (by rw [hreg, cellAt_set, if_pos ⟨rfl, hlen⟩])
    rw [hreg] at hstep
    obtain ⟨hP1, hbase1, hstart1, hlow1, ⟨info1, hinfo1, htarget1⟩⟩ := hstep
    have hrec := ih reg.2
      { arr with
        tab :=
          { data := (resizeCells arr.tab.data (arr.tab.count + 1)).set arr.tab.count
              (some reg.1),
            count := arr.tab.count + 1 } }
      hP1 (by simp only; omega)
    simp only at hrec
    rw [hbase1] at hrec
    obtain ⟨hc, hP2, hbase2, hstart2, hlow2, hcell2, hnew2⟩ := hrec
    refine ⟨by rw [hc]; omega, hP2, hbase2, by rw [hstart2, hstart1], ?_, ?_, ?_⟩
    · intro i hi
      rw [hlow2 i (by rw [hstart1]; omega), hlow1 i hi]
    · intro i hi
      rw [hcell2 i (by omega), cellAt_set, if_neg (fun h => by omega), cellAt_resizeCells,
        if_pos (by omega)]
    · intro i h1 h2
      by_cases hi : i = arr.tab.count
      · subst hi
        refine ⟨info1, ?_, htarget1⟩
        rw [hlow2 _ (by rw [hstart1]; omega), hinfo1]
      · obtain ⟨info, h3, h4⟩ := hnew2 i (by omega) (by omega)
        rw [hstart1] at h3
        exact ⟨info, h3, h4⟩

/-- The destructor loop of `Delete` over the last `k` handles of a placed group: it returns,
the first `s` handles stay placed and the table below them is untouched. -/
theorem destroyLoop_spec (B s k : Nat) (m : ReferenceManager) (arr : RefArray)
    (hP : Placed B m arr.tab.data (s + k)) :
    ∃ m2 arr2, RefArray.destroyLoop B s k m arr = some (m2, arr2)
      ∧ Placed B m2 arr2.tab.data s
      ∧ m2.m_baseDynIdx = m.m_baseDynIdx
      ∧ groupStart m2 (B - m.m_baseDynIdx) = groupStart m (B - m.m_baseDynIdx)
      ∧ arr2.tab.count = arr.tab.count
      ∧ (∀ i, i < groupStart m (B - m.m_baseDynIdx) + s →
          tableAt m2.m_refs i = tableAt m.m_refs i)
      ∧ (∀ i, i < s → cellAt arr2.tab.data i = cellAt arr.tab.data i) := by
  induction k generalizing m arr with
  | zero =>
    exact ⟨m, arr, rfl, hP, rfl, rfl, rfl, fun _ _ => rfl, fun _ _ => rfl⟩
  | succ k ih =>
    obtain ⟨p, m1, hcell, hdestroy, hP1, hbase1, hstart1, hlow1⟩ :=
      Placed_release_last B m arr.tab.data (s + k) hP
    have hP1a := hP1 (arr.tab.data.set (s + k) (some 0))
      (fun i hi => by rw [cellAt_set, if_neg (fun h => by omega)])
    obtain ⟨m2, arr2, hloop, hP2, hbase2, hstart2, hcount2, hlow2, hcell2⟩ :=
      ih m1 { arr with tab := { arr.tab with data := arr.tab.data.set (s + k) (some 0) } } hP1a
    rw [hbase1] at hstart2 hlow2
    refine ⟨m2, arr2, ?_, hP2, by rw [hbase2, hbase1], by rw [hstart2, hstart1], hcount2, ?_, ?_⟩
    · unfold RefArray.destroyLoop
      simp only [hcell, hdestroy]
      exact hloop
    · intro i hi
      rw [hlow2 i (by rw [hstart1]; exact hi), hlow1 i (by omega)]
    · intro i hi
      rw [hcell2 i hi]
      simp only
      rw [cellAt_set, if_neg (fun h => by omega)]

theorem Placed_congr_cells (B : Nat) (m : ReferenceManager) (data data2 : List (Option Nat))
    (k : Nat) (hP : Placed B m data k) (hcells : ∀ i, i < k → cellAt data2 i = cellAt data i) :
    Placed B m data2 k := by
  obtain ⟨hB, hg, hsize, hcell, hH⟩ := hP
  exact ⟨hB, hg, hsize, fun i hi => by rw [hcells i hi]; exact hcell i hi, hH⟩

theorem derefInfo_of_first (l : List (Option RefInfo)) (n : Nat) (r : RefInfo)
    (hn : tableAt l n = some r) (hfirst : ∀ j, j < n → ptrOf (tableAt l j) ≠ r.addr) :
    derefInfo l r.addr = some r := by
  induction l generalizing n with
  | nil => simp [tableAt] at hn
  | cons e rest ih =>
    cases n with
    | zero =>
      have : e = some r := by simpa [tableAt] using hn
      subst this
      simp [derefInfo]
    | succ n =>
      have h0 : ptrOf e ≠ r.addr := by simpa [tableAt] using hfirst 0 (by omega)
      have hrest : derefInfo rest r.addr = some r :=
        ih n (by simpa [tableAt] using hn)
          (fun j hj => by simpa [tableAt] using hfirst (j + 1) (by omega))
      cases e with
      | none => simpa [derefInfo] using hrest
      | some r0 =>
        have : ¬ r0.addr = r.addr := by simpa [ptrOf] using h0
        simpa [derefInfo, this] using hrest

theorem RefPtr_target_of_tableAt (m : ReferenceManager) (hH : HeapDistinct m) (n : Nat)
    (r : RefInfo) (hn : tableAt m.m_refs n = some r) :
    RefPtr.target m r.addr = some r.m_target := by
  unfold RefPtr.target
  rw [derefInfo_of_first m.m_refs n r hn (HeapDistinct_first m hH n r hn)]

/-- What `Placed` says of one handle: the cell holds the address of the live struct at the
handle's table index. -/
theorem Placed_cell (B : Nat) (m : ReferenceManager) (data : List (Option Nat)) (k i : Nat)
    (hP : Placed B m data k) (hi : i < k) :
    ∃ info, GetInfo m (groupStart m (B - m.m_baseDynIdx) + i) = some info
      ∧ cellAt data i = some info.addr
      ∧ RefPtr.target m info.addr = some info.m_target := by
  obtain ⟨_, _, _, hcell, hH⟩ := hP
  obtain ⟨h1, h2⟩ := hcell i hi
  cases h : GetInfo m (groupStart m (B - m.m_baseDynIdx) + i) with
  | none => rw [h] at h1; exact absurd h1 (by simp)
  | some info =>
    rw [h] at h2
    refine ⟨info, rfl, h2, ?_⟩
    rw [GetInfo_eq] at h
    exact RefPtr_target_of_tableAt m hH _ info h

/-- C14: for a `RefArray` with `c` elements attached to a manager whose size table is accurate
for its group, and every `n >= 0`, `SetCount(n)` returns with `Count() = n` and the group's size
entry equal to `n`; the first `min(c, n)` elements are the same slots (same struct at the same
table index, same target) as before; every added element has a null target; and for every
`i < n` element `i` is the slot at table index `base + (sum of preceding group sizes) + i`. -/
theorem RefArray_SetCount_spec (B : Nat) (mgr : ReferenceManager) (arr : RefArray) (n : Int)
    (hn : 0 ≤ n) (hatt : RefArray.Attached B mgr arr) :
    ∃ mgr2 arr2, RefArray.SetCount B mgr arr n = some (mgr2, arr2)
      ∧ arr2.tab.Count = n
      ∧ ((mgr2.m_arraySizes.getD (B - mgr2.m_baseDynIdx) 0 : Nat) : Int) = n
      ∧ (∀ i : Nat, i < arr.tab.count → (i : Int) < n →
          cellAt arr2.tab.data i = cellAt arr.tab.data i
            ∧ GetInfo mgr2 (groupStart mgr2 (B - mgr2.m_baseDynIdx) + i)
                = GetInfo mgr (groupStart mgr (B - mgr.m_baseDynIdx) + i)
            ∧ ∃ p, cellAt arr.tab.data i = some p
                ∧ RefPtr.target mgr2 p = RefPtr.target mgr p)
      ∧ (∀ i : Nat, arr.tab.count ≤ i → (i : Int) < n →
          ∃ p, cellAt arr2.tab.data i = some p ∧ RefPtr.target mgr2 p = some 0)
      ∧ (∀ i : Nat, (i : Int) < n →
          ∃ info, GetInfo mgr2 (groupStart mgr2 (B - mgr2.m_baseDynIdx) + i) = some info
            ∧ cellAt arr2.tab.data i = some info.addr)
      ∧ RefArray.Attached B mgr2 arr2 := by
  obtain ⟨N, rfl⟩ := Int.eq_ofNat_of_zero_le hn
  unfold RefArray.Attached at hatt ⊢
  by_cases hgrow : arr.tab.count ≤ N
  · -- grow (or keep): the loop runs `N - c` times and `Delete` is not called
    obtain ⟨hc, hP2, hbase2, hstart2, hlow2, hcell2, hnew2⟩ :=
      growLoop_spec B (N : Int) ((N : Int) - (arr.tab.count : Int)).toNat mgr arr hatt rfl
    generalize hr : RefArray.growLoop B (N : Int) ((N : Int) - (arr.tab.count : Int)).toNat
      mgr arr = r at hc hP2 hbase2 hstart2 hlow2 hcell2 hnew2
    have hcount : r.2.tab.count = N := by rw [hc]; omega
    have hnlt : ¬ ((N : Int) < (r.2.tab.count : Int)) := by omega
    have hset : RefArray.SetCount B mgr arr (N : Int) = some (r.1, r.2) := by
      unfold RefArray.SetCount
      simp only [Tab.Count, hr, if_neg hnlt]
    rw [hcount] at hP2
    refine ⟨r.1, r.2, hset, by unfold Tab.Count; rw [hcount], ?_, ?_, ?_, ?_,
      by rw [hcount]; exact hP2⟩
    · rw [hP2.2.2.1]
    · intro i hi _
      obtain ⟨info, h1, h2, h3⟩ := Placed_cell B mgr arr.tab.data _ i hatt hi
      obtain ⟨info2, h4, h5, h6⟩ := Placed_cell B r.1 r.2.tab.data _ i hP2 (by omega)
      have hsame : GetInfo r.1 (groupStart r.1 (B - r.1.m_baseDynIdx) + i)
          = GetInfo mgr (groupStart mgr (B - mgr.m_baseDynIdx) + i) := by
        rw [hbase2, hstart2, GetInfo_eq, GetInfo_eq, hlow2 _ (by omega)]
      refine ⟨hcell2 i hi, hsame, info.addr, h2, ?_⟩
      rw [hsame, h1] at h4
      have : info2 = info := (Option.some.inj h4).symm
      subst this
      rw [h6, h3]
    · intro i hi1 hi2
      obtain ⟨info2, h4, h5, h6⟩ := Placed_cell B r.1 r.2.tab.data _ i hP2 (by omega)
      obtain ⟨info, h7, h8⟩ := hnew2 i hi1 (by omega)
      rw [hbase2, hstart2, GetInfo_eq, h7] at h4
      have : info2 = info := (Option.some.inj h4).symm
      subst this
      exact ⟨info2.addr, h5, by rw [h6, h8]⟩
    · intro i hi
      obtain ⟨info2, h4, h5, _⟩ := Placed_cell B r.1 r.2.tab.data _ i hP2 (by omega)
      exact ⟨info2, h4, h5⟩
  · -- shrink: the loop does not run and `Delete(n, Count() - n)` destroys the last `c - N`
    have hc : arr.tab.count = N + (arr.tab.count - N) := by omega
    have hP0 : Placed B mgr arr.tab.data (N + (arr.tab.count - N)) := by rw [← hc]; exact hatt
    obtain ⟨m2, arr2, hloop, hP2, hbase2, hstart2, hcount2, hlow2, hcell2⟩ :=
      destroyLoop_spec B N (arr.tab.count - N) mgr arr hP0
    have hfuel : ((N : Int) - (arr.tab.count : Int)).toNat = 0 := by omega
    have hlt : (N : Int) < (arr.tab.count : Int) := by omega
    have hnneg : ¬ ((N : Int) < 0) := by omega
    have hmin : min ((arr.tab.count : Int) - (N : Int)) ((arr.tab.count : Int) - (N : Int))
        = (arr.tab.count : Int) - (N : Int) := min_self _
    have hpos : ¬ ((arr.tab.count : Int) - (N : Int) ≤ 0) := by omega
    have htonat : ((arr.tab.count : Int) - (N : Int)).toNat = arr.tab.count - N := by omega
    have hmax : ¬ ((N : Int) + ((arr.tab.count : Int) - (N : Int)) < (arr.tab.count : Int)) := by
      omega
    have hnew : (arr.tab.count : Int) - ((arr.tab.count : Int) - (N : Int)) = (N : Int) := by
      omega
    have hset : RefArray.SetCount B mgr arr (N : Int)
        = some (m2, { arr2 with tab := arr2.tab.SetCount (N : Int) }) := by
      unfold RefArray.SetCount
      simp only [Tab.Count, hfuel, RefArray.growLoop, if_pos hlt]
      unfold RefArray.Delete
      simp only [Tab.Count, if_neg hnneg, hmin, if_neg hpos, Int.toNat_ofNat, htonat, hloop,
        if_neg hmax, hnew]
    have hcells3 : ∀ i, i < N →
        cellAt (arr2.tab.SetCount (N : Int)).data i = cellAt arr.tab.data i := by
      intro i hi
      show cellAt (resizeCells arr2.tab.data (N : Int).toNat) i = _
      rw [Int.toNat_ofNat, cellAt_resizeCells, if_pos hi, hcell2 i hi]
    have hP3 : Placed B m2 (arr2.tab.SetCount (N : Int)).data N :=
      Placed_congr_cells B m2 arr2.tab.data _ N hP2 (fun i hi => by
        show cellAt (resizeCells arr2.tab.data (N : Int).toNat) i = _
        rw [Int.toNat_ofNat, cellAt_resizeCells, if_pos hi])
    have hcount3 : (arr2.tab.SetCount (N : Int)).count = N := by
      show (N : Int).toNat = N
      exact Int.toNat_ofNat N
    refine ⟨m2, { arr2 with tab := arr2.tab.SetCount (N : Int) }, hset, ?_, ?_, ?_, ?_, ?_, ?_⟩
    · show ((arr2.tab.SetCount (N : Int)).count : Int) = N
      rw [hcount3]
    · rw [hP3.2.2.1]
    · intro i hi hiN
      have hiN2 : i < N := by omega
      obtain ⟨info, h1, h2, h3⟩ := Placed_cell B mgr arr.tab.data _ i hatt hi
      obtain ⟨info2, h4, h5, h6⟩ := Placed_cell B m2 _ _ i hP3 hiN2
      have hsame : GetInfo m2 (groupStart m2 (B - m2.m_baseDynIdx) + i)
          = GetInfo mgr (groupStart mgr (B - mgr.m_baseDynIdx) + i) := by
        rw [hbase2, hstart2, GetInfo_eq, GetInfo_eq, hlow2 _ (by omega)]
      refine ⟨hcells3 i hiN2, hsame, info.addr, h2, ?_⟩
      rw [hsame, h1] at h4
      have : info2 = info := (Option.some.inj h4).symm
      subst this
      rw [h6, h3]
    · intro i hi1 hi2
      omega
    · intro i hi
      obtain ⟨info2, h4, h5, _⟩ := Placed_cell B m2 _ _ i hP3 (by omega)
      exact ⟨info2, h4, h5⟩
    · show Placed B m2 (arr2.tab.SetCount (N : Int)).data (arr2.tab.SetCount (N : Int)).count
      rw [hcount3]; exact hP3

/-- Witness for `RefArray_SetCount_spec`: an array of two handles (group 1, after one static
slot and before a one-slot group) is grown to three. -/
theorem RefArray_SetCount_spec_witness :
    RefArray.Attached 1
        { m_refs := [none, some { addr := 1, m_flags := 2, m_target := 11, m_callback := 0 },
                     some { addr := 2, m_flags := 2, m_target := 12, m_callback := 0 },
                     some { addr := 3, m_flags := 2, m_target := 13, m_callback := 0 }],
          m_arraySizes := [2, 1], m_baseDynIdx := 1, heapNext := 4 }
        { tab := { data := [some 1, some 2], count := 2 }, m_callback := 0 }
      ∧ ∃ mgr2 arr2,
          RefArray.SetCount 1
              { m_refs := [none, some { addr := 1, m_flags := 2, m_target := 11, m_callback := 0 },
                           some { addr := 2, m_flags := 2, m_target := 12, m_callback := 0 },
                           some { addr := 3, m_flags := 2, m_target := 13, m_callback := 0 }],
                m_arraySizes := [2, 1], m_baseDynIdx := 1, heapNext := 4 }
              { tab := { data := [some 1, some 2], count := 2 }, m_callback := 0 } 3
            = some (mgr2, arr2)
          ∧ arr2.tab.Count = 3 :=
  ⟨by decide,
   match RefArray_SetCount_spec 1
      { m_refs := [none, some { addr := 1, m_flags := 2, m_target := 11, m_callback := 0 },
                   some { addr := 2, m_flags := 2, m_target := 12, m_callback := 0 },
                   some { addr := 3, m_flags := 2, m_target := 13, m_callback := 0 }],
        m_arraySizes := [2, 1], m_baseDynIdx := 1, heapNext := 4 }
      { tab := { data := [some 1, some 2], count := 2 }, m_callback := 0 } 3
      (by decide) (by decide) with
   | ⟨mgr2, arr2, h1, h2, _⟩ => ⟨mgr2, arr2, h1, h2⟩⟩

/-! ### Call sequences at concrete inputs -/

/-- C3 (code defect): static id 3 is registered, array 1 is declared, one element is appended
to array 1 (it overwrites the empty placeholder of id 2 instead of being inserted), then
array 2 is declared on its empty id.  The last call removes the live slot of id 3 (address
`1`) from the table: `GetReferenceIndex` of that slot is `-1`. -/
theorem runCalls_declare_array_drops_live_slot :
    ∃ m1 m2,
      runCalls ReferenceManager.new
          [MgrCall.register 3 0 0 33 false true, MgrCall.registerArray 1,
           MgrCall.register 1 (-1) 0 11 false true] = some m1
        ∧ GetReferenceIndexOfInfo m1 1 = 2
        ∧ runCall m1 (MgrCall.registerArray 2) = some m2
        ∧ GetReferenceIndexOfInfo m2 1 = -1 :=
  ⟨_, _, rfl, rfl, rfl, rfl⟩

/-- C4 (code defect): static id 3 is registered, array 1 is declared (the size table is
accurate: `3 = 1 + (0 + 1 + 1)`), then one element is appended to array 1.  The element is
stored in the empty placeholder of id 2, so the table still has 3 entries while the size table
sums to `1 + (1 + 1 + 1) = 4`. -/
theorem runCalls_append_breaks_size_sum :
    ∃ m1 m2,
      runCalls ReferenceManager.new
          [MgrCall.register 3 0 0 33 false true, MgrCall.registerArray 1] = some m1
        ∧ NumRefs m1 = 3 ∧ m1.m_baseDynIdx = 1 ∧ m1.m_arraySizes = [0, 1, 1]
        ∧ runCall m1 (MgrCall.register 1 (-1) 0 11 false true) = some m2
        ∧ NumRefs m2 = 3 ∧ m2.m_baseDynIdx = 1 ∧ m2.m_arraySizes = [1, 1, 1]
        ∧ NumRefs m2 ≠ ((m2.m_baseDynIdx + m2.m_arraySizes.sum : Nat) : Int) :=
  ⟨_, _, rfl, rfl, rfl, rfl, rfl, rfl, rfl, rfl, by decide⟩

/-- C10, as stated, fails: two slots reference target `7`.  `NotifyRefChanged` with
`REFMSG_TARGET_DELETED` for `7` returns `REF_SUCCEED` and nulls only the first of them: slot 1
still references `7` and `GetReferenceIndex(7)` is `1`, not `-1`. -/
theorem NotifyRefChanged_nulls_first_slot_only :
    (NotifyRefChanged
        { m_refs := [some { addr := 1, m_flags := 2, m_target := 7, m_callback := 0 },
                     some { addr := 2, m_flags := 2, m_target := 7, m_callback := 0 }],
          m_arraySizes := [], m_baseDynIdx := INT_MAX, heapNext := 3 } 7 true).1
        = RefResult.REF_SUCCEED
      ∧ GetReference
          (NotifyRefChanged
            { m_refs := [some { addr := 1, m_flags := 2, m_target := 7, m_callback := 0 },
                         some { addr := 2, m_flags := 2, m_target := 7, m_callback := 0 }],
              m_arraySizes := [], m_baseDynIdx := INT_MAX, heapNext := 3 } 7 true).2 1 = 7
      ∧ GetReferenceIndex
          (NotifyRefChanged
            { m_refs := [some { addr := 1, m_flags := 2, m_target := 7, m_callback := 0 },
                         some { addr := 2, m_flags := 2, m_target := 7, m_callback := 0 }],
              m_arraySizes := [], m_baseDynIdx := INT_MAX, heapNext := 3 } 7 true).2 7 = 1 :=
  ⟨rfl, rfl, rfl⟩

/-- C7, as stated, fails: static id 0 is occupied by the slot at address `1`; a second
`RegisterReference(0, 0, ...)` is not rejected: a new slot (address `2`) is inserted at index
0, the old slot moves to index 1 and `NumRefs()` grows from 1 to 2. -/
theorem RegisterReference_occupied_static_inserts :
    ∃ m1,
      runCalls ReferenceManager.new [MgrCall.register 0 0 0 33 false true] = some m1
        ∧ (0 : Nat) < m1.m_baseDynIdx ∧ GetReferenceIndexOfInfo m1 1 = 0 ∧ NumRefs m1 = 1
        ∧ (RegisterReference m1 0 0 0 34 false true).1 = 2
        ∧ GetReferenceIndexOfInfo (RegisterReference m1 0 0 0 34 false true).2 2 = 0
        ∧ GetReferenceIndexOfInfo (RegisterReference m1 0 0 0 34 false true).2 1 = 1
        ∧ NumRefs (RegisterReference m1 0 0 0 34 false true).2 = 2 :=
  ⟨_, rfl, by decide, rfl, rfl, rfl, rfl, rfl, rfl⟩

/-! ### Release of a slot -/

theorem set_set_same {α : Type} (l : List α) (k : Nat) (a b : α) :
    (l.set k a).set k b = l.set k b := by
  apply List.ext_getElem?
  intro i
  simp only [List.getElem?_set, List.length_set]
  by_cases h : k = i
  · simp [h]
  · simp [h]

theorem ReleaseReferenceInfo_static (m : ReferenceManager) (n : Nat) (r : RefInfo)
    (hH : HeapDistinct m) (hn : tableAt m.m_refs n = some r) (hlt : n < m.m_baseDynIdx) :
    ReleaseReferenceInfo m r.addr
      = some (RefResult.REF_SUCCEED, { m with m_refs := m.m_refs.set n none }) := by
  have hlen : n < m.m_refs.length := tableAt_length_lt _ _ _ hn
  have hfirst := HeapDistinct_first m hH n r hn
  have hidx : GetReferenceIndexOfInfo m r.addr = (n : Int) :=
    GetReferenceIndexOfInfo_first m r.addr n hlen (by rw [hn]; rfl) hfirst
  have hneg : ¬ ((n : Int) < 0) := by omega
  unfold ReleaseReferenceInfo
  simp only [hidx, if_neg hneg, sizeT_natCast, GetInfo_eq, hn]
  by_cases ht : r.m_target ≠ 0
  · simp only [if_pos ht]
    unfold DeleteReference
    rw [SetReference_refs m n 0 r hn]
    have hdec : decide (n ≥ m.m_baseDynIdx) = false := by
      simp only [ge_iff_le, decide_eq_false_iff_not]; omega
    simp only [hdec, Bool.false_eq_true, if_false]
    have hfind : findPtr (m.m_refs.set n (some { r with m_target := 0 })) r.addr = n := by
      apply findPtr_first
      · rw [List.length_set]; exact hlen
      · rw [tableAt_set, if_pos ⟨rfl, hlen⟩]; rfl
      · intro j hj
        rw [tableAt_set, if_neg (fun h => by omega)]
        exact hfirst j hj
    rw [hfind, set_set_same]
  · simp only [if_neg ht]
    have hdec : decide (n ≥ m.m_baseDynIdx) = false := by
      simp only [ge_iff_le, decide_eq_false_iff_not]; omega
    simp only [hdec, Bool.false_eq_true, if_false]
    rw [findPtr_first m.m_refs r.addr n hlen (by rw [hn]; rfl) hfirst]

/-- C9: for a live static slot `s` at table index `n` below the dynamic base,
`ReleaseReference(s, n)` succeeds, empties table entry `n` and changes nothing else:
`NumRefs()`, every other table entry (hence the index of every other slot), the array size
table and the dynamic base are as before. -/
theorem ReleaseReference_static_frame (m : ReferenceManager) (n : Nat) (s : RefInfo)
    (hH : HeapDistinct m) (hs : GetInfo m n = some s) (hlt : n < m.m_baseDynIdx) :
    ∃ m2, ReleaseReference m s.addr n = some (RefResult.REF_SUCCEED, m2)
      ∧ GetInfo m2 n = none
      ∧ NumRefs m2 = NumRefs m
      ∧ (∀ i, i ≠ n → GetInfo m2 i = GetInfo m i)
      ∧ m2.m_arraySizes = m.m_arraySizes
      ∧ m2.m_baseDynIdx = m.m_baseDynIdx := by
  rw [GetInfo_eq] at hs
  have hlen : n < m.m_refs.length := tableAt_length_lt _ _ _ hs
  refine ⟨{ m with m_refs := m.m_refs.set n none }, ?_, ?_, ?_, ?_, rfl, rfl⟩
  · unfold ReleaseReference
    rw [ReleaseReferenceInfo_static m n s hH hs hlt]
    simp only [ne_eq, not_true_eq_false, if_false, if_pos hlt]
  · rw [GetInfo_eq]
    show tableAt (m.m_refs.set n none) n = none
    rw [tableAt_set, if_pos ⟨rfl, hlen⟩]
  · unfold NumRefs
    show ((m.m_refs.set n none).length : Int) = _
    rw [List.length_set]
  · intro i hi
    rw [GetInfo_eq, GetInfo_eq]
    show tableAt (m.m_refs.set n none) i = _
    rw [tableAt_set, if_neg (fun h => hi h.1.symm)]

/-- Witness for `ReleaseReference_static_frame`: the static slot at index 0 of a table
with two static slots. -/
theorem ReleaseReference_static_frame_witness :
    ∃ m2, ReleaseReference
        { m_refs := [some { addr := 1, m_flags := 2, m_target := 5, m_callback := 0 },
                     some { addr := 2, m_flags := 2, m_target := 6, m_callback := 0 }],
          m_arraySizes := [], m_baseDynIdx := INT_MAX, heapNext := 3 } 1 0
        = some (RefResult.REF_SUCCEED, m2) ∧ GetInfo m2 0 = none :=
  match ReleaseReference_static_frame
      { m_refs := [some { addr := 1, m_flags := 2, m_target := 5, m_callback := 0 },
                   some { addr := 2, m_flags := 2, m_target := 6, m_callback := 0 }],
        m_arraySizes := [], m_baseDynIdx := INT_MAX, heapNext := 3 } 0
      { addr := 1, m_flags := 2, m_target := 5, m_callback := 0 }
      (by decide) rfl (by decide) with
  | ⟨m2, h1, h2, _⟩ => ⟨m2, h1, h2⟩

theorem GetReferenceIndexOfInfo_absent (m : ReferenceManager) (p : Nat)
    (h : ∀ j, j < m.m_refs.length → ptrOf (tableAt m.m_refs j) ≠ p) :
    GetReferenceIndexOfInfo m p = -1 := by
  unfold GetReferenceIndexOfInfo
  apply scanFrom_eq_neg_one
  intro j _ hj
  have := h j (by omega)
  simpa [GetInfo_eq] using this

/-- C8: for a live slot `s` of array group `g` located at table index `n` at or above the
dynamic base, in a manager whose size table has a non-zero entry for `g`,
`ReleaseReference(s, g)` returns `REF_SUCCEED`; `s` is no longer in the table and `NumRefs()`
drops by one; the size entry of `g` is decremented by exactly one and every other size entry
and the dynamic base are unchanged; entries below `n` keep their index and entries above `n`
move down by exactly one. -/
theorem ReleaseReference_dynamic_spec (m : ReferenceManager) (n g : Nat) (s : RefInfo)
    (hH : HeapDistinct m) (hs : GetInfo m n = some s) (hn : m.m_baseDynIdx ≤ n)
    (hg : m.m_baseDynIdx ≤ g) (hentry : g - m.m_baseDynIdx < m.m_arraySizes.length)
    (hsize : 0 < m.m_arraySizes.getD (g - m.m_baseDynIdx) 0) :
    ∃ m2, ReleaseReference m s.addr g = some (RefResult.REF_SUCCEED, m2)
      ∧ GetReferenceIndexOfInfo m2 s.addr = -1
      ∧ NumRefs m2 = NumRefs m - 1
      ∧ m2.m_arraySizes.getD (g - m.m_baseDynIdx) 0
          = m.m_arraySizes.getD (g - m.m_baseDynIdx) 0 - 1
      ∧ m2.m_arraySizes.length = m.m_arraySizes.length
      ∧ (∀ j, j ≠ g - m.m_baseDynIdx → m2.m_arraySizes.getD j 0 = m.m_arraySizes.getD j 0)
      ∧ m2.m_baseDynIdx = m.m_baseDynIdx
      ∧ (∀ i, i < n → GetInfo m2 i = GetInfo m i)
      ∧ (∀ i, n ≤ i → GetInfo m2 i = GetInfo m (i + 1)) := by
  rw [GetInfo_eq] at hs
  have hlen : n < m.m_refs.length := tableAt_length_lt _ _ _ hs
  have hnlt : ¬ g < m.m_baseDynIdx := by omega
  have hne : m.m_arraySizes.getD (g - m.m_baseDynIdx) 0 ≠ 0 := by omega
  have hrel : ReleaseReference m s.addr g
      = some (RefResult.REF_SUCCEED,
          { m with
            m_refs := removeAt m.m_refs n,
            m_arraySizes :=
              (m.m_arraySizes.set (g - m.m_baseDynIdx)
                (m.m_arraySizes.getD (g - m.m_baseDynIdx) 0 - 1)) }) := by
    unfold ReleaseReference
    rw [ReleaseReferenceInfo_dynamic m n s hH hs hn]
    simp only [ne_eq, not_true_eq_false, if_false, if_neg hnlt]
    unfold DecrementArrayCount
    simp only [if_pos hentry, decSizeT, if_neg hne]
  rw [HeapDistinct_iff] at hH
  refine ⟨_, hrel, ?_, ?_, ?_, ?_, ?_, rfl, ?_, ?_⟩
  · apply GetReferenceIndexOfInfo_absent
    intro j _ he
    simp only [tableAt_removeAt] at he
    by_cases hj : j < n
    · rw [if_pos hj] at he
      cases h : tableAt m.m_refs j with
      | none => rw [h] at he; have := (hH.2.1 n s hs).1; simp only [ptrOf] at he; omega
      | some r => rw [h] at he; have := hH.1 j n r s h hs he; omega
    · rw [if_neg hj] at he
      cases h : tableAt m.m_refs (j + 1) with
      | none => rw [h] at he; have := (hH.2.1 n s hs).1; simp only [ptrOf] at he; omega
      | some r => rw [h] at he; have := hH.1 (j + 1) n r s h hs he; omega
  · unfold NumRefs
    show ((removeAt m.m_refs n).length : Int) = _
    rw [length_removeAt _ _ hlen]
    omega
  · exact getD_set_self _ _ _ hentry
  · show (List.set _ _ _).length = _
    rw [List.length_set]
  · intro j hj
    show (List.set _ _ _).getD j 0 = _
    simp only [List.getD_eq_getElem?_getD]
    rw [List.getElem?_set_ne (fun h => hj h.symm)]
  · intro i hi
    rw [GetInfo_eq, GetInfo_eq]
    show tableAt (removeAt m.m_refs n) i = _
    rw [tableAt_removeAt, if_pos hi]
  · intro i hi
    rw [GetInfo_eq, GetInfo_eq]
    show tableAt (removeAt m.m_refs n) i = _
    rw [tableAt_removeAt, if_neg (by omega)]

/-- Witness for `ReleaseReference_dynamic_spec`: the first of two elements of group 1, which
follows one static slot. -/
theorem ReleaseReference_dynamic_spec_witness :
    ∃ m2, ReleaseReference
        { m_refs := [some { addr := 1, m_flags := 2, m_target := 5, m_callback := 0 },
                     some { addr := 2, m_flags := 2, m_target := 6, m_callback := 0 },
                     some { addr := 3, m_flags := 2, m_target := 7, m_callback := 0 }],
          m_arraySizes := [2], m_baseDynIdx := 1, heapNext := 4 } 2 1
        = some (RefResult.REF_SUCCEED, m2) ∧ GetReferenceIndexOfInfo m2 2 = -1 :=
  match ReleaseReference_dynamic_spec
      { m_refs := [some { addr := 1, m_flags := 2, m_target := 5, m_callback := 0 },
                   some { addr := 2, m_flags := 2, m_target := 6, m_callback := 0 },
                   some { addr := 3, m_flags := 2, m_target := 7, m_callback := 0 }],
        m_arraySizes := [2], m_baseDynIdx := 1, heapNext := 4 } 1 1
      { addr := 2, m_flags := 2, m_target := 6, m_callback := 0 }
      (by decide) rfl (by decide) (by decide) (by decide) (by decide) with
  | ⟨m2, h1, h2, _⟩ => ⟨m2, h1, h2⟩

/-! ### Registration: where the new slot goes -/

theorem sizeT_nonneg (i : Int) (h : 0 ≤ i) : sizeT i = i.toNat := by
  unfold sizeT
  rw [if_neg (by omega)]

theorem sizesAfterRegister_length (m : ReferenceManager) (a : Nat) :
    a < (sizesAfterRegister m a).length := by
  unfold sizesAfterRegister
  by_cases h : a ≥ m.m_arraySizes.length
  · rw [if_pos h, List.length_append, List.length_replicate]; omega
  · rw [if_neg h, List.length_set]; omega

theorem sizesAfterRegister_getD (m : ReferenceManager) (a : Nat) :
    (sizesAfterRegister m a).getD a 0 = m.m_arraySizes.getD a 0 + 1 := by
  unfold sizesAfterRegister
  by_cases h : a ≥ m.m_arraySizes.length
  · rw [if_pos h, List.getD_eq_getElem?_getD, List.getD_eq_getElem?_getD,
      List.getElem?_append_right h, List.getElem?_replicate, if_pos (by omega),
      List.getElem?_eq_none h]
    rfl
  · rw [if_neg h]
    exact getD_set_self _ _ _ (by omega)

theorem sizesAfterRegister_take (m : ReferenceManager) (a : Nat)
    (h : a < m.m_arraySizes.length) :
    (sizesAfterRegister m a).take a = m.m_arraySizes.take a := by
  unfold sizesAfterRegister
  rw [if_neg (by omega), take_set_self]

/-- Unfolding of `RegisterReference` for a group at or above the dynamic base: the size table
is updated, the offset is the given index (the new size minus one for a negative index) and
`InsertReference` runs at `base + (sum of the preceding sizes) + offset`. -/
theorem RegisterReference_dynamic_unfold (m : ReferenceManager) (g : Nat) (index : Int)
    (cb ref : Nat) (w ps : Bool) (hg : m.m_baseDynIdx ≤ g) (hnext : m.heapNext ≠ 0) :
    RegisterReference m g index cb ref w ps
      = (m.heapNext,
         (if ref ≠ 0 then
            SetReference
              (InsertReference { m with m_arraySizes := sizesAfterRegister m (g - m.m_baseDynIdx) }
                ((m.m_baseDynIdx + ((sizesAfterRegister m (g - m.m_baseDynIdx)).take
                    (g - m.m_baseDynIdx)).sum
                  + sizeT (if index < 0 then (m.m_arraySizes.getD (g - m.m_baseDynIdx) 0 : Int)
                      else index) : Nat) : Int) cb w ps).2
              ((m.m_baseDynIdx + ((sizesAfterRegister m (g - m.m_baseDynIdx)).take
                    (g - m.m_baseDynIdx)).sum
                  + sizeT (if index < 0 then (m.m_arraySizes.getD (g - m.m_baseDynIdx) 0 : Int)
                      else index) : Nat) : Int) ref
          else
            (InsertReference { m with m_arraySizes := sizesAfterRegister m (g - m.m_baseDynIdx) }
                ((m.m_baseDynIdx + ((sizesAfterRegister m (g - m.m_baseDynIdx)).take
                    (g - m.m_baseDynIdx)).sum
                  + sizeT (if index < 0 then (m.m_arraySizes.getD (g - m.m_baseDynIdx) 0 : Int)
                      else index) : Nat) : Int) cb w ps).2)) := by
  have h1 : ¬ g < m.m_baseDynIdx := by omega
  have hm1 : (if g - m.m_baseDynIdx ≥ m.m_arraySizes.length then
        ({ m with m_arraySizes :=
            m.m_arraySizes ++ List.replicate (g - m.m_baseDynIdx + 1 - m.m_arraySizes.length) 1 }
          : ReferenceManager)
      else IncrementArrayCount m (g - m.m_baseDynIdx))
      = { m with m_arraySizes := sizesAfterRegister m (g - m.m_baseDynIdx) } := by
    unfold sizesAfterRegister IncrementArrayCount
    by_cases h : g - m.m_baseDynIdx ≥ m.m_arraySizes.length
    · rw [if_pos h, if_pos h]
    · rw [if_neg h, if_neg h, if_pos (by omega)]
  have hidx : (if index < 0 then
        (((sizesAfterRegister m (g - m.m_baseDynIdx)).getD (g - m.m_baseDynIdx) 0 : Nat) : Int) - 1
      else index)
      = (if index < 0 then (m.m_arraySizes.getD (g - m.m_baseDynIdx) 0 : Int) else index) := by
    rw [sizesAfterRegister_getD]
    by_cases h : index < 0
    · rw [if_pos h, if_pos h]; omega
    · rw [if_neg h, if_neg h]
  have hlen := sizesAfterRegister_length m (g - m.m_baseDynIdx)
  unfold RegisterReference
  simp only [if_neg h1, hm1, hidx]
  unfold GetReferenceIndexForArray
  simp only [if_neg (by omega : ¬ (g - m.m_baseDynIdx ≥
    (sizesAfterRegister m (g - m.m_baseDynIdx)).length)), sizeT_natCast]
  simp only [InsertReference_eq, if_neg hnext]
  by_cases hr : ref ≠ 0
  · simp only [if_pos hr, ReplaceReference]
  · simp only [if_neg hr]

theorem SetReference_ptrs (m : ReferenceManager) (i : Int) (t : Nat) :
    (SetReference m i t).m_refs.length = m.m_refs.length
      ∧ (∀ j, ptrOf (tableAt (SetReference m i t).m_refs j) = ptrOf (tableAt m.m_refs j))
      ∧ (SetReference m i t).m_arraySizes = m.m_arraySizes
      ∧ (SetReference m i t).m_baseDynIdx = m.m_baseDynIdx
      ∧ (SetReference m i t).heapNext = m.heapNext := by
  unfold SetReference
  by_cases hi : i < 0
  · rw [if_pos hi]
    exact ⟨rfl, fun _ => rfl, rfl, rfl, rfl⟩
  · rw [if_neg hi]
    cases h : GetInfo m (sizeT i) with
    | none => exact ⟨rfl, fun _ => rfl, rfl, rfl, rfl⟩
    | some r =>
      refine ⟨?_, ?_, rfl, rfl, rfl⟩
      · show (List.set _ _ _).length = _
        rw [List.length_set]
      · intro j
        show ptrOf (tableAt (List.set _ _ _) j) = _
        rw [tableAt_set]
        by_cases hj : sizeT i = j ∧ sizeT i < m.m_refs.length
        · rw [if_pos hj, ← hj.1]
          rw [GetInfo_eq] at h
          rw [h]
          rfl
        · rw [if_neg hj]

theorem HeapDistinct_heapNext (m : ReferenceManager) (h : HeapDistinct m) : m.heapNext ≠ 0 := by
  have := h.2.2
  omega

/-! ### Registration in a group with the arithmetic of the source -/

theorem toInt32_of_le (x : Nat) (h : x ≤ INT_MAX) : toInt32 x = (x : Int) := by
  unfold INT_MAX at h
  unfold toInt32
  have h1 : x % 4294967296 = x := Nat.mod_eq_of_lt (by omega)
  rw [h1, if_pos (by omega)]

theorem toInt32_sizeT_natCast (x : Nat) (h : x ≤ INT_MAX) :
    toInt32 (sizeT ((x : Nat) : Int)) = (x : Int) := by
  rw [sizeT_natCast, toInt32_of_le x h]

theorem Machine_sizesAfterRegister_length (m : ReferenceManager) (a : Nat) :
    a < (Machine.sizesAfterRegister m a).length := by
  unfold Machine.sizesAfterRegister
  by_cases h : a ≥ m.m_arraySizes.length
  · rw [if_pos h, List.length_append, List.length_replicate]; omega
  · rw [if_neg h, List.length_set]; omega

/-- Unfolding of `Machine.RegisterReference` for a group at or above the dynamic base and an
offset `k >= 0` for which the index is representable as an `int`: the size table is updated
and `InsertReference` runs at `base + (sum of the preceding sizes) + k`. -/
theorem Machine_RegisterReference_dynamic_unfold (m : ReferenceManager) (g k : Nat)
    (cb ref : Nat) (w ps : Bool) (hg : m.m_baseDynIdx ≤ g) (hnext : m.heapNext ≠ 0)
    (hfit : m.m_baseDynIdx
      + ((Machine.sizesAfterRegister m (g - m.m_baseDynIdx)).take (g - m.m_baseDynIdx)).sum + k
        ≤ INT_MAX) :
    Machine.RegisterReference m g (k : Int) cb ref w ps
      = (m.heapNext,
         (if ref ≠ 0 then
            SetReference
              (InsertReference
                { m with m_arraySizes := Machine.sizesAfterRegister m (g - m.m_baseDynIdx) }
                ((m.m_baseDynIdx + ((Machine.sizesAfterRegister m (g - m.m_baseDynIdx)).take
                    (g - m.m_baseDynIdx)).sum + k : Nat) : Int) cb w ps).2
              ((m.m_baseDynIdx + ((Machine.sizesAfterRegister m (g - m.m_baseDynIdx)).take
                    (g - m.m_baseDynIdx)).sum + k : Nat) : Int) ref
          else
            (InsertReference
                { m with m_arraySizes := Machine.sizesAfterRegister m (g - m.m_baseDynIdx) }
                ((m.m_baseDynIdx + ((Machine.sizesAfterRegister m (g - m.m_baseDynIdx)).take
                    (g - m.m_baseDynIdx)).sum + k : Nat) : Int) cb w ps).2)) := by
  have h1 : ¬ g < m.m_baseDynIdx := by omega
  have hk : ¬ ((k : Int) < 0) := by omega
  have hm1 : (if g - m.m_baseDynIdx ≥ m.m_arraySizes.length then
        ({ m with m_arraySizes :=
            m.m_arraySizes ++ List.replicate (g - m.m_baseDynIdx + 1 - m.m_arraySizes.length) 1 }
          : ReferenceManager)
      else Machine.IncrementArrayCount m (g - m.m_baseDynIdx))
      = { m with m_arraySizes := Machine.sizesAfterRegister m (g - m.m_baseDynIdx) } := by
    unfold Machine.sizesAfterRegister Machine.IncrementArrayCount
    by_cases h : g - m.m_baseDynIdx ≥ m.m_arraySizes.length
    · rw [if_pos h, if_pos h]
    · rw [if_neg h, if_neg h, if_pos (by omega)]
  have hlen := Machine_sizesAfterRegister_length m (g - m.m_baseDynIdx)
  have hmod : (m.m_baseDynIdx
      + ((Machine.sizesAfterRegister m (g - m.m_baseDynIdx)).take (g - m.m_baseDynIdx)).sum + k)
        % 18446744073709551616
      = m.m_baseDynIdx
        + ((Machine.sizesAfterRegister m (g - m.m_baseDynIdx)).take (g - m.m_baseDynIdx)).sum
        + k := by
    unfold INT_MAX at hfit
    exact Nat.mod_eq_of_lt (by omega)
  unfold Machine.RegisterReference
  simp only [if_neg h1, hm1, if_neg hk, sizeT_natCast]
  unfold Machine.GetReferenceIndexForArray
  simp only [if_neg (by omega : ¬ (g - m.m_baseDynIdx ≥
    (Machine.sizesAfterRegister m (g - m.m_baseDynIdx)).length)), hmod,
    toInt32_of_le _ hfit, sizeT_natCast]
  simp only [InsertReference_eq, if_neg hnext]
  by_cases hr : ref ≠ 0
  · simp only [if_pos hr, ReplaceReference]
  · simp only [if_neg hr]

/-- The index `GetReferenceIndexForArray` computes in exact arithmetic is the one the source
computes whenever it is at most `INT_MAX`. -/
theorem Machine_GetReferenceIndexForArray_eq (m : ReferenceManager) (arrayIdx offset : Nat)
    (hfit : m.m_baseDynIdx + (m.m_arraySizes.take arrayIdx).sum + offset ≤ INT_MAX) :
    Machine.GetReferenceIndexForArray m arrayIdx offset
      = GetReferenceIndexForArray m arrayIdx offset := by
  unfold Machine.GetReferenceIndexForArray GetReferenceIndexForArray
  have hmod : (m.m_baseDynIdx + (m.m_arraySizes.take arrayIdx).sum + offset)
      % 18446744073709551616
      = m.m_baseDynIdx + (m.m_arraySizes.take arrayIdx).sum + offset := by
    unfold INT_MAX at hfit
    exact Nat.mod_eq_of_lt (by omega)
  rw [hmod, toInt32_of_le _ hfit]

/-- The increment of a size entry in exact arithmetic is the one of the source unless the
entry is `2 ^ 64 - 1`. -/
theorem Machine_IncrementArrayCount_eq (m : ReferenceManager) (arrayIdx : Nat)
    (h : m.m_arraySizes.getD arrayIdx 0 < 18446744073709551615) :
    Machine.IncrementArrayCount m arrayIdx = IncrementArrayCount m arrayIdx := by
  unfold Machine.IncrementArrayCount IncrementArrayCount
  rw [Nat.mod_eq_of_lt (by omega)]

theorem Machine_sizesAfterRegister_eq (m : ReferenceManager) (a : Nat)
    (h : m.m_arraySizes.getD a 0 < 18446744073709551615) :
    Machine.sizesAfterRegister m a = sizesAfterRegister m a := by
  unfold Machine.sizesAfterRegister sizesAfterRegister
  rw [Nat.mod_eq_of_lt (by omega)]

/-- `RegisterReference` in exact arithmetic is `RegisterReference` with the arithmetic of the
source for a group at or above the dynamic base and an offset `k >= 0`, whenever the index
base + (sum of the preceding sizes) + `k` is at most `INT_MAX` and the size entry of the
group is not `2 ^ 64 - 1`. -/
theorem Machine_RegisterReference_eq (m : ReferenceManager) (g k cb ref : Nat) (w ps : Bool)
    (hg : m.m_baseDynIdx ≤ g) (hnext : m.heapNext ≠ 0)
    (hsize : m.m_arraySizes.getD (g - m.m_baseDynIdx) 0 < 18446744073709551615)
    (hfit : m.m_baseDynIdx
      + ((sizesAfterRegister m (g - m.m_baseDynIdx)).take (g - m.m_baseDynIdx)).sum + k
        ≤ INT_MAX) :
    Machine.RegisterReference m g (k : Int) cb ref w ps
      = RegisterReference m g (k : Int) cb ref w ps := by
  have hk : ¬ ((k : Int) < 0) := by omega
  have he := Machine_sizesAfterRegister_eq m (g - m.m_baseDynIdx) hsize
  rw [Machine_RegisterReference_dynamic_unfold m g k cb ref w ps hg hnext (by rw [he]; exact hfit),
    RegisterReference_dynamic_unfold m g (k : Int) cb ref w ps hg hnext, he]
  simp only [if_neg hk, sizeT_natCast]

/-! ### Registration on a static id -/

theorem InsertReference_length (m : ReferenceManager) (n cb : Nat) (w ps : Bool) :
    (InsertReference m (n : Int) cb w ps).2.m_refs.length
      = if (tableAt m.m_refs n).isSome = true then max m.m_refs.length (n + 1) + 1
        else max m.m_refs.length (n + 1) := by
  rw [InsertReference_eq]
  show (List.set _ _ _).length = _
  rw [List.length_set]
  by_cases hs : (tableAt m.m_refs n).isSome = true
  · rw [if_pos hs, if_pos hs, length_insertAt _ _ _ (by rw [length_padNull]; omega),
      length_padNull]
  · rw [if_neg hs, if_neg hs, length_padNull]

/-- C7 (amended): `RegisterReference(g, 0, ...)` on a static id `g` whose table entry is
occupied is not rejected in a release build: it returns a new slot holding the given target,
inserted at index `g`; the previous slot of `g` and every entry above move up by one,
`NumRefs()` grows by one, and the entries below `g`, the size table and the dynamic base are
unchanged. -/
theorem RegisterReference_static_occupied (m : ReferenceManager) (g cb ref : Nat)
    (w ps : Bool) (s : RefInfo) (hlt : g < m.m_baseDynIdx) (hocc : GetInfo m g = some s) :
    (RegisterReference m g 0 cb ref w ps).1 = m.heapNext
      ∧ (∃ info, GetInfo (RegisterReference m g 0 cb ref w ps).2 g = some info
          ∧ info.addr = m.heapNext ∧ info.m_target = ref)
      ∧ GetInfo (RegisterReference m g 0 cb ref w ps).2 (g + 1) = some s
      ∧ NumRefs (RegisterReference m g 0 cb ref w ps).2 = NumRefs m + 1
      ∧ (∀ i, i < g → GetInfo (RegisterReference m g 0 cb ref w ps).2 i = GetInfo m i)
      ∧ (∀ i, g ≤ i → GetInfo (RegisterReference m g 0 cb ref w ps).2 (i + 1) = GetInfo m i)
      ∧ (RegisterReference m g 0 cb ref w ps).2.m_arraySizes = m.m_arraySizes
      ∧ (RegisterReference m g 0 cb ref w ps).2.m_baseDynIdx = m.m_baseDynIdx := by
  rw [GetInfo_eq] at hocc
  have hsome : (tableAt m.m_refs g).isSome = true := by rw [hocc]; rfl
  have hglen : g < m.m_refs.length := tableAt_length_lt _ _ _ hocc
  obtain ⟨_, hsz, hbase, _, hinfo, hlow, hhigh⟩ := InsertReference_effect m g cb w ps
  have hlen := InsertReference_length m g cb w ps
  rw [if_pos hsome] at hlen
  have hreg : RegisterReference m g 0 cb ref w ps
      = (m.heapNext,
         { (InsertReference m (g : Int) cb w ps).2 with
           m_refs := (InsertReference m (g : Int) cb w ps).2.m_refs.set g
             (some { newRefInfo m.heapNext cb w ps with m_target := ref }) }) := by
    unfold RegisterReference
    simp only [if_pos hlt, RegisterReferenceStatic, ReplaceReference]
    rw [SetReference_refs _ g ref _ hinfo]
    simp only [GetInfo_eq]
    rw [tableAt_set, if_pos ⟨rfl, tableAt_length_lt _ _ _ hinfo⟩]
    simp only [ptrOf, (newRefInfo_fields _ _ _ _).1]
  rw [hreg]
  have hglen2 : g < (InsertReference m (g : Int) cb w ps).2.m_refs.length :=
    tableAt_length_lt _ _ _ hinfo
  refine ⟨rfl, ⟨{ newRefInfo m.heapNext cb w ps with m_target := ref }, ?_,
    (newRefInfo_fields m.heapNext cb w ps).1, rfl⟩, ?_, ?_, ?_, ?_, hsz, hbase⟩
  · rw [GetInfo_eq]
    show tableAt (List.set _ g _) g = _
    rw [tableAt_set, if_pos ⟨rfl, hglen2⟩]
  · rw [GetInfo_eq]
    show tableAt (List.set _ g _) (g + 1) = _
    rw [tableAt_set, if_neg (fun h => by omega), hhigh (g + 1) (by omega), if_pos hsome]
    exact hocc
  · unfold NumRefs
    show ((List.set _ g _).length : Int) = _
    rw [List.length_set, hlen]
    omega
  · intro i hi
    rw [GetInfo_eq, GetInfo_eq]
    show tableAt (List.set _ g _) i = _
    rw [tableAt_set, if_neg (fun h => by omega), hlow i hi]
  · intro i hi
    rw [GetInfo_eq, GetInfo_eq]
    show tableAt (List.set _ g _) (i + 1) = _
    rw [tableAt_set, if_neg (fun h => by omega), hhigh (i + 1) (by omega), if_pos hsome]
    rfl

/-- Witness for `RegisterReference_static_occupied`: static id 0 is occupied. -/
theorem RegisterReference_static_occupied_witness :
    (RegisterReference
        { m_refs := [some { addr := 1, m_flags := 2, m_target := 33, m_callback := 0 }],
          m_arraySizes := [], m_baseDynIdx := INT_MAX, heapNext := 2 } 0 0 0 34 false true).1
      = 2 :=
  (RegisterReference_static_occupied
    { m_refs := [some { addr := 1, m_flags := 2, m_target := 33, m_callback := 0 }],
      m_arraySizes := [], m_baseDynIdx := INT_MAX, heapNext := 2 } 0 0 34 false true
    { addr := 1, m_flags := 2, m_target := 33, m_callback := 0 } (by decide) rfl).1

/-! ### Declaring an array below the dynamic base -/

theorem RegisterReferenceArrayExtend_below (m : ReferenceManager) (g : Nat)
    (hlt : g < m.m_baseDynIdx) (hwf : g < m.m_refs.length ∨ m.m_arraySizes = []) :
    RegisterReferenceArrayExtend m g
      = m.m_refs ++ List.replicate (g + 1 - m.m_refs.length) none := by
  unfold RegisterReferenceArrayExtend
  by_cases h : g ≥ m.m_refs.length
  · have hs : m.m_arraySizes = [] := by
      rcases hwf with h1 | h1
      · omega
      · exact h1
    rw [if_pos h, if_neg (by omega), hs]
    simp only [List.length_nil, if_true]
    unfold setLengthUsed
    rw [List.take_of_length_le (by omega)]
  · rw [if_neg h]
    have : g + 1 - m.m_refs.length = 0 := by omega
    rw [this]
    simp

/-- The effect of `RegisterReferenceArray(g)` for an id below the dynamic base that lies in
the table (or, in a manager without arrays, beyond it). -/
theorem RegisterReferenceArray_below_eq (m : ReferenceManager) (g : Nat)
    (hlt : g < m.m_baseDynIdx) (hwf : g < m.m_refs.length ∨ m.m_arraySizes = []) :
    RegisterReferenceArray m g
      = some (true,
          { m with
            m_refs := removeAt (m.m_refs ++ List.replicate (g + 1 - m.m_refs.length) none) g,
            m_arraySizes :=
              (0 :: List.replicate
                (min m.m_baseDynIdx (max m.m_refs.length (g + 1)) - g - 1) 1
                ++ m.m_arraySizes),
            m_baseDynIdx := g }) := by
  have hext := RegisterReferenceArrayExtend_below m g hlt hwf
  have hlen : (m.m_refs ++ List.replicate (g + 1 - m.m_refs.length) none).length
      = max m.m_refs.length (g + 1) := by
    rw [List.length_append, List.length_replicate]; omega
  have hmax : ¬ (min m.m_baseDynIdx (max m.m_refs.length (g + 1)) < g) := by omega
  obtain ⟨c, hc⟩ : ∃ c, min m.m_baseDynIdx (max m.m_refs.length (g + 1)) - g = c + 1 :=
    ⟨min m.m_baseDynIdx (max m.m_refs.length (g + 1)) - g - 1, by omega⟩
  have hc2 : min m.m_baseDynIdx (max m.m_refs.length (g + 1)) - g - 1 = c := by omega
  unfold RegisterReferenceArray
  simp only [hext, hlen, RegisterReferenceArraySizes, if_pos hlt, if_neg hmax, hc, hc2,
    Nat.sub_self]
  unfold GetReferenceIndexForArray
  simp only [List.replicate_succ, List.cons_append, List.length_cons, ge_iff_le,
    Nat.le_zero_eq, Nat.add_one_ne_zero, if_false, List.take_zero, List.sum_nil, Nat.add_zero,
    sizeT_natCast, List.set_cons_zero]
  simp

/-- C6, amended: for an id `g` below the current dynamic base whose table entry is empty and
which lies in the table, or beyond it in a manager without arrays,
`RegisterReferenceArray(g)` returns true, sets the dynamic base to `g` and prepends to the
array size table one entry for each table index from `g` up to `min(old base, table length)`
(the table being first extended to `g + 1` entries when `g` lies beyond it): the entry for `g`
itself is 0, each other prepended entry is 1, and the old entries follow unchanged and in
order. -/
theorem RegisterReferenceArray_below_base (m : ReferenceManager) (g : Nat)
    (hlt : g < m.m_baseDynIdx) (hempty : GetInfo m g = none)
    (hwf : g < m.m_refs.length ∨ m.m_arraySizes = []) :
    ∃ m2, RegisterReferenceArray m g = some (true, m2)
      ∧ m2.m_baseDynIdx = g
      ∧ m2.m_arraySizes
          = 0 :: List.replicate (min m.m_baseDynIdx (max m.m_refs.length (g + 1)) - g - 1) 1
              ++ m.m_arraySizes
      ∧ m2.m_arraySizes.length
          = (min m.m_baseDynIdx (max m.m_refs.length (g + 1)) - g) + m.m_arraySizes.length
      ∧ (∀ i, i < g → GetInfo m2 i = GetInfo m i)
      ∧ (∀ i, g ≤ i → GetInfo m2 i = GetInfo m (i + 1))
      ∧ (∀ i s, GetInfo m i = some s → g ≠ i) := by
  refine ⟨_, RegisterReferenceArray_below_eq m g hlt hwf, rfl, rfl, ?_, ?_, ?_,
    fun i s hs hgi => by rw [hgi, hs] at hempty; exact Option.noConfusion hempty⟩
  · simp only [List.length_cons, List.length_append, List.length_replicate]
    omega
  · intro i hi
    rw [GetInfo_eq, GetInfo_eq]
    show tableAt (removeAt _ g) i = _
    rw [tableAt_removeAt, if_pos hi]
    unfold tableAt
    rw [List.getElem?_append]
    by_cases h : i < m.m_refs.length
    · rw [if_pos h]
    · rw [if_neg h, List.getElem?_replicate, List.getElem?_eq_none (by omega)]
      by_cases h2 : i - m.m_refs.length < g + 1 - m.m_refs.length
      · rw [if_pos h2]
      · rw [if_neg h2]
  · intro i hi
    rw [GetInfo_eq, GetInfo_eq]
    show tableAt (removeAt _ g) i = _
    rw [tableAt_removeAt, if_neg (by omega)]
    unfold tableAt
    rw [List.getElem?_append]
    by_cases h : i + 1 < m.m_refs.length
    · rw [if_pos h]
    · rw [if_neg h, List.getElem?_replicate, List.getElem?_eq_none (by omega)]
      by_cases h2 : i + 1 - m.m_refs.length < g + 1 - m.m_refs.length
      · rw [if_pos h2]
      · rw [if_neg h2]

/-- Witness for `RegisterReferenceArray_below_base`: static id 3 is registered, id 1 is
declared an array. -/
theorem RegisterReferenceArray_below_base_witness :
    ∃ m2, RegisterReferenceArray
        { m_refs := [none, none, none,
                     some { addr := 1, m_flags := 2, m_target := 33, m_callback := 0 }],
          m_arraySizes := [], m_baseDynIdx := INT_MAX, heapNext := 2 } 1 = some (true, m2)
      ∧ m2.m_baseDynIdx = 1 :=
  match RegisterReferenceArray_below_base
      { m_refs := [none, none, none,
                   some { addr := 1, m_flags := 2, m_target := 33, m_callback := 0 }],
        m_arraySizes := [], m_baseDynIdx := INT_MAX, heapNext := 2 } 1
      (by decide) rfl (Or.inl (by decide)) with
  | ⟨m2, h1, h2, _⟩ => ⟨m2, h1, h2⟩

/-- C6, as stated, fails for an id beyond the table of a manager that has arrays: the table
is `[NULL]`, the size table `[1]` and the dynamic base `5`.  The id `3` is below the base and
its entry is empty, the table is not extended (an array exists), and the number of entries
to prepend, `min(5, 1) - 3`, wraps around as a `size_t`: the call does not return. -/
theorem RegisterReferenceArray_below_base_beyond_table :
    (3 : Nat) < 5
      ∧ GetInfo { m_refs := [none], m_arraySizes := [1], m_baseDynIdx := 5, heapNext := 1 } 3
          = none
      ∧ RegisterReferenceArrayExtend
          { m_refs := [none], m_arraySizes := [1], m_baseDynIdx := 5, heapNext := 1 } 3 = [none]
      ∧ RegisterReferenceArraySizes
          { m_refs := [none], m_arraySizes := [1], m_baseDynIdx := 5, heapNext := 1 } 1 3 = none
      ∧ RegisterReferenceArray
          { m_refs := [none], m_arraySizes := [1], m_baseDynIdx := 5, heapNext := 1 } 3 = none := by
  decide

theorem GetReferenceIndexOfInfo_of_tableAt (m : ReferenceManager) (hH : HeapDistinct m)
    (n : Nat) (r : RefInfo) (hn : tableAt m.m_refs n = some r) :
    GetReferenceIndexOfInfo m r.addr = (n : Int) :=
  GetReferenceIndexOfInfo_first m r.addr n (tableAt_length_lt _ _ _ hn) (by rw [hn]; rfl)
    (HeapDistinct_first m hH n r hn)

theorem GetReference_of_tableAt (m : ReferenceManager) (n : Nat) (r : RefInfo)
    (hn : tableAt m.m_refs n = some r) : GetReference m (n : Int) = r.m_target := by
  unfold GetReference
  rw [sizeT_natCast, GetInfo_eq, hn]

/-- C2: in a manager that holds only static registrations (dynamic base at its initial
maximum) and for an id `g` whose table entry is empty and that is lower than
a registered static id, `RegisterReferenceArray(g)` returns true and every previously
registered slot `s` stays reachable: `GetReferenceIndex(s)` returns an index `i >= 0` (the old
index, lowered by one for the slots above `g`) with `GetInfo(i) = s` and `GetReference(i)`
equal to the target of `s`; the slots keep their relative order. -/
theorem RegisterReferenceArray_keeps_static_slots (m : ReferenceManager) (g : Nat)
    (hH : HeapDistinct m) (hbase : m.m_baseDynIdx = INT_MAX)
    (hg : g < INT_MAX) (hempty : GetInfo m g = none)
    (hlower : ∃ j s, g < j ∧ GetInfo m j = some s) :
    ∃ m2, RegisterReferenceArray m g = some (true, m2)
      ∧ (∀ i s, GetInfo m i = some s →
          (0 : Int) ≤ GetReferenceIndexOfInfo m2 s.addr
            ∧ GetReferenceIndexOfInfo m2 s.addr = ((if i < g then i else i - 1 : Nat) : Int)
            ∧ GetInfo m2 (if i < g then i else i - 1) = some s
            ∧ GetReference m2 ((if i < g then i else i - 1 : Nat) : Int) = s.m_target)
      ∧ (∀ i j s t, GetInfo m i = some s → GetInfo m j = some t → i < j →
          GetReferenceIndexOfInfo m2 s.addr < GetReferenceIndexOfInfo m2 t.addr) := by
  obtain ⟨j0, s0, hj0, hs0⟩ := hlower
  rw [GetInfo_eq] at hs0 hempty
  have hglen : g < m.m_refs.length := by
    have := tableAt_length_lt _ _ _ hs0
    omega
  have hlt : g < m.m_baseDynIdx := by rw [hbase]; exact hg
  have hrra := RegisterReferenceArray_below_eq m g hlt (Or.inl hglen)
  have hz : g + 1 - m.m_refs.length = 0 := by omega
  rw [hz] at hrra
  simp only [List.replicate_zero, List.append_nil] at hrra
  generalize hm2 : ({ m with
      m_refs := removeAt m.m_refs g,
      m_arraySizes :=
        (0 :: List.replicate (min m.m_baseDynIdx (max m.m_refs.length (g + 1)) - g - 1) 1
          ++ m.m_arraySizes),
      m_baseDynIdx := g } : ReferenceManager) = m2 at hrra
  have hrefs : m2.m_refs = removeAt m.m_refs g := by rw [← hm2]
  have hH2 : HeapDistinct m2 :=
    HeapDistinct_congr { m with m_refs := removeAt m.m_refs g } m2 (by rw [hrefs])
      (by rw [← hm2]) (HeapDistinct_removeAt m g hH)
  have hkey : ∀ i s, GetInfo m i = some s →
      tableAt m2.m_refs (if i < g then i else i - 1) = some s ∧ i ≠ g := by
    intro i s hs
    rw [GetInfo_eq] at hs
    have hig : i ≠ g := by
      intro h; rw [h, hempty] at hs; exact Option.noConfusion hs
    refine ⟨?_, hig⟩
    rw [hrefs, tableAt_removeAt]
    by_cases h : i < g
    · rw [if_pos h, if_pos h]; exact hs
    · rw [if_neg h, if_neg (by omega)]
      have : i - 1 + 1 = i := by omega
      rw [this]; exact hs
  have hidx : ∀ i s, GetInfo m i = some s →
      GetReferenceIndexOfInfo m2 s.addr = ((if i < g then i else i - 1 : Nat) : Int) :=
    fun i s hs => GetReferenceIndexOfInfo_of_tableAt m2 hH2 _ s (hkey i s hs).1
  refine ⟨m2, hrra, ?_, ?_⟩
  · intro i s hs
    refine ⟨?_, hidx i s hs, ?_, ?_⟩
    · rw [hidx i s hs]; omega
    · rw [GetInfo_eq]; exact (hkey i s hs).1
    · exact GetReference_of_tableAt m2 _ s (hkey i s hs).1
  · intro i j s t hs ht hij
    rw [hidx i s hs, hidx j t ht]
    have h1 := (hkey i s hs).2
    have h2 := (hkey j t ht).2
    by_cases hi : i < g <;> by_cases hj : j < g
    · rw [if_pos hi, if_pos hj]; omega
    · rw [if_pos hi, if_neg hj]; omega
    · rw [if_neg hi, if_pos hj]; omega
    · rw [if_neg hi, if_neg hj]; omega

/-- Witness for `RegisterReferenceArray_keeps_static_slots`: static ids 0 and 3 are
registered, id 1 is declared an array. -/
theorem RegisterReferenceArray_keeps_static_slots_witness :
    ∃ m2, RegisterReferenceArray
        { m_refs := [some { addr := 1, m_flags := 2, m_target := 30, m_callback := 0 },
                     none, none,
                     some { addr := 2, m_flags := 2, m_target := 33, m_callback := 0 }],
          m_arraySizes := [], m_baseDynIdx := INT_MAX, heapNext := 3 } 1 = some (true, m2)
      ∧ GetReferenceIndexOfInfo m2 2 = 2 :=
  match RegisterReferenceArray_keeps_static_slots
      { m_refs := [some { addr := 1, m_flags := 2, m_target := 30, m_callback := 0 },
                   none, none,
                   some { addr := 2, m_flags := 2, m_target := 33, m_callback := 0 }],
        m_arraySizes := [], m_baseDynIdx := INT_MAX, heapNext := 3 } 1
      (by decide) rfl (by decide) rfl
      ⟨3, { addr := 2, m_flags := 2, m_target := 33, m_callback := 0 }, by decide, rfl⟩ with
  | ⟨m2, h1, h2, _⟩ =>
    ⟨m2, h1, (h2 3 { addr := 2, m_flags := 2, m_target := 33, m_callback := 0 } rfl).2.1⟩

/-! ### Static slots next to a growing array -/

theorem tableAt_SetReference (m : ReferenceManager) (i : Int) (t : Nat) (j : Nat) :
    tableAt (SetReference m i t).m_refs j
      = if ¬ i < 0 ∧ j = sizeT i then
          (match tableAt m.m_refs j with
           | some r => some { r with m_target := t }
           | none => none)
        else tableAt m.m_refs j := by
  unfold SetReference
  by_cases hi : i < 0
  · rw [if_pos hi, if_neg (fun hc => hc.1 hi)]
  · rw [if_neg hi]
    cases h : GetInfo m (sizeT i) with
    | none =>
      simp only
      by_cases hj : j = sizeT i
      · rw [if_pos ⟨hi, hj⟩, hj]
        rw [GetInfo_eq] at h
        rw [h]
      · rw [if_neg (fun hc => hj hc.2)]
    | some r =>
      rw [GetInfo_eq] at h
      show tableAt (List.set _ _ _) j = _
      rw [tableAt_set]
      by_cases hj : j = sizeT i
      · subst hj
        rw [if_pos ⟨rfl, tableAt_length_lt _ _ _ h⟩, if_pos ⟨hi, rfl⟩, h]
      · rw [if_neg (fun hc => hj hc.1.symm), if_neg (fun hc => hj hc.2)]

theorem HeapDistinct_SetReference (m : ReferenceManager) (i : Int) (t : Nat)
    (h : HeapDistinct m) : HeapDistinct (SetReference m i t) := by
  obtain ⟨hlen, hptr, _, _, hnext⟩ := SetReference_ptrs m i t
  have hsome : ∀ j, (tableAt (SetReference m i t).m_refs j).isSome
      = (tableAt m.m_refs j).isSome := by
    intro j
    rw [tableAt_SetReference]
    by_cases hj : ¬ i < 0 ∧ j = sizeT i
    · rw [if_pos hj]
      cases tableAt m.m_refs j <;> rfl
    · rw [if_neg hj]
  unfold HeapDistinct at h ⊢
  simp only [hlen, hptr, hsome, hnext]
  exact h

theorem removeAt_append_singleton {α : Type} (l : List α) (v : α) :
    removeAt (l ++ [v]) l.length = l := by
  apply List.ext_getElem?
  intro i
  rw [getElem?_removeAt]
  by_cases h : i < l.length
  · rw [if_pos h, List.getElem?_append_left h]
  · rw [if_neg h, List.getElem?_eq_none (by simp; omega), List.getElem?_eq_none (by omega)]

/-- Registration of a static slot at the id just past the table: the slot is appended. -/
theorem RegisterReference_static_append (m : ReferenceManager) (cb ref : Nat) (w ps : Bool)
    (hlt : m.m_refs.length < m.m_baseDynIdx) :
    (RegisterReference m m.m_refs.length 0 cb ref w ps).2
      = { m with
          m_refs := m.m_refs ++ [some { newRefInfo m.heapNext cb w ps with m_target := ref }],
          heapNext := m.heapNext + 1 } := by
  have hnone : tableAt m.m_refs m.m_refs.length = none := tableAt_of_le _ _ (le_refl _)
  have hins : (InsertReference m (m.m_refs.length : Int) cb w ps).2
      = { m with m_refs := m.m_refs ++ [some (newRefInfo m.heapNext cb w ps)],
                 heapNext := m.heapNext + 1 } := by
    rw [InsertReference_eq]
    simp only [hnone, Option.isSome_none, Bool.false_eq_true, if_false, padNull]
    have h1 : m.m_refs.length + 1 - m.m_refs.length = 1 := by omega
    rw [h1]
    simp
  unfold RegisterReference
  simp only [if_pos hlt, RegisterReferenceStatic, ReplaceReference, hins]
  rw [SetReference_refs _ m.m_refs.length ref (newRefInfo m.heapNext cb w ps)
    (by simp [tableAt])]
  simp

theorem HeapDistinct_append_new (m : ReferenceManager) (r : RefInfo) (h : HeapDistinct m)
    (hr : r.addr = m.heapNext) :
    HeapDistinct { m with m_refs := m.m_refs ++ [some r], heapNext := m.heapNext + 1 } := by
  rw [HeapDistinct_iff] at h ⊢
  have hat : ∀ i, tableAt (m.m_refs ++ [some r]) i
      = if i < m.m_refs.length then tableAt m.m_refs i
        else if i = m.m_refs.length then some r else none := by
    intro i
    unfold tableAt
    rw [List.getElem?_append]
    by_cases h1 : i < m.m_refs.length
    · rw [if_pos h1, if_pos h1]
    · rw [if_neg h1, if_neg h1]
      by_cases h2 : i = m.m_refs.length
      · rw [if_pos h2, h2]; simp
      · rw [if_neg h2, List.getElem?_eq_none (by simp; omega)]
  refine ⟨?_, ?_, by simp only; omega⟩
  · intro i j r1 r2 hi hj he
    simp only [hat] at hi hj
    by_cases h1 : i < m.m_refs.length <;> by_cases h2 : j < m.m_refs.length
    · rw [if_pos h1] at hi; rw [if_pos h2] at hj
      exact h.1 i j r1 r2 hi hj he
    · rw [if_pos h1] at hi; rw [if_neg h2] at hj
      by_cases h3 : j = m.m_refs.length
      · rw [if_pos h3] at hj
        have hb := (h.2.1 i r1 hi).2
        have : r2 = r := (Option.some.inj hj).symm
        subst this
        omega
      · rw [if_neg h3] at hj; exact Option.noConfusion hj
    · rw [if_neg h1] at hi; rw [if_pos h2] at hj
      by_cases h3 : i = m.m_refs.length
      · rw [if_pos h3] at hi
        have hb := (h.2.1 j r2 hj).2
        have : r1 = r := (Option.some.inj hi).symm
        subst this
        omega
      · rw [if_neg h3] at hi; exact Option.noConfusion hi
    · rw [if_neg h1] at hi; rw [if_neg h2] at hj
      by_cases h3 : i = m.m_refs.length
      · by_cases h4 : j = m.m_refs.length
        · omega
        · rw [if_neg h4] at hj; exact Option.noConfusion hj
      · rw [if_neg h3] at hi; exact Option.noConfusion hi
  · intro i r1 hi
    simp only [hat] at hi
    by_cases h1 : i < m.m_refs.length
    · rw [if_pos h1] at hi
      have := h.2.1 i r1 hi
      simp only
      omega
    · rw [if_neg h1] at hi
      by_cases h3 : i = m.m_refs.length
      · rw [if_pos h3] at hi
        have : r1 = r := (Option.some.inj hi).symm
        subst this
        simp only
        omega
      · rw [if_neg h3] at hi; exact Option.noConfusion hi

/-- The table after the static registrations `id, id + 1, ...` on a table of length `id`:
one live slot per registration, holding its target, appended in order. -/
theorem registerStatics_spec (statics : List (Nat × Nat × Bool × Bool)) (m : ReferenceManager)
    (hH : HeapDistinct m) (hlt : m.m_refs.length + statics.length ≤ m.m_baseDynIdx) :
    (registerStatics m m.m_refs.length statics).m_refs.length
        = m.m_refs.length + statics.length
      ∧ HeapDistinct (registerStatics m m.m_refs.length statics)
      ∧ (registerStatics m m.m_refs.length statics).m_baseDynIdx = m.m_baseDynIdx
      ∧ (registerStatics m m.m_refs.length statics).m_arraySizes = m.m_arraySizes
      ∧ (∀ i, i < m.m_refs.length →
          tableAt (registerStatics m m.m_refs.length statics).m_refs i = tableAt m.m_refs i)
      ∧ (∀ j, j < statics.length →
          ∃ s, tableAt (registerStatics m m.m_refs.length statics).m_refs (m.m_refs.length + j)
                = some s
            ∧ some s.m_target = (statics[j]?).map (fun e => e.2.1)) := by
  induction statics generalizing m with
  | nil =>
    exact ⟨rfl, hH, rfl, rfl, fun _ _ => rfl, fun j hj => by simp at hj⟩
  | cons e rest ih =>
    obtain ⟨cb, ref, w, ps⟩ := e
    simp only [List.length_cons] at hlt ⊢
    have hstep := RegisterReference_static_append m cb ref w ps (by omega)
    generalize hm1 : ({ m with
        m_refs := m.m_refs ++ [some { newRefInfo m.heapNext cb w ps with m_target := ref }],
        heapNext := m.heapNext + 1 } : ReferenceManager) = m1 at hstep
    have hrefs1 : m1.m_refs
        = m.m_refs ++ [some { newRefInfo m.heapNext cb w ps with m_target := ref }] := by
      rw [← hm1]
    have hlen1 : m1.m_refs.length = m.m_refs.length + 1 := by
      rw [hrefs1, List.length_append, List.length_singleton]
    have hH1 : HeapDistinct m1 := by
      rw [← hm1]
      exact HeapDistinct_append_new m { newRefInfo m.heapNext cb w ps with m_target := ref } hH
        (newRefInfo_fields m.heapNext cb w ps).1
    have hbase1 : m1.m_baseDynIdx = m.m_baseDynIdx := by rw [← hm1]
    have hsz1 : m1.m_arraySizes = m.m_arraySizes := by rw [← hm1]
    have hrec := ih m1 hH1 (by rw [hlen1, hbase1]; omega)
    rw [hlen1] at hrec
    obtain ⟨h1, h2, h3, h4, h5, h6⟩ := hrec
    unfold registerStatics
    rw [hstep]
    refine ⟨by rw [h1]; omega, h2, by rw [h3, hbase1], by rw [h4, hsz1], ?_, ?_⟩
    · intro i hi
      rw [h5 i (by omega), hrefs1]
      unfold tableAt
      rw [List.getElem?_append_left hi]
    · intro j hj
      cases j with
      | zero =>
        refine ⟨{ newRefInfo m.heapNext cb w ps with m_target := ref }, ?_, by simp⟩
        rw [Nat.add_zero, h5 _ (by omega), hrefs1]
        simp [tableAt]
      | succ j =>
        obtain ⟨s, hs1, hs2⟩ := h6 j (by omega)
        refine ⟨s, ?_, by simpa using hs2⟩
        have : m.m_refs.length + (j + 1) = m.m_refs.length + 1 + j := by omega
        rw [this]; exact hs1

theorem GetReferenceIndexOfInfo_cases (m : ReferenceManager) (p : Nat) (hp : p ≠ 0) :
    (∃ n r, tableAt m.m_refs n = some r ∧ r.addr = p)
      ∨ GetReferenceIndexOfInfo m p = -1 := by
  by_cases h : ∃ n r, tableAt m.m_refs n = some r ∧ r.addr = p
  · exact Or.inl h
  · right
    apply GetReferenceIndexOfInfo_absent
    intro j _ he
    cases hj : tableAt m.m_refs j with
    | none => rw [hj] at he; exact hp he.symm
    | some r => rw [hj] at he; exact h ⟨j, r, hj, he⟩

/-- Release of a non-null slot pointer that is not one of the first `N` slots, in a manager
whose dynamic base is `N`: the call returns and leaves the first `N` table entries, the base
and the heap discipline as they are. -/
theorem ReleaseReference_above_base (m : ReferenceManager) (p N : Nat) (hH : HeapDistinct m)
    (hp : p ≠ 0) (hbase : m.m_baseDynIdx = N) (hsz : 0 < m.m_arraySizes.length)
    (hstat : ∀ k r, k < N → tableAt m.m_refs k = some r → r.addr ≠ p) :
    ∃ res m2, ReleaseReference m p N = some (res, m2)
      ∧ m2.m_baseDynIdx = N ∧ 0 < m2.m_arraySizes.length ∧ HeapDistinct m2
      ∧ (∀ k, k < N → tableAt m2.m_refs k = tableAt m.m_refs k)
      ∧ m2.heapNext = m.heapNext := by
  rcases GetReferenceIndexOfInfo_cases m p hp with ⟨n, r, hn, hr⟩ | hneg
  · have hnN : N ≤ n := by
      by_contra hc
      exact hstat n r (by omega) hn hr
    have hrel := ReleaseReferenceInfo_dynamic m n r hH hn (by omega)
    rw [hr] at hrel
    have hnlt : ¬ N < m.m_baseDynIdx := by omega
    refine ⟨RefResult.REF_SUCCEED,
      DecrementArrayCount { m with m_refs := removeAt m.m_refs n } (N - m.m_baseDynIdx),
      ?_, ?_, ?_, ?_, ?_, ?_⟩
    · unfold ReleaseReference
      rw [hrel]
      simp only [ne_eq, not_true_eq_false, if_false, if_neg hnlt]
    · unfold DecrementArrayCount
      split <;> exact hbase
    · unfold DecrementArrayCount
      split
      · show 0 < (List.set _ _ _).length
        rw [List.length_set]; exact hsz
      · exact hsz
    · apply HeapDistinct_congr { m with m_refs := removeAt m.m_refs n }
      · unfold DecrementArrayCount
        split <;> rfl
      · unfold DecrementArrayCount
        split <;> rfl
      · exact HeapDistinct_removeAt m n hH
    · intro k hk
      have : (DecrementArrayCount { m with m_refs := removeAt m.m_refs n }
          (N - m.m_baseDynIdx)).m_refs = removeAt m.m_refs n := by
        unfold DecrementArrayCount
        split <;> rfl
      rw [this, tableAt_removeAt, if_pos (by omega)]
    · unfold DecrementArrayCount
      split <;> rfl
  · refine ⟨RefResult.REF_FAIL, m, ?_, hbase, hsz, hH, fun _ _ => rfl, rfl⟩
    unfold ReleaseReference ReleaseReferenceInfo
    simp only [hneg]
    simp

/-- Registration in the group whose id is the dynamic base `N`: the first `N` table entries,
the base and the heap discipline stay, and the returned pointer is the fresh address. -/
theorem RegisterReference_at_base (m : ReferenceManager) (N : Nat) (index : Int)
    (cb ref : Nat) (w ps : Bool) (hH : HeapDistinct m) (hbase : m.m_baseDynIdx = N) :
    (RegisterReference m N index cb ref w ps).1 = m.heapNext
      ∧ (RegisterReference m N index cb ref w ps).2.m_baseDynIdx = N
      ∧ 0 < (RegisterReference m N index cb ref w ps).2.m_arraySizes.length
      ∧ HeapDistinct (RegisterReference m N index cb ref w ps).2
      ∧ (∀ k, k < N →
          tableAt (RegisterReference m N index cb ref w ps).2.m_refs k = tableAt m.m_refs k)
      ∧ (RegisterReference m N index cb ref w ps).2.heapNext = m.heapNext + 1 := by
  have hnext := HeapDistinct_heapNext m hH
  rw [RegisterReference_dynamic_unfold m N index cb ref w ps (by omega) hnext]
  generalize hm1 : ({ m with m_arraySizes := sizesAfterRegister m (N - m.m_baseDynIdx) }
    : ReferenceManager) = m1
  have hm1next : m1.heapNext = m.heapNext := by rw [← hm1]
  have hm1base : m1.m_baseDynIdx = m.m_baseDynIdx := by rw [← hm1]
  have hm1refs : m1.m_refs = m.m_refs := by rw [← hm1]
  have hm1sizes : m1.m_arraySizes = sizesAfterRegister m (N - m.m_baseDynIdx) := by rw [← hm1]
  have hH1 : HeapDistinct m1 := HeapDistinct_congr m m1 hm1refs hm1next hH
  generalize hn : m.m_baseDynIdx
      + ((sizesAfterRegister m (N - m.m_baseDynIdx)).take (N - m.m_baseDynIdx)).sum
      + sizeT (if index < 0 then (m.m_arraySizes.getD (N - m.m_baseDynIdx) 0 : Int) else index)
      = n
  have hnN : N ≤ n := by rw [← hn]; omega
  obtain ⟨_, hsz, hb, hnx, _, hlow, _⟩ := InsertReference_effect m1 n cb w ps
  have hH2 := InsertReference_HeapDistinct m1 n cb w ps hH1
  have hlen := sizesAfterRegister_length m (N - m.m_baseDynIdx)
  by_cases hr : ref ≠ 0
  · simp only [if_pos hr]
    obtain ⟨_, _, hs3, hs4, hs5⟩ := SetReference_ptrs (InsertReference m1 (n : Int) cb w ps).2
      (n : Int) ref
    refine ⟨trivial, by rw [hs4, hb, hm1base, hbase], by rw [hs3, hsz, hm1sizes]; omega,
      HeapDistinct_SetReference _ _ _ hH2, ?_, by rw [hs5, hnx, hm1next]⟩
    intro k hk
    rw [tableAt_SetReference, sizeT_natCast, if_neg (fun hc => by omega), hlow k (by omega),
      hm1refs]
  · simp only [if_neg hr]
    refine ⟨trivial, by rw [hb, hm1base, hbase], by rw [hsz, hm1sizes]; omega, hH2, ?_,
      by rw [hnx, hm1next]⟩
    intro k hk
    rw [hlow k (by omega), hm1refs]

/-- Any sequence of registrations and releases on the group whose id is the dynamic base `N`
runs to the end and leaves the first `N` table entries as they are, provided the live slots of
the group were allocated at or after the address `a0` and the first `N` entries before it. -/
theorem runGroupCalls_frame (N a0 : Nat) (calls : List GroupCall) (m : ReferenceManager)
    (live : List Nat) (hH : HeapDistinct m) (hbase : m.m_baseDynIdx = N)
    (hsz : 0 < m.m_arraySizes.length) (ha0 : 0 < a0) (hnext : a0 ≤ m.heapNext)
    (hstat : ∀ k r, k < N → tableAt m.m_refs k = some r → r.addr < a0)
    (hlive : ∀ p, p ∈ live → a0 ≤ p) :
    ∃ m2 live2, runGroupCalls N (m, live) calls = some (m2, live2)
      ∧ HeapDistinct m2
      ∧ ∀ k, k < N → tableAt m2.m_refs k = tableAt m.m_refs k := by
  induction calls generalizing m live with
  | nil => exact ⟨m, live, rfl, hH, fun _ _ => rfl⟩
  | cons c cs ih =>
    cases c with
    | add index cb ref w ps =>
      obtain ⟨h1, h2, h3, h4, h5, h6⟩ := RegisterReference_at_base m N index cb ref w ps hH hbase
      obtain ⟨m2, live2, hrun, hH2, hfr⟩ := ih (RegisterReference m N index cb ref w ps).2
        (live ++ [(RegisterReference m N index cb ref w ps).1]) h4 h2 h3 (by rw [h6]; omega)
        (fun k r hk hr => hstat k r hk (by rw [← h5 k hk]; exact hr))
        (fun p hp => by
          rw [List.mem_append, List.mem_singleton] at hp
          rcases hp with hp | hp
          · exact hlive p hp
          · rw [hp, h1]; exact hnext)
      refine ⟨m2, live2, ?_, hH2, fun k hk => by rw [hfr k hk, h5 k hk]⟩
      unfold runGroupCalls
      simp only [runGroupCall]
      exact hrun
    | release pos =>
      cases hpos : live[pos]? with
      | none =>
        obtain ⟨m2, live2, hrun, hH2, hfr⟩ := ih m live hH hbase hsz hnext hstat hlive
        refine ⟨m2, live2, ?_, hH2, hfr⟩
        unfold runGroupCalls
        simp only [runGroupCall, hpos]
        exact hrun
      | some p =>
        have hmem : p ∈ live := List.getElem?_mem hpos
        have hpa : a0 ≤ p := hlive p hmem
        obtain ⟨res, m1, hrel, hb1, hs1, hH1, hfr1, hn1⟩ :=
          ReleaseReference_above_base m p N hH (by omega) hbase hsz
            (fun k r hk hr he => by have := hstat k r hk hr; omega)
        obtain ⟨m2, live2, hrun, hH2, hfr⟩ := ih m1 (live.eraseIdx pos) hH1 hb1 hs1
          (by rw [hn1]; exact hnext)
          (fun k r hk hr => hstat k r hk (by rw [← hfr1 k hk]; exact hr))
          (fun q hq => hlive q (List.mem_of_mem_eraseIdx hq))
        refine ⟨m2, live2, ?_, hH2, fun k hk => by rw [hfr k hk, hfr1 k hk]⟩
        unfold runGroupCalls
        simp only [runGroupCall, hpos, hrel]
        exact hrun

/-- C1: static slots are registered at ids `0 .. N-1` of a new manager (with any callbacks,
targets and flags) and `RegisterReferenceArray(N)` is called.  The call returns true, and after
any later sequence of `RegisterReference(N, k, ...)` appends or inserts and of
`ReleaseReference` calls on the elements of group `N`, which all return, for every `k < N` the
`k`-th static slot is still the entry at index `k`: its `GetReferenceIndex` is `k` and
`GetReference(k)` is its target, as it was registered. -/
theorem static_indices_stable (statics : List (Nat × Nat × Bool × Bool))
    (calls : List GroupCall) (hN : statics.length < INT_MAX) :
    ∃ m0, RegisterReferenceArray (registerStatics ReferenceManager.new 0 statics) statics.length
        = some (true, m0)
      ∧ ∃ m live, runGroupCalls statics.length (m0, []) calls = some (m, live)
        ∧ ∀ k, k < statics.length →
            ∃ s, GetInfo (registerStatics ReferenceManager.new 0 statics) k = some s
              ∧ some s.m_target = (statics[k]?).map (fun e => e.2.1)
              ∧ GetReferenceIndexOfInfo m0 s.addr = (k : Int)
              ∧ GetReference m0 (k : Int) = s.m_target
              ∧ GetReferenceIndexOfInfo m s.addr = (k : Int)
              ∧ GetReference m (k : Int) = s.m_target := by
  have hnew : HeapDistinct ReferenceManager.new := by decide
  have hspec := registerStatics_spec statics ReferenceManager.new hnew
    (by show 0 + statics.length ≤ INT_MAX; omega)
  change (registerStatics ReferenceManager.new 0 statics).m_refs.length = 0 + statics.length
    ∧ HeapDistinct (registerStatics ReferenceManager.new 0 statics)
    ∧ (registerStatics ReferenceManager.new 0 statics).m_baseDynIdx = INT_MAX
    ∧ (registerStatics ReferenceManager.new 0 statics).m_arraySizes = []
    ∧ (∀ i, i < 0 → tableAt (registerStatics ReferenceManager.new 0 statics).m_refs i
          = tableAt [] i)
    ∧ (∀ j, j < statics.length →
        ∃ s, tableAt (registerStatics ReferenceManager.new 0 statics).m_refs (0 + j) = some s
          ∧ some s.m_target = (statics[j]?).map (fun e => e.2.1)) at hspec
  generalize registerStatics ReferenceManager.new 0 statics = ms at hspec ⊢
  obtain ⟨hlen, hHs, hbase, hsizes, _, hslots⟩ := hspec
  rw [Nat.zero_add] at hlen
  have hrra := RegisterReferenceArray_below_eq ms statics.length (by rw [hbase]; exact hN)
    (Or.inr hsizes)
  have hrep : statics.length + 1 - ms.m_refs.length = 1 := by omega
  rw [hrep] at hrra
  have hrem : removeAt (ms.m_refs ++ List.replicate 1 none) statics.length = ms.m_refs := by
    rw [← hlen]
    exact removeAt_append_singleton ms.m_refs none
  rw [hrem] at hrra
  generalize hm0 : ({ ms with
      m_refs := ms.m_refs,
      m_arraySizes :=
        (0 :: List.replicate
          (min ms.m_baseDynIdx (max ms.m_refs.length (statics.length + 1)) - statics.length - 1)
          1 ++ ms.m_arraySizes),
      m_baseDynIdx := statics.length } : ReferenceManager) = m0 at hrra
  have hrefs0 : m0.m_refs = ms.m_refs := by rw [← hm0]
  have hnext0 : m0.heapNext = ms.heapNext := by rw [← hm0]
  have hbase0 : m0.m_baseDynIdx = statics.length := by rw [← hm0]
  have hsz0 : 0 < m0.m_arraySizes.length := by rw [← hm0]; simp
  have hH0 : HeapDistinct m0 := HeapDistinct_congr ms m0 hrefs0 hnext0 hHs
  have hH0b := (HeapDistinct_iff m0).1 hH0
  obtain ⟨m, live, hrun, hH, hframe⟩ :=
    runGroupCalls_frame statics.length m0.heapNext calls m0 [] hH0 hbase0 hsz0 hH0b.2.2
      (le_refl _) (fun k r _ hr => (hH0b.2.1 k r hr).2) (fun p hp => by simp at hp)
  refine ⟨m0, hrra, m, live, hrun, ?_⟩
  intro k hk
  obtain ⟨s, hs1, hs2⟩ := hslots k hk
  rw [Nat.zero_add] at hs1
  have hs0 : tableAt m0.m_refs k = some s := by rw [hrefs0]; exact hs1
  have hsm : tableAt m.m_refs k = some s := by rw [hframe k hk]; exact hs0
  exact ⟨s, by rw [GetInfo_eq]; exact hs1, hs2,
    GetReferenceIndexOfInfo_of_tableAt m0 hH0 k s hs0, GetReference_of_tableAt m0 k s hs0,
    GetReferenceIndexOfInfo_of_tableAt m hH k s hsm, GetReference_of_tableAt m k s hsm⟩

/-- Witness for `static_indices_stable`: two static slots with targets `30` and `31`, then an
array at id 2 that gets two elements, an insertion at the front and a release. -/
theorem static_indices_stable_witness :
    ∃ m0, RegisterReferenceArray
        (registerStatics ReferenceManager.new 0 [(0, 30, false, true), (0, 31, true, true)]) 2
        = some (true, m0)
      ∧ ∃ m live,
          runGroupCalls 2 (m0, [])
              [GroupCall.add (-1) 0 40 false true, GroupCall.add (-1) 0 41 false true,
               GroupCall.add 0 0 42 false true, GroupCall.release 1] = some (m, live)
            ∧ GetReference m ((1 : Nat) : Int) = 31 :=
  match static_indices_stable [(0, 30, false, true), (0, 31, true, true)]
      [GroupCall.add (-1) 0 40 false true, GroupCall.add (-1) 0 41 false true,
       GroupCall.add 0 0 42 false true, GroupCall.release 1] (by decide) with
  | ⟨m0, h0, m, live, hrun, hk⟩ =>
    ⟨m0, h0, m, live, hrun,
      match hk 1 (by decide) with
      | ⟨_, _, hs2, _, _, _, hs6⟩ => hs6.trans (Option.some.inj hs2)⟩

/-! ### Target deletion -/

theorem scanFrom_exists_first (test : Nat → Bool) (fuel : Nat)
    (h : ∃ k, k < fuel ∧ test k = true) :
    ∃ n : Nat, scanFrom test fuel 0 = (n : Int) ∧ n < fuel ∧ test n = true
      ∧ ∀ j : Nat, j < n → test j = false := by
  classical
  have hex : ∃ k, test k = true := by
    obtain ⟨k, _, hk⟩ := h
    exact ⟨k, hk⟩
  have hmin : ∀ j, j < Nat.find hex → test j = false := by
    intro j hj
    have := Nat.find_min hex hj
    simpa using this
  have hlt : Nat.find hex < fuel := by
    obtain ⟨k, hk1, hk2⟩ := h
    have := Nat.find_min' hex hk2
    omega
  refine ⟨Nat.find hex, ?_, hlt, Nat.find_spec hex, hmin⟩
  exact scanFrom_eq_of_first test fuel 0 _ (Nat.zero_le _) (by omega) (Nat.find_spec hex)
    (fun j _ hj => hmin j hj)

/-- C10 (amended): for a non-null target `t` referenced by at least one managed slot,
`NotifyRefChanged` with `REFMSG_TARGET_DELETED` returns `REF_SUCCEED` and nulls one slot per
notification, the first that references `t` (the one `GetReferenceIndex(t)` finds), leaving
every other table entry as it is; when no other slot references `t`, afterwards
`GetReferenceIndex(t) = -1`. -/
theorem NotifyRefChanged_target_deleted (m : ReferenceManager) (t : Nat) (ht : t ≠ 0)
    (href : ∃ i : Nat, GetReference m (i : Int) = t) :
    (NotifyRefChanged m t true).1 = RefResult.REF_SUCCEED
      ∧ ∃ n : Nat, GetReferenceIndex m t = (n : Int)
          ∧ GetReference m (n : Int) = t
          ∧ GetReference (NotifyRefChanged m t true).2 (n : Int) = 0
          ∧ (NotifyRefChanged m t true).2.m_refs.length = m.m_refs.length
          ∧ (∀ j, j ≠ n → GetInfo (NotifyRefChanged m t true).2 j = GetInfo m j)
          ∧ ((∀ j : Nat, j ≠ n → GetReference m (j : Int) ≠ t) →
              GetReferenceIndex (NotifyRefChanged m t true).2 t = -1) := by
  have hinrange : ∀ i : Nat, GetReference m (i : Int) = t → i < m.m_refs.length := by
    intro i hi
    by_contra hc
    unfold GetReference at hi
    rw [sizeT_natCast, GetInfo_eq, tableAt_of_le _ _ (by omega)] at hi
    exact ht hi.symm
  obtain ⟨i0, hi0⟩ := href
  obtain ⟨n, hscan, hnlen, hn, hfirst⟩ :=
    scanFrom_exists_first (fun i => GetReference m (i : Int) == t) m.m_refs.length
      ⟨i0, hinrange i0 hi0, by simpa using hi0⟩
  have hidx : GetReferenceIndex m t = (n : Int) := hscan
  have hnt : GetReference m (n : Int) = t := by simpa using hn
  obtain ⟨r, hr⟩ : ∃ r, tableAt m.m_refs n = some r := by
    cases h : tableAt m.m_refs n with
    | none =>
      unfold GetReference at hnt
      rw [sizeT_natCast, GetInfo_eq, h] at hnt
      exact absurd hnt.symm ht
    | some r => exact ⟨r, rfl⟩
  have hstate : (NotifyRefChanged m t true).2
      = { m with m_refs := m.m_refs.set n (some { r with m_target := 0 }) } := by
    unfold NotifyRefChanged
    simp only [if_true, if_pos ht, hidx]
    exact SetReference_refs m n 0 r hr
  have hget : ∀ j : Nat, j ≠ n →
      GetReference (NotifyRefChanged m t true).2 (j : Int) = GetReference m (j : Int) := by
    intro j hj
    rw [hstate]
    unfold GetReference
    rw [sizeT_natCast, GetInfo_eq, GetInfo_eq]
    show (match tableAt (m.m_refs.set n _) j with | some p => p.m_target | none => 0) = _
    rw [tableAt_set, if_neg (fun h => hj h.1.symm)]
  have hgetn : GetReference (NotifyRefChanged m t true).2 (n : Int) = 0 := by
    rw [hstate]
    unfold GetReference
    rw [sizeT_natCast, GetInfo_eq]
    show (match tableAt (m.m_refs.set n _) n with | some p => p.m_target | none => 0) = _
    rw [tableAt_set, if_pos ⟨rfl, hnlen⟩]
  refine ⟨by unfold NotifyRefChanged; simp only [if_true]; split <;> rfl, n, hidx, hnt, hgetn,
    ?_, ?_, ?_⟩
  · rw [hstate]
    show (List.set _ _ _).length = _
    rw [List.length_set]
  · intro j hj
    rw [hstate, GetInfo_eq, GetInfo_eq]
    show tableAt (m.m_refs.set n _) j = _
    rw [tableAt_set, if_neg (fun h => hj h.1.symm)]
  · intro hothers
    unfold GetReferenceIndex
    apply scanFrom_eq_neg_one
    intro j _ _
    by_cases hj : j = n
    · rw [hj, hgetn]
      simpa using fun h => ht h.symm
    · rw [hget j hj]
      simpa using hothers j hj

/-- Witness for `NotifyRefChanged_target_deleted`: one slot references target `7`. -/
theorem NotifyRefChanged_target_deleted_witness :
    (NotifyRefChanged
        { m_refs := [some { addr := 1, m_flags := 2, m_target := 7, m_callback := 0 },
                     some { addr := 2, m_flags := 2, m_target := 8, m_callback := 0 }],
          m_arraySizes := [], m_baseDynIdx := INT_MAX, heapNext := 3 } 7 true).1
      = RefResult.REF_SUCCEED :=
  (NotifyRefChanged_target_deleted
    { m_refs := [some { addr := 1, m_flags := 2, m_target := 7, m_callback := 0 },
                 some { addr := 2, m_flags := 2, m_target := 8, m_callback := 0 }],
      m_arraySizes := [], m_baseDynIdx := INT_MAX, heapNext := 3 } 7 (by decide)
    ⟨0, rfl⟩).1

/-! ### Scalar restore objects -/

theorem store_same {β : Type} (f : Nat → β) (a : Nat) (v : β) : store f a v a = v := by
  simp [store]

theorem store_other {β : Type} (f : Nat → β) (a b : Nat) (v : β) (h : b ≠ a) :
    store f a v b = f b := by
  simp [store, h]

theorem DataRestoreObj_Restore_effect (w : HoldWorld) (o : DataRestoreObj) (isUndo : Int) :
    (DataRestoreObj.Restore w o isUndo).mem o.mpValue = o.mUndo
      ∧ (o.mpOwner ≠ 0 →
          (DataRestoreObj.Restore w o isUndo).calls = w.calls ++ [(o.mpOwner, o.mUndo)])
      ∧ (o.mpOwner = 0 → (DataRestoreObj.Restore w o isUndo).calls = w.calls) := by
  unfold DataRestoreObj.Restore notifyOwner
  by_cases h : o.mpOwner = 0
  · simp [h, store_same]
  · simp [h, store_same]

theorem DataRestoreObj_Redo_effect (w : HoldWorld) (o : DataRestoreObj) :
    (DataRestoreObj.Redo w o).mem o.mpValue = o.mRedo
      ∧ (o.mpOwner ≠ 0 → (DataRestoreObj.Redo w o).calls = w.calls ++ [(o.mpOwner, o.mRedo)])
      ∧ (o.mpOwner = 0 → (DataRestoreObj.Redo w o).calls = w.calls) := by
  unfold DataRestoreObj.Redo notifyOwner
  by_cases h : o.mpOwner = 0
  · simp [h, store_same]
  · simp [h, store_same]

/-- C22: an object constructed on the address `val` in the state `w0` (value `U = w0.mem val`)
and ended in the state `w1` (value `R = w1.mem val`) is followed by any sequence `calls` of
Restore, Redo and writes.  A Restore after it leaves the value `U` and calls the owner, when
there is one, with `U`; a Redo after it leaves `R` and calls the owner with `R`; without an
owner no call is made; the argument `isUndo` changes nothing. -/
theorem DataRestoreObj_restore_redo_values (w0 w1 : HoldWorld) (val pOwner : Nat)
    (calls : List RestoreCall) (isUndo : Int) :
    (DataRestoreObj.Restore
        (runRestoreCalls (DataRestoreObj.EndHold w1 (DataRestoreObj.construct w0 val pOwner).2).2
          (DataRestoreObj.EndHold w1 (DataRestoreObj.construct w0 val pOwner).2).1 calls)
        (DataRestoreObj.EndHold w1 (DataRestoreObj.construct w0 val pOwner).2).2 isUndo).mem val
      = w0.mem val
    ∧ (DataRestoreObj.Redo
        (runRestoreCalls (DataRestoreObj.EndHold w1 (DataRestoreObj.construct w0 val pOwner).2).2
          (DataRestoreObj.EndHold w1 (DataRestoreObj.construct w0 val pOwner).2).1 calls)
        (DataRestoreObj.EndHold w1 (DataRestoreObj.construct w0 val pOwner).2).2).mem val
      = w1.mem val
    ∧ (∀ w : HoldWorld,
        (pOwner ≠ 0 →
          (DataRestoreObj.Restore w
              (DataRestoreObj.EndHold w1 (DataRestoreObj.construct w0 val pOwner).2).2
              isUndo).calls = w.calls ++ [(pOwner, w0.mem val)]
          ∧ (DataRestoreObj.Redo w
              (DataRestoreObj.EndHold w1 (DataRestoreObj.construct w0 val pOwner).2).2).calls
            = w.calls ++ [(pOwner, w1.mem val)])
        ∧ (pOwner = 0 →
          (DataRestoreObj.Restore w
              (DataRestoreObj.EndHold w1 (DataRestoreObj.construct w0 val pOwner).2).2
              isUndo).calls = w.calls
          ∧ (DataRestoreObj.Redo w
              (DataRestoreObj.EndHold w1 (DataRestoreObj.construct w0 val pOwner).2).2).calls
            = w.calls)
        ∧ ∀ j : Int,
          DataRestoreObj.Restore w
              (DataRestoreObj.EndHold w1 (DataRestoreObj.construct w0 val pOwner).2).2 j
            = DataRestoreObj.Restore w
              (DataRestoreObj.EndHold w1 (DataRestoreObj.construct w0 val pOwner).2).2 isUndo) := by
  have ho : (DataRestoreObj.EndHold w1 (DataRestoreObj.construct w0 val pOwner).2).2
      = { mpOwner := pOwner, mpValue := val, mRedo := w1.mem val, mUndo := w0.mem val } := rfl
  rw [ho]
  refine ⟨?_, ?_, ?_⟩
  · exact (DataRestoreObj_Restore_effect _ _ isUndo).1
  · exact (DataRestoreObj_Redo_effect _ _).1
  · intro w
    refine ⟨fun h => ⟨?_, ?_⟩, fun h => ⟨?_, ?_⟩, fun j => rfl⟩
    · exact (DataRestoreObj_Restore_effect w _ isUndo).2.1 h
    · exact (DataRestoreObj_Redo_effect w _).2.1 h
    · exact (DataRestoreObj_Restore_effect w _ isUndo).2.2 h
    · exact (DataRestoreObj_Redo_effect w _).2.2 h

theorem IsPointerHeld_SetPointerHeld_of_held (l : PointerList) (a b : Nat)
    (h : IsPointerHeld l a = true) : IsPointerHeld (SetPointerHeld l b) a = true := by
  unfold SetPointerHeld
  by_cases hc : (IsPointerHeld l b || b == 0) = true
  · rw [if_pos hc]; exact h
  · rw [if_neg hc]
    rw [IsPointerHeld_iff_mem] at h ⊢
    exact List.mem_append_left _ h

theorem IsPointerHeld_EndPointerHold_other (l : PointerList) (a b : Nat) (hab : b ≠ a)
    (h : IsPointerHeld l a = true) : IsPointerHeld (EndPointerHold l b) a = true := by
  unfold EndPointerHold
  rw [IsPointerHeld_iff_mem] at h ⊢
  exact (mem_listRemove l b a).2 ⟨h, fun e => hab e.symm⟩

theorem IsPointerHeld_runPointerCalls (cs : List (Bool × Nat)) (l : PointerList) (a : Nat)
    (hcs : ∀ c ∈ cs, c.1 = false → c.2 ≠ a) (h : IsPointerHeld l a = true) :
    IsPointerHeld (runPointerCalls l cs) a = true := by
  induction cs generalizing l with
  | nil => exact h
  | cons c cs ih =>
    obtain ⟨f, b⟩ := c
    have hrest : ∀ c ∈ cs, c.1 = false → c.2 ≠ a := fun c hc => hcs c (List.mem_cons_of_mem _ hc)
    cases f with
    | true =>
      exact ih _ hrest (IsPointerHeld_SetPointerHeld_of_held l a b h)
    | false =>
      have hb : b ≠ a := hcs (false, b) (List.mem_cons_self _ _) rfl
      exact ih _ hrest (IsPointerHeld_EndPointerHold_other l a b hb h)

/-- C23, as stated, fails: an object is constructed on address `5` in a state with empty
registries and destroyed without `EndHold`; address `5` is still held afterwards. -/
theorem DataRestoreObj_destroy_unended_keeps_hold :
    IsPointerHeld
      (DataRestoreObj.destroy (DataRestoreObj.construct HoldWorld.blank 5 0).1
        (DataRestoreObj.construct HoldWorld.blank 5 0).2).held 5 = true := by
  decide

/-- C23, amended: the non-null address of an object is held right after construction and
stays held through the holds that begin and end for other addresses; `EndHold` releases it;
the destructor changes nothing, so after the destruction the address is not held when
`EndHold` ran, and is still held when it never ran. -/
theorem DataRestoreObj_hold_lifetime (w0 : HoldWorld) (val pOwner : Nat)
    (cs : List (Bool × Nat)) (hval : val ≠ 0) (hcs : ∀ c ∈ cs, c.1 = false → c.2 ≠ val) :
    IsPointerHeld (DataRestoreObj.construct w0 val pOwner).1.held val = true
      ∧ IsPointerHeld (runPointerCalls (DataRestoreObj.construct w0 val pOwner).1.held cs) val
          = true
      ∧ (∀ w : HoldWorld,
          IsPointerHeld
            (DataRestoreObj.EndHold w (DataRestoreObj.construct w0 val pOwner).2).1.held val
            = false)
      ∧ (∀ (w : HoldWorld) (o : DataRestoreObj), DataRestoreObj.destroy w o = w) := by
  have h1 : IsPointerHeld (DataRestoreObj.construct w0 val pOwner).1.held val = true := by
    show IsPointerHeld (SetPointerHeld w0.held val) val = true
    unfold SetPointerHeld
    by_cases hc : (IsPointerHeld w0.held val || val == 0) = true
    · rw [if_pos hc]
      have hv : (val == 0) = false := by simp [hval]
      rw [hv, Bool.or_false] at hc
      exact hc
    · rw [if_neg hc]; exact IsPointerHeld_append_self _ _
  refine ⟨h1, IsPointerHeld_runPointerCalls cs _ val hcs h1, ?_, fun _ _ => rfl⟩
  intro w
  show IsPointerHeld (listRemove w.held val) val = false
  exact IsPointerHeld_listRemove_self _ _

/-- Witness for `DataRestoreObj_hold_lifetime`: address `5`, while a hold on address `7`
begins and ends. -/
theorem DataRestoreObj_hold_lifetime_witness :
    IsPointerHeld
        (runPointerCalls (DataRestoreObj.construct HoldWorld.blank 5 0).1.held
          [(true, 7), (false, 7)]) 5 = true
      ∧ IsPointerHeld
          (DataRestoreObj.EndHold (DataRestoreObj.construct HoldWorld.blank 5 0).1
            (DataRestoreObj.construct HoldWorld.blank 5 0).2).1.held 5 = false :=
  ⟨(DataRestoreObj_hold_lifetime HoldWorld.blank 5 0 [(true, 7), (false, 7)] (by decide)
      (by decide)).2.1,
   (DataRestoreObj_hold_lifetime HoldWorld.blank 5 0 [(true, 7), (false, 7)] (by decide)
      (by decide)).2.2.1 _⟩

/-! ### Array-element restore objects -/

theorem notifyTabOwner_tabs (w : HoldWorld) (owner : Nat) (val : Option Nat) :
    (notifyTabOwner w owner val).tabs = w.tabs := by
  unfold notifyTabOwner
  by_cases h : owner = 0
  · simp [h]
  · simp [h]

theorem Tab_elemIndex_SetCount (t : Tab) (size i : Int) (hi : 0 ≤ i) (hlt : i < size) :
    (t.SetCount size).elemIndex i = some i.toNat := by
  unfold Tab.elemIndex Tab.Count Tab.SetCount
  have : 0 ≤ i ∧ i < ((size.toNat : Nat) : Int) := by omega
  simp only [this, and_self, if_true]

theorem TabDataRestoreObj_writeBack_spec (w : HoldWorld) (o : TabDataRestoreObj) (size : Int)
    (val : Option Nat) (hi : 0 ≤ o.mDataIndex) :
    ∃ w2, TabDataRestoreObj.writeBack w o size val = some w2
      ∧ (w2.tabs o.mpTab).Count = (size.toNat : Int)
      ∧ (w2.tabs o.mpTab).data.length = size.toNat
      ∧ (o.mDataIndex < size →
          (w2.tabs o.mpTab).elemIndex o.mDataIndex = some o.mDataIndex.toNat
            ∧ cellAt (w2.tabs o.mpTab).data o.mDataIndex.toNat = val)
      ∧ (¬ o.mDataIndex < size → w2.tabs o.mpTab = (w.tabs o.mpTab).SetCount size) := by
  by_cases hlt : o.mDataIndex < size
  · have hk := Tab_elemIndex_SetCount (w.tabs o.mpTab) size o.mDataIndex hi hlt
    have hw : TabDataRestoreObj.writeBack w o size val
        = some (notifyTabOwner
            { w with
              tabs := store w.tabs o.mpTab
                { (w.tabs o.mpTab).SetCount size with
                  data := ((w.tabs o.mpTab).SetCount size).data.set o.mDataIndex.toNat val } }
            o.mpOwner val) := by
      unfold TabDataRestoreObj.writeBack
      simp only [hlt, if_true, hk]
    refine ⟨_, hw, ?_⟩
    rw [notifyTabOwner_tabs]
    simp only [store_same]
    refine ⟨rfl, ?_, ?_, fun h => absurd hlt h⟩
    · show (List.set (resizeCells _ _) _ _).length = _
      rw [List.length_set, length_resizeCells]
    · intro _
      refine ⟨?_, ?_⟩
      · unfold Tab.elemIndex Tab.Count
        show (if 0 ≤ o.mDataIndex ∧ o.mDataIndex < ((size.toNat : Nat) : Int) then
          some o.mDataIndex.toNat else none) = _
        have : 0 ≤ o.mDataIndex ∧ o.mDataIndex < ((size.toNat : Nat) : Int) := by omega
        simp only [this, and_self, if_true]
      · show cellAt (List.set (resizeCells _ _) _ _) _ = _
        rw [cellAt_set, length_resizeCells]
        have : o.mDataIndex.toNat = o.mDataIndex.toNat ∧ o.mDataIndex.toNat < size.toNat := by
          omega
        simp only [this, and_self, if_true]
  · have hw : TabDataRestoreObj.writeBack w o size val
        = some (notifyTabOwner
            { w with tabs := store w.tabs o.mpTab ((w.tabs o.mpTab).SetCount size) }
            o.mpOwner val) := by
      unfold TabDataRestoreObj.writeBack
      simp only [hlt, if_false]
    refine ⟨_, hw, ?_⟩
    rw [notifyTabOwner_tabs]
    simp only [store_same]
    refine ⟨rfl, ?_, fun h => absurd h hlt, fun _ => trivial⟩
    show (resizeCells _ _).length = _
    rw [length_resizeCells]

theorem TabDataRestoreObj_EndHold_fields (w w2 : HoldWorld) (o o2 : TabDataRestoreObj)
    (h : TabDataRestoreObj.EndHold w o = some (w2, o2)) :
    o2.mpOwner = o.mpOwner ∧ o2.mpTab = o.mpTab ∧ o2.mDataIndex = o.mDataIndex
      ∧ o2.mUndoSize = o.mUndoSize ∧ o2.mUndo = o.mUndo
      ∧ o2.mRedoSize = (w.tabs o.mpTab).Count
      ∧ (0 ≤ o.mDataIndex → o.mDataIndex < (w.tabs o.mpTab).Count →
          o2.mRedo = cellAt (w.tabs o.mpTab).data o.mDataIndex.toNat) := by
  unfold TabDataRestoreObj.EndHold at h
  by_cases hlt : o.mDataIndex < (w.tabs o.mpTab).Count
  · simp only [hlt, if_true] at h
    cases hk : (w.tabs o.mpTab).elemIndex o.mDataIndex with
    | none => simp [hk] at h
    | some k =>
      simp only [hk] at h
      cases hm : EndTabPointerHold w.tabMap o.mpTab o.mDataIndex with
      | none => simp [hm] at h
      | some m =>
        simp only [hm, Option.some.injEq, Prod.mk.injEq] at h
        obtain ⟨_, h2⟩ := h
        subst h2
        refine ⟨rfl, rfl, rfl, rfl, rfl, rfl, ?_⟩
        intro h0 _
        have : k = o.mDataIndex.toNat := by
          unfold Tab.elemIndex at hk
          have hc : 0 ≤ o.mDataIndex ∧ o.mDataIndex < (w.tabs o.mpTab).Count := ⟨h0, hlt⟩
          simp only [hc, and_self, if_true, Option.some.injEq] at hk
          exact hk.symm
        subst this
        rfl
  · simp only [hlt, if_false] at h
    cases hm : EndTabPointerHold w.tabMap o.mpTab o.mDataIndex with
    | none => simp [hm] at h
    | some m =>
      simp only [hm, Option.some.injEq, Prod.mk.injEq] at h
      obtain ⟨_, h2⟩ := h
      subst h2
      exact ⟨rfl, rfl, rfl, rfl, rfl, rfl, fun _ h1 => absurd h1 hlt⟩

theorem TabDataRestoreObj_EndHold_returns (w : HoldWorld) (o : TabDataRestoreObj)
    (hi : 0 ≤ o.mDataIndex)
    (hheld : IsTabPointerHeld w.tabMap o.mpTab o.mDataIndex = true) :
    ∃ w2 o2, TabDataRestoreObj.EndHold w o = some (w2, o2) := by
  obtain ⟨l, hl, _⟩ := (IsTabPointerHeld_iff _ _ _).1 hheld
  have hm : ∃ m, EndTabPointerHold w.tabMap o.mpTab o.mDataIndex = some m := by
    unfold EndTabPointerHold
    rw [hl]
    by_cases hlen : l.length = 1
    · exact ⟨mapErase w.tabMap o.mpTab, by simp only [hlen, if_true]⟩
    · exact ⟨mapAssign w.tabMap o.mpTab (listRemove l o.mDataIndex),
        by simp only [hlen, if_false]⟩
  obtain ⟨m, hm⟩ := hm
  unfold TabDataRestoreObj.EndHold
  by_cases hlt : o.mDataIndex < (w.tabs o.mpTab).Count
  · have hk : (w.tabs o.mpTab).elemIndex o.mDataIndex = some o.mDataIndex.toNat := by
      unfold Tab.elemIndex
      have hc : 0 ≤ o.mDataIndex ∧ o.mDataIndex < (w.tabs o.mpTab).Count := ⟨hi, hlt⟩
      simp only [hc, and_self, if_true]
    simp only [hlt, if_true, hk, hm]
    exact ⟨_, _, rfl⟩
  · simp only [hlt, if_false, hm]
    exact ⟨_, _, rfl⟩

/-- C24: an object is constructed for index `i`, `0 <= i < n`, of the array at `tab`, which
has `n` elements.  Whatever the state `w` is later (any element count of the array), and
whether or not `EndHold` ran in between, Restore returns, leaves the array with `n` elements
and element `i` equal to the value it had at construction. -/
theorem TabDataRestoreObj_Restore_regrows (w0 : HoldWorld) (tab : Nat) (i : Int) (pOwner : Nat)
    (hi0 : 0 ≤ i) (hin : i < (w0.tabs tab).Count) :
    ∃ w1 o, TabDataRestoreObj.construct w0 tab i pOwner = some (w1, o)
      ∧ ∀ (w : HoldWorld) (o2 : TabDataRestoreObj) (isUndo : Int),
          (o2 = o ∨ ∃ wa wb, TabDataRestoreObj.EndHold wa o = some (wb, o2)) →
          ∃ w2, TabDataRestoreObj.Restore w o2 isUndo = some w2
            ∧ (w2.tabs tab).Count = (w0.tabs tab).Count
            ∧ (w2.tabs tab).data.length = (w0.tabs tab).count
            ∧ (w2.tabs tab).elemIndex i = some i.toNat
            ∧ cellAt (w2.tabs tab).data i.toNat = cellAt (w0.tabs tab).data i.toNat := by
  have hk : (w0.tabs tab).elemIndex i = some i.toNat := by
    unfold Tab.elemIndex
    have hc : 0 ≤ i ∧ i < (w0.tabs tab).Count := ⟨hi0, hin⟩
    simp only [hc, and_self, if_true]
  have hc : TabDataRestoreObj.construct w0 tab i pOwner
      = some ({ w0 with tabMap := SetTabPointerHeld w0.tabMap tab i },
          { mpOwner := pOwner, mpTab := tab, mDataIndex := i, mUndoSize := (w0.tabs tab).Count,
            mRedoSize := (w0.tabs tab).Count, mUndo := cellAt (w0.tabs tab).data i.toNat,
            mRedo := cellAt (w0.tabs tab).data i.toNat }) := by
    unfold TabDataRestoreObj.construct
    simp only [hin, if_true, hk]
  refine ⟨_, _, hc, ?_⟩
  intro w o2 isUndo ho2
  have hf : o2.mpTab = tab ∧ o2.mDataIndex = i ∧ o2.mUndoSize = (w0.tabs tab).Count
      ∧ o2.mUndo = cellAt (w0.tabs tab).data i.toNat := by
    rcases ho2 with e | ⟨wa, wb, e⟩
    · subst e; exact ⟨rfl, rfl, rfl, rfl⟩
    · obtain ⟨_, h2, h3, h4, h5, _⟩ := TabDataRestoreObj_EndHold_fields _ _ _ _ e
      exact ⟨h2, h3, h4, h5⟩
  obtain ⟨h1, h2, h3, h4⟩ := hf
  have hi2 : 0 ≤ o2.mDataIndex := by rw [h2]; exact hi0
  obtain ⟨w2, hw2, hcount, hlen, hwrite, _⟩ :=
    TabDataRestoreObj_writeBack_spec w o2 o2.mUndoSize o2.mUndo hi2
  refine ⟨w2, hw2, ?_⟩
  rw [h1] at hcount hlen hwrite
  rw [h2] at hwrite
  have hlt : i < o2.mUndoSize := by rw [h3]; exact hin
  have hcnt : ((o2.mUndoSize.toNat : Nat) : Int) = (w0.tabs tab).Count := by
    rw [h3]; unfold Tab.Count; simp
  have hcnt2 : o2.mUndoSize.toNat = (w0.tabs tab).count := by
    rw [h3]; unfold Tab.Count; simp
  refine ⟨by rw [hcount, hcnt], by rw [hlen, hcnt2], (hwrite hlt).1, ?_⟩
  rw [(hwrite hlt).2, h4]

/-- Witness for `TabDataRestoreObj_Restore_regrows`: index `2` of the three-element array at
address `1`. -/
theorem TabDataRestoreObj_Restore_regrows_witness :
    ∃ w1 o, TabDataRestoreObj.construct HoldWorld.sample 1 2 0 = some (w1, o)
      ∧ ∀ (w : HoldWorld) (o2 : TabDataRestoreObj) (isUndo : Int),
          (o2 = o ∨ ∃ wa wb, TabDataRestoreObj.EndHold wa o = some (wb, o2)) →
          ∃ w2, TabDataRestoreObj.Restore w o2 isUndo = some w2
            ∧ (w2.tabs 1).Count = (HoldWorld.sample.tabs 1).Count
            ∧ (w2.tabs 1).data.length = (HoldWorld.sample.tabs 1).count
            ∧ (w2.tabs 1).elemIndex 2 = some (2 : Int).toNat
            ∧ cellAt (w2.tabs 1).data (2 : Int).toNat
                = cellAt (HoldWorld.sample.tabs 1).data (2 : Int).toNat :=
  TabDataRestoreObj_Restore_regrows HoldWorld.sample 1 2 0 (by decide) (by decide)

/-- C25: for an object with a non-negative index whose pair is held, `EndHold` returns, in
a state `wE` where the array has `m` elements.  After it, in any state `w`, Redo returns and
leaves the array with `m` elements and, when the index is below `m`, the element equal to
the value it had at `EndHold`; Restore returns and leaves the array with `mUndoSize`
elements.  Each of the two stores the element only at an index below the count just set,
and otherwise leaves the array as `SetCount` made it. -/
theorem TabDataRestoreObj_Redo_spec (wE : HoldWorld) (o : TabDataRestoreObj)
    (hi : 0 ≤ o.mDataIndex)
    (hheld : IsTabPointerHeld wE.tabMap o.mpTab o.mDataIndex = true) :
    ∃ wE2 oE, TabDataRestoreObj.EndHold wE o = some (wE2, oE)
      ∧ (∀ w : HoldWorld, ∃ w2, TabDataRestoreObj.Redo w oE = some w2
          ∧ (w2.tabs o.mpTab).Count = (wE.tabs o.mpTab).Count
          ∧ (w2.tabs o.mpTab).data.length = (wE.tabs o.mpTab).count
          ∧ (o.mDataIndex < (wE.tabs o.mpTab).Count →
              (w2.tabs o.mpTab).elemIndex o.mDataIndex = some o.mDataIndex.toNat
                ∧ cellAt (w2.tabs o.mpTab).data o.mDataIndex.toNat
                    = cellAt (wE.tabs o.mpTab).data o.mDataIndex.toNat)
          ∧ (¬ o.mDataIndex < (wE.tabs o.mpTab).Count →
              w2.tabs o.mpTab = (w.tabs o.mpTab).SetCount (wE.tabs o.mpTab).Count))
      ∧ (∀ (w : HoldWorld) (isUndo : Int), ∃ w2, TabDataRestoreObj.Restore w oE isUndo = some w2
          ∧ (w2.tabs o.mpTab).Count = (o.mUndoSize.toNat : Int)
          ∧ (w2.tabs o.mpTab).data.length = o.mUndoSize.toNat
          ∧ (o.mDataIndex < o.mUndoSize →
              (w2.tabs o.mpTab).elemIndex o.mDataIndex = some o.mDataIndex.toNat
                ∧ cellAt (w2.tabs o.mpTab).data o.mDataIndex.toNat = o.mUndo)
          ∧ (¬ o.mDataIndex < o.mUndoSize →
              w2.tabs o.mpTab = (w.tabs o.mpTab).SetCount o.mUndoSize)) := by
  obtain ⟨wE2, oE, hend⟩ := TabDataRestoreObj_EndHold_returns wE o hi hheld
  obtain ⟨_, h2, h3, h4, h5, h6, h7⟩ := TabDataRestoreObj_EndHold_fields _ _ _ _ hend
  have hiE : 0 ≤ oE.mDataIndex := by rw [h3]; exact hi
  refine ⟨wE2, oE, hend, ?_, ?_⟩
  · intro w
    obtain ⟨w2, hw2, hcount, hlen, hwrite, hskip⟩ :=
      TabDataRestoreObj_writeBack_spec w oE oE.mRedoSize oE.mRedo hiE
    rw [h2, h6] at hcount hlen hskip
    rw [h2, h3, h6] at hwrite
    rw [h3] at hskip
    have hcnt : (((wE.tabs o.mpTab).Count.toNat : Nat) : Int) = (wE.tabs o.mpTab).Count := by
      unfold Tab.Count; simp
    have hcnt2 : (wE.tabs o.mpTab).Count.toNat = (wE.tabs o.mpTab).count := by
      unfold Tab.Count; simp
    refine ⟨w2, hw2, by rw [hcount, hcnt], by rw [hlen, hcnt2], ?_, hskip⟩
    intro hlt
    refine ⟨(hwrite hlt).1, ?_⟩
    rw [(hwrite hlt).2]
    exact h7 hi hlt
  · intro w isUndo
    obtain ⟨w2, hw2, hcount, hlen, hwrite, hskip⟩ :=
      TabDataRestoreObj_writeBack_spec w oE oE.mUndoSize oE.mUndo hiE
    rw [h2, h4] at hcount hlen hskip
    rw [h2, h3, h4, h5] at hwrite
    rw [h3] at hskip
    exact ⟨w2, hw2, hcount, hlen, hwrite, hskip⟩

/-! ### Holds in progress -/

theorem listRemove_nodup {α : Type} [DecidableEq α] (l : List α) (v : α) (h : l.Nodup) :
    (listRemove l v).Nodup := by
  induction l with
  | nil => simp [listRemove]
  | cons x rest ih =>
    rw [List.nodup_cons] at h
    by_cases hx : x = v
    · simp only [listRemove, hx, if_true]
      exact ih h.2
    · simp only [listRemove, hx, if_false]
      rw [List.nodup_cons]
      refine ⟨fun hm => h.1 ((mem_listRemove rest v x).1 hm).1, ih h.2⟩

theorem eraseIdx_key_ne {α β : Type} (f : α → β) (l : List α) (k : Nat) (o o2 : α)
    (hn : (l.map f).Nodup) (hk : l[k]? = some o) (h2 : o2 ∈ l.eraseIdx k) : f o2 ≠ f o := by
  induction l generalizing k with
  | nil => simp at hk
  | cons x rest ih =>
    rw [List.map_cons, List.nodup_cons] at hn
    cases k with
    | zero =>
      simp only [List.getElem?_cons_zero, Option.some.injEq] at hk
      subst hk
      simp only [List.eraseIdx_cons_zero] at h2
      intro e
      exact hn.1 (e ▸ List.mem_map_of_mem f h2)
    | succ k =>
      simp only [List.getElem?_cons_succ] at hk
      simp only [List.eraseIdx_cons_succ, List.mem_cons] at h2
      rcases h2 with e | h2
      · subst e
        intro e2
        have : o ∈ rest := List.getElem?_mem hk
        exact hn.1 (e2 ▸ List.mem_map_of_mem f this)
      · exact ih k hn.2 hk h2

theorem map_eraseIdx_nodup {α β : Type} (f : α → β) (l : List α) (k : Nat)
    (hn : (l.map f).Nodup) : ((l.eraseIdx k).map f).Nodup :=
  List.Nodup.sublist (List.Sublist.map f (List.eraseIdx_sublist l k)) hn

theorem mem_of_mem_eraseIdx {α : Type} (l : List α) (k : Nat) (x : α)
    (h : x ∈ l.eraseIdx k) : x ∈ l :=
  (List.eraseIdx_sublist l k).subset h

theorem mapInsert_keys (m : TabMap) (p : Nat) (l : List Int) :
    ∀ k ∈ (mapInsert m p l).map Prod.fst, k ∈ m.map Prod.fst ∨ k = p := by
  induction m with
  | nil => intro k hk; simp [mapInsert] at hk; exact Or.inr hk
  | cons e rest ih =>
    obtain ⟨k0, l0⟩ := e
    intro k hk
    by_cases h1 : p < k0
    · simp only [mapInsert, h1, if_true, List.map_cons, List.mem_cons] at hk
      rcases hk with e | e | e
      · exact Or.inr e
      · exact Or.inl (by simp [e])
      · exact Or.inl (by simp only [List.map_cons, List.mem_cons]; exact Or.inr e)
    · by_cases h2 : k0 = p
      · subst h2
        simp only [mapInsert, Nat.lt_irrefl, if_false, if_true] at hk
        exact Or.inl hk
      · simp only [mapInsert, h1, if_false, h2, List.map_cons, List.mem_cons] at hk
        rcases hk with e | e
        · exact Or.inl (by simp [e])
        · rcases ih k e with h | h
          · exact Or.inl (by simp only [List.map_cons, List.mem_cons]; exact Or.inr h)
          · exact Or.inr h

theorem TabMapOrdered_cons (k : Nat) (l : List Int) (rest : TabMap) :
    TabMapOrdered ((k, l) :: rest) ↔ (∀ k2 ∈ rest.map Prod.fst, k < k2) ∧ TabMapOrdered rest := by
  unfold TabMapOrdered
  rw [List.map_cons, List.pairwise_cons]

theorem TabMapOrdered_mapInsert (m : TabMap) (p : Nat) (l : List Int) (h : TabMapOrdered m) :
    TabMapOrdered (mapInsert m p l) := by
  induction m with
  | nil => simp [mapInsert, TabMapOrdered]
  | cons e rest ih =>
    obtain ⟨k0, l0⟩ := e
    have hc := (TabMapOrdered_cons k0 l0 rest).1 h
    by_cases h1 : p < k0
    · simp only [mapInsert, h1, if_true]
      rw [TabMapOrdered_cons]
      refine ⟨?_, h⟩
      intro k2 hk2
      simp only [List.map_cons, List.mem_cons] at hk2
      rcases hk2 with e | e
      · omega
      · have := hc.1 k2 e; omega
    · by_cases h2 : k0 = p
      · subst h2
        simp only [mapInsert, Nat.lt_irrefl, if_false, if_true]
        exact h
      · simp only [mapInsert, h1, if_false, h2]
        rw [TabMapOrdered_cons]
        refine ⟨?_, ih hc.2⟩
        intro k2 hk2
        rcases mapInsert_keys rest p l k2 hk2 with e | e
        · exact hc.1 k2 e
        · omega

theorem mapFind_mapInsert_self (m : TabMap) (p : Nat) (l : List Int)
    (h : mapFind m p = none) : mapFind (mapInsert m p l) p = some l := by
  induction m with
  | nil => simp [mapInsert, mapFind]
  | cons e rest ih =>
    obtain ⟨k0, l0⟩ := e
    by_cases h2 : k0 = p
    · simp [mapFind, h2] at h
    · simp only [mapFind, h2, if_false] at h
      by_cases h1 : p < k0
      · simp only [mapInsert, h1, if_true, mapFind]
      · simp only [mapInsert, h1, if_false, h2, mapFind]
        exact ih h

theorem mapFind_mapInsert_other (m : TabMap) (p q : Nat) (l : List Int) (hq : q ≠ p) :
    mapFind (mapInsert m p l) q = mapFind m q := by
  have hpq : ¬ p = q := fun e => hq e.symm
  induction m with
  | nil => simp [mapInsert, mapFind, hpq]
  | cons e rest ih =>
    obtain ⟨k0, l0⟩ := e
    by_cases h1 : p < k0
    · simp only [mapInsert, h1, if_true]
      rw [mapFind]
      simp only [hpq, if_false]
    · by_cases h2 : k0 = p
      · subst h2
        simp only [mapInsert, Nat.lt_irrefl, if_false, if_true]
      · simp only [mapInsert, h1, if_false, h2]
        by_cases h3 : k0 = q
        · simp only [mapFind, h3, if_true]
        · simp only [mapFind, h3, if_false]
          exact ih

theorem mapErase_keys_sublist (m : TabMap) (p : Nat) :
    List.Sublist ((mapErase m p).map Prod.fst) (m.map Prod.fst) := by
  induction m with
  | nil => simp [mapErase]
  | cons e rest ih =>
    obtain ⟨k0, l0⟩ := e
    by_cases h2 : k0 = p
    · simp only [mapErase, h2, if_true, List.map_cons]
      exact List.sublist_cons_self _ _
    · simp only [mapErase, h2, if_false, List.map_cons]
      exact List.Sublist.cons₂ _ ih

theorem TabMapOrdered_mapErase (m : TabMap) (p : Nat) (h : TabMapOrdered m) :
    TabMapOrdered (mapErase m p) :=
  List.Pairwise.sublist (mapErase_keys_sublist m p) h

theorem TabMapOrdered_mapAssign (m : TabMap) (p : Nat) (l : List Int) (h : TabMapOrdered m) :
    TabMapOrdered (mapAssign m p l) := by
  unfold TabMapOrdered
  rw [mapAssign_keys]
  exact h

theorem SetTabPointerHeld_new_pair (m : TabMap) (p : Nat) (i : Int) (hp : p ≠ 0)
    (hord : TabMapOrdered m) (hnodup : ∀ q l, mapFind m q = some l → l.Nodup)
    (hnew : IsTabPointerHeld m p i = false) :
    TabMapOrdered (SetTabPointerHeld m p i)
      ∧ (∀ q l, mapFind (SetTabPointerHeld m p i) q = some l → l.Nodup)
      ∧ IsTabPointerHeld (SetTabPointerHeld m p i) p i = true
      ∧ (∀ q j, IsTabPointerHeld m q j = true →
          IsTabPointerHeld (SetTabPointerHeld m p i) q j = true) := by
  cases hf : mapFind m p with
  | none =>
    have hs : SetTabPointerHeld m p i = mapInsert m p [i] := by
      unfold SetTabPointerHeld
      simp only [hp, if_false, hf]
    rw [hs]
    have hself := mapFind_mapInsert_self m p [i] hf
    refine ⟨TabMapOrdered_mapInsert m p _ hord, ?_, ?_, ?_⟩
    · intro q l hq
      by_cases e : q = p
      · subst e
        rw [hself] at hq
        have := Option.some.inj hq
        subst this
        simp
      · rw [mapFind_mapInsert_other m p q _ e] at hq
        exact hnodup q l hq
    · exact (IsTabPointerHeld_iff _ _ _).2 ⟨[i], hself, by simp⟩
    · intro q j hqj
      obtain ⟨l, hl, hjl⟩ := (IsTabPointerHeld_iff _ _ _).1 hqj
      have e : q ≠ p := by
        intro e; subst e; rw [hf] at hl; simp at hl
      exact (IsTabPointerHeld_iff _ _ _).2 ⟨l, by rw [mapFind_mapInsert_other m p q _ e]; exact hl, hjl⟩
  | some l0 =>
    have hs : SetTabPointerHeld m p i = mapAssign m p (l0 ++ [i]) := by
      unfold SetTabPointerHeld
      simp only [hp, if_false, hf]
    rw [hs]
    have hself := mapFind_mapAssign_self m p l0 (l0 ++ [i]) hf
    have hi0 : i ∉ l0 := by
      intro hmem
      have : IsTabPointerHeld m p i = true := (IsTabPointerHeld_iff _ _ _).2 ⟨l0, hf, hmem⟩
      rw [hnew] at this
      exact Bool.noConfusion this
    refine ⟨TabMapOrdered_mapAssign m p _ hord, ?_, ?_, ?_⟩
    · intro q l hq
      by_cases e : q = p
      · subst e
        rw [hself] at hq
        have := Option.some.inj hq
        subst this
        rw [List.nodup_append]
        refine ⟨hnodup q l0 hf, by simp, ?_⟩
        intro a ha hb
        simp only [List.mem_singleton] at hb
        subst hb
        exact hi0 ha
      · rw [mapFind_mapAssign_other m p q _ e] at hq
        exact hnodup q l hq
    · exact (IsTabPointerHeld_iff _ _ _).2 ⟨_, hself, by simp⟩
    · intro q j hqj
      obtain ⟨l, hl, hjl⟩ := (IsTabPointerHeld_iff _ _ _).1 hqj
      by_cases e : q = p
      · subst e
        rw [hf] at hl
        have := Option.some.inj hl
        subst this
        exact (IsTabPointerHeld_iff _ _ _).2 ⟨_, hself, List.mem_append_left _ hjl⟩
      · exact (IsTabPointerHeld_iff _ _ _).2
          ⟨l, by rw [mapFind_mapAssign_other m p q _ e]; exact hl, hjl⟩

theorem EndTabPointerHold_keeps_others (m m2 : TabMap) (p : Nat) (i : Int)
    (hord : TabMapOrdered m) (hnodup : ∀ q l, mapFind m q = some l → l.Nodup)
    (hheld : IsTabPointerHeld m p i = true) (hend : EndTabPointerHold m p i = some m2) :
    TabMapOrdered m2
      ∧ (∀ q l, mapFind m2 q = some l → l.Nodup)
      ∧ (∀ q j, ¬ (q = p ∧ j = i) → IsTabPointerHeld m q j = true →
          IsTabPointerHeld m2 q j = true) := by
  obtain ⟨l, hl, hil⟩ := (IsTabPointerHeld_iff m p i).1 hheld
  unfold EndTabPointerHold at hend
  rw [hl] at hend
  by_cases hlen : l.length = 1
  · simp only [hlen, if_true, Option.some.injEq] at hend
    subst hend
    have hli : l = [i] := by
      match l, hlen, hil with
      | [a], _, hil => simp at hil; rw [hil]
    refine ⟨TabMapOrdered_mapErase m p hord, ?_, ?_⟩
    · intro q l2 hq
      by_cases e : q = p
      · subst e
        rw [mapFind_mapErase_self m q hord] at hq
        simp at hq
      · rw [mapFind_mapErase_other m p q e] at hq
        exact hnodup q l2 hq
    · intro q j hqj hh
      obtain ⟨l2, hl2, hj2⟩ := (IsTabPointerHeld_iff _ _ _).1 hh
      have e : q ≠ p := by
        intro e
        subst e
        rw [hl] at hl2
        have := Option.some.inj hl2
        subst this
        rw [hli] at hj2
        simp at hj2
        exact hqj ⟨rfl, hj2⟩
      exact (IsTabPointerHeld_iff _ _ _).2
        ⟨l2, by rw [mapFind_mapErase_other m p q e]; exact hl2, hj2⟩
  · simp only [hlen, if_false, Option.some.injEq] at hend
    subst hend
    have hself := mapFind_mapAssign_self m p l (listRemove l i) hl
    refine ⟨TabMapOrdered_mapAssign m p _ hord, ?_, ?_⟩
    · intro q l2 hq
      by_cases e : q = p
      · subst e
        rw [hself] at hq
        have := Option.some.inj hq
        subst this
        exact listRemove_nodup l i (hnodup q l hl)
      · rw [mapFind_mapAssign_other m p q _ e] at hq
        exact hnodup q l2 hq
    · intro q j hqj hh
      obtain ⟨l2, hl2, hj2⟩ := (IsTabPointerHeld_iff _ _ _).1 hh
      by_cases e : q = p
      · subst e
        rw [hl] at hl2
        have := Option.some.inj hl2
        subst this
        have hji : j ≠ i := fun e2 => hqj ⟨rfl, e2⟩
        exact (IsTabPointerHeld_iff _ _ _).2
          ⟨_, hself, (mem_listRemove l i j).2 ⟨hj2, hji⟩⟩
      · exact (IsTabPointerHeld_iff _ _ _).2
          ⟨l2, by rw [mapFind_mapAssign_other m p q _ e]; exact hl2, hj2⟩

theorem TabDataRestoreObj_construct_fields (w w1 : HoldWorld) (tab : Nat) (index : Int)
    (pOwner : Nat) (o : TabDataRestoreObj)
    (h : TabDataRestoreObj.construct w tab index pOwner = some (w1, o)) :
    w1.held = w.held ∧ w1.tabMap = SetTabPointerHeld w.tabMap tab index
      ∧ o.mpTab = tab ∧ o.mDataIndex = index := by
  unfold TabDataRestoreObj.construct at h
  by_cases hlt : index < (w.tabs tab).Count
  · simp only [hlt, if_true] at h
    cases hk : (w.tabs tab).elemIndex index with
    | none => simp [hk] at h
    | some k =>
      simp only [hk, Option.some.injEq, Prod.mk.injEq] at h
      obtain ⟨h1, h2⟩ := h
      subst h1; subst h2
      exact ⟨rfl, rfl, rfl, rfl⟩
  · simp only [hlt, if_false, Option.some.injEq, Prod.mk.injEq] at h
    obtain ⟨h1, h2⟩ := h
    subst h1; subst h2
    exact ⟨rfl, rfl, rfl, rfl⟩

theorem TabDataRestoreObj_EndHold_world (w w2 : HoldWorld) (o o2 : TabDataRestoreObj)
    (h : TabDataRestoreObj.EndHold w o = some (w2, o2)) :
    w2.held = w.held
      ∧ EndTabPointerHold w.tabMap o.mpTab o.mDataIndex = some w2.tabMap := by
  unfold TabDataRestoreObj.EndHold at h
  cases hm : EndTabPointerHold w.tabMap o.mpTab o.mDataIndex with
  | none =>
    by_cases hlt : o.mDataIndex < (w.tabs o.mpTab).Count
    · simp only [hlt, if_true, hm] at h
      cases hk : (w.tabs o.mpTab).elemIndex o.mDataIndex with
      | none => simp [hk] at h
      | some k => simp [hk] at h
    · simp [hlt, hm] at h
  | some m =>
    by_cases hlt : o.mDataIndex < (w.tabs o.mpTab).Count
    · simp only [hlt, if_true, hm] at h
      cases hk : (w.tabs o.mpTab).elemIndex o.mDataIndex with
      | none => simp [hk] at h
      | some k =>
        simp only [hk, Option.some.injEq, Prod.mk.injEq] at h
        obtain ⟨h1, _⟩ := h
        subst h1
        exact ⟨rfl, rfl⟩
    · simp only [hlt, if_false, hm, Option.some.injEq, Prod.mk.injEq] at h
      obtain ⟨h1, _⟩ := h
      subst h1
      exact ⟨rfl, rfl⟩

theorem HoldData_Consistent (s : HoldState) (holding : Bool) (data pOwner : Nat)
    (hd : data ≠ 0) (h : s.Consistent) : (HoldData s holding data pOwner).Consistent := by
  obtain ⟨h1, h2, h3, h4, h5, h6, h7⟩ := h
  unfold HoldData
  cases holding with
  | false => exact ⟨h1, h2, h3, h4, h5, h6, h7⟩
  | true =>
    cases hh : IsPointerHeld s.w.held data with
    | true => simp only [if_true, hh, Bool.not_true]; exact ⟨h1, h2, h3, h4, h5, h6, h7⟩
    | false =>
      have hnot : data ∉ s.w.held := by
        intro hm
        rw [(IsPointerHeld_iff_mem _ _).2 hm] at hh
        exact Bool.noConfusion hh
      have hset : SetPointerHeld s.w.held data = s.w.held ++ [data] := by
        unfold SetPointerHeld
        have hv : (data == 0) = false := by simp [hd]
        simp only [hh, hv, Bool.or_false, Bool.false_eq_true, if_false]
      simp only [if_true, hh, Bool.not_false]
      refine ⟨?_, h2, h3, ?_, h5, ?_, h7⟩
      · show (SetPointerHeld s.w.held data).Nodup
        rw [hset, List.nodup_append]
        refine ⟨h1, by simp, ?_⟩
        intro a ha hb
        simp only [List.mem_singleton] at hb
        subst hb
        exact hnot ha
      · show (List.map (fun o => o.mpValue)
          (s.pendingData ++ [(DataRestoreObj.construct s.w data pOwner).2])).Nodup
        rw [List.map_append, List.nodup_append]
        refine ⟨h4, by simp, ?_⟩
        intro a ha hb
        simp only [List.map_cons, List.map_nil, List.mem_singleton] at hb
        obtain ⟨o, ho, hoa⟩ := List.mem_map.1 ha
        have hheld := h6 o ho
        rw [hoa, hb] at hheld
        have hv : (DataRestoreObj.construct s.w data pOwner).2.mpValue = data := rfl
        rw [hv, hh] at hheld
        exact Bool.noConfusion hheld
      · intro o ho
        show IsPointerHeld (SetPointerHeld s.w.held data) o.mpValue = true
        rcases List.mem_append.1 ho with ho | ho
        · exact IsPointerHeld_SetPointerHeld_of_held _ _ _ (h6 o ho)
        · simp only [List.mem_singleton] at ho
          subst ho
          rw [hset]
          exact IsPointerHeld_append_self _ _

theorem HoldTabData_Consistent (s s2 : HoldState) (holding : Bool) (data : Nat) (index : Int)
    (pOwner : Nat) (hd : data ≠ 0) (h : s.Consistent)
    (hr : HoldTabData s holding data index pOwner = some s2) : s2.Consistent := by
  obtain ⟨h1, h2, h3, h4, h5, h6, h7⟩ := h
  unfold HoldTabData at hr
  cases holding with
  | false =>
    simp only [Bool.false_eq_true, if_false, Option.some.injEq] at hr
    subst hr
    exact ⟨h1, h2, h3, h4, h5, h6, h7⟩
  | true =>
    cases hh : IsTabPointerHeld s.w.tabMap data index with
    | true =>
      simp only [if_true, hh, Bool.not_true, Bool.false_eq_true, if_false,
        Option.some.injEq] at hr
      subst hr
      exact ⟨h1, h2, h3, h4, h5, h6, h7⟩
    | false =>
      simp only [if_true, hh, Bool.not_false] at hr
      cases hc : TabDataRestoreObj.construct s.w data index pOwner with
      | none => simp [hc] at hr
      | some r =>
        obtain ⟨w1, o⟩ := r
        simp only [hc, Option.some.injEq] at hr
        subst hr
        obtain ⟨f1, f2, f3, f4⟩ := TabDataRestoreObj_construct_fields _ _ _ _ _ _ hc
        obtain ⟨g1, g2, g3, g4⟩ := SetTabPointerHeld_new_pair s.w.tabMap data index hd h2 h3 hh
        refine ⟨?_, ?_, ?_, h4, ?_, ?_, ?_⟩
        · show w1.held.Nodup
          rw [f1]; exact h1
        · show TabMapOrdered w1.tabMap
          rw [f2]; exact g1
        · show ∀ p l, mapFind w1.tabMap p = some l → l.Nodup
          rw [f2]; exact g2
        · show (List.map (fun o => (o.mpTab, o.mDataIndex)) (s.pendingTab ++ [o])).Nodup
          rw [List.map_append, List.nodup_append]
          refine ⟨h5, by simp, ?_⟩
          intro a ha hb
          simp only [List.map_cons, List.map_nil, List.mem_singleton] at hb
          obtain ⟨o1, ho1, hoa⟩ := List.mem_map.1 ha
          have hheld := h7 o1 ho1
          rw [hb, f3, f4] at hoa
          have e1 : o1.mpTab = data := congrArg Prod.fst hoa
          have e2 : o1.mDataIndex = index := congrArg Prod.snd hoa
          rw [e1, e2, hh] at hheld
          exact Bool.noConfusion hheld
        · intro o1 ho1
          show IsPointerHeld w1.held o1.mpValue = true
          rw [f1]; exact h6 o1 ho1
        · intro o1 ho1
          show IsTabPointerHeld w1.tabMap o1.mpTab o1.mDataIndex = true
          rw [f2]
          rcases List.mem_append.1 ho1 with ho1 | ho1
          · exact g4 _ _ (h7 o1 ho1)
          · simp only [List.mem_singleton] at ho1
            subst ho1
            rw [f3, f4]; exact g3

theorem runHoldCall_Consistent (s s2 : HoldState) (c : HoldCall) (h : s.Consistent)
    (hr : runHoldCall s c = some s2) : s2.Consistent := by
  cases c with
  | holdData holding data pOwner =>
    unfold runHoldCall at hr
    by_cases hd : data = 0
    · simp [hd] at hr
    · simp only [hd, if_false, Option.some.injEq] at hr
      subst hr
      exact HoldData_Consistent s holding data pOwner hd h
  | holdTabData holding data index pOwner =>
    unfold runHoldCall at hr
    by_cases hd : data = 0
    · simp [hd] at hr
    · simp only [hd, if_false] at hr
      exact HoldTabData_Consistent s s2 holding data index pOwner hd h hr
  | endHoldData k =>
    obtain ⟨h1, h2, h3, h4, h5, h6, h7⟩ := h
    unfold runHoldCall at hr
    cases hk : s.pendingData[k]? with
    | none => simp [hk] at hr
    | some o =>
      simp only [hk, Option.some.injEq] at hr
      subst hr
      refine ⟨?_, h2, h3, ?_, h5, ?_, h7⟩
      · show (listRemove s.w.held o.mpValue).Nodup
        exact listRemove_nodup _ _ h1
      · exact map_eraseIdx_nodup _ _ k h4
      · intro o2 ho2
        show IsPointerHeld (EndPointerHold s.w.held o.mpValue) o2.mpValue = true
        have hne : o2.mpValue ≠ o.mpValue :=
          eraseIdx_key_ne (fun o => o.mpValue) s.pendingData k o o2 h4 hk ho2
        exact IsPointerHeld_EndPointerHold_other _ _ _ (fun e => hne e.symm)
          (h6 o2 (mem_of_mem_eraseIdx _ _ _ ho2))
  | endHoldTab k =>
    obtain ⟨h1, h2, h3, h4, h5, h6, h7⟩ := h
    unfold runHoldCall at hr
    cases hk : s.pendingTab[k]? with
    | none => simp [hk] at hr
    | some o =>
      simp only [hk] at hr
      cases he : TabDataRestoreObj.EndHold s.w o with
      | none => simp [he] at hr
      | some r =>
        obtain ⟨w2, o3⟩ := r
        simp only [he, Option.some.injEq] at hr
        subst hr
        obtain ⟨f1, f2⟩ := TabDataRestoreObj_EndHold_world _ _ _ _ he
        have hheld := h7 o (List.getElem?_mem hk)
        obtain ⟨g1, g2, g3⟩ :=
          EndTabPointerHold_keeps_others s.w.tabMap w2.tabMap o.mpTab o.mDataIndex h2 h3 hheld f2
        refine ⟨?_, g1, g2, h4, ?_, ?_, ?_⟩
        · show w2.held.Nodup
          rw [f1]; exact h1
        · exact map_eraseIdx_nodup _ _ k h5
        · intro o2 ho2
          show IsPointerHeld w2.held o2.mpValue = true
          rw [f1]; exact h6 o2 ho2
        · intro o2 ho2
          show IsTabPointerHeld w2.tabMap o2.mpTab o2.mDataIndex = true
          have hne : (o2.mpTab, o2.mDataIndex) ≠ (o.mpTab, o.mDataIndex) :=
            eraseIdx_key_ne (fun o => (o.mpTab, o.mDataIndex)) s.pendingTab k o o2 h5 hk ho2
          refine g3 _ _ ?_ (h7 o2 (mem_of_mem_eraseIdx _ _ _ ho2))
          intro e
          exact hne (by rw [e.1, e.2])
  | write a v =>
    unfold runHoldCall at hr
    simp only [Option.some.injEq] at hr
    subst hr
    exact h
  | setTab a t =>
    unfold runHoldCall at hr
    simp only [Option.some.injEq] at hr
    subst hr
    exact h

theorem runHoldCalls_Consistent (cs : List HoldCall) (s s2 : HoldState) (h : s.Consistent)
    (hr : runHoldCalls s cs = some s2) : s2.Consistent := by
  induction cs generalizing s with
  | nil =>
    simp only [runHoldCalls, Option.some.injEq] at hr
    subst hr; exact h
  | cons c cs ih =>
    unfold runHoldCalls at hr
    cases hc : runHoldCall s c with
    | none => simp [hc] at hr
    | some s1 =>
      simp only [hc] at hr
      exact ih s1 (runHoldCall_Consistent s s1 c h hc) hr

theorem HoldState_init_Consistent (mem : Nat → Int) (tabs : Nat → Tab) :
    (HoldState.init mem tabs).Consistent := by
  refine ⟨List.nodup_nil, ?_, ?_, List.nodup_nil, List.nodup_nil, ?_, ?_⟩
  · simp [HoldState.init, TabMapOrdered]
  · intro p l h; simp [HoldState.init, mapFind] at h
  · intro o ho; simp [HoldState.init] at ho
  · intro o ho; simp [HoldState.init] at ho

/-- C21: after any sequence of `HoldData` and `HoldTabData` calls, `EndHold` events of pending
objects and client writes that starts with empty registries, the held-pointer list has no
address twice and no index list has an index twice, no two pending objects share an address
or an (array, index) pair, and a further `HoldData` on a held address or `HoldTabData` on a
held pair, in particular on the address or pair of a pending object, leaves the state as it
is: no restore object is added. -/
theorem hold_calls_one_object_per_address (mem : Nat → Int) (tabs : Nat → Tab)
    (cs : List HoldCall) (s : HoldState)
    (hr : runHoldCalls (HoldState.init mem tabs) cs = some s) :
    s.w.held.Nodup
      ∧ (∀ p l, mapFind s.w.tabMap p = some l → l.Nodup)
      ∧ (s.pendingData.map (fun o => o.mpValue)).Nodup
      ∧ (s.pendingTab.map (fun o => (o.mpTab, o.mDataIndex))).Nodup
      ∧ (∀ o ∈ s.pendingData, IsPointerHeld s.w.held o.mpValue = true)
      ∧ (∀ o ∈ s.pendingTab, IsTabPointerHeld s.w.tabMap o.mpTab o.mDataIndex = true)
      ∧ (∀ (holding : Bool) (a pOwner : Nat), IsPointerHeld s.w.held a = true →
          HoldData s holding a pOwner = s)
      ∧ (∀ (holding : Bool) (a : Nat) (i : Int) (pOwner : Nat),
          IsTabPointerHeld s.w.tabMap a i = true →
          HoldTabData s holding a i pOwner = some s) := by
  obtain ⟨h1, _, h3, h4, h5, h6, h7⟩ :=
    runHoldCalls_Consistent cs _ s (HoldState_init_Consistent mem tabs) hr
  refine ⟨h1, h3, h4, h5, h6, h7, ?_, ?_⟩
  · intro holding a pOwner hh
    unfold HoldData
    cases holding with
    | false => rfl
    | true => simp only [if_true, hh, Bool.not_true, Bool.false_eq_true, if_false]
  · intro holding a i pOwner hh
    unfold HoldTabData
    cases holding with
    | false => rfl
    | true => simp only [if_true, hh, Bool.not_true, Bool.false_eq_true, if_false]

/-- Witness for `hold_calls_one_object_per_address`: `HoldData` twice on address `5`, then
`HoldTabData` twice on index `2` of the array at address `1`, then `EndHold` of the scalar
object. -/
theorem hold_calls_one_object_per_address_witness :
    ∃ s, runHoldCalls (HoldState.init HoldWorld.sample.mem HoldWorld.sample.tabs)
        [HoldCall.holdData true 5 0, HoldCall.holdData true 5 0,
         HoldCall.holdTabData true 1 2 0, HoldCall.holdTabData true 1 2 0,
         HoldCall.endHoldData 0] = some s
      ∧ s.w.held.Nodup
      ∧ (s.pendingTab.map (fun o => (o.mpTab, o.mDataIndex))).Nodup := by
  obtain ⟨s, hs⟩ := Option.isSome_iff_exists.1
    (show (runHoldCalls (HoldState.init HoldWorld.sample.mem HoldWorld.sample.tabs)
        [HoldCall.holdData true 5 0, HoldCall.holdData true 5 0,
         HoldCall.holdTabData true 1 2 0, HoldCall.holdTabData true 1 2 0,
         HoldCall.endHoldData 0]).isSome = true by decide)
  exact ⟨s, hs, (hold_calls_one_object_per_address _ _ _ s hs).1,
    (hold_calls_one_object_per_address _ _ _ s hs).2.2.2.1⟩

/-- Witness for `TabDataRestoreObj_Redo_spec`: the object for index `2` of the three-element
array at address `1`, whose pair is held. -/
theorem TabDataRestoreObj_Redo_spec_witness :
    ∃ wE2 oE,
      TabDataRestoreObj.EndHold { HoldWorld.sample with tabMap := [(1, [2])] }
        { mpOwner := 0, mpTab := 1, mDataIndex := 2, mUndoSize := 3, mRedoSize := 3,
          mUndo := some 30, mRedo := some 30 } = some (wE2, oE)
      ∧ ∀ w : HoldWorld, ∃ w2, TabDataRestoreObj.Redo w oE = some w2
          ∧ (w2.tabs 1).Count = 3 := by
  obtain ⟨a, b, h1, h2, _⟩ :=
    TabDataRestoreObj_Redo_spec { HoldWorld.sample with tabMap := [(1, [2])] }
      { mpOwner := 0, mpTab := 1, mDataIndex := 2, mUndoSize := 3, mRedoSize := 3,
        mUndo := some 30, mRedo := some 30 } (by decide) (by decide)
  refine ⟨a, b, h1, fun w => ?_⟩
  obtain ⟨w2, e1, e2, _⟩ := h2 w
  exact ⟨w2, e1, e2⟩

/-! ### The active list of descriptors -/

theorem collectOthers_eq_filter (d : Nat) (l : List Nat) :
    collectOthers d l = l.filter (fun x => decide (x ≠ d)) := by
  induction l with
  | nil => rfl
  | cons x rest ih =>
    by_cases h : x = d
    · simp [collectOthers, h, ih]
    · simp [collectOthers, h, ih]

theorem addAll_eq (l : List Nat) (c : DynPBCustAttrClassDesc) :
    addAll l c = { c with pbDescs := c.pbDescs ++ l } := by
  induction l generalizing c with
  | nil => simp [addAll]
  | cons x rest ih =>
    rw [addAll, ih]
    simp [AddParamBlockDesc]

theorem ReleasePBDesc_keep (c : DynPBCustAttrClassDesc) (d : Nat) (hd : d ≠ 0) :
    ReleasePBDesc c d false
      = some { c with pbDescs := c.pbDescs.filter (fun x => decide (x ≠ d)) } := by
  unfold ReleasePBDesc
  simp only [hd, if_false, Bool.false_eq_true]
  rw [addAll_eq, collectOthers_eq_filter]
  simp [ClearParamBlockDescs]

/-- C30: for a non-null descriptor `d`, `ReleasePBDesc(d, FALSE)` returns with the active list
filtered to the pointers other than `d`, in their order, and every other part of the state
(allocated descriptors, deletions, obsolete queue, counter) as it was; when `d` is not in
the list the state is unchanged; `ReleasePBDesc(NULL, doDelete)` changes nothing. -/
theorem ReleasePBDesc_removes_every_occurrence (c : DynPBCustAttrClassDesc) (d : Nat)
    (hd : d ≠ 0) :
    ReleasePBDesc c d false
        = some { c with pbDescs := c.pbDescs.filter (fun x => decide (x ≠ d)) }
      ∧ (d ∉ c.pbDescs → ReleasePBDesc c d false = some c)
      ∧ (∀ doDelete : Bool, ReleasePBDesc c 0 doDelete = some c) := by
  refine ⟨ReleasePBDesc_keep c d hd, ?_, ?_⟩
  · intro hnot
    rw [ReleasePBDesc_keep c d hd]
    have : c.pbDescs.filter (fun x => decide (x ≠ d)) = c.pbDescs := by
      rw [List.filter_eq_self]
      intro a ha
      have : a ≠ d := fun e => hnot (e ▸ ha)
      simp [this]
    rw [this]
  · intro doDelete
    unfold ReleasePBDesc
    simp only [if_true]

/-- Witness for `ReleasePBDesc_removes_every_occurrence`: the active list `[3, 4, 3, 5]` and
the descriptor `3`. -/
theorem ReleasePBDesc_removes_every_occurrence_witness :
    ReleasePBDesc { DynPBCustAttrClassDesc.new 100 with pbDescs := [3, 4, 3, 5] } 3 false
      = some { DynPBCustAttrClassDesc.new 100 with pbDescs := [4, 5] } :=
  (ReleasePBDesc_removes_every_occurrence
    { DynPBCustAttrClassDesc.new 100 with pbDescs := [3, 4, 3, 5] } 3 (by decide)).1

/-! ### Descriptor ids at concrete inputs -/

/-- C26 at two failing inputs.  `CreatePBDesc(5)` makes the descriptor at address `1`, a
parameter block with it enters the scene, `SetTakenId(65535)` stores `65535 + 1` into the
16-bit counter, which becomes `0`, and `CreatePBDesc(5)` is called again.  The counter is not
above `5`, so the scene is not enumerated: the descriptor at address `1` keeps the id `5`,
the new descriptor at address `2` has the id `5` as well.  With the id `-2` no wrap is
needed: `CreatePBDesc(-2)` twice enumerates the scene for the `UINT16` value `65534`, which
the `short` id `-2` of the live descriptor never equals, and both descriptors have the id
`-2`. -/
theorem CreatePBDesc_after_counter_wrap_keeps_collision :
    (runDescCalls (DynPBCustAttrClassDesc.new 100)
        [DescCall.create 5, DescCall.block 1, DescCall.setTaken 65535]).m_freeBlockId = 0
      ∧ (CreatePBDesc (runDescCalls (DynPBCustAttrClassDesc.new 100)
            [DescCall.create 5, DescCall.block 1, DescCall.setTaken 65535]) 5).1 = 2
      ∧ liveIds (runDescCalls (DynPBCustAttrClassDesc.new 100)
            [DescCall.create 5, DescCall.block 1, DescCall.setTaken 65535]) = [5]
      ∧ (findDesc (CreatePBDesc (runDescCalls (DynPBCustAttrClassDesc.new 100)
            [DescCall.create 5, DescCall.block 1, DescCall.setTaken 65535]) 5).2.heap 1).map
          (fun d => d.ID) = some 5
      ∧ (findDesc (CreatePBDesc (runDescCalls (DynPBCustAttrClassDesc.new 100)
            [DescCall.create 5, DescCall.block 1, DescCall.setTaken 65535]) 5).2.heap 2).map
          (fun d => d.ID) = some 5
      ∧ liveIds (CreatePBDesc (runDescCalls (DynPBCustAttrClassDesc.new 100)
            [DescCall.create 5, DescCall.block 1, DescCall.setTaken 65535]) 5).2 = [5, 5]
      ∧ (runDescCalls (DynPBCustAttrClassDesc.new 100)
            [DescCall.create (-2), DescCall.block 1]).m_freeBlockId = 65535
      ∧ liveIds (CreatePBDesc (runDescCalls (DynPBCustAttrClassDesc.new 100)
            [DescCall.create (-2), DescCall.block 1]) (-2)).2 = [-2, -2] := by
  decide

/-- C27 at two failing inputs.  After `CreatePBDesc(0)` and `SetTakenId(65535)` the 16-bit
counter is `0` again and `GetFreeParamBlockId` returns `0`, the id of the live descriptor and
an id passed to `SetTakenId` before.  The same happens with `CreatePBDesc` alone:
`CreatePBDesc(0)`, `CreatePBDesc(-2)` (the id `65534` as `UINT16`) and one automatic id take
the counter through `65535` to `0`. -/
theorem GetFreeParamBlockId_returns_used_id_after_wrap :
    (GetFreeParamBlockId (runDescCalls (DynPBCustAttrClassDesc.new 100)
        [DescCall.create 0, DescCall.setTaken 65535])).1 = 0
      ∧ liveIds (runDescCalls (DynPBCustAttrClassDesc.new 100)
          [DescCall.create 0, DescCall.setTaken 65535]) = [0]
      ∧ (GetFreeParamBlockId (runDescCalls (DynPBCustAttrClassDesc.new 100)
          [DescCall.create 0, DescCall.create (-2), DescCall.create (-1)])).1 = 0
      ∧ liveIds (runDescCalls (DynPBCustAttrClassDesc.new 100)
          [DescCall.create 0, DescCall.create (-2), DescCall.create (-1)]) = [0, -2, -1]
      ∧ liveIds (runDescCalls (DynPBCustAttrClassDesc.new 100)
          [DescCall.create 0, DescCall.create (-2), DescCall.create (-1),
           DescCall.create (-1)]) = [0, -2, -1, 0] := by
  decide

/-! ### `Save` and the results of `Write` -/

theorem skipChunk_length_le (toks : List Token) (depth : Nat) :
    (skipChunk depth toks).length ≤ toks.length := by
  induction toks generalizing depth with
  | nil => simp [skipChunk]
  | cons t rest ih =>
    cases t with
    | beginChunk id =>
      simp only [skipChunk, List.length_cons]
      have := ih (depth + 1); omega
    | data v =>
      simp only [skipChunk, List.length_cons]
      have := ih depth; omega
    | endChunk =>
      cases depth with
      | zero => simp [skipChunk]
      | succ d =>
        simp only [skipChunk, List.length_cons]
        have := ih d; omega

theorem ILoad_CloseChunk_length_le (il : ILoad) : il.CloseChunk.toks.length ≤ il.toks.length :=
  skipChunk_length_le il.toks 0

theorem ILoad_OpenChunk_ok (il : ILoad) (h : il.OpenChunk.1 = IOResult.IO_OK) :
    ∃ id rest, il.toks = Token.beginChunk id :: rest
      ∧ il.OpenChunk.2 = { toks := rest, ids := id :: il.ids } := by
  unfold ILoad.OpenChunk at h ⊢
  match htoks : il.toks with
  | [] => rw [htoks] at h; simp at h
  | Token.beginChunk id :: rest => exact ⟨id, rest, rfl, rfl⟩
  | Token.data v :: rest => rw [htoks] at h; simp at h
  | Token.endChunk :: rest => rw [htoks] at h; simp at h

theorem ILoad_OpenChunk_length_lt (il : ILoad) (h : il.OpenChunk.1 = IOResult.IO_OK) :
    il.OpenChunk.2.toks.length < il.toks.length := by
  obtain ⟨id, rest, h1, h2⟩ := ILoad_OpenChunk_ok il h
  rw [h2, h1]
  simp

theorem ILoad_OpenChunk_not_ok (il : ILoad) (h : ¬ il.OpenChunk.1 = IOResult.IO_OK) :
    il.OpenChunk.2 = il := by
  unfold ILoad.OpenChunk at h ⊢
  match htoks : il.toks with
  | [] => rfl
  | Token.beginChunk id :: rest => rw [htoks] at h; simp at h
  | Token.data v :: rest => rfl
  | Token.endChunk :: rest => rfl

theorem ILoad_Read_length_le (il : ILoad) : il.Read.2.2.toks.length ≤ il.toks.length := by
  unfold ILoad.Read
  split
  · rename_i v rest h
    simp [h]
  · simp

theorem loadDescLoop_length_le (autoId : List ParamDef → Int → Int) (fuel : Nat)
    (c : DynPBCustAttrClassDesc) (il : ILoad) (pDesc : Nat) :
    (loadDescLoop autoId fuel c il pDesc).2.2.toks.length ≤ il.toks.length := by
  induction fuel generalizing c il pDesc with
  | zero => simp [loadDescLoop]
  | succ fuel ih =>
    by_cases ho : il.OpenChunk.1 = IOResult.IO_OK
    · have h1 := ILoad_OpenChunk_length_lt il ho
      have h2 := ILoad_Read_length_le il.OpenChunk.2
      have h3 := ILoad_Read_length_le il.OpenChunk.2.Read.2.2
      have h4 := ILoad_CloseChunk_length_le il.OpenChunk.2.Read.2.2
      have h5 := ILoad_CloseChunk_length_le il.OpenChunk.2.Read.2.2.Read.2.2
      have h6 := ILoad_CloseChunk_length_le il.OpenChunk.2
      simp only [loadDescLoop, ho, if_true]
      split_ifs
      all_goals first
        | (dsimp only; omega)
        | exact Nat.le_trans (ih _ _ _) (by omega)
    · have h0 := ILoad_OpenChunk_not_ok il ho
      simp only [loadDescLoop, ho, if_false]
      split_ifs
      · rw [h0]
      · rw [h0]

theorem loadTurn_length_le (autoId : List ParamDef → Int → Int) (c : DynPBCustAttrClassDesc)
    (il1 : ILoad) : (loadTurn autoId c il1).2.2.toks.length ≤ il1.toks.length := by
  unfold loadTurn
  by_cases h : il1.CurChunkID = PB_DESC_CHUNK
  · simp only [h, if_true]
    exact Nat.le_trans (ILoad_CloseChunk_length_le _)
      (loadDescLoop_length_le autoId _ c il1 0)
  · simp only [h, if_false]
    exact ILoad_CloseChunk_length_le _

theorem GetParamDef_self (all : List ParamDef) (pj : ParamDef)
    (hn : (all.map (fun p => p.ID)).Nodup) (hp : pj ∈ all) :
    GetParamDef all pj.ID = some pj := by
  induction all with
  | nil => simp at hp
  | cons x rest ih =>
    rw [List.map_cons, List.nodup_cons] at hn
    by_cases hx : x.ID = pj.ID
    · have : x = pj := by
        rcases List.mem_cons.1 hp with e | e
        · exact e.symm
        · exact absurd (List.mem_map.2 ⟨pj, e, rfl⟩) (hx ▸ hn.1)
      subst this
      simp [GetParamDef]
    · have hp2 : pj ∈ rest := by
        rcases List.mem_cons.1 hp with e | e
        · exact absurd (by rw [e]) hx
        · exact e
      have := ih hn.2 hp2
      unfold GetParamDef at this ⊢
      rw [List.find?_cons]
      simp only [hx, decide_False]
      exact this

theorem saveParams_out (all js : List ParamDef) (s : ISave) (hs : s.writes = [])
    (hjs : ∀ pj ∈ js, GetParamDef all pj.ID = some pj) :
    saveParams all js s
      = (IOResult.IO_OK, { writes := [], out := s.out ++ (js.map paramToks).flatten }) := by
  induction js generalizing s with
  | nil =>
    obtain ⟨w, o⟩ := s
    simp only at hs
    subst hs
    simp [saveParams]
  | cons pj js ih =>
    have hg := hjs pj (by simp)
    have ihh := ih
      ({ writes := [],
         out := s.out ++ [Token.beginChunk PB_DESC_PARAM_CHUNK, Token.data pj.type,
           Token.data pj.ID, Token.endChunk] } : ISave) rfl
      (fun p hp => hjs p (by simp [hp]))
    simp only [saveParams, hg, Option.getD_some, ISave.BeginChunk, ISave.Write, hs,
      ISave.EndChunk, ne_eq, not_true_eq_false, if_false, List.append_assoc,
      List.singleton_append, List.cons_append, List.nil_append, List.map_cons,
      List.flatten_cons, paramToks] at ihh ⊢
    rw [ihh]

theorem saveDescs_out (heap : List ParamBlockDesc2) (l : List Nat) (s : ISave)
    (hs : s.writes = [])
    (hn : ∀ d ∈ l.filterMap (findDesc heap), (d.paramdefs.map (fun p => p.ID)).Nodup) :
    saveDescs heap l s
      = (IOResult.IO_OK,
         { writes := [],
           out := s.out ++ ((l.filterMap (findDesc heap)).map descToks).flatten }) := by
  induction l generalizing s with
  | nil =>
    obtain ⟨w, o⟩ := s
    simp only at hs
    subst hs
    simp [saveDescs]
  | cons a l ih =>
    cases hf : findDesc heap a with
    | none =>
      have hn2 : ∀ d ∈ l.filterMap (findDesc heap), (d.paramdefs.map (fun p => p.ID)).Nodup := by
        intro d hd
        exact hn d (by simp only [List.filterMap_cons, hf]; exact hd)
      simp only [saveDescs, hf, List.filterMap_cons]
      exact ih s hs hn2
    | some d =>
      have hd : (d.paramdefs.map (fun p => p.ID)).Nodup :=
        hn d (by simp only [List.filterMap_cons, hf]; exact List.mem_cons_self _ _)
      have hn2 : ∀ d ∈ l.filterMap (findDesc heap), (d.paramdefs.map (fun p => p.ID)).Nodup := by
        intro d2 hd2
        exact hn d2 (by simp only [List.filterMap_cons, hf]; exact List.mem_cons_of_mem _ hd2)
      have hp := saveParams_out d.paramdefs d.paramdefs
        ({ writes := [],
           out := s.out ++ [Token.beginChunk PB_DESC_CHUNK, Token.beginChunk PB_DESC_HDR_CHUNK,
             Token.data d.ID, Token.endChunk] } : ISave) rfl
        (fun pj hpj => GetParamDef_self d.paramdefs pj hd hpj)
      have ihh := ih
        ({ writes := [],
           out := s.out ++ ([Token.beginChunk PB_DESC_CHUNK,
             Token.beginChunk PB_DESC_HDR_CHUNK, Token.data d.ID, Token.endChunk]
             ++ (d.paramdefs.map paramToks).flatten ++ [Token.endChunk]) } : ISave) rfl hn2
      simp only [saveDescs, hf, ISave.BeginChunk, ISave.Write, hs, ISave.EndChunk, ne_eq,
        not_true_eq_false, if_false, List.append_assoc, List.singleton_append,
        List.cons_append, List.nil_append, List.filterMap_cons, List.map_cons,
        List.flatten_cons, descToks] at hp ihh ⊢
      rw [hp]
      simp only [ne_eq, not_true_eq_false, if_false, List.append_assoc, List.cons_append,
        List.nil_append, List.singleton_append]
      rw [ihh]

theorem findDesc_mem (heap : List ParamBlockDesc2) (a : Nat) (d : ParamBlockDesc2)
    (h : findDesc heap a = some d) : d ∈ heap ∧ d.addr = a := by
  unfold findDesc at h
  refine ⟨List.mem_of_find?_eq_some h, ?_⟩
  have := List.find?_some h
  simpa using this

theorem findDesc_append_new (H : List ParamBlockDesc2) (d : ParamBlockDesc2)
    (hH : ∀ e ∈ H, e.addr ≠ d.addr) : findDesc (H ++ [d]) d.addr = some d := by
  unfold findDesc
  rw [List.find?_append]
  have : H.find? (fun e => decide (e.addr = d.addr)) = none := by
    rw [List.find?_eq_none]
    intro e he
    simp [hH e he]
  rw [this]
  simp

theorem findDesc_append_old (H : List ParamBlockDesc2) (d : ParamBlockDesc2) (b : Nat)
    (hb : b ≠ d.addr) : findDesc (H ++ [d]) b = findDesc H b := by
  unfold findDesc
  rw [List.find?_append]
  cases h : H.find? (fun e => decide (e.addr = b)) with
  | some e => simp
  | none =>
    have : ¬ d.addr = b := fun e => hb e.symm
    simp [this]

theorem updateDesc_append_new (H : List ParamBlockDesc2) (d : ParamBlockDesc2)
    (f : ParamBlockDesc2 → ParamBlockDesc2) (hH : ∀ e ∈ H, e.addr ≠ d.addr) :
    updateDesc (H ++ [d]) d.addr f = H ++ [f d] := by
  unfold updateDesc
  rw [List.map_append]
  have : H.map (fun e => if e.addr = d.addr then f e else e) = H := by
    conv_rhs => rw [← List.map_id H]
    apply List.map_congr_left
    intro e he
    simp [hH e he]
  rw [this]
  simp

theorem setParamID_fresh (defs : List ParamDef) (x : ParamDef) (pid : Int)
    (h : ∀ q ∈ defs, q.ID ≠ x.ID) :
    setParamID (defs ++ [x]) x.ID pid = defs ++ [{ x with ID := pid }] := by
  induction defs with
  | nil => simp [setParamID]
  | cons q rest ih =>
    have hq : ¬ q.ID = x.ID := h q (by simp)
    have ihh := ih (fun q2 hq2 => h q2 (by simp [hq2]))
    simp only [List.cons_append, setParamID, hq, if_false]
    exact congrArg (List.cons q) ihh

theorem AddMaxParameter_eq (autoId : List ParamDef → Int → Int) (c : DynPBCustAttrClassDesc)
    (H : List ParamBlockDesc2) (dcur : ParamBlockDesc2) (t : Int) (name : String)
    (hheap : c.heap = H ++ [dcur]) (hH : ∀ e ∈ H, e.addr ≠ dcur.addr)
    (hacc : autoId dcur.paramdefs t ≠ -1) :
    AddMaxParameter autoId c dcur.addr t name
      = (autoId dcur.paramdefs t,
         { c with heap := H ++ [{ dcur with paramdefs := dcur.paramdefs ++
             [{ ID := autoId dcur.paramdefs t, type := t, int_name := name }] }] }) := by
  unfold AddMaxParameter
  rw [hheap, findDesc_append_new H dcur hH]
  simp only [hacc, if_false]
  rw [updateDesc_append_new H dcur _ hH]

theorem FreeBlockIDEnum_proc_other (id : Nat) (c : DynPBCustAttrClassDesc) (x : Option Nat)
    (h : ∀ a, x = some a → ∀ d, findDesc c.heap a = some d → d.cd ≠ c.self) :
    FreeBlockIDEnum.proc id c x = (true, c) := by
  unfold FreeBlockIDEnum.proc
  cases x with
  | none => rfl
  | some a =>
    cases hf : findDesc c.heap a with
    | none => simp only [hf]
    | some d =>
      have := h a rfl d hf
      simp only [hf, this, if_false]

theorem EnumerateAllAnimatables_other (id : Nat) (c : DynPBCustAttrClassDesc)
    (l : List (Option Nat))
    (h : ∀ a, some a ∈ l → ∀ d, findDesc c.heap a = some d → d.cd ≠ c.self) :
    EnumerateAllAnimatables (FreeBlockIDEnum.proc id) l c = c := by
  induction l with
  | nil => rfl
  | cons x rest ih =>
    have hx := FreeBlockIDEnum_proc_other id c x
      (fun a e d hd => h a (by rw [e]; exact List.mem_cons_self _ _) d hd)
    simp only [EnumerateAllAnimatables, hx, if_true]
    exact ih (fun a ha d hd => h a (List.mem_cons_of_mem _ ha) d hd)

/-- What loading relies on: the allocated descriptors and the descriptors of the scene lie
below the next allocation, and no parameter block of the scene has a descriptor of this
class. -/
theorem loadOne_keeps (c : DynPBCustAttrClassDesc) (d : ParamBlockDesc2)
    (h1 : ∀ e ∈ c.heap, e.addr < c.heapNext) (h2 : ∀ a, some a ∈ c.scene → a < c.heapNext)
    (h3 : ∀ a, some a ∈ c.scene → ∀ e, findDesc c.heap a = some e → e.cd ≠ c.self) :
    (∀ e ∈ (loadOne c d).heap, e.addr < (loadOne c d).heapNext)
      ∧ (∀ a, some a ∈ (loadOne c d).scene → a < (loadOne c d).heapNext)
      ∧ (∀ a, some a ∈ (loadOne c d).scene → ∀ e, findDesc (loadOne c d).heap a = some e →
          e.cd ≠ (loadOne c d).self) := by
  refine ⟨?_, ?_, ?_⟩
  · intro e he
    simp only [loadOne, List.mem_append, List.mem_singleton] at he ⊢
    rcases he with he | he
    · have := h1 e he; omega
    · subst he; simp [loadedDesc, appendParams]
  · intro a ha
    have := h2 a ha
    simp only [loadOne]; omega
  · intro a ha e he
    have hlt := h2 a ha
    simp only [loadOne] at he ⊢
    rw [findDesc_append_old] at he
    · exact h3 a ha e he
    · simp only [loadedDesc, appendParams]; omega

theorem CreatePBDesc_no_collision (c : DynPBCustAttrClassDesc) (id : Int) (hid : id ≠ -1)
    (h3 : ∀ a, some a ∈ c.scene → ∀ e, findDesc c.heap a = some e → e.cd ≠ c.self) :
    CreatePBDesc c id
      = (c.heapNext,
         { c with
           m_freeBlockId :=
             if c.m_freeBlockId ≤ toU16 id then (toU16 id + 1) % 65536 else c.m_freeBlockId,
           pbDescs := c.pbDescs ++ [c.heapNext],
           heap := c.heap ++ [{ addr := c.heapNext, ID := id, cd := c.self,
                                int_name := "DynamicPB", paramdefs := [] }],
           heapNext := c.heapNext + 1 }) := by
  unfold CreatePBDesc
  simp only [hid, if_false]
  by_cases hc : c.m_freeBlockId ≤ toU16 id
  · simp only [SetTakenId, hc, if_true, AddParamBlockDesc]
  · simp only [SetTakenId, hc, if_false, AddParamBlockDesc]
    rw [EnumerateAllAnimatables_other (toU16 id) c c.scene h3]

theorem appendParams_nil (d : ParamBlockDesc2) : appendParams d [] = d := by
  simp [appendParams]

theorem appendParams_cons (d : ParamBlockDesc2) (p : ParamDef) (ps : List ParamDef) :
    appendParams (appendParams d [p]) ps = appendParams d (p :: ps) := by
  simp [appendParams]

theorem appendParams_addr (d : ParamBlockDesc2) (ps : List ParamDef) :
    (appendParams d ps).addr = d.addr := rfl

theorem loadDescLoop_params (autoId : List ParamDef → Int → Int) (ps : List ParamDef) :
    ∀ (fuel : Nat) (c : DynPBCustAttrClassDesc) (H : List ParamBlockDesc2)
      (dcur : ParamBlockDesc2) (rest : List Token) (ids : List Nat),
      c.heap = H ++ [dcur] → (∀ e ∈ H, e.addr ≠ dcur.addr) → dcur.addr ≠ 0 →
      ps.length < fuel →
      (∀ defs, ∀ p ∈ ps, autoId defs p.type ≠ -1 ∧ ∀ q ∈ defs, q.ID ≠ autoId defs p.type) →
      loadDescLoop autoId fuel c
          { toks := (ps.map paramToks).flatten ++ Token.endChunk :: rest, ids := ids } dcur.addr
        = (IOResult.IO_OK, { c with heap := H ++ [appendParams dcur ps] },
           { toks := Token.endChunk :: rest, ids := ids }) := by
  induction ps with
  | nil =>
    intro fuel c H dcur rest ids hheap hH hnz hfuel _
    cases fuel with
    | zero => simp at hfuel
    | succ f =>
      have hc : ({ c with heap := H ++ [appendParams dcur []] } : DynPBCustAttrClassDesc)
          = c := by
        rw [appendParams_nil, ← hheap]
      rw [hc]
      simp only [List.map_nil, List.flatten_nil, List.nil_append, loadDescLoop,
        ILoad.OpenChunk, hnz, if_false]
      simp
  | cons p ps ih =>
    intro fuel c H dcur rest ids hheap hH hnz hfuel hauto
    cases fuel with
    | zero => simp at hfuel
    | succ f =>
      obtain ⟨hacc, hfresh⟩ := hauto dcur.paramdefs p (by simp)
      have ham := AddMaxParameter_eq autoId c H dcur p.type "TODO" hheap hH hacc
      have htoks : ((p :: ps).map paramToks).flatten ++ Token.endChunk :: rest
          = Token.beginChunk PB_DESC_PARAM_CHUNK :: Token.data p.type :: Token.data p.ID
              :: Token.endChunk :: ((ps.map paramToks).flatten ++ Token.endChunk :: rest) := by
        simp [paramToks]
      have h84 : ¬ PB_DESC_PARAM_CHUNK = PB_DESC_HDR_CHUNK := by decide
      have hstep : loadDescLoop autoId (f + 1) c
          { toks := ((p :: ps).map paramToks).flatten ++ Token.endChunk :: rest, ids := ids }
          dcur.addr
          = loadDescLoop autoId f { c with heap := H ++ [appendParams dcur [p]] }
              { toks := (ps.map paramToks).flatten ++ Token.endChunk :: rest, ids := ids }
              dcur.addr := by
        rw [htoks]
        by_cases hsame : autoId dcur.paramdefs p.type = p.ID
        · have hacc2 : ¬ p.ID = -1 := hsame ▸ hacc
          simp only [loadDescLoop, hacc2, ILoad.OpenChunk, ILoad.CurChunkID, List.headD_cons, h84,
            if_false, if_true, hnz, ILoad.Read, ne_eq, not_true_eq_false, ham, hacc, hsame,
            ILoad.CloseChunk, skipChunk, List.tail_cons, appendParams, loadedParam,
            List.map_cons, List.map_nil]
        · simp only [loadDescLoop, ILoad.OpenChunk, ILoad.CurChunkID, List.headD_cons, h84,
            if_false, if_true, hnz, ILoad.Read, ne_eq, not_true_eq_false, ham, hacc, hsame,
            not_false_eq_true, ILoad.CloseChunk, skipChunk, List.tail_cons, appendParams,
            loadedParam, List.map_cons, List.map_nil]
          have hset := setParamID_fresh dcur.paramdefs
            { ID := autoId dcur.paramdefs p.type, type := p.type, int_name := "TODO" } p.ID
            hfresh
          have hupd := updateDesc_append_new H
            (appendParams dcur
              [{ ID := autoId dcur.paramdefs p.type, type := p.type, int_name := "TODO" }])
            (fun d =>
              { d with paramdefs := (setParamID d.paramdefs (autoId dcur.paramdefs p.type) p.ID) })
            hH
          simp only [appendParams, loadedParam, List.map_cons, List.map_nil] at hset hupd
          rw [hupd, hset]
      rw [hstep]
      have ihh := ih f { c with heap := H ++ [appendParams dcur [p]] }
        H (appendParams dcur [p]) rest ids rfl hH hnz
        (by simp only [List.length_cons] at hfuel; omega)
        (fun defs q hq => hauto defs q (by simp [hq]))
      rw [appendParams_addr] at ihh
      rw [ihh, appendParams_cons]

theorem length_flatten_paramToks (ps : List ParamDef) :
    ((ps.map paramToks).flatten).length = 4 * ps.length := by
  induction ps with
  | nil => rfl
  | cons p ps ih =>
    simp only [List.map_cons, List.flatten_cons, List.length_append, ih, List.length_cons,
      paramToks, List.length_nil]
    omega

theorem loadDescLoop_header (autoId : List ParamDef → Int → Int) (f : Nat)
    (c : DynPBCustAttrClassDesc) (v : Int) (tl : List Token) (ids : List Nat) :
    loadDescLoop autoId (f + 1) c
        { toks := Token.beginChunk PB_DESC_HDR_CHUNK :: Token.data v :: Token.endChunk :: tl,
          ids := ids } 0
      = loadDescLoop autoId f (CreatePBDesc c v).2 { toks := tl, ids := ids }
          (CreatePBDesc c v).1 := by
  simp only [loadDescLoop, ILoad.OpenChunk, ILoad.CurChunkID, List.headD_cons, if_true,
    ne_eq, not_true_eq_false, if_false, ILoad.Read, ILoad.CloseChunk, skipChunk,
    List.tail_cons]

theorem LoadParamBlockDesc2_descChunk (autoId : List ParamDef → Int → Int)
    (c : DynPBCustAttrClassDesc) (d : ParamBlockDesc2) (rest : List Token)
    (h1 : ∀ e ∈ c.heap, e.addr < c.heapNext)
    (h3 : ∀ a, some a ∈ c.scene → ∀ e, findDesc c.heap a = some e → e.cd ≠ c.self)
    (hnz : c.heapNext ≠ 0) (hid : d.ID ≠ -1)
    (hauto : ∀ defs, ∀ p ∈ d.paramdefs,
      autoId defs p.type ≠ -1 ∧ ∀ q ∈ defs, q.ID ≠ autoId defs p.type) :
    LoadParamBlockDesc2 autoId c
        { toks := Token.beginChunk PB_DESC_HDR_CHUNK :: Token.data d.ID :: Token.endChunk
            :: ((d.paramdefs.map paramToks).flatten ++ Token.endChunk :: rest),
          ids := [PB_DESC_CHUNK] }
      = (IOResult.IO_OK, loadOne c d,
         { toks := Token.endChunk :: rest, ids := [PB_DESC_CHUNK] }) := by
  have hcr := CreatePBDesc_no_collision c d.ID hid h3
  have hH : ∀ e ∈ c.heap, e.addr ≠ c.heapNext := fun e he => by
    have := h1 e he; omega
  have hp := loadDescLoop_params autoId d.paramdefs
    (((d.paramdefs.map paramToks).flatten ++ Token.endChunk :: rest).length + 1 + 1 + 1)
    (CreatePBDesc c d.ID).2 c.heap
    { addr := c.heapNext, ID := d.ID, cd := c.self, int_name := "DynamicPB", paramdefs := [] }
    rest [PB_DESC_CHUNK] (by rw [hcr]) hH hnz
    (by rw [List.length_append, length_flatten_paramToks]; omega) hauto
  have hcr1 : (CreatePBDesc c d.ID).1 = c.heapNext := by rw [hcr]
  unfold LoadParamBlockDesc2
  simp only [List.length_cons]
  rw [loadDescLoop_header, hcr1, hp, hcr]
  simp only [loadOne, loadedDesc]

theorem loadLoop_descs (autoId : List ParamDef → Int → Int) (ds : List ParamBlockDesc2) :
    ∀ (fuel : Nat) (c : DynPBCustAttrClassDesc),
      (∀ e ∈ c.heap, e.addr < c.heapNext) → (∀ a, some a ∈ c.scene → a < c.heapNext) →
      (∀ a, some a ∈ c.scene → ∀ e, findDesc c.heap a = some e → e.cd ≠ c.self) →
      c.heapNext ≠ 0 → (∀ d ∈ ds, d.ID ≠ -1) →
      (∀ defs, ∀ d ∈ ds, ∀ p ∈ d.paramdefs,
        autoId defs p.type ≠ -1 ∧ ∀ q ∈ defs, q.ID ≠ autoId defs p.type) →
      ((ds.map descToks).flatten).length < fuel →
      loadLoop autoId fuel c { toks := (ds.map descToks).flatten, ids := [] }
        = (IOResult.IO_OK, ds.foldl loadOne c, { toks := [], ids := [] }) := by
  induction ds with
  | nil =>
    intro fuel c _ _ _ _ _ _ hfuel
    cases fuel with
    | zero => simp at hfuel
    | succ f => simp [loadLoop, ILoad.OpenChunk]
  | cons d ds ih =>
    intro fuel c h1 h2 h3 hnz hids hauto hfuel
    cases fuel with
    | zero => simp at hfuel
    | succ f =>
      have hd := LoadParamBlockDesc2_descChunk autoId c d ((ds.map descToks).flatten) h1 h3 hnz
        (hids d (by simp)) (fun defs p hp => hauto defs d (by simp) p hp)
      obtain ⟨k1, k2, k3⟩ := loadOne_keeps c d h1 h2 h3
      have htoks : ((d :: ds).map descToks).flatten
          = Token.beginChunk PB_DESC_CHUNK :: Token.beginChunk PB_DESC_HDR_CHUNK
              :: Token.data d.ID :: Token.endChunk
              :: ((d.paramdefs.map paramToks).flatten
                    ++ Token.endChunk :: (ds.map descToks).flatten) := by
        simp [descToks]
      have hfuel2 : ((ds.map descToks).flatten).length < f := by
        rw [htoks] at hfuel
        simp only [List.length_cons, List.length_append] at hfuel
        omega
      have ihh := ih f (loadOne c d) k1 k2 k3 (by simp only [loadOne]; omega)
        (fun d2 hd2 => hids d2 (by simp [hd2]))
        (fun defs d2 hd2 p hp => hauto defs d2 (by simp [hd2]) p hp) hfuel2
      rw [htoks]
      simp only [loadLoop, ILoad.OpenChunk, if_true, loadTurn, ILoad.CurChunkID,
        List.headD_cons, hd, ILoad.CloseChunk, skipChunk, List.tail_cons, ne_eq,
        not_true_eq_false, if_false, List.foldl_cons]
      exact ihh

theorem descKey_loadedDesc (self addr : Nat) (d : ParamBlockDesc2) :
    descKey (loadedDesc self addr d) = descKey d := by
  simp [descKey, loadedDesc, appendParams, loadedParam, List.map_map, Function.comp_def]

theorem foldl_loadOne_spec (ds : List ParamBlockDesc2) :
    ∀ c : DynPBCustAttrClassDesc, (∀ e ∈ c.heap, e.addr < c.heapNext) →
      ∃ news : List Nat,
        (ds.foldl loadOne c).pbDescs = c.pbDescs ++ news
          ∧ news.map (fun a => (findDesc (ds.foldl loadOne c).heap a).map descKey)
              = ds.map (fun d => some (descKey d))
          ∧ (∀ a, a < c.heapNext → findDesc (ds.foldl loadOne c).heap a = findDesc c.heap a) := by
  induction ds with
  | nil =>
    intro c _
    exact ⟨[], by simp, rfl, fun _ _ => rfl⟩
  | cons d ds ih =>
    intro c h1
    have hH : ∀ e ∈ c.heap, e.addr ≠ (loadedDesc c.self c.heapNext d).addr := fun e he => by
      have := h1 e he
      simp only [loadedDesc, appendParams]; omega
    have k1 : ∀ e ∈ (loadOne c d).heap, e.addr < (loadOne c d).heapNext := by
      intro e he
      simp only [loadOne, List.mem_append, List.mem_singleton] at he ⊢
      rcases he with he | he
      · have := h1 e he; omega
      · subst he; simp [loadedDesc, appendParams]
    obtain ⟨news, e1, e2, e3⟩ := ih (loadOne c d) k1
    have hnew : findDesc (loadOne c d).heap c.heapNext
        = some (loadedDesc c.self c.heapNext d) := by
      have := findDesc_append_new c.heap (loadedDesc c.self c.heapNext d) hH
      simpa [loadOne, loadedDesc, appendParams] using this
    refine ⟨c.heapNext :: news, ?_, ?_, ?_⟩
    · rw [List.foldl_cons, e1]
      simp [loadOne]
    · rw [List.foldl_cons, List.map_cons, List.map_cons, e2]
      rw [e3 c.heapNext (by simp [loadOne]), hnew]
      simp [descKey_loadedDesc]
    · intro a ha
      rw [List.foldl_cons, e3 a (by simp only [loadOne]; omega)]
      simp only [loadOne]
      rw [findDesc_append_old]
      simp only [loadedDesc, appendParams]; omega

theorem descToks_congr (d1 d2 : ParamBlockDesc2) (h : descKey d1 = descKey d2) :
    descToks d1 = descToks d2 := by
  unfold descKey at h
  simp only [Prod.mk.injEq] at h
  obtain ⟨hid, hps⟩ := h
  have hp : ∀ (l1 l2 : List ParamDef),
      l1.map (fun p => (p.type, p.ID)) = l2.map (fun p => (p.type, p.ID)) →
      (l1.map paramToks).flatten = (l2.map paramToks).flatten := by
    intro l1
    induction l1 with
    | nil =>
      intro l2 h
      cases l2 with
      | nil => rfl
      | cons _ _ => simp at h
    | cons p l1 ih =>
      intro l2 h
      cases l2 with
      | nil => simp at h
      | cons q l2 =>
        simp only [List.map_cons, List.cons.injEq, Prod.mk.injEq] at h
        obtain ⟨⟨ht, hi⟩, hrest⟩ := h
        simp only [List.map_cons, List.flatten_cons, paramToks, ht, hi, ih l2 hrest]
  unfold descToks
  rw [hid, hp _ _ hps]

theorem map_descToks_congr (l1 l2 : List ParamBlockDesc2)
    (h : l1.map descKey = l2.map descKey) : l1.map descToks = l2.map descToks := by
  induction l1 generalizing l2 with
  | nil =>
    cases l2 with
    | nil => rfl
    | cons _ _ => simp at h
  | cons d l1 ih =>
    cases l2 with
    | nil => simp at h
    | cons e l2 =>
      simp only [List.map_cons, List.cons.injEq] at h
      simp only [List.map_cons, descToks_congr d e h.1, ih l2 h.2]

theorem natAbs_le_sum (defs : List ParamDef) (q : ParamDef) (hq : q ∈ defs) :
    q.ID.natAbs ≤ (defs.map (fun p => p.ID.natAbs)).sum := by
  induction defs with
  | nil => simp at hq
  | cons x rest ih =>
    simp only [List.map_cons, List.sum_cons]
    rcases List.mem_cons.1 hq with e | e
    · subst e; omega
    · have := ih e; omega

theorem sampleAutoId_fresh (defs : List ParamDef) (t : Int) :
    sampleAutoId defs t ≠ -1 ∧ ∀ q ∈ defs, q.ID ≠ sampleAutoId defs t := by
  unfold sampleAutoId
  refine ⟨by omega, ?_⟩
  intro q hq
  have := natAbs_le_sum defs q hq
  omega

theorem noLiveDescs_iff (c : DynPBCustAttrClassDesc) (h : noLiveDescs c = true) :
    c.pbDescs = [] ∧ c.heapNext ≠ 0
      ∧ (∀ e ∈ c.heap, e.addr < c.heapNext ∧ e.cd ≠ c.self)
      ∧ (∀ a, some a ∈ c.scene → a < c.heapNext) := by
  unfold noLiveDescs at h
  simp only [Bool.and_eq_true, List.isEmpty_iff, decide_eq_true_eq, List.all_eq_true] at h
  obtain ⟨⟨⟨h1, h2⟩, h3⟩, h4⟩ := h
  refine ⟨h1, h2, h3, ?_⟩
  intro a ha
  have := h4 (some a) ha
  simpa using this

/-- C28, as stated, fails in three ways.  (1) `CreatePBDesc(-2)` and `CreatePBDesc(-1)` take
the counter to `65535` and give the second descriptor, at address `2`, the automatic id
`65535`, which is `-1` as a `short`; the first descriptor is released.  The live descriptor
with id `-1` is saved and the stream is loaded into a class descriptor without descriptors:
`CreatePBDesc` takes the loaded id `-1` as the request for an automatic id, and the loaded
descriptor has the id `0`.  (2) With an `AddMaxParameter` that numbers the parameters by
position, the saved ids `1, 0` come back as `0, 1`: the second parameter is added with the
id `1`, which the first one already has, and the store `GetParamDef(1).ID = 0` then falls on
the first parameter.  (3) With two parameters of the id `3`, `Save` writes the definition
that `GetParamDef(3)` finds, the first one, for both, and the types `1, 2` come back as
`1, 1`. -/
theorem Save_Load_round_trip_fails :
    ((ReleasePBDesc (runDescCalls (DynPBCustAttrClassDesc.new 100)
        [DescCall.create (-2), DescCall.create (-1)]) 1 true).map
        (fun c0 => (activeDescs c0).map descKey) = some [(-1, [])]
      ∧ (ReleasePBDesc (runDescCalls (DynPBCustAttrClassDesc.new 100)
        [DescCall.create (-2), DescCall.create (-1)]) 1 true).map
        (fun c0 => (Load sampleAutoId (DynPBCustAttrClassDesc.new 100)
            { toks := (Save c0 { writes := [], out := [] }).2.out, ids := [] }).1)
          = some IOResult.IO_OK
      ∧ (ReleasePBDesc (runDescCalls (DynPBCustAttrClassDesc.new 100)
        [DescCall.create (-2), DescCall.create (-1)]) 1 true).map
        (fun c0 => (activeDescs (Load sampleAutoId (DynPBCustAttrClassDesc.new 100)
            { toks := (Save c0 { writes := [], out := [] }).2.out, ids := [] }).2.1).map
           descKey) = some [(0, [])])
      ∧ ((activeDescs DynPBCustAttrClassDesc.descending).map descKey = [(7, [(1, 1), (2, 0)])]
        ∧ (Load positionAutoId (DynPBCustAttrClassDesc.new 100)
            { toks := (Save DynPBCustAttrClassDesc.descending { writes := [], out := [] }).2.out,
              ids := [] }).1 = IOResult.IO_OK
        ∧ (activeDescs (Load positionAutoId (DynPBCustAttrClassDesc.new 100)
            { toks := (Save DynPBCustAttrClassDesc.descending { writes := [], out := [] }).2.out,
              ids := [] }).2.1).map descKey = [(7, [(1, 0), (2, 1)])])
      ∧ ((activeDescs DynPBCustAttrClassDesc.repeated).map descKey = [(7, [(1, 3), (2, 3)])]
        ∧ (Load sampleAutoId (DynPBCustAttrClassDesc.new 100)
            { toks := (Save DynPBCustAttrClassDesc.repeated { writes := [], out := [] }).2.out,
              ids := [] }).1 = IOResult.IO_OK
        ∧ (activeDescs (Load sampleAutoId (DynPBCustAttrClassDesc.new 100)
            { toks := (Save DynPBCustAttrClassDesc.repeated { writes := [], out := [] }).2.out,
              ids := [] }).2.1).map descKey = [(7, [(1, 3), (1, 3)])]) := by
  refine ⟨⟨by decide, by decide, by decide⟩, ⟨by decide, by decide, by decide⟩,
    ⟨by decide, by decide, by decide⟩⟩

/-- C28, amended: the allocated descriptors of the active list of `c0` have ids other than
`-1` and, each, pairwise distinct parameter ids; `AddMaxParameter` accepts the saved
parameter types and assigns an id that no parameter of the descriptor has; `c` has no live
descriptor.  Then `Save` of `c0` returns `IO_OK`, `Load` of the written stream into `c`
returns `IO_OK`, and the active list of the loaded state points, in the saved order, at one
allocated descriptor per saved descriptor, with the saved id and the saved sequence of
(parameter type, parameter id) pairs, whatever the order of the saved parameter ids.  A
class descriptor `c1` whose live descriptors have the same ids and pairs as those of `c0`
writes the same stream. -/
theorem Save_Load_round_trip (autoId : List ParamDef → Int → Int)
    (c0 c : DynPBCustAttrClassDesc)
    (hids : ∀ d ∈ activeDescs c0, d.ID ≠ -1 ∧ (d.paramdefs.map (fun p => p.ID)).Nodup)
    (hauto : ∀ defs, ∀ d ∈ activeDescs c0, ∀ p ∈ d.paramdefs,
      autoId defs p.type ≠ -1 ∧ ∀ q ∈ defs, q.ID ≠ autoId defs p.type)
    (hc : noLiveDescs c = true) :
    (Save c0 { writes := [], out := [] }).1 = IOResult.IO_OK
      ∧ (Load autoId c
          { toks := (Save c0 { writes := [], out := [] }).2.out, ids := [] }).1
          = IOResult.IO_OK
      ∧ (Load autoId c
          { toks := (Save c0 { writes := [], out := [] }).2.out, ids := [] }).2.1.pbDescs.map
          (fun a => (findDesc (Load autoId c
            { toks := (Save c0 { writes := [], out := [] }).2.out, ids := [] }).2.1.heap a).map
              descKey)
          = (activeDescs c0).map (fun d => some (descKey d))
      ∧ (∀ c1 : DynPBCustAttrClassDesc,
          (∀ d ∈ activeDescs c1, (d.paramdefs.map (fun p => p.ID)).Nodup) →
          (activeDescs c1).map descKey = (activeDescs c0).map descKey →
          (Save c1 { writes := [], out := [] }).2.out
            = (Save c0 { writes := [], out := [] }).2.out) := by
  have hsave : Save c0 { writes := [], out := [] }
      = (IOResult.IO_OK,
         { writes := [], out := ((activeDescs c0).map descToks).flatten }) := by
    unfold Save
    rw [saveDescs_out c0.heap c0.pbDescs _ rfl (fun d hd => (hids d hd).2)]
    simp [activeDescs]
  obtain ⟨hp, hnz, hheap, hscene⟩ := noLiveDescs_iff c hc
  have h1 : ∀ e ∈ c.heap, e.addr < c.heapNext := fun e he => (hheap e he).1
  have h3 : ∀ a, some a ∈ c.scene → ∀ e, findDesc c.heap a = some e → e.cd ≠ c.self :=
    fun a _ e he => (hheap e (findDesc_mem _ _ _ he).1).2
  have hload := loadLoop_descs autoId (activeDescs c0)
    (((activeDescs c0).map descToks).flatten.length + 1) c h1 hscene h3 hnz
    (fun d hd => (hids d hd).1) hauto (Nat.lt_succ_self _)
  have hLoad : Load autoId c
      { toks := (Save c0 { writes := [], out := [] }).2.out, ids := [] }
      = (IOResult.IO_OK, (activeDescs c0).foldl loadOne c, { toks := [], ids := [] }) := by
    rw [hsave]
    unfold Load
    exact hload
  rw [hLoad, hsave]
  refine ⟨rfl, rfl, ?_, ?_⟩
  · obtain ⟨news, e1, e2, _⟩ := foldl_loadOne_spec (activeDescs c0) c h1
    simp only
    rw [e1, hp, List.nil_append]
    exact e2
  · intro c1 hn hkeys
    have hsave1 : Save c1 { writes := [], out := [] }
        = (IOResult.IO_OK,
           { writes := [], out := ((activeDescs c1).map descToks).flatten }) := by
      unfold Save
      rw [saveDescs_out c1.heap c1.pbDescs _ rfl hn]
      simp [activeDescs]
    rw [hsave1]
    simp only
    rw [map_descToks_congr _ _ hkeys]

/-- Witness for `Save_Load_round_trip`: the sample, whose first descriptor has the parameter
ids `3, 0`, is saved and loaded into a new class descriptor. -/
theorem Save_Load_round_trip_witness :
    (Load sampleAutoId (DynPBCustAttrClassDesc.new 100)
        { toks := (Save DynPBCustAttrClassDesc.sample { writes := [], out := [] }).2.out,
          ids := [] }).2.1.pbDescs.map
        (fun a => (findDesc (Load sampleAutoId (DynPBCustAttrClassDesc.new 100)
          { toks := (Save DynPBCustAttrClassDesc.sample { writes := [], out := [] }).2.out,
            ids := [] }).2.1.heap a).map descKey)
      = (activeDescs DynPBCustAttrClassDesc.sample).map (fun d => some (descKey d)) :=
  (Save_Load_round_trip sampleAutoId DynPBCustAttrClassDesc.sample
    (DynPBCustAttrClassDesc.new 100) (by decide)
    (fun defs _ _ p _ => sampleAutoId_fresh defs p.type) (by decide)).2.2.1

/-! ### The fuel of the loading loops is never used up -/

theorem loadDescLoop_fuel (autoId : List ParamDef → Int → Int) (fuel1 : Nat) :
    ∀ (fuel2 : Nat) (c : DynPBCustAttrClassDesc) (il : ILoad) (pDesc : Nat),
      il.toks.length < fuel1 → il.toks.length < fuel2 →
      loadDescLoop autoId fuel1 c il pDesc = loadDescLoop autoId fuel2 c il pDesc := by
  induction fuel1 with
  | zero => intro fuel2 c il pDesc h1 _; omega
  | succ f1 ih =>
    intro fuel2 c il pDesc h1 h2
    cases fuel2 with
    | zero => omega
    | succ f2 =>
      by_cases ho : il.OpenChunk.1 = IOResult.IO_OK
      · have k1 := ILoad_OpenChunk_length_lt il ho
        have k2 := ILoad_Read_length_le il.OpenChunk.2
        have k3 := ILoad_Read_length_le il.OpenChunk.2.Read.2.2
        have k4 := ILoad_CloseChunk_length_le il.OpenChunk.2.Read.2.2
        have k5 := ILoad_CloseChunk_length_le il.OpenChunk.2.Read.2.2.Read.2.2
        have k6 := ILoad_CloseChunk_length_le il.OpenChunk.2
        simp only [loadDescLoop, ho, if_true]
        split_ifs
        all_goals first
          | rfl
          | exact ih f2 _ _ _ (by omega) (by omega)
      · simp only [loadDescLoop, ho, if_false]

theorem loadLoop_fuel (autoId : List ParamDef → Int → Int) (fuel1 : Nat) :
    ∀ (fuel2 : Nat) (c : DynPBCustAttrClassDesc) (il : ILoad),
      il.toks.length < fuel1 → il.toks.length < fuel2 →
      loadLoop autoId fuel1 c il = loadLoop autoId fuel2 c il := by
  induction fuel1 with
  | zero => intro fuel2 c il h1 _; omega
  | succ f1 ih =>
    intro fuel2 c il h1 h2
    cases fuel2 with
    | zero => omega
    | succ f2 =>
      by_cases ho : il.OpenChunk.1 = IOResult.IO_OK
      · have k1 := ILoad_OpenChunk_length_lt il ho
        have k2 := loadTurn_length_le autoId c il.OpenChunk.2
        simp only [loadLoop, ho, if_true]
        split_ifs
        · rfl
        · exact ih f2 _ _ (by omega) (by omega)
      · simp only [loadLoop, ho, if_false]

/-! ### Array declarations and placeholders at concrete inputs -/

/-- C36 at its own first example: on a new manager `RegisterReferenceArray(0)` leaves an
empty table with the size table `[0]` and the base `0`.  In `RegisterReferenceArray(1)` the
test `nArrays < arrayIdx` is `1 < 1`, so no placeholder is allocated; the size table becomes
`[0, 1]` and the index to remove is `0 + 0 = 0`, which is not below `NumRefs() = 0`: the
removal is outside the table.  The same happens when the first array has grown to two
elements: the index to remove is `2` in a table of two live slots. -/
theorem RegisterReferenceArray_second_array_removes_outside_table :
    RegisterReferenceArray ReferenceManager.new 0
        = some (true, { m_refs := [], m_arraySizes := [0], m_baseDynIdx := 0, heapNext := 1 })
      ∧ RegisterReferenceArrayExtend
          { m_refs := [], m_arraySizes := [0], m_baseDynIdx := 0, heapNext := 1 } 1 = []
      ∧ RegisterReferenceArraySizes
          { m_refs := [], m_arraySizes := [0], m_baseDynIdx := 0, heapNext := 1 } 0 1
            = some ([0, 1], 0)
      ∧ GetReferenceIndexForArray
          { m_refs := [], m_arraySizes := [0, 1], m_baseDynIdx := 0, heapNext := 1 } 1 0 = 0
      ∧ NumRefs { m_refs := [], m_arraySizes := [0, 1], m_baseDynIdx := 0, heapNext := 1 } = 0
      ∧ runCalls ReferenceManager.new [MgrCall.registerArray 0, MgrCall.registerArray 1] = none
      ∧ (runCalls ReferenceManager.new
          [MgrCall.registerArray 0, MgrCall.register 0 (-1) 0 0 false true,
           MgrCall.register 0 (-1) 0 0 false true]).map
          (fun m => (m.m_refs.length, m.m_arraySizes, GetReferenceIndexForArray
            { m with m_arraySizes := m.m_arraySizes ++ [1] } 1 0)) = some (2, [2], 2)
      ∧ runCalls ReferenceManager.new
          [MgrCall.registerArray 0, MgrCall.register 0 (-1) 0 0 false true,
           MgrCall.register 0 (-1) 0 0 false true, MgrCall.registerArray 1] = none := by
  decide

/-- C38 at a failing input: on a new manager the arrays `0` and `2` are declared, which
leaves the table `[NULL]`, the entry being the placeholder of id `1`, and the size table
`[0, 1, 0]`.  `RegisterReference(0, 0, callback, NULL)` stores the new slot in that
placeholder instead of inserting it, and `ReleaseReference` of the returned slot removes the
entry: the table is `[]`, not `[NULL]` as before the registration. -/
theorem RegisterReference_then_release_drops_placeholder :
    runCalls ReferenceManager.new [MgrCall.registerArray 0, MgrCall.registerArray 2]
        = some { m_refs := [none], m_arraySizes := [0, 1, 0], m_baseDynIdx := 0, heapNext := 1 }
      ∧ (RegisterReference
          { m_refs := [none], m_arraySizes := [0, 1, 0], m_baseDynIdx := 0, heapNext := 1 }
          0 0 7 0 false true).1 = 1
      ∧ (RegisterReference
          { m_refs := [none], m_arraySizes := [0, 1, 0], m_baseDynIdx := 0, heapNext := 1 }
          0 0 7 0 false true).2.m_refs.length = 1
      ∧ (RegisterReference
          { m_refs := [none], m_arraySizes := [0, 1, 0], m_baseDynIdx := 0, heapNext := 1 }
          0 0 7 0 false true).2.m_arraySizes = [1, 1, 0]
      ∧ ReleaseReference (RegisterReference
          { m_refs := [none], m_arraySizes := [0, 1, 0], m_baseDynIdx := 0, heapNext := 1 }
          0 0 7 0 false true).2 1 0
        = some (RefResult.REF_SUCCEED,
            { m_refs := [], m_arraySizes := [0, 1, 0], m_baseDynIdx := 0, heapNext := 2 }) := by
  decide

/-! ### The obsolete queue -/

theorem findDesc_filter_ne (heap : List ParamBlockDesc2) (q r : Nat) (h : r ≠ q) :
    findDesc (heap.filter (fun e => decide (e.addr ≠ q))) r = findDesc heap r := by
  unfold findDesc
  rw [List.find?_filter]
  congr 1
  funext a
  by_cases ha : a.addr = r
  · have : ¬ a.addr = q := fun e => h (ha ▸ e)
    simp [ha, h]
  · simp [ha]

theorem ReleasePBDesc_delete (c : DynPBCustAttrClassDesc) (d : Nat) (hd : d ≠ 0)
    (h : (findDesc c.heap d).isSome = true) :
    ReleasePBDesc c d true
      = some { c with pbDescs := c.pbDescs.filter (fun x => decide (x ≠ d)),
                      heap := c.heap.filter (fun e => decide (e.addr ≠ d)),
                      deleted := c.deleted ++ [d] } := by
  obtain ⟨x, hx⟩ := Option.isSome_iff_exists.1 h
  unfold ReleasePBDesc
  simp only [hd, if_false, if_true]
  rw [addAll_eq, collectOthers_eq_filter]
  simp [ClearParamBlockDescs, hx]

theorem releaseEach_spec (l : List Nat) (c : DynPBCustAttrClassDesc)
    (hnd : (l.filter (fun q => decide (q ≠ 0))).Nodup)
    (hal : ∀ q ∈ l, q ≠ 0 → (findDesc c.heap q).isSome = true) :
    ∃ c2, releaseEach l c = some c2
      ∧ c2.deleted = c.deleted ++ l.filter (fun q => decide (q ≠ 0))
      ∧ c2.pbDescs = c.pbDescs.filter (fun x => decide (x = 0 ∨ x ∉ l))
      ∧ c2.heap = c.heap.filter (fun e => decide (e.addr = 0 ∨ e.addr ∉ l))
      ∧ c2.m_dObsoleteDescs = c.m_dObsoleteDescs := by
  induction l generalizing c with
  | nil => exact ⟨c, rfl, by simp, by simp, by simp, rfl⟩
  | cons pd rest ih =>
    by_cases hpd : pd = 0
    · subst hpd
      have hnd2 : (rest.filter (fun q => decide (q ≠ 0))).Nodup := by
        simpa [List.filter_cons] using hnd
      obtain ⟨c2, h1, h2, h3, h4, h5⟩ :=
        ih c hnd2 (fun q hq h0 => hal q (List.mem_cons_of_mem _ hq) h0)
      refine ⟨c2, ?_, ?_, ?_, ?_, h5⟩
      · have h0 : ReleasePBDesc c 0 true = some c := by
          unfold ReleasePBDesc
          simp only [if_true]
        simp only [releaseEach, h0]
        exact h1
      · rw [h2]
        simp [List.filter_cons]
      · rw [h3]
        apply List.filter_congr
        intro x _
        by_cases hx : x = 0
        · simp [hx]
        · have : ¬ x = 0 := hx
          simp [hx, this]
      · rw [h4]
        apply List.filter_congr
        intro x _
        by_cases hx : x.addr = 0
        · simp [hx]
        · simp [hx]
    · have hf : (pd :: rest).filter (fun q => decide (q ≠ 0))
          = pd :: rest.filter (fun q => decide (q ≠ 0)) := by
        simp [List.filter_cons, hpd]
      rw [hf] at hnd
      have hnd2 := (List.nodup_cons.1 hnd).2
      have hnot := (List.nodup_cons.1 hnd).1
      have hne : ∀ q ∈ rest, q ≠ 0 → q ≠ pd := by
        intro q hq h0 e
        apply hnot
        rw [← e]
        exact List.mem_filter.2 ⟨hq, by simp [h0]⟩
      have hrel := ReleasePBDesc_delete c pd hpd (hal pd (List.mem_cons_self _ _) hpd)
      obtain ⟨c2, h1, h2, h3, h4, h5⟩ := ih
        { c with pbDescs := c.pbDescs.filter (fun x => decide (x ≠ pd)),
                 heap := c.heap.filter (fun e => decide (e.addr ≠ pd)),
                 deleted := c.deleted ++ [pd] } hnd2 (by
        intro q hq h0
        show (findDesc (c.heap.filter (fun e => decide (e.addr ≠ pd))) q).isSome = true
        rw [findDesc_filter_ne _ _ _ (hne q hq h0)]
        exact hal q (List.mem_cons_of_mem _ hq) h0)
      refine ⟨c2, ?_, ?_, ?_, ?_, h5⟩
      · simp only [releaseEach, hrel]
        exact h1
      · rw [h2, hf]
        simp
      · rw [h3]
        show List.filter _ (List.filter _ c.pbDescs) = _
        rw [List.filter_filter]
        apply List.filter_congr
        intro x _
        by_cases hx : x = 0
        · have : ¬ (0 : Nat) = pd := fun e => hpd e.symm
          simp [hx, this]
        · by_cases hx2 : x = pd
          · simp [hx, hx2, hpd]
          · simp [hx, hx2]
      · rw [h4]
        show List.filter _ (List.filter _ c.heap) = _
        rw [List.filter_filter]
        apply List.filter_congr
        intro x _
        by_cases hx : x.addr = 0
        · have : ¬ (0 : Nat) = pd := fun e => hpd e.symm
          simp [hx, this]
        · by_cases hx2 : x.addr = pd
          · simp [hx2, hpd]
          · simp [hx, hx2]

/-- C31, amended: for a non-null descriptor `d` such that the non-null pointers of the
obsolete queue together with `d` are pairwise different and allocated, `SetObsoletePBDesc(d)`
returns a state in which `d` is not in the active list, `d` is in the obsolete queue and
nothing has been deleted or freed; `ReleaseObsoletePBDesc` in that state returns a state in
which the queue is empty, the deletions are the former ones followed by the non-null queued
pointers in queue order, each of them once, none of them is allocated or in the active
list, and the active list is the former one without the queued non-null pointers. -/
theorem SetObsoletePBDesc_then_ReleaseObsoletePBDesc (c : DynPBCustAttrClassDesc) (d : Nat)
    (hd : d ≠ 0)
    (hnd : ((c.m_dObsoleteDescs ++ [d]).filter (fun q => decide (q ≠ 0))).Nodup)
    (hal : ∀ q ∈ c.m_dObsoleteDescs ++ [d], q ≠ 0 → (findDesc c.heap q).isSome = true) :
    ∃ c1 c2, SetObsoletePBDesc c d = some c1
      ∧ d ∉ c1.pbDescs ∧ d ∈ c1.m_dObsoleteDescs ∧ c1.deleted = c.deleted ∧ c1.heap = c.heap
      ∧ ReleaseObsoletePBDesc c1 = some c2
      ∧ c2.m_dObsoleteDescs = []
      ∧ c2.deleted
          = c.deleted ++ (c.m_dObsoleteDescs ++ [d]).filter (fun q => decide (q ≠ 0))
      ∧ c2.pbDescs
          = c.pbDescs.filter (fun x => decide (x = 0 ∨ x ∉ c.m_dObsoleteDescs ++ [d]))
      ∧ (∀ q ∈ c.m_dObsoleteDescs ++ [d], q ≠ 0 →
          (c2.deleted.drop c.deleted.length).count q = 1 ∧ q ∉ c2.pbDescs
            ∧ findDesc c2.heap q = none) := by
  have hset : SetObsoletePBDesc c d
      = some { c with m_dObsoleteDescs := c.m_dObsoleteDescs ++ [d],
                      pbDescs := c.pbDescs.filter (fun x => decide (x ≠ d)) } := by
    unfold SetObsoletePBDesc
    rw [ReleasePBDesc_keep _ _ hd]
  obtain ⟨c2, h1, h2, h3, h4, _⟩ := releaseEach_spec (c.m_dObsoleteDescs ++ [d])
    { c with m_dObsoleteDescs := c.m_dObsoleteDescs ++ [d],
             pbDescs := c.pbDescs.filter (fun x => decide (x ≠ d)) } hnd hal
  have hpb : c2.pbDescs
      = c.pbDescs.filter (fun x => decide (x = 0 ∨ x ∉ c.m_dObsoleteDescs ++ [d])) := by
    rw [h3]
    show List.filter _ (List.filter _ c.pbDescs) = _
    rw [List.filter_filter]
    apply List.filter_congr
    intro x _
    by_cases hx : x = d
    · simp [hx, hd]
    · simp [hx]
  refine ⟨_, { c2 with m_dObsoleteDescs := [] }, hset, ?_, ?_, rfl, rfl, ?_, rfl, h2, hpb, ?_⟩
  · intro hm
    have := (List.mem_filter.1 hm).2
    simp at this
  · simp
  · unfold ReleaseObsoletePBDesc
    simp only [h1]
  · intro q hq h0
    refine ⟨?_, ?_, ?_⟩
    · show (c2.deleted.drop c.deleted.length).count q = 1
      rw [h2]
      have : (c.deleted ++ (c.m_dObsoleteDescs ++ [d]).filter (fun q => decide (q ≠ 0))).drop
          c.deleted.length = (c.m_dObsoleteDescs ++ [d]).filter (fun q => decide (q ≠ 0)) := by
        simp
      rw [this]
      exact List.count_eq_one_of_mem hnd (List.mem_filter.2 ⟨hq, by simp [h0]⟩)
    · show q ∉ c2.pbDescs
      rw [hpb]
      intro hm
      have := (List.mem_filter.1 hm).2
      simp [h0] at this
      rcases List.mem_append.1 hq with hq1 | hq1
      · exact this.1 hq1
      · exact this.2 (by simpa using hq1)
    · show findDesc c2.heap q = none
      rw [h4]
      unfold findDesc
      rw [List.find?_eq_none]
      intro x hx
      have := (List.mem_filter.1 hx).2
      intro e
      simp at e
      rw [e] at this
      simp [h0] at this
      rcases List.mem_append.1 hq with hq1 | hq1
      · exact this.1 hq1
      · exact this.2 (by simpa using hq1)

/-- C31 as stated fails: the descriptor made by `CreatePBDesc` on a new class descriptor is at
address `1`; after two calls of `SetObsoletePBDesc` for it the queue is `[1, 1]`, and in
`ReleaseObsoletePBDesc` the second `ReleasePBDesc(1, TRUE)` meets a descriptor that the first
one has freed: the first round gives the deletions `[1]` with nothing allocated, the sweep
as a whole does not return a state. -/
theorem SetObsoletePBDesc_twice_deletes_freed_descriptor :
    (CreatePBDesc (DynPBCustAttrClassDesc.new 100) (-1)).1 = 1
      ∧ ((SetObsoletePBDesc (CreatePBDesc (DynPBCustAttrClassDesc.new 100) (-1)).2 1).bind
          (fun c => SetObsoletePBDesc c 1)).map
            (fun c => (c.pbDescs, c.m_dObsoleteDescs, c.deleted, c.heap.map (fun e => e.addr)))
          = some ([], [1, 1], [], [1])
      ∧ (((SetObsoletePBDesc (CreatePBDesc (DynPBCustAttrClassDesc.new 100) (-1)).2 1).bind
          (fun c => SetObsoletePBDesc c 1)).bind (fun c => ReleasePBDesc c 1 true)).map
            (fun c => (c.deleted, c.heap.map (fun e => e.addr))) = some ([1], [])
      ∧ ((((SetObsoletePBDesc (CreatePBDesc (DynPBCustAttrClassDesc.new 100) (-1)).2 1).bind
          (fun c => SetObsoletePBDesc c 1)).bind (fun c => ReleasePBDesc c 1 true)).bind
            (fun c => ReleasePBDesc c 1 true)).isNone = true
      ∧ (((SetObsoletePBDesc (CreatePBDesc (DynPBCustAttrClassDesc.new 100) (-1)).2 1).bind
          (fun c => SetObsoletePBDesc c 1)).bind ReleaseObsoletePBDesc).isNone = true := by
  refine ⟨by decide, by decide, by decide, by decide, by decide⟩

/-- Witness for `SetObsoletePBDesc_then_ReleaseObsoletePBDesc`: the sample class descriptor
with the active list `[1]` and the queue `[0, 2]`, and the descriptor `1`. -/
theorem SetObsoletePBDesc_then_ReleaseObsoletePBDesc_witness :
    ((SetObsoletePBDesc
        { DynPBCustAttrClassDesc.sample with pbDescs := [1], m_dObsoleteDescs := [0, 2] } 1).bind
      ReleaseObsoletePBDesc).map (fun c => (c.m_dObsoleteDescs, c.deleted, c.pbDescs))
        = some ([], [2, 1], []) := by
  obtain ⟨c1, c2, h1, _, _, _, _, h2, h3, h4, h5, _⟩ :=
    SetObsoletePBDesc_then_ReleaseObsoletePBDesc
      { DynPBCustAttrClassDesc.sample with pbDescs := [1], m_dObsoleteDescs := [0, 2] } 1
      (by decide) (by decide) (by decide)
  rw [h1]
  simp only [Option.some_bind, h2, Option.map_some', h3, h4, h5]
  decide

/-! ### The undo record of a descriptor swap -/

theorem DynPBUndo_Restore_eq (c : DynPBCustAttrClassDesc) (u : DynPBUndo) (isUndo : Int)
    (hcd : u.m_pDynPBClassDesc ≠ 0) :
    DynPBUndo.Restore c u isUndo
      = some ({ c with pbDescs :=
                  (if isUndo ≠ 0 ∧ u.m_pbNewDesc ≠ 0
                   then (c.pbDescs ++ [u.m_pbOldDesc]).filter
                     (fun x => decide (x ≠ u.m_pbNewDesc))
                   else c.pbDescs ++ [u.m_pbOldDesc]) },
               { u with m_isHeld := false }) := by
  unfold DynPBUndo.Restore
  simp only [hcd, if_false]
  by_cases h : isUndo ≠ 0 ∧ u.m_pbNewDesc ≠ 0
  · simp only [h, and_self, not_false_eq_true, if_true, ne_eq]
    rw [ReleasePBDesc_keep _ _ h.2]
    rfl
  · simp only [h, if_false]
    rfl

theorem DynPBUndo_Redo_eq (c : DynPBCustAttrClassDesc) (u : DynPBUndo)
    (hcd : u.m_pDynPBClassDesc ≠ 0) (ho : u.m_pbOldDesc ≠ 0) :
    DynPBUndo.Redo c u
      = some ({ c with pbDescs :=
                  (c.pbDescs.filter (fun x => decide (x ≠ u.m_pbOldDesc)) ++ [u.m_pbNewDesc]) },
               { u with m_isHeld := true }) := by
  unfold DynPBUndo.Redo
  simp only [hcd, if_false]
  rw [ReleasePBDesc_keep _ _ ho]
  rfl

theorem DynPBUndo_construct_eq (c : DynPBCustAttrClassDesc) (o p : Nat) (d : ParamBlockDesc2)
    (ho : o ≠ 0) (hd : findDesc c.heap o = some d) (hcd : d.cd = c.self)
    (hself : c.self ≠ 0) :
    DynPBUndo.construct c o p
      = some ({ c with pbDescs := c.pbDescs.filter (fun x => decide (x ≠ o)) },
              { m_pFabricClient := p, m_pbOldDesc := o, m_pDynPBClassDesc := c.self,
                m_pbNewDesc := 0, m_isHeld := true }) := by
  unfold DynPBUndo.construct
  simp only [hd, hcd, if_true, hself, ne_eq, not_false_eq_true]
  rw [ReleasePBDesc_keep _ _ ho]

theorem DynPBUndo_construct_sample :
    DynPBUndo.construct DynPBCustAttrClassDesc.sample 1 50
      = some ({ DynPBCustAttrClassDesc.sample with pbDescs := [2] }, DynPBUndo.sample) :=
  DynPBUndo_construct_eq DynPBCustAttrClassDesc.sample 1 50
    { addr := 1, ID := 7, cd := 100, int_name := "DynamicPB",
      paramdefs := [{ ID := 3, type := 1, int_name := "x" },
                    { ID := 0, type := 2, int_name := "y" }] }
    (by decide) (by decide) (by decide) (by decide)

/-- C32, as stated, fails for a record whose new descriptor is its old one, and for a record
whose constructor cast failed.  With `o = n = 1` and the active list `[2]`, `Restore(1)` adds
`1` and then releases `1`: the list is `[2]` again and `o` is not in it.  With a null class
descriptor `Restore` returns at once: the list is as it was and the record is still Held. -/
theorem DynPBUndo_Restore_same_descriptor :
    (DynPBUndo.Restore { DynPBCustAttrClassDesc.sample with pbDescs := [2] }
        { m_pFabricClient := 50, m_pbOldDesc := 1, m_pDynPBClassDesc := 100,
          m_pbNewDesc := 1, m_isHeld := true } 1).map
      (fun r => (r.1.pbDescs, r.2.m_isHeld)) = some ([2], false)
      ∧ (DynPBUndo.Restore { DynPBCustAttrClassDesc.sample with pbDescs := [2] }
        { m_pFabricClient := 50, m_pbOldDesc := 1, m_pDynPBClassDesc := 0,
          m_pbNewDesc := 2, m_isHeld := true } 1).map
      (fun r => (r.1.pbDescs, r.2.m_isHeld)) = some ([2], true) := by
  refine ⟨by decide, by decide⟩

/-- C32, amended: for a record of this class descriptor (the cast of the constructor
succeeded) whose new descriptor `n`, possibly null, differs from its old descriptor `o`,
`Restore(isUndo)`
returns with the record NotHeld and `o` in the active list; the list is the former one with
`o` appended, filtered to the pointers other than `n` when `isUndo` is non-zero and `n` is
non-null, and as it is otherwise, so `n` leaves the list exactly in that case and every
other pointer stays; the allocated descriptors, the deletions and the obsolete queue are
unchanged. -/
theorem DynPBUndo_Restore_spec (c : DynPBCustAttrClassDesc) (u : DynPBUndo) (isUndo : Int)
    (hcd : u.m_pDynPBClassDesc ≠ 0) (hne : u.m_pbNewDesc ≠ u.m_pbOldDesc) :
    ∃ c2, DynPBUndo.Restore c u isUndo = some (c2, { u with m_isHeld := false })
      ∧ c2.pbDescs
          = (if isUndo ≠ 0 ∧ u.m_pbNewDesc ≠ 0
             then (c.pbDescs ++ [u.m_pbOldDesc]).filter (fun x => decide (x ≠ u.m_pbNewDesc))
             else c.pbDescs ++ [u.m_pbOldDesc])
      ∧ u.m_pbOldDesc ∈ c2.pbDescs
      ∧ (u.m_pbNewDesc ∈ c2.pbDescs
          ↔ u.m_pbNewDesc ∈ c.pbDescs ∧ ¬ (isUndo ≠ 0 ∧ u.m_pbNewDesc ≠ 0))
      ∧ (∀ x, x ≠ u.m_pbNewDesc → x ∈ c.pbDescs → x ∈ c2.pbDescs)
      ∧ c2.heap = c.heap ∧ c2.deleted = c.deleted
      ∧ c2.m_dObsoleteDescs = c.m_dObsoleteDescs := by
  refine ⟨_, DynPBUndo_Restore_eq c u isUndo hcd, rfl, ?_, ?_, ?_, rfl, rfl, rfl⟩
  · show u.m_pbOldDesc ∈ (if isUndo ≠ 0 ∧ u.m_pbNewDesc ≠ 0
        then (c.pbDescs ++ [u.m_pbOldDesc]).filter (fun x => decide (x ≠ u.m_pbNewDesc))
        else c.pbDescs ++ [u.m_pbOldDesc])
    split
    · exact List.mem_filter.2 ⟨by simp, by simpa using fun e => hne e.symm⟩
    · simp
  · show u.m_pbNewDesc ∈ (if isUndo ≠ 0 ∧ u.m_pbNewDesc ≠ 0
        then (c.pbDescs ++ [u.m_pbOldDesc]).filter (fun x => decide (x ≠ u.m_pbNewDesc))
        else c.pbDescs ++ [u.m_pbOldDesc]) ↔ _
    by_cases h : isUndo ≠ 0 ∧ u.m_pbNewDesc ≠ 0
    · rw [if_pos h]
      constructor
      · intro hm
        have := (List.mem_filter.1 hm).2
        simp at this
      · intro hm
        exact absurd h hm.2
    · rw [if_neg h]
      constructor
      · intro hm
        rcases List.mem_append.1 hm with h1 | h1
        · exact ⟨h1, h⟩
        · exact absurd (by simpa using h1) hne
      · intro hm
        exact List.mem_append_left _ hm.1
  · intro x hx hm
    show x ∈ (if isUndo ≠ 0 ∧ u.m_pbNewDesc ≠ 0
        then (c.pbDescs ++ [u.m_pbOldDesc]).filter (fun x => decide (x ≠ u.m_pbNewDesc))
        else c.pbDescs ++ [u.m_pbOldDesc])
    split
    · exact List.mem_filter.2 ⟨List.mem_append_left _ hm, by simpa using hx⟩
    · exact List.mem_append_left _ hm

/-- Witness for `DynPBUndo_Restore_spec`: the sample class descriptor, with the descriptor `1`
held by a record that captured the descriptor `2`, and a true undo. -/
theorem DynPBUndo_Restore_spec_witness :
    (DynPBUndo.Restore { DynPBCustAttrClassDesc.sample with pbDescs := [2] }
        { m_pFabricClient := 50, m_pbOldDesc := 1, m_pDynPBClassDesc := 100,
          m_pbNewDesc := 2, m_isHeld := true } 1).map
      (fun r => (r.1.pbDescs, r.1.deleted, r.2.m_isHeld)) = some ([1], [], false) := by
  obtain ⟨c2, h1, h2, _, _, _, _, h3, _⟩ := DynPBUndo_Restore_spec
    { DynPBCustAttrClassDesc.sample with pbDescs := [2] }
    { m_pFabricClient := 50, m_pbOldDesc := 1, m_pDynPBClassDesc := 100,
      m_pbNewDesc := 2, m_isHeld := true } 1 (by decide) (by decide)
  rw [h1]
  simp only [Option.map_some', h2, h3]
  decide

/-- C33, as stated, fails for a record whose new descriptor is its old one: with
`o = n = 1` and the active list `[1, 2]`, `Redo` releases `1` and adds `1` again, so `o` is
still in the list, now at its end.  For a record with a null class descriptor `Redo`, which
has no null test, does not return. -/
theorem DynPBUndo_Redo_same_descriptor :
    (DynPBUndo.Redo DynPBCustAttrClassDesc.sample
        { m_pFabricClient := 50, m_pbOldDesc := 1, m_pDynPBClassDesc := 100,
          m_pbNewDesc := 1, m_isHeld := false }).map
      (fun r => (r.1.pbDescs, r.2.m_isHeld)) = some ([2, 1], true)
      ∧ (DynPBUndo.Redo DynPBCustAttrClassDesc.sample
        { m_pFabricClient := 50, m_pbOldDesc := 1, m_pDynPBClassDesc := 0,
          m_pbNewDesc := 2, m_isHeld := false }).isNone = true := by
  refine ⟨by decide, by decide⟩

/-- C33, amended: for a record of this class descriptor (its class-descriptor pointer is not
null) with a non-null old descriptor `o` and a new descriptor `n` other than `o` (non-null in the claim; the null test is not needed for the
result), `Redo` returns with the record Held and the active list equal to the former one
filtered to the pointers other than `o`, followed by `n`: `o` is not in it, `n` is, every
other pointer stays, and the allocated descriptors, the deletions and the obsolete queue are
unchanged. -/
theorem DynPBUndo_Redo_spec (c : DynPBCustAttrClassDesc) (u : DynPBUndo)
    (hcd : u.m_pDynPBClassDesc ≠ 0) (ho : u.m_pbOldDesc ≠ 0)
    (hne : u.m_pbNewDesc ≠ u.m_pbOldDesc) :
    ∃ c2, DynPBUndo.Redo c u = some (c2, { u with m_isHeld := true })
      ∧ c2.pbDescs
          = c.pbDescs.filter (fun x => decide (x ≠ u.m_pbOldDesc)) ++ [u.m_pbNewDesc]
      ∧ u.m_pbOldDesc ∉ c2.pbDescs
      ∧ u.m_pbNewDesc ∈ c2.pbDescs
      ∧ (∀ x, x ≠ u.m_pbOldDesc → x ∈ c.pbDescs → x ∈ c2.pbDescs)
      ∧ c2.heap = c.heap ∧ c2.deleted = c.deleted
      ∧ c2.m_dObsoleteDescs = c.m_dObsoleteDescs := by
  refine ⟨_, DynPBUndo_Redo_eq c u hcd ho, rfl, ?_, ?_, ?_, rfl, rfl, rfl⟩
  · show u.m_pbOldDesc
      ∉ c.pbDescs.filter (fun x => decide (x ≠ u.m_pbOldDesc)) ++ [u.m_pbNewDesc]
    intro hm
    rcases List.mem_append.1 hm with h1 | h1
    · have := (List.mem_filter.1 h1).2
      simp at this
    · have e : u.m_pbOldDesc = u.m_pbNewDesc := by simpa using h1
      exact hne e.symm
  · show u.m_pbNewDesc
      ∈ c.pbDescs.filter (fun x => decide (x ≠ u.m_pbOldDesc)) ++ [u.m_pbNewDesc]
    simp
  · intro x hx hm
    show x ∈ c.pbDescs.filter (fun x => decide (x ≠ u.m_pbOldDesc)) ++ [u.m_pbNewDesc]
    exact List.mem_append_left _ (List.mem_filter.2 ⟨hm, by simpa using hx⟩)

/-- Witness for `DynPBUndo_Redo_spec`: the sample class descriptor with the active list
`[1]` and a NotHeld record with the old descriptor `1` and the new descriptor `2`. -/
theorem DynPBUndo_Redo_spec_witness :
    (DynPBUndo.Redo { DynPBCustAttrClassDesc.sample with pbDescs := [1] }
        { m_pFabricClient := 50, m_pbOldDesc := 1, m_pDynPBClassDesc := 100,
          m_pbNewDesc := 2, m_isHeld := false }).map
      (fun r => (r.1.pbDescs, r.1.deleted, r.2.m_isHeld)) = some ([2], [], true) := by
  obtain ⟨c2, h1, h2, _, _, _, _, h3, _⟩ := DynPBUndo_Redo_spec
    { DynPBCustAttrClassDesc.sample with pbDescs := [1] }
    { m_pFabricClient := 50, m_pbOldDesc := 1, m_pDynPBClassDesc := 100,
      m_pbNewDesc := 2, m_isHeld := false } (by decide) (by decide) (by decide)
  rw [h1]
  simp only [Option.map_some', h2, h3]
  decide

theorem skipChunk_append (body rest : List Token) :
    ∀ (d d2 : Nat), nesting d body = some d2 →
      skipChunk d (body ++ rest) = skipChunk d2 rest := by
  induction body with
  | nil =>
    intro d d2 h
    simp only [nesting, Option.some.injEq] at h
    simp [h]
  | cons t tl ih =>
    intro d d2 h
    cases t with
    | beginChunk id =>
      simp only [nesting] at h
      simp only [List.cons_append, skipChunk]
      exact ih _ _ h
    | data v =>
      simp only [nesting] at h
      simp only [List.cons_append, skipChunk]
      exact ih _ _ h
    | endChunk =>
      cases d with
      | zero => simp [nesting] at h
      | succ d1 =>
        simp only [nesting] at h
        simp only [List.cons_append, skipChunk]
        exact ih _ _ h

theorem skipChunk_balanced (body rest : List Token) (h : nesting 0 body = some 0) :
    skipChunk 0 (body ++ Token.endChunk :: rest) = rest := by
  rw [skipChunk_append body _ 0 0 h]
  simp [skipChunk]

theorem length_le_flatten_toks (subs : List SubChunk) :
    subs.length ≤ (subs.map SubChunk.toks).flatten.length := by
  induction subs with
  | nil => simp
  | cons s rest ih =>
    have : 1 ≤ s.toks.length := by
      cases s <;> simp [SubChunk.toks]
    simp only [List.map_cons, List.flatten_cons, List.length_append, List.length_cons]
    omega

theorem loadDescLoop_subs (autoId : List ParamDef → Int → Int) (rest : List Token)
    (ids : List Nat) (subs : List SubChunk) :
    ∀ (fuel : Nat) (c : DynPBCustAttrClassDesc) (pDesc : Nat),
      (∀ s ∈ subs, s.wellFormed = true) → subs.length < fuel →
      (loadDescLoop autoId fuel c
          { toks := (subs.map SubChunk.toks).flatten ++ Token.endChunk :: rest, ids := ids }
          pDesc).1 = (loadSubs autoId c pDesc subs).1
        ∧ (loadDescLoop autoId fuel c
          { toks := (subs.map SubChunk.toks).flatten ++ Token.endChunk :: rest, ids := ids }
          pDesc).2.1 = (loadSubs autoId c pDesc subs).2
        ∧ ((loadSubs autoId c pDesc subs).1 = IOResult.IO_OK →
          (loadDescLoop autoId fuel c
            { toks := (subs.map SubChunk.toks).flatten ++ Token.endChunk :: rest, ids := ids }
            pDesc).2.2 = { toks := Token.endChunk :: rest, ids := ids }) := by
  induction subs with
  | nil =>
    intro fuel c pDesc _ hf
    cases fuel with
    | zero => omega
    | succ f =>
      by_cases hp : pDesc = 0
      · simp [loadDescLoop, loadSubs, ILoad.OpenChunk, hp]
      · simp [loadDescLoop, loadSubs, ILoad.OpenChunk, hp]
  | cons s tl ih =>
    intro fuel c pDesc hwf hf
    cases fuel with
    | zero => omega
    | succ f =>
      have hf2 : tl.length < f := by
        simp only [List.length_cons] at hf
        omega
      have hwf2 : ∀ s ∈ tl, s.wellFormed = true := fun x hx => hwf x (List.mem_cons_of_mem _ hx)
      have hs := hwf s (List.mem_cons_self _ _)
      cases s with
      | header id extra =>
        have hb : nesting 0 extra = some 0 := by simpa [SubChunk.wellFormed] using hs
        by_cases hp : pDesc = 0
        · have := ih f (CreatePBDesc c id).2 (CreatePBDesc c id).1 hwf2 hf2
          simp only [List.map_cons, List.flatten_cons, SubChunk.toks, List.cons_append,
            List.append_assoc, List.singleton_append, loadDescLoop, loadSubs, ILoad.OpenChunk,
            ILoad.CurChunkID, List.headD_cons, PB_DESC_HDR_CHUNK, hp, ILoad.Read,
            ILoad.CloseChunk, skipChunk_balanced _ _ hb, List.tail_cons, if_true, if_false,
            ne_eq, not_true_eq_false, not_false_eq_true]
          exact this
        · simp [loadDescLoop, loadSubs, ILoad.OpenChunk, ILoad.CurChunkID, SubChunk.toks,
            PB_DESC_HDR_CHUNK, hp]
      | param type pid extra =>
        have hb : nesting 0 extra = some 0 := by simpa [SubChunk.wellFormed] using hs
        by_cases hp : pDesc = 0
        · simp [loadDescLoop, loadSubs, ILoad.OpenChunk, ILoad.CurChunkID, SubChunk.toks,
            PB_DESC_HDR_CHUNK, PB_DESC_PARAM_CHUNK, hp]
        · by_cases ham : (AddMaxParameter autoId c pDesc type "TODO").1 = -1
          · simp [loadDescLoop, loadSubs, ILoad.OpenChunk, ILoad.CurChunkID, SubChunk.toks,
              PB_DESC_HDR_CHUNK, PB_DESC_PARAM_CHUNK, hp, ILoad.Read, ham]
          · simp only [List.map_cons, List.flatten_cons, SubChunk.toks, List.cons_append,
              List.append_assoc, List.singleton_append, loadDescLoop, loadSubs,
              ILoad.OpenChunk, ILoad.CurChunkID, List.headD_cons, PB_DESC_HDR_CHUNK,
              PB_DESC_PARAM_CHUNK, hp, ILoad.Read, ILoad.CloseChunk,
              skipChunk_balanced _ _ hb, List.tail_cons, if_true, if_false, ne_eq,
              not_true_eq_false, not_false_eq_true, ham, Nat.reduceEqDiff]
            exact ih f _ pDesc hwf2 hf2
      | other tag body =>
        have hs2 : tag ≠ 4 ∧ tag ≠ 8 ∧ nesting 0 body = some 0 := by
          simpa [SubChunk.wellFormed, PB_DESC_HDR_CHUNK, PB_DESC_PARAM_CHUNK, and_assoc]
            using hs
        have := ih f c pDesc hwf2 hf2
        simp only [List.map_cons, List.flatten_cons, SubChunk.toks, List.cons_append,
          List.append_assoc, List.singleton_append, loadDescLoop, loadSubs, ILoad.OpenChunk,
          ILoad.CurChunkID, List.headD_cons, PB_DESC_HDR_CHUNK, PB_DESC_PARAM_CHUNK, hs2.1,
          hs2.2.1, ILoad.CloseChunk, skipChunk_balanced _ _ hs2.2.2, List.tail_cons, if_true,
          if_false]
        exact this

theorem updateDesc_addrs (heap : List ParamBlockDesc2) (a : Nat)
    (f : ParamBlockDesc2 → ParamBlockDesc2) (hf : ∀ d, (f d).addr = d.addr) :
    (updateDesc heap a f).map (fun d => d.addr) = heap.map (fun d => d.addr) := by
  unfold updateDesc
  rw [List.map_map]
  apply List.map_congr_left
  intro d _
  by_cases h : d.addr = a
  · simp [h, hf]
  · simp [h]

theorem FreeBlockIDEnum_proc_shape (id : Nat) (c : DynPBCustAttrClassDesc) (x : Option Nat) :
    (FreeBlockIDEnum.proc id c x).2.self = c.self
      ∧ (FreeBlockIDEnum.proc id c x).2.pbDescs = c.pbDescs
      ∧ (FreeBlockIDEnum.proc id c x).2.heapNext = c.heapNext
      ∧ (FreeBlockIDEnum.proc id c x).2.deleted = c.deleted
      ∧ (FreeBlockIDEnum.proc id c x).2.m_dObsoleteDescs = c.m_dObsoleteDescs
      ∧ (FreeBlockIDEnum.proc id c x).2.heap.map (fun d => d.addr)
          = c.heap.map (fun d => d.addr) := by
  cases x with
  | none => simp [FreeBlockIDEnum.proc]
  | some a =>
    cases hf : findDesc c.heap a with
    | none => simp [FreeBlockIDEnum.proc, hf]
    | some pDesc =>
      by_cases h1 : pDesc.cd = c.self
      · by_cases h2 : pDesc.ID = (id : Int)
        · simp only [FreeBlockIDEnum.proc, hf, h1, h2, if_true, GetFreeParamBlockId]
          exact ⟨trivial, trivial, trivial, trivial, trivial,
            updateDesc_addrs _ _ _ (fun _ => rfl)⟩
        · simp [FreeBlockIDEnum.proc, hf, h1, h2]
      · simp [FreeBlockIDEnum.proc, hf, h1]

theorem EnumerateAllAnimatables_shape (id : Nat) (l : List (Option Nat)) :
    ∀ c : DynPBCustAttrClassDesc,
      (EnumerateAllAnimatables (FreeBlockIDEnum.proc id) l c).self = c.self
        ∧ (EnumerateAllAnimatables (FreeBlockIDEnum.proc id) l c).pbDescs = c.pbDescs
        ∧ (EnumerateAllAnimatables (FreeBlockIDEnum.proc id) l c).heapNext = c.heapNext
        ∧ (EnumerateAllAnimatables (FreeBlockIDEnum.proc id) l c).deleted = c.deleted
        ∧ (EnumerateAllAnimatables (FreeBlockIDEnum.proc id) l c).m_dObsoleteDescs
            = c.m_dObsoleteDescs
        ∧ (EnumerateAllAnimatables (FreeBlockIDEnum.proc id) l c).heap.map (fun d => d.addr)
            = c.heap.map (fun d => d.addr) := by
  induction l with
  | nil => intro c; simp [EnumerateAllAnimatables]
  | cons x rest ih =>
    intro c
    obtain ⟨p1, p2, p3, p4, p5, p6⟩ := FreeBlockIDEnum_proc_shape id c x
    by_cases h : (FreeBlockIDEnum.proc id c x).1 = true
    · obtain ⟨q1, q2, q3, q4, q5, q6⟩ := ih (FreeBlockIDEnum.proc id c x).2
      simp only [EnumerateAllAnimatables, h, if_true]
      exact ⟨q1.trans p1, q2.trans p2, q3.trans p3, q4.trans p4, q5.trans p5, q6.trans p6⟩
    · simp only [EnumerateAllAnimatables, h, if_false, Bool.false_eq_true]
      exact ⟨p1, p2, p3, p4, p5, p6⟩

theorem SetTakenId_shape (c : DynPBCustAttrClassDesc) (id : Nat) :
    (SetTakenId c id).self = c.self
      ∧ (SetTakenId c id).pbDescs = c.pbDescs
      ∧ (SetTakenId c id).heapNext = c.heapNext
      ∧ (SetTakenId c id).deleted = c.deleted
      ∧ (SetTakenId c id).m_dObsoleteDescs = c.m_dObsoleteDescs
      ∧ (SetTakenId c id).heap.map (fun d => d.addr) = c.heap.map (fun d => d.addr) := by
  unfold SetTakenId
  split
  · exact ⟨rfl, rfl, rfl, rfl, rfl, rfl⟩
  · exact EnumerateAllAnimatables_shape id c.scene c

theorem CreatePBDesc_shape (c : DynPBCustAttrClassDesc) (id : Int) :
    (CreatePBDesc c id).1 = c.heapNext
      ∧ (CreatePBDesc c id).2.self = c.self
      ∧ (CreatePBDesc c id).2.pbDescs = c.pbDescs ++ [c.heapNext]
      ∧ (CreatePBDesc c id).2.heapNext = c.heapNext + 1
      ∧ (CreatePBDesc c id).2.deleted = c.deleted
      ∧ (CreatePBDesc c id).2.m_dObsoleteDescs = c.m_dObsoleteDescs
      ∧ ∃ H, H.map (fun d => d.addr) = c.heap.map (fun d => d.addr)
          ∧ (CreatePBDesc c id).2.heap
              = H ++ [{ addr := c.heapNext,
                        ID := (if id = -1 then toS16 (c.m_freeBlockId : Int) else id),
                        cd := c.self, int_name := "DynamicPB", paramdefs := [] }] := by
  by_cases hid : id = -1
  · refine ⟨?_, ?_, ?_, ?_, ?_, ?_, c.heap, rfl, ?_⟩ <;>
      simp [CreatePBDesc, hid, GetFreeParamBlockId, AddParamBlockDesc]
  · obtain ⟨q1, q2, q3, q4, q5, q6⟩ := SetTakenId_shape c (toU16 id)
    simp only [CreatePBDesc, hid, if_false, AddParamBlockDesc]
    refine ⟨q3, q1, ?_, ?_, q4, q5, (SetTakenId c (toU16 id)).heap, q6, ?_⟩
    · rw [q2, q3]
    · rw [q3]
    · rw [q3, q1]

theorem setParamID_types (defs : List ParamDef) (tmpid pid : Int) :
    (setParamID defs tmpid pid).map (fun p => p.type) = defs.map (fun p => p.type) := by
  induction defs with
  | nil => rfl
  | cons p rest ih =>
    by_cases h : p.ID = tmpid
    · simp [setParamID, h]
    · simp [setParamID, h, ih]

theorem updateDesc_append_at (H : List ParamBlockDesc2) (d : ParamBlockDesc2) (a : Nat)
    (f : ParamBlockDesc2 → ParamBlockDesc2) (hH : ∀ e ∈ H, e.addr ≠ a) (hd : d.addr = a) :
    updateDesc (H ++ [d]) a f = H ++ [f d] := by
  subst hd
  exact updateDesc_append_new H d f hH

theorem paramStep_fields (autoId : List ParamDef → Int → Int) (d : ParamBlockDesc2)
    (type pid : Int) :
    (paramStep autoId d type pid).addr = d.addr
      ∧ (paramStep autoId d type pid).ID = d.ID
      ∧ (paramStep autoId d type pid).cd = d.cd
      ∧ (paramStep autoId d type pid).paramdefs.map (fun p => p.type)
          = d.paramdefs.map (fun p => p.type) ++ [type] := by
  simp only [paramStep]
  split
  · refine ⟨rfl, rfl, rfl, ?_⟩
    show (setParamID _ _ _).map (fun p => p.type) = _
    rw [setParamID_types]
    simp
  · refine ⟨rfl, rfl, rfl, ?_⟩
    simp

theorem loadSubs_param_step (autoId : List ParamDef → Int → Int) (H : List ParamBlockDesc2)
    (cur : DynPBCustAttrClassDesc) (dcur : ParamBlockDesc2) (type pid : Int)
    (extra : List Token) (tl : List SubChunk)
    (hheap : cur.heap = H ++ [dcur]) (hH : ∀ e ∈ H, e.addr ≠ dcur.addr) (ha : dcur.addr ≠ 0)
    (hacc : autoId dcur.paramdefs type ≠ -1) :
    loadSubs autoId cur dcur.addr (SubChunk.param type pid extra :: tl)
      = loadSubs autoId { cur with heap := H ++ [paramStep autoId dcur type pid] }
          (paramStep autoId dcur type pid).addr tl := by
  have hadd := AddMaxParameter_eq autoId cur H dcur type "TODO" hheap hH hacc
  rw [(paramStep_fields autoId dcur type pid).1]
  simp only [loadSubs, ha, if_false, hadd, hacc]
  by_cases h : autoId dcur.paramdefs type ≠ pid
  · rw [if_pos h]
    simp only [paramStep]
    have hu : ∀ (d : ParamBlockDesc2) (f : ParamBlockDesc2 → ParamBlockDesc2),
        d.addr = dcur.addr → updateDesc (H ++ [d]) dcur.addr f = H ++ [f d] :=
      fun d f hd => updateDesc_append_at H d dcur.addr f hH hd
    rw [if_pos h]
    simp only [hu]
  · rw [if_neg h]
    simp only [paramStep]
    rw [if_neg h]

theorem loadSubs_after_header (autoId : List ParamDef → Int → Int) (rejects : Int → Bool)
    (hrej : ∀ ps t, autoId ps t = -1 ↔ rejects t = true) (H : List ParamBlockDesc2)
    (subs : List SubChunk) :
    ∀ (cur : DynPBCustAttrClassDesc) (dcur : ParamBlockDesc2),
      cur.heap = H ++ [dcur] → (∀ e ∈ H, e.addr ≠ dcur.addr) → dcur.addr ≠ 0 →
      (loadSubs autoId cur dcur.addr subs).1
          = (if subs.any SubChunk.isHeader || rejectedParam rejects subs
             then IOResult.IO_ERROR else IOResult.IO_OK)
        ∧ (subs.any SubChunk.isHeader = false → rejectedParam rejects subs = false →
            ∃ d2, (loadSubs autoId cur dcur.addr subs).2 = { cur with heap := H ++ [d2] }
              ∧ d2.addr = dcur.addr ∧ d2.ID = dcur.ID ∧ d2.cd = dcur.cd
              ∧ d2.paramdefs.map (fun p => p.type)
                  = dcur.paramdefs.map (fun p => p.type) ++ paramTypes subs) := by
  induction subs with
  | nil =>
    intro cur dcur hheap _ ha
    refine ⟨by simp [loadSubs, ha, rejectedParam], fun _ _ => ⟨dcur, ?_, rfl, rfl, rfl, ?_⟩⟩
    · simp only [loadSubs]
      rw [← hheap]
    · simp [paramTypes]
  | cons s tl ih =>
    intro cur dcur hheap hH ha
    cases s with
    | header id extra =>
      refine ⟨by simp [loadSubs, ha, SubChunk.isHeader], fun h => ?_⟩
      simp [SubChunk.isHeader] at h
    | other tag body =>
      obtain ⟨i1, i2⟩ := ih cur dcur hheap hH ha
      refine ⟨?_, ?_⟩
      · simp only [loadSubs]
        rw [i1]
        simp [rejectedParam, SubChunk.isHeader, SubChunk.isRejected]
      · intro h1 h2
        have h1b : tl.any SubChunk.isHeader = false := by
          simpa [SubChunk.isHeader] using h1
        have h2b : rejectedParam rejects tl = false := by
          simpa [rejectedParam, SubChunk.isRejected] using h2
        obtain ⟨d2, e1, e2, e3, e4, e5⟩ := i2 h1b h2b
        exact ⟨d2, by simpa only [loadSubs] using e1, e2, e3, e4,
          by simpa only [paramTypes] using e5⟩
    | param type pid extra =>
      by_cases hr : rejects type = true
      · have hm : autoId dcur.paramdefs type = -1 := (hrej _ _).2 hr
        have hadd : AddMaxParameter autoId cur dcur.addr type "TODO" = (-1, cur) := by
          unfold AddMaxParameter
          rw [hheap, findDesc_append_new H dcur hH]
          simp only [hm, if_true]
        refine ⟨?_, fun _ h2 => ?_⟩
        · simp [loadSubs, ha, hadd, rejectedParam, SubChunk.isRejected, hr]
        · simp [rejectedParam, SubChunk.isRejected, hr] at h2
      · have hacc : autoId dcur.paramdefs type ≠ -1 := fun e => hr ((hrej _ _).1 e)
        have hadd := AddMaxParameter_eq autoId cur H dcur type "TODO" hheap hH hacc
        have hstep : ∃ c2 d3, loadSubs autoId cur dcur.addr (SubChunk.param type pid extra :: tl)
              = loadSubs autoId c2 d3.addr tl
            ∧ c2 = { cur with heap := H ++ [d3] } ∧ d3.addr = dcur.addr ∧ d3.ID = dcur.ID
            ∧ d3.cd = dcur.cd
            ∧ d3.paramdefs.map (fun p => p.type)
                = dcur.paramdefs.map (fun p => p.type) ++ [type] :=
          ⟨_, paramStep autoId dcur type pid,
            loadSubs_param_step autoId H cur dcur type pid extra tl hheap hH ha hacc, rfl,
            (paramStep_fields autoId dcur type pid).1, (paramStep_fields autoId dcur type pid).2.1,
            (paramStep_fields autoId dcur type pid).2.2.1,
            (paramStep_fields autoId dcur type pid).2.2.2⟩
        obtain ⟨c2, d3, hs, hc2, ea, ei, ec, et⟩ := hstep
        have hH3 : ∀ e ∈ H, e.addr ≠ d3.addr := by
          rw [ea]
          exact hH
        have ha3 : d3.addr ≠ 0 := by
          rw [ea]
          exact ha
        obtain ⟨i1, i2⟩ := ih c2 d3 (by rw [hc2]) hH3 ha3
        refine ⟨?_, ?_⟩
        · rw [hs, i1]
          simp [rejectedParam, SubChunk.isHeader, SubChunk.isRejected, hr]
        · intro h1 h2
          have h1b : tl.any SubChunk.isHeader = false := by
            simpa [SubChunk.isHeader] using h1
          have h2b : rejectedParam rejects tl = false := by
            simpa [rejectedParam, SubChunk.isRejected, hr] using h2
          obtain ⟨d2, e1, e2, e3, e4, e5⟩ := i2 h1b h2b
          refine ⟨d2, ?_, e2.trans ea, e3.trans ei, e4.trans ec, ?_⟩
          · rw [hs, e1, hc2]
          · rw [e5, et]
            simp [paramTypes]

theorem chunkRejected_other (rejects : Int → Bool) (tag : Nat) (body : List Token)
    (tl : List SubChunk) :
    chunkRejected rejects (SubChunk.other tag body :: tl) = chunkRejected rejects tl := by
  simp [chunkRejected, secondHeader, paramBeforeHeader, rejectedParam, noHeader,
    SubChunk.isHeader, SubChunk.isParam, SubChunk.isRejected, List.takeWhile_cons]

theorem chunkRejected_param (rejects : Int → Bool) (type pid : Int) (extra : List Token)
    (tl : List SubChunk) :
    chunkRejected rejects (SubChunk.param type pid extra :: tl) = true := by
  simp [chunkRejected, paramBeforeHeader, SubChunk.isHeader, SubChunk.isParam,
    List.takeWhile_cons]

theorem length_filter_pos_iff_any (p : SubChunk → Bool) (l : List SubChunk) :
    decide (1 ≤ (l.filter p).length) = l.any p := by
  induction l with
  | nil => rfl
  | cons x rest ih =>
    by_cases h : p x = true
    · simp [List.filter_cons, h]
    · simp only [List.filter_cons, h, if_false, List.any_cons, Bool.false_eq_true]
      simpa using ih

theorem chunkRejected_header (rejects : Int → Bool) (id : Int) (extra : List Token)
    (tl : List SubChunk) :
    chunkRejected rejects (SubChunk.header id extra :: tl)
      = (tl.any SubChunk.isHeader || rejectedParam rejects tl) := by
  have h := length_filter_pos_iff_any SubChunk.isHeader tl
  have h2 : decide (2 ≤ (List.filter SubChunk.isHeader tl).length + 1)
      = decide (1 ≤ (List.filter SubChunk.isHeader tl).length) := by
    congr 1
    apply propext
    omega
  simp only [chunkRejected, secondHeader, paramBeforeHeader, rejectedParam, noHeader,
    List.filter_cons, SubChunk.isHeader, if_true, List.length_cons, h2, h,
    List.takeWhile_cons, Bool.not_true, Bool.false_eq_true, if_false, List.any_nil,
    List.any_cons, SubChunk.isRejected, Bool.false_or, Bool.or_false, Bool.true_or,
    Bool.or_true]

theorem loadSubs_before_header (autoId : List ParamDef → Int → Int) (rejects : Int → Bool)
    (hrej : ∀ ps t, autoId ps t = -1 ↔ rejects t = true) (c : DynPBCustAttrClassDesc)
    (hnext : c.heapNext ≠ 0) (hheap : ∀ e ∈ c.heap, e.addr ≠ c.heapNext)
    (subs : List SubChunk) :
    (loadSubs autoId c 0 subs).1
        = (if chunkRejected rejects subs then IOResult.IO_ERROR else IOResult.IO_OK)
      ∧ (chunkRejected rejects subs = false →
          (loadSubs autoId c 0 subs).2.heap.map (fun d => d.addr)
              = c.heap.map (fun d => d.addr) ++ [c.heapNext]
            ∧ (loadSubs autoId c 0 subs).2.pbDescs = c.pbDescs ++ [c.heapNext]
            ∧ (loadSubs autoId c 0 subs).2.heapNext = c.heapNext + 1
            ∧ (loadSubs autoId c 0 subs).2.deleted = c.deleted
            ∧ (loadSubs autoId c 0 subs).2.m_dObsoleteDescs = c.m_dObsoleteDescs
            ∧ ∃ d, findDesc (loadSubs autoId c 0 subs).2.heap c.heapNext = some d
                ∧ d.cd = c.self
                ∧ (∀ id, headerId subs = some id →
                    d.ID = if id = -1 then toS16 (c.m_freeBlockId : Int) else id)
                ∧ d.paramdefs.map (fun p => p.type) = paramTypes subs) := by
  induction subs with
  | nil => exact ⟨by simp [loadSubs, chunkRejected, noHeader], fun h => by
      simp [chunkRejected, noHeader] at h⟩
  | cons s tl ih =>
    cases s with
    | other tag body =>
      rw [chunkRejected_other]
      simpa only [loadSubs, headerId, paramTypes] using ih
    | param type pid extra =>
      rw [chunkRejected_param]
      exact ⟨by simp [loadSubs], fun h => by simp at h⟩
    | header id extra =>
      rw [chunkRejected_header]
      obtain ⟨q1, q2, q3, q4, q5, q6, H, hH, hq⟩ := CreatePBDesc_shape c id
      have hHne : ∀ e ∈ H, e.addr ≠ c.heapNext := by
        intro e he
        have : e.addr ∈ c.heap.map (fun d => d.addr) := by
          rw [← hH]
          exact List.mem_map.2 ⟨e, he, rfl⟩
        obtain ⟨e2, he2, he3⟩ := List.mem_map.1 this
        rw [← he3]
        exact hheap e2 he2
      have hstep : loadSubs autoId c 0 (SubChunk.header id extra :: tl)
          = loadSubs autoId (CreatePBDesc c id).2 c.heapNext tl := by
        simp only [loadSubs, ne_eq, not_true_eq_false, if_false, q1]
      obtain ⟨i1, i2⟩ := loadSubs_after_header autoId rejects hrej H tl (CreatePBDesc c id).2
        { addr := c.heapNext, ID := (if id = -1 then toS16 (c.m_freeBlockId : Int) else id),
          cd := c.self, int_name := "DynamicPB", paramdefs := [] } hq hHne hnext
      rw [hstep]
      refine ⟨i1, ?_⟩
      intro hok
      have hok2 : tl.any SubChunk.isHeader = false ∧ rejectedParam rejects tl = false := by
        simpa using hok
      obtain ⟨d2, e1, e2, e3, e4, e5⟩ := i2 hok2.1 hok2.2
      have e1b : (loadSubs autoId (CreatePBDesc c id).2 c.heapNext tl).2
          = { (CreatePBDesc c id).2 with heap := H ++ [d2] } := e1
      rw [e1b]
      refine ⟨?_, q3, q4, q5, q6, d2, ?_, e4, ?_, ?_⟩
      · show (H ++ [d2]).map (fun d => d.addr) = _
        rw [List.map_append, hH]
        simp only [List.map_cons, List.map_nil]
        rw [e2]
      · show findDesc (H ++ [d2]) c.heapNext = some d2
        have e2b : d2.addr = c.heapNext := e2
        rw [← e2b]
        exact findDesc_append_new H d2 (by rw [e2b]; exact hHne)
      · intro id2 hid2
        simp only [headerId, Option.some.injEq] at hid2
        rw [← hid2]
        exact e3
      · simpa [paramTypes] using e5

theorem loadSubs_filter (autoId : List ParamDef → Int → Int) (subs : List SubChunk) :
    ∀ (c : DynPBCustAttrClassDesc) (pDesc : Nat),
      loadSubs autoId c pDesc (subs.filter (fun s => s.isHeader || s.isParam))
        = loadSubs autoId c pDesc subs := by
  induction subs with
  | nil => intro c pDesc; rfl
  | cons s tl ih =>
    intro c pDesc
    cases s with
    | header id extra =>
      have hf : (SubChunk.header id extra :: tl).filter (fun s => s.isHeader || s.isParam)
          = SubChunk.header id extra :: tl.filter (fun s => s.isHeader || s.isParam) := by
        simp [List.filter_cons, SubChunk.isHeader]
      rw [hf]
      simp only [loadSubs, ih]
    | param type pid extra =>
      have hf : (SubChunk.param type pid extra :: tl).filter (fun s => s.isHeader || s.isParam)
          = SubChunk.param type pid extra :: tl.filter (fun s => s.isHeader || s.isParam) := by
        simp [List.filter_cons, SubChunk.isParam]
      rw [hf]
      simp only [loadSubs, ih]
    | other tag body =>
      have hf : (SubChunk.other tag body :: tl).filter (fun s => s.isHeader || s.isParam)
          = tl.filter (fun s => s.isHeader || s.isParam) := by
        simp [List.filter_cons, SubChunk.isHeader, SubChunk.isParam]
      rw [hf]
      simp only [loadSubs, ih]

theorem wellFormed_filter (subs : List SubChunk) (p : SubChunk → Bool)
    (h : ∀ s ∈ subs, s.wellFormed = true) : ∀ s ∈ subs.filter p, s.wellFormed = true :=
  fun s hs => h s (List.mem_filter.1 hs).1

theorem LoadParamBlockDesc2_loadSubs (autoId : List ParamDef → Int → Int)
    (c : DynPBCustAttrClassDesc) (subs : List SubChunk) (rest : List Token) (ids : List Nat)
    (hwf : ∀ s ∈ subs, s.wellFormed = true) :
    (LoadParamBlockDesc2 autoId c (chunkStream subs rest ids)).1 = (loadSubs autoId c 0 subs).1
      ∧ (LoadParamBlockDesc2 autoId c (chunkStream subs rest ids)).2.1
          = (loadSubs autoId c 0 subs).2
      ∧ ((loadSubs autoId c 0 subs).1 = IOResult.IO_OK →
          (LoadParamBlockDesc2 autoId c (chunkStream subs rest ids)).2.2
            = { toks := Token.endChunk :: rest, ids := ids }) := by
  have hs : chunkStream subs rest ids
      = { toks := (subs.map SubChunk.toks).flatten ++ Token.endChunk :: rest, ids := ids } := by
    simp [chunkStream, chunkToks]
  unfold LoadParamBlockDesc2
  rw [hs]
  apply loadDescLoop_subs autoId rest ids subs _ c 0 hwf
  have := length_le_flatten_toks subs
  simp only [List.length_append, List.length_cons]
  omega

theorem pickyAutoId_rejects (ps : List ParamDef) (t : Int) :
    pickyAutoId ps t = -1 ↔ (fun x : Int => decide (x = 99)) t = true := by
  unfold pickyAutoId sampleAutoId
  by_cases h : t = 99
  · simp [h]
  · simp only [h, if_false, decide_False, Bool.false_eq_true, iff_false]
    omega

/-- C37 as stated fails for the header id `-1`: the chunk with the one header sub-chunk
`-1` meets none of the four conditions, `LoadParamBlockDesc2` on the sample class descriptor
returns `IO_OK`, and the descriptor it created has the id `8`, the next free id, not the
`-1` read from the header. -/
theorem LoadParamBlockDesc2_header_minus_one_gets_free_id :
    chunkRejected (fun _ => false) [SubChunk.header (-1) []] = false
      ∧ (LoadParamBlockDesc2 sampleAutoId DynPBCustAttrClassDesc.sample
          (chunkStream [SubChunk.header (-1) []] [] [PB_DESC_CHUNK])).1 = IOResult.IO_OK
      ∧ (LoadParamBlockDesc2 sampleAutoId DynPBCustAttrClassDesc.sample
          (chunkStream [SubChunk.header (-1) []] [] [PB_DESC_CHUNK])).2.1.heap.map
            (fun d => (d.addr, d.ID)) = [(1, 7), (2, 4), (3, 8)] := by
  refine ⟨by decide, by decide, by decide⟩

/-- C37, amended: the stream stands right after the opening of a descriptor chunk whose
sub-chunks are `subs`, each well formed (the reads of a header or parameter sub-chunk
succeed, other sub-chunks have other tags); `AddMaxParameter` rejects by type (`autoId`
gives `-1` exactly for the types `rejects` holds of); the next allocation is not null and
not the address of an allocated descriptor.  Then `LoadParamBlockDesc2` returns `IO_ERROR`
when the chunk has a second header sub-chunk, a parameter sub-chunk before the header, a
parameter of a rejected type, or no header, and `IO_OK` otherwise.  In the `IO_OK` case the
stream stands at the end of the chunk, exactly one descriptor was allocated, at the next
address, and added to the active list, nothing was deleted, and that descriptor belongs to
this class descriptor, has the types of the parameter sub-chunks as the types of its
parameters, in stream order, and has the id of the header when that id is not `-1` and the
former free id as a `short` when it is `-1`.  The result and the state are those of the
chunk without the sub-chunks of other tags. -/
theorem LoadParamBlockDesc2_chunk (autoId : List ParamDef → Int → Int) (rejects : Int → Bool)
    (c : DynPBCustAttrClassDesc) (subs : List SubChunk) (rest : List Token) (ids : List Nat)
    (hwf : ∀ s ∈ subs, s.wellFormed = true)
    (hrej : ∀ ps t, autoId ps t = -1 ↔ rejects t = true)
    (hnext : c.heapNext ≠ 0) (hheap : ∀ e ∈ c.heap, e.addr ≠ c.heapNext) :
    (LoadParamBlockDesc2 autoId c (chunkStream subs rest ids)).1
        = (if chunkRejected rejects subs then IOResult.IO_ERROR else IOResult.IO_OK)
      ∧ (chunkRejected rejects subs = false →
          (LoadParamBlockDesc2 autoId c (chunkStream subs rest ids)).2.2
              = { toks := Token.endChunk :: rest, ids := ids }
            ∧ (LoadParamBlockDesc2 autoId c (chunkStream subs rest ids)).2.1.heap.map
                (fun d => d.addr) = c.heap.map (fun d => d.addr) ++ [c.heapNext]
            ∧ (LoadParamBlockDesc2 autoId c (chunkStream subs rest ids)).2.1.pbDescs
                = c.pbDescs ++ [c.heapNext]
            ∧ (LoadParamBlockDesc2 autoId c (chunkStream subs rest ids)).2.1.heapNext
                = c.heapNext + 1
            ∧ (LoadParamBlockDesc2 autoId c (chunkStream subs rest ids)).2.1.deleted
                = c.deleted
            ∧ ∃ d, findDesc (LoadParamBlockDesc2 autoId c (chunkStream subs rest ids)).2.1.heap
                  c.heapNext = some d
                ∧ d.cd = c.self
                ∧ (∀ id, headerId subs = some id →
                    d.ID = if id = -1 then toS16 (c.m_freeBlockId : Int) else id)
                ∧ d.paramdefs.map (fun p => p.type) = paramTypes subs)
      ∧ (LoadParamBlockDesc2 autoId c
            (chunkStream (subs.filter (fun s => s.isHeader || s.isParam)) rest ids)).1
          = (LoadParamBlockDesc2 autoId c (chunkStream subs rest ids)).1
      ∧ (LoadParamBlockDesc2 autoId c
            (chunkStream (subs.filter (fun s => s.isHeader || s.isParam)) rest ids)).2.1
          = (LoadParamBlockDesc2 autoId c (chunkStream subs rest ids)).2.1 := by
  obtain ⟨r1, r2, r3⟩ := LoadParamBlockDesc2_loadSubs autoId c subs rest ids hwf
  obtain ⟨f1, f2, _⟩ := LoadParamBlockDesc2_loadSubs autoId c
    (subs.filter (fun s => s.isHeader || s.isParam)) rest ids (wellFormed_filter subs _ hwf)
  obtain ⟨b1, b2⟩ := loadSubs_before_header autoId rejects hrej c hnext hheap subs
  rw [f1, f2, loadSubs_filter, r1, r2]
  refine ⟨b1, ?_, rfl, rfl⟩
  intro hok
  obtain ⟨p1, p2, p3, p4, _, p6⟩ := b2 hok
  refine ⟨r3 ?_, p1, p2, p3, p4, p6⟩
  rw [b1, hok]
  rfl

/-- Witness for `LoadParamBlockDesc2_chunk`: the sample chunk loaded into the sample class
descriptor, with an id assignment that rejects the type `99`. -/
theorem LoadParamBlockDesc2_chunk_witness :
    (LoadParamBlockDesc2 pickyAutoId DynPBCustAttrClassDesc.sample
        (chunkStream sampleSubs [] [PB_DESC_CHUNK])).1 = IOResult.IO_OK
      ∧ (LoadParamBlockDesc2 pickyAutoId DynPBCustAttrClassDesc.sample
          (chunkStream sampleSubs [] [PB_DESC_CHUNK])).2.1.pbDescs = [1, 2, 3] :=
  ⟨(LoadParamBlockDesc2_chunk pickyAutoId (fun x => decide (x = 99))
      DynPBCustAttrClassDesc.sample sampleSubs [] [PB_DESC_CHUNK] (by decide)
      pickyAutoId_rejects (by decide) (by decide)).1.trans (by decide),
   ((LoadParamBlockDesc2_chunk pickyAutoId (fun x => decide (x = 99))
      DynPBCustAttrClassDesc.sample sampleSubs [] [PB_DESC_CHUNK] (by decide)
      pickyAutoId_rejects (by decide) (by decide)).2.1 (by decide)).2.2.1⟩

end MaxUtils
